import Mathlib

/-!
# PCAL6524 I/O-expander driver: register-access protocol

A shallow embedding of `Core/Src/PCAL6524.c` (with the constants of
`Core/Src/PCAL6524.h`) and theorems about it.

* `uint8_t` objects are natural numbers reduced `% 256` where the C code
  stores into them; `int` arithmetic is done on 32-bit two's-complement bit
  patterns (`not32`).
* The vendor HAL (`HAL_I2C_Mem_Read`, `HAL_I2C_Mem_Write`, `HAL_Delay`) is an
  external collaborator: it is a `Transport` over an arbitrary bus state.
* Every HAL call appends one `Event` to a ghost trace carried in the `World`,
  so that statements about "which transport calls were made" can be stated.
-/

namespace PCAL6524

/-! ## Constants of `PCAL6524.h` -/

/-- Time before I2C timeout, in ms. -/
abbrev PCAL6524_I2C_TIMEOUT : Nat := 100
/-- Number of attempts, before error. -/
abbrev PCAL6524_I2C_MAX_ATTEMPTS : Nat := 3
/-- Time between attempts, in ms. -/
abbrev PCAL6524_I2C_ATTEMPT_DELAY : Nat := 10

/-- Error code for success. -/
abbrev PCAL6524_SUCCESS : Nat := 0
/-- Error code for wrong input. -/
abbrev PCAL6524_INPUTOUTOFRANGE : Nat := 3

/-- Device address of the PCAL6524 (7 bit form), before the strap bits. -/
abbrev PCAL6524_ADDRESS : Nat := 0x20

abbrev PCAL6524_REG_IN_PORT_0 : Nat := 0x00
abbrev PCAL6524_REG_IN_PORT_1 : Nat := 0x01
abbrev PCAL6524_REG_IN_PORT_2 : Nat := 0x02

abbrev PCAL6524_REG_OUT_PORT_0 : Nat := 0x04
abbrev PCAL6524_REG_OUT_PORT_1 : Nat := 0x05
abbrev PCAL6524_REG_OUT_PORT_2 : Nat := 0x06

abbrev PCAL6524_REG_POL_PORT_0 : Nat := 0x08
abbrev PCAL6524_REG_POL_PORT_1 : Nat := 0x09
abbrev PCAL6524_REG_POL_PORT_2 : Nat := 0x0A

abbrev PCAL6524_REG_CONF_PORT_0 : Nat := 0x0C
abbrev PCAL6524_REG_CONF_PORT_1 : Nat := 0x0D
abbrev PCAL6524_REG_CONF_PORT_2 : Nat := 0x0E

abbrev PCAL6524_REG_PULL_EN_PORT_0 : Nat := 0x4C
abbrev PCAL6524_REG_PULL_EN_PORT_1 : Nat := 0x4D
abbrev PCAL6524_REG_PULL_EN_PORT_2 : Nat := 0x4E

abbrev PCAL6524_REG_PULL_SEL_PORT_0 : Nat := 0x50
abbrev PCAL6524_REG_PULL_SEL_PORT_1 : Nat := 0x51
abbrev PCAL6524_REG_PULL_SEL_PORT_2 : Nat := 0x52

abbrev PCAL6524_REG_INT_MASK_PORT_0 : Nat := 0x54
abbrev PCAL6524_REG_INT_MASK_PORT_1 : Nat := 0x55
abbrev PCAL6524_REG_INT_MASK_PORT_2 : Nat := 0x56

abbrev PCAL6524_REG_INT_STAT_PORT_0 : Nat := 0x58
abbrev PCAL6524_REG_INT_STAT_PORT_1 : Nat := 0x59
abbrev PCAL6524_REG_INT_STAT_PORT_2 : Nat := 0x5A

abbrev PCAL6524_REG_INT_EGDE_PORT_0A : Nat := 0x60
abbrev PCAL6524_REG_INT_EGDE_PORT_0B : Nat := 0x61
abbrev PCAL6524_REG_INT_EGDE_PORT_1A : Nat := 0x62
abbrev PCAL6524_REG_INT_EGDE_PORT_1B : Nat := 0x63
abbrev PCAL6524_REG_INT_EGDE_PORT_2A : Nat := 0x64
abbrev PCAL6524_REG_INT_EGDE_PORT_2B : Nat := 0x65

abbrev PCAL6524_REG_INT_CLEAR_PORT_0 : Nat := 0x68
abbrev PCAL6524_REG_INT_CLEAR_PORT_1 : Nat := 0x69
abbrev PCAL6524_REG_INT_CLEAR_PORT_2 : Nat := 0x6A

abbrev PCAL6524_REG_IN_STATUS_PORT_0 : Nat := 0x6C
abbrev PCAL6524_REG_IN_STATUS_PORT_1 : Nat := 0x6D
abbrev PCAL6524_REG_IN_STATUS_PORT_2 : Nat := 0x6E

/-! ## The vendor HAL (not part of the sources) -/

/-- Modelled from the spec: the status enumeration of the vendor HAL header
(`stm32f1xx_hal.h`, included by `PCAL6524.h` but not among the sources). The
transport status is success, hard failure or transient failure; `HAL_OK` is the
success value, the one for which the driver answers `PCAL6524_SUCCESS`. -/
abbrev HAL_OK : Nat := 0
/-- Modelled from the spec: the hard-failure status of the vendor HAL header
(`stm32f1xx_hal.h`, not among the sources); every status other than `HAL_OK`
and `HAL_ERROR` is a transient failure. -/
abbrev HAL_ERROR : Nat := 1

/-- One call of the vendor HAL, as seen by the driver. A `read` and a `write`
record the device address, the register offset, the status reported (already
converted to `uint8_t`) and the byte transferred. -/
inductive Event where
  | read (dev reg status data : Nat)
  | write (dev reg data status : Nat)
  | delay (ms : Nat)
  deriving DecidableEq

/-- The external bus transport over a bus state `σ`: `HAL_I2C_Mem_Read bus
DevAddress MemAddress` gives the status, the content of the one-byte buffer
after the call and the next bus state; `HAL_I2C_Mem_Write bus DevAddress
MemAddress byte` gives the status and the next bus state; `HAL_Delay bus ms`
the bus state after sleeping. The memory-address size (8 bit), the transfer
size (1) and the timeout (`PCAL6524_I2C_TIMEOUT`) are the same in every call
and are left out. -/
structure Transport (σ : Type) where
  HAL_I2C_Mem_Read : σ → Nat → Nat → Nat × Nat × σ
  HAL_I2C_Mem_Write : σ → Nat → Nat → Nat → Nat × σ
  HAL_Delay : σ → Nat → σ

/-- The bus state together with the ghost trace of HAL calls, oldest first. -/
structure World (σ : Type) where
  bus : σ
  trace : List Event

/-- The `pcal6524_Device_t` struct: the address strap `a0`. The I2C handle
`hi2c` it also holds is the bus state of the `World`. -/
structure pcal6524_Device_t where
  a0 : Nat
  deriving DecidableEq

/-! ## Integer helpers -/

/-- Bitwise complement `~x` of a 32-bit `int`/`unsigned`, as a bit pattern. -/
def not32 (x : Nat) : Nat := 4294967295 - x % 4294967296

/-- The `DevAddress` argument of every HAL call,
`(PCAL6524_ADDRESS + device->a0) << 1`, converted to `uint16_t`. -/
def devAddress (device : pcal6524_Device_t) : Nat :=
  ((PCAL6524_ADDRESS + device.a0) <<< 1) % 65536

/-! ## Transport adapter -/

/-- Function `PCAL6524_ReadI2C`: one `HAL_I2C_Mem_Read` of one byte; gives the status
as `uint8_t`, the byte now in the buffer, and the world after the call. -/
def PCAL6524_ReadI2C {σ : Type} (T : Transport σ) (device : pcal6524_Device_t)
    (regAdress : Nat) (w : World σ) : Nat × Nat × World σ :=
  let r := T.HAL_I2C_Mem_Read w.bus (devAddress device) regAdress
  (r.1 % 256, r.2.1 % 256,
    ⟨r.2.2, w.trace ++ [Event.read (devAddress device) regAdress (r.1 % 256) (r.2.1 % 256)]⟩)

/-- Function `PCAL6524_WriteI2C`: one `HAL_I2C_Mem_Write` of the byte `data`. -/
def PCAL6524_WriteI2C {σ : Type} (T : Transport σ) (device : pcal6524_Device_t)
    (regAdress : Nat) (data : Nat) (w : World σ) : Nat × World σ :=
  let r := T.HAL_I2C_Mem_Write w.bus (devAddress device) regAdress data
  (r.1 % 256, ⟨r.2, w.trace ++ [Event.write (devAddress device) regAdress data (r.1 % 256)]⟩)

/-- The call `HAL_Delay(ms)` with its trace entry. -/
def HAL_Delay {σ : Type} (T : Transport σ) (ms : Nat) (w : World σ) : World σ :=
  ⟨T.HAL_Delay w.bus ms, w.trace ++ [Event.delay ms]⟩

/-! ## The retry loop and the port switches

Every bus phase of the driver is the same `for` loop around a `switch (port)`.
`retryLoop` is that loop: its body `call` maps the current `status`, the
current content of the data cell and the world to the new ones. The loop ends
by `break` or by running out of attempts (first component `none`, the function
goes on after the loop) or by `return HAL_ERROR` (first component `some`). -/

/-- The loop `for (attempt = 0; attempt <= PCAL6524_I2C_MAX_ATTEMPTS; attempt++)`
with `n` iterations left. -/
def retryLoop {σ : Type} (T : Transport σ)
    (call : Nat → Nat → World σ → Nat × Nat × World σ) :
    Nat → Nat → Nat → World σ → Option Nat × Nat × Nat × World σ
  | 0, status, data, w => (none, status, data, w)
  | n + 1, status, data, w =>
    let r := call status data w
    if r.1 = HAL_OK then (none, r.1, r.2.1, r.2.2)
    else if r.1 = HAL_ERROR then (some HAL_ERROR, r.1, r.2.1, r.2.2)
    else retryLoop T call n r.1 r.2.1 (HAL_Delay T PCAL6524_I2C_ATTEMPT_DELAY r.2.2)

/-- Storing the byte read into a `uint8_t` object: the byte replaces it. -/
def storeU8 (_cell byte : Nat) : Nat := byte

/-- Storing the byte read through a `uint8_t *` that points to an enum object
(`pcal6524_Value_t *value`, `pcal6524_InterruptTrigger_t *trig`) on the
little-endian target: the lowest byte of the object is replaced, whatever the
width the compiler gives the enum. -/
def storeEnum (cell byte : Nat) : Nat := cell / 256 * 256 + byte

/-- The statement `status = PCAL6524_ReadI2C(device, reg, cell)`: new status,
new content of the cell, world after the call. -/
def readStmt {σ : Type} (T : Transport σ) (device : pcal6524_Device_t)
    (store : Nat → Nat → Nat) (reg : Nat) (data : Nat) (w : World σ) : Nat × Nat × World σ :=
  ((PCAL6524_ReadI2C T device reg w).1, store data (PCAL6524_ReadI2C T device reg w).2.1,
    (PCAL6524_ReadI2C T device reg w).2.2)

/-- The statement `status = PCAL6524_WriteI2C(device, reg, &data)`; the data
cell is left as it is. -/
def writeStmt {σ : Type} (T : Transport σ) (device : pcal6524_Device_t)
    (reg : Nat) (data : Nat) (w : World σ) : Nat × Nat × World σ :=
  ((PCAL6524_WriteI2C T device reg data w).1, data, (PCAL6524_WriteI2C T device reg data w).2)

/-- The statement `switch (port) { case 0: status = PCAL6524_ReadI2C(device,
r0, cell); break; case 1: ... r1 ...; case 2: ... r2 ... }`. No case matches a
port above 2: status, cell and world stay as they are. -/
def switchRead {σ : Type} (T : Transport σ) (device : pcal6524_Device_t)
    (store : Nat → Nat → Nat) (r0 r1 r2 port : Nat) (status data : Nat) (w : World σ) :
    Nat × Nat × World σ :=
  match port with
  | 0 => readStmt T device store r0 data w
  | 1 => readStmt T device store r1 data w
  | 2 => readStmt T device store r2 data w
  | _ => (status, data, w)

/-- The statement `switch (port) { case 0: status = PCAL6524_WriteI2C(device,
r0, &data); break; ... }`. -/
def switchWrite {σ : Type} (T : Transport σ) (device : pcal6524_Device_t)
    (r0 r1 r2 port : Nat) (status data : Nat) (w : World σ) : Nat × Nat × World σ :=
  match port with
  | 0 => writeStmt T device r0 data w
  | 1 => writeStmt T device r1 data w
  | 2 => writeStmt T device r2 data w
  | _ => (status, data, w)

/-- The read `switch (port)` of the two edge-trigger functions, each case
choosing between the two sub-registers by `if (pin < 4)`. -/
def switchReadEdge {σ : Type} (T : Transport σ) (device : pcal6524_Device_t)
    (store : Nat → Nat → Nat) (port pin : Nat) (status data : Nat) (w : World σ) :
    Nat × Nat × World σ :=
  match port with
  | 0 =>
    if pin < 4 then readStmt T device store PCAL6524_REG_INT_EGDE_PORT_0A data w
    else readStmt T device store PCAL6524_REG_INT_EGDE_PORT_0B data w
  | 1 =>
    if pin < 4 then readStmt T device store PCAL6524_REG_INT_EGDE_PORT_1A data w
    else readStmt T device store PCAL6524_REG_INT_EGDE_PORT_1B data w
  | 2 =>
    if pin < 4 then readStmt T device store PCAL6524_REG_INT_EGDE_PORT_2A data w
    else readStmt T device store PCAL6524_REG_INT_EGDE_PORT_2B data w
  | _ => (status, data, w)

/-- The write `switch (port)` of `PCAL6524_SetInterruptTrigger`. -/
def switchWriteEdge {σ : Type} (T : Transport σ) (device : pcal6524_Device_t)
    (port pin : Nat) (status data : Nat) (w : World σ) : Nat × Nat × World σ :=
  match port with
  | 0 =>
    if pin < 4 then writeStmt T device PCAL6524_REG_INT_EGDE_PORT_0A data w
    else writeStmt T device PCAL6524_REG_INT_EGDE_PORT_0B data w
  | 1 =>
    if pin < 4 then writeStmt T device PCAL6524_REG_INT_EGDE_PORT_1A data w
    else writeStmt T device PCAL6524_REG_INT_EGDE_PORT_1B data w
  | 2 =>
    if pin < 4 then writeStmt T device PCAL6524_REG_INT_EGDE_PORT_2A data w
    else writeStmt T device PCAL6524_REG_INT_EGDE_PORT_2B data w
  | _ => (status, data, w)

/-! ## Configuration surface

Setters give the return code and the world after the call; getters also give
the final content of their output cell. -/

/-- Function `PCAL6524_SetInOut`: defines whether a pin is an in- or output. -/
def PCAL6524_SetInOut {σ : Type} (T : Transport σ) (device : pcal6524_Device_t)
    (port pin io : Nat) (w : World σ) : Nat × World σ :=
  if port > 2 ∨ pin > 7 ∨ io > 1 then (PCAL6524_INPUTOUTOFRANGE, w)
  else
    match retryLoop T (switchRead T device storeU8 PCAL6524_REG_CONF_PORT_0
        PCAL6524_REG_CONF_PORT_1 PCAL6524_REG_CONF_PORT_2 port)
        (PCAL6524_I2C_MAX_ATTEMPTS + 1) 0 0 w with
    | (some code, _, _, w1) => (code, w1)
    | (none, status, data, w1) =>
      if status > HAL_OK then (status, w1)
      else
        match retryLoop T (switchWrite T device PCAL6524_REG_CONF_PORT_0
            PCAL6524_REG_CONF_PORT_1 PCAL6524_REG_CONF_PORT_2 port)
            (PCAL6524_I2C_MAX_ATTEMPTS + 1) status
            (((data &&& not32 (1 <<< pin)) ||| (io <<< pin)) % 256) w1 with
        | (some code, _, _, w2) => (code, w2)
        | (none, status, _, w2) =>
          if status > HAL_OK then (status, w2) else (PCAL6524_SUCCESS, w2)

/-- Function `PCAL6524_GetInOutConfig`: the input/output configuration of a port. Gives the return code, the content of
`*ios` (initially `ios0`) and the world after the call. -/
def PCAL6524_GetInOutConfig {σ : Type} (T : Transport σ) (device : pcal6524_Device_t)
    (port ios0 : Nat) (w : World σ) : Nat × Nat × World σ :=
  if port > 2 then (PCAL6524_INPUTOUTOFRANGE, ios0, w)
  else
    match retryLoop T (switchRead T device storeU8 PCAL6524_REG_CONF_PORT_0
        PCAL6524_REG_CONF_PORT_1 PCAL6524_REG_CONF_PORT_2 port)
        (PCAL6524_I2C_MAX_ATTEMPTS + 1) 0 ios0 w with
    | (some code, _, ios, w1) => (code, ios, w1)
    | (none, status, ios, w1) =>
      if status > HAL_OK then (status, ios, w1) else (PCAL6524_SUCCESS, ios, w1)

/-- Function `PCAL6524_SetInterrupt`: activates or deactivates the interrupt of a pin. The
new byte is `(data & (~(0b1 << pin))) | (~(intr) << pin)`, the complement being
taken on the promoted 32-bit value of `intr`. -/
def PCAL6524_SetInterrupt {σ : Type} (T : Transport σ) (device : pcal6524_Device_t)
    (port pin intr : Nat) (w : World σ) : Nat × World σ :=
  if port > 2 ∨ pin > 7 ∨ intr > 1 then (PCAL6524_INPUTOUTOFRANGE, w)
  else
    match retryLoop T (switchRead T device storeU8 PCAL6524_REG_INT_MASK_PORT_0
        PCAL6524_REG_INT_MASK_PORT_1 PCAL6524_REG_INT_MASK_PORT_2 port)
        (PCAL6524_I2C_MAX_ATTEMPTS + 1) 0 0 w with
    | (some code, _, _, w1) => (code, w1)
    | (none, status, data, w1) =>
      if status > HAL_OK then (status, w1)
      else
        match retryLoop T (switchWrite T device PCAL6524_REG_INT_MASK_PORT_0
            PCAL6524_REG_INT_MASK_PORT_1 PCAL6524_REG_INT_MASK_PORT_2 port)
            (PCAL6524_I2C_MAX_ATTEMPTS + 1) status
            (((data &&& not32 (1 <<< pin)) ||| ((not32 intr <<< pin) % 4294967296)) % 256) w1 with
        | (some code, _, _, w2) => (code, w2)
        | (none, status, _, w2) =>
          if status > HAL_OK then (status, w2) else (PCAL6524_SUCCESS, w2)

/-- Function `PCAL6524_GetInterruptConfig`: the interrupt mask of a port. Gives the return code, the content of
`*intr` (initially `intr0`) and the world after the call. -/
def PCAL6524_GetInterruptConfig {σ : Type} (T : Transport σ) (device : pcal6524_Device_t)
    (port intr0 : Nat) (w : World σ) : Nat × Nat × World σ :=
  if port > 2 then (PCAL6524_INPUTOUTOFRANGE, intr0, w)
  else
    match retryLoop T (switchRead T device storeU8 PCAL6524_REG_INT_MASK_PORT_0
        PCAL6524_REG_INT_MASK_PORT_1 PCAL6524_REG_INT_MASK_PORT_2 port)
        (PCAL6524_I2C_MAX_ATTEMPTS + 1) 0 intr0 w with
    | (some code, _, intr, w1) => (code, intr, w1)
    | (none, status, intr, w1) =>
      if status > HAL_OK then (status, intr, w1) else (PCAL6524_SUCCESS, intr, w1)

/-- Function `PCAL6524_SetPullupDown`: a read-modify-write of the pull-select register
followed by a read-modify-write of the pull-enable register. -/
def PCAL6524_SetPullupDown {σ : Type} (T : Transport σ) (device : pcal6524_Device_t)
    (port pin pull active : Nat) (w : World σ) : Nat × World σ :=
  if port > 2 ∨ pin > 7 ∨ pull > 1 ∨ active > 1 then (PCAL6524_INPUTOUTOFRANGE, w)
  else
    match retryLoop T (switchRead T device storeU8 PCAL6524_REG_PULL_SEL_PORT_0
        PCAL6524_REG_PULL_SEL_PORT_1 PCAL6524_REG_PULL_SEL_PORT_2 port)
        (PCAL6524_I2C_MAX_ATTEMPTS + 1) 0 0 w with
    | (some code, _, _, w1) => (code, w1)
    | (none, status, data, w1) =>
      if status > HAL_OK then (status, w1)
      else
        match retryLoop T (switchWrite T device PCAL6524_REG_PULL_SEL_PORT_0
            PCAL6524_REG_PULL_SEL_PORT_1 PCAL6524_REG_PULL_SEL_PORT_2 port)
            (PCAL6524_I2C_MAX_ATTEMPTS + 1) status
            (((data &&& not32 (1 <<< pin)) ||| (pull <<< pin)) % 256) w1 with
        | (some code, _, _, w2) => (code, w2)
        | (none, status, data, w2) =>
          if status > HAL_OK then (status, w2)
          else
            match retryLoop T (switchRead T device storeU8 PCAL6524_REG_PULL_EN_PORT_0
                PCAL6524_REG_PULL_EN_PORT_1 PCAL6524_REG_PULL_EN_PORT_2 port)
                (PCAL6524_I2C_MAX_ATTEMPTS + 1) status data w2 with
            | (some code, _, _, w3) => (code, w3)
            | (none, status, data, w3) =>
              if status > HAL_OK then (status, w3)
              else
                match retryLoop T (switchWrite T device PCAL6524_REG_PULL_EN_PORT_0
                    PCAL6524_REG_PULL_EN_PORT_1 PCAL6524_REG_PULL_EN_PORT_2 port)
                    (PCAL6524_I2C_MAX_ATTEMPTS + 1) status
                    (((data &&& not32 (1 <<< pin)) ||| (active <<< pin)) % 256) w3 with
                | (some code, _, _, w4) => (code, w4)
                | (none, status, _, w4) =>
                  if status > HAL_OK then (status, w4) else (PCAL6524_SUCCESS, w4)

/-- Function `PCAL6524_GetPullupDownConfig`: return code, contents of `*pull` and
`*active` (initially `pull0` and `active0`) and world after the call. -/
def PCAL6524_GetPullupDownConfig {σ : Type} (T : Transport σ) (device : pcal6524_Device_t)
    (port pull0 active0 : Nat) (w : World σ) : Nat × Nat × Nat × World σ :=
  if port > 2 then (PCAL6524_INPUTOUTOFRANGE, pull0, active0, w)
  else
    match retryLoop T (switchRead T device storeU8 PCAL6524_REG_PULL_SEL_PORT_0
        PCAL6524_REG_PULL_SEL_PORT_1 PCAL6524_REG_PULL_SEL_PORT_2 port)
        (PCAL6524_I2C_MAX_ATTEMPTS + 1) 0 pull0 w with
    | (some code, _, pull, w1) => (code, pull, active0, w1)
    | (none, status, pull, w1) =>
      if status > HAL_OK then (status, pull, active0, w1)
      else
        match retryLoop T (switchRead T device storeU8 PCAL6524_REG_PULL_EN_PORT_0
            PCAL6524_REG_PULL_EN_PORT_1 PCAL6524_REG_PULL_EN_PORT_2 port)
            (PCAL6524_I2C_MAX_ATTEMPTS + 1) status active0 w1 with
        | (some code, _, active, w2) => (code, pull, active, w2)
        | (none, status, active, w2) =>
          if status > HAL_OK then (status, pull, active, w2)
          else (PCAL6524_SUCCESS, pull, active, w2)

/-- Function `PCAL6524_SetPolarity`: activates or deactivates the polarity inversion of a pin. -/
def PCAL6524_SetPolarity {σ : Type} (T : Transport σ) (device : pcal6524_Device_t)
    (port pin pol : Nat) (w : World σ) : Nat × World σ :=
  if port > 2 ∨ pin > 7 ∨ pol > 1 then (PCAL6524_INPUTOUTOFRANGE, w)
  else
    match retryLoop T (switchRead T device storeU8 PCAL6524_REG_POL_PORT_0
        PCAL6524_REG_POL_PORT_1 PCAL6524_REG_POL_PORT_2 port)
        (PCAL6524_I2C_MAX_ATTEMPTS + 1) 0 0 w with
    | (some code, _, _, w1) => (code, w1)
    | (none, status, data, w1) =>
      if status > HAL_OK then (status, w1)
      else
        match retryLoop T (switchWrite T device PCAL6524_REG_POL_PORT_0
            PCAL6524_REG_POL_PORT_1 PCAL6524_REG_POL_PORT_2 port)
            (PCAL6524_I2C_MAX_ATTEMPTS + 1) status
            (((data &&& not32 (1 <<< pin)) ||| (pol <<< pin)) % 256) w1 with
        | (some code, _, _, w2) => (code, w2)
        | (none, status, _, w2) =>
          if status > HAL_OK then (status, w2) else (PCAL6524_SUCCESS, w2)

/-- Function `PCAL6524_GetPolarityConfig`: the polarity configuration of a port. Gives the return code, the content of
`*pol` (initially `pol0`) and the world after the call. -/
def PCAL6524_GetPolarityConfig {σ : Type} (T : Transport σ) (device : pcal6524_Device_t)
    (port pol0 : Nat) (w : World σ) : Nat × Nat × World σ :=
  if port > 2 then (PCAL6524_INPUTOUTOFRANGE, pol0, w)
  else
    match retryLoop T (switchRead T device storeU8 PCAL6524_REG_POL_PORT_0
        PCAL6524_REG_POL_PORT_1 PCAL6524_REG_POL_PORT_2 port)
        (PCAL6524_I2C_MAX_ATTEMPTS + 1) 0 pol0 w with
    | (some code, _, pol, w1) => (code, pol, w1)
    | (none, status, pol, w1) =>
      if status > HAL_OK then (status, pol, w1) else (PCAL6524_SUCCESS, pol, w1)

/-- Function `PCAL6524_SetInterruptTrigger`: sets the trigger of the interrupt of a pin.
The new byte is `(data & (~(0b1 << (2 * (pin % 4))))) | (trig << (2 * (pin % 4)))`. -/
def PCAL6524_SetInterruptTrigger {σ : Type} (T : Transport σ) (device : pcal6524_Device_t)
    (port pin trig : Nat) (w : World σ) : Nat × World σ :=
  if port > 2 ∨ pin > 7 ∨ trig > 0b11 then (PCAL6524_INPUTOUTOFRANGE, w)
  else
    match retryLoop T (switchReadEdge T device storeU8 port pin)
        (PCAL6524_I2C_MAX_ATTEMPTS + 1) 0 0 w with
    | (some code, _, _, w1) => (code, w1)
    | (none, status, data, w1) =>
      if status > HAL_OK then (status, w1)
      else
        match retryLoop T (switchWriteEdge T device port pin)
            (PCAL6524_I2C_MAX_ATTEMPTS + 1) status
            (((data &&& not32 (0b1 <<< (2 * (pin % 4)))) ||| (trig <<< (2 * (pin % 4)))) % 256)
            w1 with
        | (some code, _, _, w2) => (code, w2)
        | (none, status, _, w2) =>
          if status > HAL_OK then (status, w2) else (PCAL6524_SUCCESS, w2)

/-- Function `PCAL6524_GetInterruptTriggerConfig`: return code, content of the enum
object `*trig` (initially `trig0`) and world after the call. The byte read is
stored through `trig` and nothing else is done with it. -/
def PCAL6524_GetInterruptTriggerConfig {σ : Type} (T : Transport σ)
    (device : pcal6524_Device_t) (port pin trig0 : Nat) (w : World σ) : Nat × Nat × World σ :=
  if port > 2 ∨ pin > 7 then (PCAL6524_INPUTOUTOFRANGE, trig0, w)
  else
    match retryLoop T (switchReadEdge T device storeEnum port pin)
        (PCAL6524_I2C_MAX_ATTEMPTS + 1) 0 trig0 w with
    | (some code, _, trig, w1) => (code, trig, w1)
    | (none, status, trig, w1) =>
      if status > HAL_OK then (status, trig, w1) else (PCAL6524_SUCCESS, trig, w1)

/-- Function `PCAL6524_GetPinValue`: return code, content of the enum object `*value`
(initially `value0`) and world after the call. The input-status register is
read through `value`, then `*value = (*value & (1 << pin)) >> pin`,
`data = 1 << pin`, and `data` is written to the interrupt-clear register. -/
def PCAL6524_GetPinValue {σ : Type} (T : Transport σ) (device : pcal6524_Device_t)
    (port pin value0 : Nat) (w : World σ) : Nat × Nat × World σ :=
  if port > 2 ∨ pin > 7 then (PCAL6524_INPUTOUTOFRANGE, value0, w)
  else
    match retryLoop T (switchRead T device storeEnum PCAL6524_REG_IN_STATUS_PORT_0
        PCAL6524_REG_IN_STATUS_PORT_1 PCAL6524_REG_IN_STATUS_PORT_2 port)
        (PCAL6524_I2C_MAX_ATTEMPTS + 1) 0 value0 w with
    | (some code, _, value, w1) => (code, value, w1)
    | (none, status, value, w1) =>
      if status > HAL_OK then (status, value, w1)
      else
        match retryLoop T (switchWrite T device PCAL6524_REG_INT_CLEAR_PORT_0
            PCAL6524_REG_INT_CLEAR_PORT_1 PCAL6524_REG_INT_CLEAR_PORT_2 port)
            (PCAL6524_I2C_MAX_ATTEMPTS + 1) status ((1 <<< pin) % 256) w1 with
        | (some code, _, _, w2) => (code, (value &&& (1 <<< pin)) >>> pin, w2)
        | (none, status, _, w2) =>
          if status > HAL_OK then (status, (value &&& (1 <<< pin)) >>> pin, w2)
          else (PCAL6524_SUCCESS, (value &&& (1 <<< pin)) >>> pin, w2)

/-- Function `PCAL6524_OutputValue`: outputs a value on a pin. -/
def PCAL6524_OutputValue {σ : Type} (T : Transport σ) (device : pcal6524_Device_t)
    (port pin value : Nat) (w : World σ) : Nat × World σ :=
  if port > 2 ∨ pin > 7 ∨ value > 1 then (PCAL6524_INPUTOUTOFRANGE, w)
  else
    match retryLoop T (switchRead T device storeU8 PCAL6524_REG_OUT_PORT_0
        PCAL6524_REG_OUT_PORT_1 PCAL6524_REG_OUT_PORT_2 port)
        (PCAL6524_I2C_MAX_ATTEMPTS + 1) 0 0 w with
    | (some code, _, _, w1) => (code, w1)
    | (none, status, data, w1) =>
      if status > HAL_OK then (status, w1)
      else
        match retryLoop T (switchWrite T device PCAL6524_REG_OUT_PORT_0
            PCAL6524_REG_OUT_PORT_1 PCAL6524_REG_OUT_PORT_2 port)
            (PCAL6524_I2C_MAX_ATTEMPTS + 1) status
            (((data &&& not32 (1 <<< pin)) ||| (value <<< pin)) % 256) w1 with
        | (some code, _, _, w2) => (code, w2)
        | (none, status, _, w2) =>
          if status > HAL_OK then (status, w2) else (PCAL6524_SUCCESS, w2)

/-- Function `PCAL6524_GetPortPinValues`: the input values of a port, read from the
input register `PCAL6524_REG_IN_PORT_x`. Gives the return code, the content of
`*values` (initially `values0`) and the world after the call. -/
def PCAL6524_GetPortPinValues {σ : Type} (T : Transport σ) (device : pcal6524_Device_t)
    (port values0 : Nat) (w : World σ) : Nat × Nat × World σ :=
  if port > 2 then (PCAL6524_INPUTOUTOFRANGE, values0, w)
  else
    match retryLoop T (switchRead T device storeU8 PCAL6524_REG_IN_PORT_0
        PCAL6524_REG_IN_PORT_1 PCAL6524_REG_IN_PORT_2 port)
        (PCAL6524_I2C_MAX_ATTEMPTS + 1) 0 values0 w with
    | (some code, _, values, w1) => (code, values, w1)
    | (none, status, values, w1) =>
      if status > HAL_OK then (status, values, w1) else (PCAL6524_SUCCESS, values, w1)

/-- Function `PCAL6524_GetInterrupts`: the interrupt status register of a port. Gives the return code, the content of
`*intr` (initially `intr0`) and the world after the call. -/
def PCAL6524_GetInterrupts {σ : Type} (T : Transport σ) (device : pcal6524_Device_t)
    (port intr0 : Nat) (w : World σ) : Nat × Nat × World σ :=
  if port > 2 then (PCAL6524_INPUTOUTOFRANGE, intr0, w)
  else
    match retryLoop T (switchRead T device storeU8 PCAL6524_REG_INT_STAT_PORT_0
        PCAL6524_REG_INT_STAT_PORT_1 PCAL6524_REG_INT_STAT_PORT_2 port)
        (PCAL6524_I2C_MAX_ATTEMPTS + 1) 0 intr0 w with
    | (some code, _, intr, w1) => (code, intr, w1)
    | (none, status, intr, w1) =>
      if status > HAL_OK then (status, intr, w1) else (PCAL6524_SUCCESS, intr, w1)

/-- Function `PCAL6524_ClearAllInterrupts`: three write loops of `0b11111111`, one per
interrupt-clear register. Only the last loop is followed by the test
`if (status > HAL_OK) return status`. -/
def PCAL6524_ClearAllInterrupts {σ : Type} (T : Transport σ) (device : pcal6524_Device_t)
    (w : World σ) : Nat × World σ :=
  match retryLoop T (fun _ data w => writeStmt T device PCAL6524_REG_INT_CLEAR_PORT_0 data w)
      (PCAL6524_I2C_MAX_ATTEMPTS + 1) 0 0b11111111 w with
  | (some code, _, _, w1) => (code, w1)
  | (none, status, data, w1) =>
    match retryLoop T (fun _ data w => writeStmt T device PCAL6524_REG_INT_CLEAR_PORT_1 data w)
        (PCAL6524_I2C_MAX_ATTEMPTS + 1) status data w1 with
    | (some code, _, _, w2) => (code, w2)
    | (none, status, data, w2) =>
      match retryLoop T (fun _ data w => writeStmt T device PCAL6524_REG_INT_CLEAR_PORT_2 data w)
          (PCAL6524_I2C_MAX_ATTEMPTS + 1) status data w2 with
      | (some code, _, _, w3) => (code, w3)
      | (none, status, _, w3) =>
        if status > HAL_OK then (status, w3) else (PCAL6524_SUCCESS, w3)

/-! ## The operations as one type

`Op` names a call of one of the fifteen public functions with its arguments
(for a getter, the initial content of each output cell); `Op.run` makes the
call and keeps the return code and the world. -/

/-- A call of a public function of the driver. -/
inductive Op where
  | SetInOut (port pin inout : Nat)
  | GetInOutConfig (port ios0 : Nat)
  | SetInterrupt (port pin intr : Nat)
  | GetInterruptConfig (port intr0 : Nat)
  | SetPullupDown (port pin pull active : Nat)
  | GetPullupDownConfig (port pull0 active0 : Nat)
  | SetPolarity (port pin pol : Nat)
  | GetPolarityConfig (port pol0 : Nat)
  | SetInterruptTrigger (port pin trig : Nat)
  | GetInterruptTriggerConfig (port pin trig0 : Nat)
  | GetPinValue (port pin value0 : Nat)
  | OutputValue (port pin value : Nat)
  | GetPortPinValues (port values0 : Nat)
  | GetInterrupts (port intr0 : Nat)
  | ClearAllInterrupts
  deriving DecidableEq

/-- Return code and world after the call `op`. -/
def Op.run {σ : Type} (T : Transport σ) (device : pcal6524_Device_t) (op : Op)
    (w : World σ) : Nat × World σ :=
  match op with
  | .SetInOut port pin inout => PCAL6524_SetInOut T device port pin inout w
  | .GetInOutConfig port ios0 =>
    ((PCAL6524_GetInOutConfig T device port ios0 w).1,
      (PCAL6524_GetInOutConfig T device port ios0 w).2.2)
  | .SetInterrupt port pin intr => PCAL6524_SetInterrupt T device port pin intr w
  | .GetInterruptConfig port intr0 =>
    ((PCAL6524_GetInterruptConfig T device port intr0 w).1,
      (PCAL6524_GetInterruptConfig T device port intr0 w).2.2)
  | .SetPullupDown port pin pull active => PCAL6524_SetPullupDown T device port pin pull active w
  | .GetPullupDownConfig port pull0 active0 =>
    ((PCAL6524_GetPullupDownConfig T device port pull0 active0 w).1,
      (PCAL6524_GetPullupDownConfig T device port pull0 active0 w).2.2.2)
  | .SetPolarity port pin pol => PCAL6524_SetPolarity T device port pin pol w
  | .GetPolarityConfig port pol0 =>
    ((PCAL6524_GetPolarityConfig T device port pol0 w).1,
      (PCAL6524_GetPolarityConfig T device port pol0 w).2.2)
  | .SetInterruptTrigger port pin trig => PCAL6524_SetInterruptTrigger T device port pin trig w
  | .GetInterruptTriggerConfig port pin trig0 =>
    ((PCAL6524_GetInterruptTriggerConfig T device port pin trig0 w).1,
      (PCAL6524_GetInterruptTriggerConfig T device port pin trig0 w).2.2)
  | .GetPinValue port pin value0 =>
    ((PCAL6524_GetPinValue T device port pin value0 w).1,
      (PCAL6524_GetPinValue T device port pin value0 w).2.2)
  | .OutputValue port pin value => PCAL6524_OutputValue T device port pin value w
  | .GetPortPinValues port values0 =>
    ((PCAL6524_GetPortPinValues T device port values0 w).1,
      (PCAL6524_GetPortPinValues T device port values0 w).2.2)
  | .GetInterrupts port intr0 =>
    ((PCAL6524_GetInterrupts T device port intr0 w).1,
      (PCAL6524_GetInterrupts T device port intr0 w).2.2)
  | .ClearAllInterrupts => PCAL6524_ClearAllInterrupts T device w

/-- The arguments of the call are in range: the port is at most 2, the pin (when
the function takes one) at most 7, and an enum-valued argument is within its
enumeration (at most 1; at most 3 for the trigger). -/
def Op.inRange : Op → Prop
  | .SetInOut port pin inout => port ≤ 2 ∧ pin ≤ 7 ∧ inout ≤ 1
  | .GetInOutConfig port _ => port ≤ 2
  | .SetInterrupt port pin intr => port ≤ 2 ∧ pin ≤ 7 ∧ intr ≤ 1
  | .GetInterruptConfig port _ => port ≤ 2
  | .SetPullupDown port pin pull active => port ≤ 2 ∧ pin ≤ 7 ∧ pull ≤ 1 ∧ active ≤ 1
  | .GetPullupDownConfig port _ _ => port ≤ 2
  | .SetPolarity port pin pol => port ≤ 2 ∧ pin ≤ 7 ∧ pol ≤ 1
  | .GetPolarityConfig port _ => port ≤ 2
  | .SetInterruptTrigger port pin trig => port ≤ 2 ∧ pin ≤ 7 ∧ trig ≤ 3
  | .GetInterruptTriggerConfig port pin _ => port ≤ 2 ∧ pin ≤ 7
  | .GetPinValue port pin _ => port ≤ 2 ∧ pin ≤ 7
  | .OutputValue port pin value => port ≤ 2 ∧ pin ≤ 7 ∧ value ≤ 1
  | .GetPortPinValues port _ => port ≤ 2
  | .GetInterrupts port _ => port ≤ 2
  | .ClearAllInterrupts => True

instance (op : Op) : Decidable op.inRange := by
  cases op <;> unfold Op.inRange <;> infer_instance

/-- The function takes a port argument (every one but
`PCAL6524_ClearAllInterrupts`). -/
def Op.takesPort : Op → Bool
  | .ClearAllInterrupts => false
  | _ => true

/-! ## Bus phases

Every public function, once its arguments are in range, is a fixed sequence of
bus phases: a retry loop around one read or one write of one register. `Phase`
describes a phase, `Op.phases` lists the phases of a call, and `runPhases` runs
such a list; `run_eq_runPhases` below shows that this is what each function
does. -/

/-- A bus phase. `read store reg f`: the retry loop around
`PCAL6524_ReadI2C(device, reg, cell)`, followed by
`if (status > HAL_OK) return status`; the cell read into holds `f data` when
the loop starts (`f` is the identity unless the loop reads into another cell
than the previous phase). `write reg f check`: the data cell becomes `f data`,
then the retry loop around `PCAL6524_WriteI2C(device, reg, &data)`, followed by
the same test when `check` holds. -/
inductive Phase where
  | read (store : Nat → Nat → Nat) (reg : Nat) (f : Nat → Nat)
  | write (reg : Nat) (f : Nat → Nat) (check : Bool)

/-- The body of the loop of a phase. -/
def Phase.body {σ : Type} (T : Transport σ) (device : pcal6524_Device_t) :
    Phase → Nat → Nat → World σ → Nat × Nat × World σ
  | .read store reg _ => fun _ data w => readStmt T device store reg data w
  | .write reg _ _ => fun _ data w => writeStmt T device reg data w

/-- The content of the data cell when the loop of the phase starts. -/
def Phase.pre : Phase → Nat → Nat
  | .read _ _ f => f
  | .write _ f _ => f

/-- Whether the loop is followed by `if (status > HAL_OK) return status`. -/
def Phase.check : Phase → Bool
  | .read _ _ _ => true
  | .write _ _ check => check

/-- The register the phase addresses. -/
def Phase.reg : Phase → Nat
  | .read _ reg _ => reg
  | .write reg _ _ => reg

/-- Runs the phases in order, from the given `status` and data cell; after the
last phase the function returns `PCAL6524_SUCCESS`. -/
def runPhases {σ : Type} (T : Transport σ) (device : pcal6524_Device_t) :
    List Phase → Nat → Nat → World σ → Nat × World σ
  | [], _, _, w => (PCAL6524_SUCCESS, w)
  | p :: ps, status, data, w =>
    match retryLoop T (p.body T device) (PCAL6524_I2C_MAX_ATTEMPTS + 1) status (p.pre data) w with
    | (some code, _, _, w1) => (code, w1)
    | (none, status1, data1, w1) =>
      if p.check = true ∧ status1 > HAL_OK then (status1, w1)
      else runPhases T device ps status1 data1 w1

/-- The edge-trigger sub-register of a pin: A for pins 0 to 3, B for pins 4 to
7, of the given port. -/
def edgeReg (port pin : Nat) : Nat :=
  PCAL6524_REG_INT_EGDE_PORT_0A + 2 * port + (if pin < 4 then 0 else 1)

/-- The new byte of `PCAL6524_SetInterrupt`,
`(data & (~(0b1 << pin))) | (~(intr) << pin)` stored into a `uint8_t`. -/
def maskByte (data pin intr : Nat) : Nat :=
  ((data &&& not32 (1 <<< pin)) ||| ((not32 intr <<< pin) % 4294967296)) % 256

/-- The new byte of `PCAL6524_SetInterruptTrigger`,
`(data & (~(0b1 << (2 * (pin % 4))))) | (trig << (2 * (pin % 4)))` stored into
a `uint8_t`. -/
def edgeByte (data pin trig : Nat) : Nat :=
  ((data &&& not32 (0b1 <<< (2 * (pin % 4)))) ||| (trig <<< (2 * (pin % 4)))) % 256

/-- The single-bit update `(data & ~(1 << pin)) | (v << pin)` stored into a
`uint8_t`, the expression of `PCAL6524_SetInOut`, `PCAL6524_SetPullupDown`,
`PCAL6524_SetPolarity` and `PCAL6524_OutputValue`. -/
def setBit8 (data pin v : Nat) : Nat :=
  ((data &&& not32 (1 <<< pin)) ||| (v <<< pin)) % 256

/-- The phases of a call whose arguments are in range. -/
def Op.phases : Op → List Phase
  | .SetInOut port pin inout =>
    [.read storeU8 (PCAL6524_REG_CONF_PORT_0 + port) (fun d => d),
     .write (PCAL6524_REG_CONF_PORT_0 + port) (fun d => setBit8 d pin inout) true]
  | .GetInOutConfig port _ => [.read storeU8 (PCAL6524_REG_CONF_PORT_0 + port) (fun d => d)]
  | .SetInterrupt port pin intr =>
    [.read storeU8 (PCAL6524_REG_INT_MASK_PORT_0 + port) (fun d => d),
     .write (PCAL6524_REG_INT_MASK_PORT_0 + port) (fun d => maskByte d pin intr) true]
  | .GetInterruptConfig port _ => [.read storeU8 (PCAL6524_REG_INT_MASK_PORT_0 + port) (fun d => d)]
  | .SetPullupDown port pin pull active =>
    [.read storeU8 (PCAL6524_REG_PULL_SEL_PORT_0 + port) (fun d => d),
     .write (PCAL6524_REG_PULL_SEL_PORT_0 + port) (fun d => setBit8 d pin pull) true,
     .read storeU8 (PCAL6524_REG_PULL_EN_PORT_0 + port) (fun d => d),
     .write (PCAL6524_REG_PULL_EN_PORT_0 + port) (fun d => setBit8 d pin active) true]
  | .GetPullupDownConfig port _ active0 =>
    [.read storeU8 (PCAL6524_REG_PULL_SEL_PORT_0 + port) (fun d => d),
     .read storeU8 (PCAL6524_REG_PULL_EN_PORT_0 + port) (fun _ => active0)]
  | .SetPolarity port pin pol =>
    [.read storeU8 (PCAL6524_REG_POL_PORT_0 + port) (fun d => d),
     .write (PCAL6524_REG_POL_PORT_0 + port) (fun d => setBit8 d pin pol) true]
  | .GetPolarityConfig port _ => [.read storeU8 (PCAL6524_REG_POL_PORT_0 + port) (fun d => d)]
  | .SetInterruptTrigger port pin trig =>
    [.read storeU8 (edgeReg port pin) (fun d => d),
     .write (edgeReg port pin) (fun d => edgeByte d pin trig) true]
  | .GetInterruptTriggerConfig port pin _ => [.read storeEnum (edgeReg port pin) (fun d => d)]
  | .GetPinValue port pin _ =>
    [.read storeEnum (PCAL6524_REG_IN_STATUS_PORT_0 + port) (fun d => d),
     .write (PCAL6524_REG_INT_CLEAR_PORT_0 + port) (fun _ => (1 <<< pin) % 256) true]
  | .OutputValue port pin value =>
    [.read storeU8 (PCAL6524_REG_OUT_PORT_0 + port) (fun d => d),
     .write (PCAL6524_REG_OUT_PORT_0 + port) (fun d => setBit8 d pin value) true]
  | .GetPortPinValues port _ => [.read storeU8 (PCAL6524_REG_IN_PORT_0 + port) (fun d => d)]
  | .GetInterrupts port _ => [.read storeU8 (PCAL6524_REG_INT_STAT_PORT_0 + port) (fun d => d)]
  | .ClearAllInterrupts =>
    [.write PCAL6524_REG_INT_CLEAR_PORT_0 (fun d => d) false,
     .write PCAL6524_REG_INT_CLEAR_PORT_1 (fun d => d) false,
     .write PCAL6524_REG_INT_CLEAR_PORT_2 (fun d => d) true]

/-- The initial content of the data cell of the first loop of a call. -/
def Op.data0 : Op → Nat
  | .GetInOutConfig _ ios0 => ios0
  | .GetInterruptConfig _ intr0 => intr0
  | .GetPullupDownConfig _ pull0 _ => pull0
  | .GetPolarityConfig _ pol0 => pol0
  | .GetInterruptTriggerConfig _ _ trig0 => trig0
  | .GetPinValue _ _ value0 => value0
  | .GetPortPinValues _ values0 => values0
  | .GetInterrupts _ intr0 => intr0
  | .ClearAllInterrupts => 0b11111111
  | _ => 0

/-! ## Predicates on traces -/

/-- The status a HAL call reported; a delay reports none. -/
def Event.status? : Event → Option Nat
  | .read _ _ status _ => some status
  | .write _ _ _ status => some status
  | .delay _ => none

/-- The register a HAL call addressed; a delay addresses none. -/
def Event.reg? : Event → Option Nat
  | .read _ reg _ _ => some reg
  | .write _ reg _ _ => some reg
  | .delay _ => none

/-- The event is a bus transaction (a read or a write), not a delay. -/
def Event.isCall : Event → Bool
  | .delay _ => false
  | _ => true

/-- The event is the inter-attempt delay or a read of register `reg` of device
`dev`. -/
def ReadOrDelay (dev reg : Nat) (e : Event) : Prop :=
  e = Event.delay PCAL6524_I2C_ATTEMPT_DELAY ∨ ∃ t x, e = Event.read dev reg t x

/-- The event is the inter-attempt delay or a write of the byte `data` to
register `reg` of device `dev`. -/
def WriteOrDelay (dev reg data : Nat) (e : Event) : Prop :=
  e = Event.delay PCAL6524_I2C_ATTEMPT_DELAY ∨ ∃ t, e = Event.write dev reg data t

/-- No call of the trace reported `HAL_ERROR`. -/
def NoHard (evs : List Event) : Prop := ∀ e ∈ evs, e.status? ≠ some HAL_ERROR

/-- The register the first bus phase of a call addresses. -/
def Op.firstReg (op : Op) : Nat :=
  match op.phases with
  | p :: _ => p.reg
  | [] => 0

/-- The bus state in which attempt number `k` (from 0) of a read phase of
register `reg` is made, when the phase starts in `bus` and each earlier attempt
was followed by the inter-attempt delay. -/
def attemptBus {σ : Type} (T : Transport σ) (dev reg : Nat) (bus : σ) : Nat → σ
  | 0 => bus
  | k + 1 =>
    T.HAL_Delay (T.HAL_I2C_Mem_Read (attemptBus T dev reg bus k) dev reg).2.2
      PCAL6524_I2C_ATTEMPT_DELAY

/-- The status, as `uint8_t`, that attempt number `k` of such a read phase
reports. -/
def attemptStatus {σ : Type} (T : Transport σ) (dev reg : Nat) (bus : σ) (k : Nat) : Nat :=
  (T.HAL_I2C_Mem_Read (attemptBus T dev reg bus k) dev reg).1 % 256

/-- The byte that attempt number `k` of such a read phase leaves in the
buffer. -/
def attemptByte {σ : Type} (T : Transport σ) (dev reg : Nat) (bus : σ) (k : Nat) : Nat :=
  (T.HAL_I2C_Mem_Read (attemptBus T dev reg bus k) dev reg).2.1 % 256

/-- A transport that follows a script: each read or write takes the next
`(status, byte)` pair of the script (a write ignores the byte); when the script
is used up every call succeeds, a read delivering 0. -/
def scripted : Transport (List (Nat × Nat)) where
  HAL_I2C_Mem_Read := fun s _ _ =>
    match s with
    | [] => (HAL_OK, 0, [])
    | (status, byte) :: rest => (status, byte, rest)
  HAL_I2C_Mem_Write := fun s _ _ _ =>
    match s with
    | [] => (HAL_OK, [])
    | (status, _) :: rest => (status, rest)
  HAL_Delay := fun s _ => s

/-! ## A simulated register file -/

/-- A transport that always succeeds over a register file (register offset to
byte): a read delivers the byte the register holds, a write stores the byte,
a delay changes nothing. -/
def regFile : Transport (Nat → Nat) where
  HAL_I2C_Mem_Read := fun s _ reg => (HAL_OK, s reg, s)
  HAL_I2C_Mem_Write := fun s _ reg b => (HAL_OK, Function.update s reg b)
  HAL_Delay := fun s _ => s

/-- The status reported by the last bus transaction of the trace (delays are
skipped); none when the trace holds no transaction. -/
def lastStatus? : List Event → Option Nat
  | [] => none
  | e :: rest =>
    match lastStatus? rest with
    | some s => some s
    | none => e.status?

/-- The event is a read. -/
def Event.isRead : Event → Bool
  | .read _ _ _ _ => true
  | _ => false

/-- The device address a HAL call used; a delay uses none. -/
def Event.dev? : Event → Option Nat
  | .read dev _ _ _ => some dev
  | .write dev _ _ _ => some dev
  | .delay _ => none

/-- The event is a bus transaction of the phase on device `dev`: a read of the
register of a read phase, a write to the register of a write phase. -/
def Phase.isEvent (dev : Nat) : Phase → Event → Prop
  | .read _ reg _, e => ∃ t x, e = Event.read dev reg t x
  | .write reg _ _, e => ∃ x t, e = Event.write dev reg x t

/-- The register table of the specification, for the functions it lists: the
registers the call may read and the registers it may write, by field and port
(direction `0x0C`, output `0x04`, polarity `0x08`, interrupt mask `0x54`,
interrupt status `0x58`, pull select `0x50`, pull enable `0x4C`, input status
`0x6C`, interrupt clear `0x68`, each plus the port). The edge-trigger functions,
`PCAL6524_GetPortPinValues` and `PCAL6524_ClearAllInterrupts` are not in it. -/
def specRegs : Op → Option (List Nat × List Nat)
  | .SetInOut port _ _ => some ([0x0C + port], [0x0C + port])
  | .GetInOutConfig port _ => some ([0x0C + port], [])
  | .OutputValue port _ _ => some ([0x04 + port], [0x04 + port])
  | .SetPolarity port _ _ => some ([0x08 + port], [0x08 + port])
  | .GetPolarityConfig port _ => some ([0x08 + port], [])
  | .SetInterrupt port _ _ => some ([0x54 + port], [0x54 + port])
  | .GetInterruptConfig port _ => some ([0x54 + port], [])
  | .GetInterrupts port _ => some ([0x58 + port], [])
  | .SetPullupDown port _ _ _ => some ([0x50 + port, 0x4C + port], [0x50 + port, 0x4C + port])
  | .GetPullupDownConfig port _ _ => some ([0x50 + port, 0x4C + port], [])
  | .GetPinValue port _ _ => some ([0x6C + port], [0x68 + port])
  | _ => none

/-- The functions that read a register and then write one: the five
single-register setters, `PCAL6524_SetPullupDown` (two such cycles) and
`PCAL6524_GetPinValue` (read, then clear). -/
def Op.isReadThenWrite : Op → Bool
  | .SetInOut _ _ _ => true
  | .SetInterrupt _ _ _ => true
  | .SetPolarity _ _ _ => true
  | .SetInterruptTrigger _ _ _ => true
  | .OutputValue _ _ _ => true
  | .SetPullupDown _ _ _ _ => true
  | .GetPinValue _ _ _ => true
  | _ => false

/-- In the events `evs` of a call that returned `code`: whenever the last read
of the call reported a status other than `HAL_OK`, the call returned that
status and only delays follow that read. -/
def FailedReadStops (code : Nat) (evs : List Event) : Prop :=
  ∀ pre dv rg st x post, evs = pre ++ Event.read dv rg st x :: post →
    (∀ e ∈ post, e.isRead = false) → st ≠ HAL_OK →
    code = st ∧ ∀ e ∈ post, e = Event.delay PCAL6524_I2C_ATTEMPT_DELAY

/-- The events `evs` are reads of register `reg` and delays, and a read among
them that reported `HAL_OK` and delivered the byte `r` is the last event, is the
only read that reported `HAL_OK`, and left `out = r` in the output cell. -/
def DeliversRaw (dev reg out : Nat) (evs : List Event) : Prop :=
  (∀ e ∈ evs, ReadOrDelay dev reg e) ∧
  ∀ r, Event.read dev reg HAL_OK r ∈ evs →
    out = r ∧ ∃ pre, evs = pre ++ [Event.read dev reg HAL_OK r] ∧
      ∀ e ∈ pre, e.status? ≠ some HAL_OK

/-- What a port-wide getter that reads register `reg` does, `res` being its
result (return code, output cell, world) from a world with trace `tr0`: its
events deliver the raw byte (`DeliversRaw`), and a successful read makes it
return `PCAL6524_SUCCESS`. -/
def RawGetterSpec {σ : Type} (dev reg : Nat) (tr0 : List Event) (res : Nat × Nat × World σ) :
    Prop :=
  ∃ evs, res.2.2.trace = tr0 ++ evs ∧ DeliversRaw dev reg res.2.1 evs ∧
    ((∃ r, Event.read dev reg HAL_OK r ∈ evs) → res.1 = PCAL6524_SUCCESS)

/-- The body of a port-wide getter once the port is in range: the retry loop
reading `reg` into the output cell, then the status test. -/
def rawGetter {σ : Type} (T : Transport σ) (device : pcal6524_Device_t) (reg out0 : Nat)
    (w : World σ) : Nat × Nat × World σ :=
  match retryLoop T (fun _ data w => readStmt T device storeU8 reg data w)
      (PCAL6524_I2C_MAX_ATTEMPTS + 1) 0 out0 w with
  | (some code, _, out, w1) => (code, out, w1)
  | (none, status, out, w1) =>
    if status > HAL_OK then (status, out, w1) else (PCAL6524_SUCCESS, out, w1)

/-- The body of `PCAL6524_GetPullupDownConfig` once the port is in range: the
loop reading `regA` into the first cell and the loop reading `regB` into the
second, each followed by the status test. -/
def rawGetter2 {σ : Type} (T : Transport σ) (device : pcal6524_Device_t)
    (regA regB outA0 outB0 : Nat) (w : World σ) : Nat × Nat × Nat × World σ :=
  match retryLoop T (fun _ data w => readStmt T device storeU8 regA data w)
      (PCAL6524_I2C_MAX_ATTEMPTS + 1) 0 outA0 w with
  | (some code, _, outA, w1) => (code, outA, outB0, w1)
  | (none, status, outA, w1) =>
    if status > HAL_OK then (status, outA, outB0, w1)
    else
      match retryLoop T (fun _ data w => readStmt T device storeU8 regB data w)
          (PCAL6524_I2C_MAX_ATTEMPTS + 1) status outB0 w1 with
      | (some code, _, outB, w2) => (code, outA, outB, w2)
      | (none, status, outB, w2) =>
        if status > HAL_OK then (status, outA, outB, w2)
        else (PCAL6524_SUCCESS, outA, outB, w2)

/-- Modelled from the spec: the single-bit update "clear the target bit-mask
`1 << pin`, then OR in the new value shifted into position", on 8-bit values
(the complement of the mask taken within the byte). -/
def specUpdateBit (b pin v : Nat) : Nat := ((b &&& (255 - (1 <<< pin))) ||| (v <<< pin)) % 256

/-- Modelled from the spec: the interrupt-mask byte
`(maskByte & ~bit) | (~enable << pin)` with both complements taken on a 16-bit
integer and the result truncated to 8 bits. -/
def specMaskByte (b pin intr : Nat) : Nat :=
  ((b &&& (65535 - (1 <<< pin))) ||| (((65535 - intr) <<< pin) % 65536)) % 256

/-- Modelled from the spec: the byte `(b AND NOT (1 << s)) OR (trig << s)` with
`s = 2 * (pin mod 4)`, the complement taken within the byte. -/
def specEdgeByte (b pin trig : Nat) : Nat :=
  (b &&& (255 - (1 <<< (2 * (pin % 4))))) ||| (trig <<< (2 * (pin % 4)))

/-- Modelled from the spec: the 2-bit edge-trigger field of a pin within the
byte `x` of its sub-register, at bit position `2 * (pin mod 4)`. -/
def edgeField (x pin : Nat) : Nat := (x >>> (2 * (pin % 4))) &&& 0b11

/-- The events `evs` of a call that returned `code` are a read-modify-write of
register `reg` by `f`: reads of `reg` and delays, then writes to `reg` and
delays, every write carrying `f b` where `b` is the byte delivered by the last
read, which reported `HAL_OK`; a call that returned `PCAL6524_SUCCESS` ended
with such a write reporting `HAL_OK`. -/
def RmwSpec (dev reg : Nat) (f : Nat → Nat) (code : Nat) (evs : List Event) : Prop :=
  ∃ evsR evsW b, b < 256 ∧ evs = evsR ++ evsW ∧
    (∀ e ∈ evsR, ReadOrDelay dev reg e) ∧
    (∀ e ∈ evsW, WriteOrDelay dev reg (f b) e) ∧
    (evsW ≠ [] → ∃ pre, evsR = pre ++ [Event.read dev reg HAL_OK b]) ∧
    (code = PCAL6524_SUCCESS → ∃ pre, evsW = pre ++ [Event.write dev reg (f b) HAL_OK])

/-- The event is a call of `HAL_Delay`. -/
def Event.isDelay : Event → Bool
  | .delay _ => true
  | _ => false

/-- The event is a write. -/
def Event.isWrite : Event → Bool
  | .write _ _ _ _ => true
  | _ => false

/-- The event is a bus transaction that reported a transient status: neither
`HAL_OK` nor `HAL_ERROR`, the third branch of the loop body. -/
def Event.isTransient (e : Event) : Bool :=
  match e.status? with
  | some st => st != HAL_OK && st != HAL_ERROR
  | none => false

/-- Number of bus transactions (reads and writes) among the events. -/
def callCount (evs : List Event) : Nat := evs.countP Event.isCall

/-- Number of calls of `HAL_Delay` among the events. -/
def delayCount (evs : List Event) : Nat := evs.countP Event.isDelay

/-- Number of bus transactions that reported a transient status. -/
def transientCount (evs : List Event) : Nat := evs.countP Event.isTransient

/-- Total time, in ms, asked of `HAL_Delay` by the events. -/
def delayTime : List Event → Nat
  | [] => 0
  | .delay ms :: rest => ms + delayTime rest
  | _ :: rest => delayTime rest

/-- The event is a read of register `reg`. -/
def Event.isReadOf (reg : Nat) : Event → Bool
  | .read _ r _ _ => r == reg
  | _ => false

/-- The event is a write to register `reg`. -/
def Event.isWriteOf (reg : Nat) : Event → Bool
  | .write _ r _ _ => r == reg
  | _ => false

/-- Number of reads of register `reg` among the events. -/
def readsOf (reg : Nat) (evs : List Event) : Nat := evs.countP (Event.isReadOf reg)

/-- Number of writes to register `reg` among the events. -/
def writesOf (reg : Nat) (evs : List Event) : Nat := evs.countP (Event.isWriteOf reg)

/-- The phase is a read loop of register `reg`. -/
def Phase.isReadOf (reg : Nat) : Phase → Bool
  | .read _ r _ => r == reg
  | .write _ _ _ => false

/-- The phase is a write loop of register `reg`. -/
def Phase.isWriteOf (reg : Nat) : Phase → Bool
  | .read _ _ _ => false
  | .write r _ _ => r == reg

/-- Modelled from the spec: the bound on the number of transport calls of one
call of a function: 4 for a single-register getter, 8 for
`PCAL6524_GetPullupDownConfig`, `PCAL6524_GetPinValue` and each single-register
setter, 16 for `PCAL6524_SetPullupDown`, 12 for `PCAL6524_ClearAllInterrupts`. -/
def Op.maxCalls : Op → Nat
  | .GetInOutConfig _ _ => 4
  | .GetInterruptConfig _ _ => 4
  | .GetPolarityConfig _ _ => 4
  | .GetInterruptTriggerConfig _ _ _ => 4
  | .GetPortPinValues _ _ => 4
  | .GetInterrupts _ _ => 4
  | .GetPullupDownConfig _ _ _ => 8
  | .GetPinValue _ _ _ => 8
  | .SetInOut _ _ _ => 8
  | .SetInterrupt _ _ _ => 8
  | .SetPolarity _ _ _ => 8
  | .SetInterruptTrigger _ _ _ => 8
  | .OutputValue _ _ _ => 8
  | .SetPullupDown _ _ _ _ => 16
  | .ClearAllInterrupts => 12

/-- The status, the data cell and the world in which attempt number `k` (from 0)
of a retry loop is made, when the loop starts with `status`, `data` and `w` and
each of the `k` earlier attempts went through the third branch of the loop body
(the inter-attempt delay). -/
def afterAttempts {σ : Type} (T : Transport σ)
    (body : Nat → Nat → World σ → Nat × Nat × World σ) :
    Nat → Nat → Nat → World σ → Nat × Nat × World σ
  | 0, status, data, w => (status, data, w)
  | k + 1, status, data, w =>
    afterAttempts T body k (body status data w).1 (body status data w).2.1
      (HAL_Delay T PCAL6524_I2C_ATTEMPT_DELAY (body status data w).2.2)

/-- The status, data cell and world that attempt number `k` (from 0) of a retry
loop gives. -/
def loopAttempt {σ : Type} (T : Transport σ)
    (body : Nat → Nat → World σ → Nat × Nat × World σ) (k status data : Nat) (w : World σ) :
    Nat × Nat × World σ :=
  body (afterAttempts T body k status data w).1 (afterAttempts T body k status data w).2.1
    (afterAttempts T body k status data w).2.2

/-- The events of attempts that each went on to the inter-attempt delay: every
bus transaction of `calls` followed by `HAL_Delay(PCAL6524_I2C_ATTEMPT_DELAY)`. -/
def withDelays : List Event → List Event
  | [] => []
  | c :: rest => c :: Event.delay PCAL6524_I2C_ATTEMPT_DELAY :: withDelays rest

/-- The store of a read phase overwrites: storing a byte and then another
leaves what storing the second alone leaves. -/
def Phase.StoreOk : Phase → Prop
  | .read store _ _ => ∀ c x y, x < 256 → store (store c x) y = store c y
  | .write _ _ _ => True

/-- The data cells `d0` and `d` are the same to the loop of the phase: a read
stores every byte alike into both, a write sends the same byte. -/
def Phase.cellEquiv : Phase → Nat → Nat → Prop
  | .read store _ _, d0, d => ∀ y, y < 256 → store d y = store d0 y
  | .write _ _ _, d0, d => d = d0

/-- The two kinds of transport call. -/
inductive CallKind where
  | read
  | write
  deriving DecidableEq

/-- The kind of transport call an event is; none for a delay. -/
def Event.kind? : Event → Option CallKind
  | .read _ _ _ _ => some CallKind.read
  | .write _ _ _ _ => some CallKind.write
  | .delay _ => none

/-- The kind of transport call a phase makes. -/
def Phase.kind : Phase → CallKind
  | .read _ _ _ => CallKind.read
  | .write _ _ _ => CallKind.write

/-- Modelled from the spec: the sequence of transport calls of a call whose
every transport call succeeds: one read for each port-wide getter and for
`PCAL6524_GetInterruptTriggerConfig`; two reads for
`PCAL6524_GetPullupDownConfig`; a read then a write for each single-register
setter and for `PCAL6524_GetPinValue`; read, write, read, write for
`PCAL6524_SetPullupDown`; three writes for `PCAL6524_ClearAllInterrupts`. -/
def specKinds : Op → List CallKind
  | .GetInOutConfig _ _ => [.read]
  | .GetInterruptConfig _ _ => [.read]
  | .GetPolarityConfig _ _ => [.read]
  | .GetPortPinValues _ _ => [.read]
  | .GetInterrupts _ _ => [.read]
  | .GetInterruptTriggerConfig _ _ _ => [.read]
  | .GetPullupDownConfig _ _ _ => [.read, .read]
  | .SetInOut _ _ _ => [.read, .write]
  | .SetInterrupt _ _ _ => [.read, .write]
  | .SetPolarity _ _ _ => [.read, .write]
  | .SetInterruptTrigger _ _ _ => [.read, .write]
  | .OutputValue _ _ _ => [.read, .write]
  | .GetPinValue _ _ _ => [.read, .write]
  | .SetPullupDown _ _ _ _ => [.read, .write, .read, .write]
  | .ClearAllInterrupts => [.write, .write, .write]

/-- The six setters: the five single-register ones and
`PCAL6524_SetPullupDown`. -/
def Op.isSetter : Op → Bool
  | .SetInOut _ _ _ => true
  | .SetInterrupt _ _ _ => true
  | .SetPolarity _ _ _ => true
  | .SetInterruptTrigger _ _ _ => true
  | .OutputValue _ _ _ => true
  | .SetPullupDown _ _ _ _ => true
  | _ => false

/-- The byte a setter computes for register `reg` from the byte `b` read from
it: the new-byte expression of the function with its pin and value arguments;
for `PCAL6524_SetPullupDown` the expression of the cycle the register belongs
to (`pull` for the select register, `active` for the enable register). -/
def Op.newByte : Op → Nat → Nat → Nat
  | .SetInOut _ pin inout, _, b => setBit8 b pin inout
  | .SetInterrupt _ pin intr, _, b => maskByte b pin intr
  | .SetPolarity _ pin pol, _, b => setBit8 b pin pol
  | .SetInterruptTrigger _ pin trig, _, b => edgeByte b pin trig
  | .OutputValue _ pin value, _, b => setBit8 b pin value
  | .SetPullupDown port pin pull active, reg, b =>
    if reg = PCAL6524_REG_PULL_SEL_PORT_0 + port then setBit8 b pin pull
    else setBit8 b pin active
  | _, _, b => b

/-- The last read among the events; none when they hold no read. -/
def lastRead? : List Event → Option Event
  | [] => none
  | e :: rest =>
    match lastRead? rest with
    | some r => some r
    | none => if e.isRead then some e else none

/-- Every write among the events `evs` of a call is preceded, within `evs`, by a
read, the last read before it is a read of the same register on the same device
that reported `HAL_OK`, and the byte written is `F reg b`, `b` being the byte
that read delivered. -/
def WritesFollowRead (F : Nat → Nat → Nat) (evs : List Event) : Prop :=
  ∀ pre dv reg x st post, evs = pre ++ Event.write dv reg x st :: post →
    ∃ b, lastRead? pre = some (Event.read dv reg HAL_OK b) ∧ x = F reg b

/-- The bus state after attempt number `k` (from 0) of a read phase of register
`reg` that starts in `bus`. -/
def busAfterRead {σ : Type} (T : Transport σ) (dev reg : Nat) (bus : σ) (k : Nat) : σ :=
  (T.HAL_I2C_Mem_Read (attemptBus T dev reg bus k) dev reg).2.2

/-- The events of the first `k` attempts of a read phase of register `reg` that
starts in `bus`, when each of them goes on to the inter-attempt delay: for each
attempt the read, with the status it reported and the byte it left in the
buffer, then `HAL_Delay(PCAL6524_I2C_ATTEMPT_DELAY)`. -/
def failedReads {σ : Type} (T : Transport σ) (dev reg : Nat) (bus : σ) : Nat → List Event
  | 0 => []
  | k + 1 =>
    failedReads T dev reg bus k ++
      [Event.read dev reg (attemptStatus T dev reg bus k) (attemptByte T dev reg bus k),
       Event.delay PCAL6524_I2C_ATTEMPT_DELAY]

/-- The getter `get` (output cell and world to return code, output and world)
reads the raw byte of register `reg`: whenever attempts 0 to `k - 1` of the read
report a transient status and attempt `k` reports `HAL_OK`, for a
`k ≤ PCAL6524_I2C_MAX_ATTEMPTS`, the getter returns `PCAL6524_SUCCESS`, its
output is the byte attempt `k` delivered, and its events are the `k` failed
reads, each followed by the delay, and then the one successful read; and the
getter returns `PCAL6524_SUCCESS` only in that case. -/
def ReadsRawByte {σ : Type} (T : Transport σ) (dev reg : Nat)
    (get : Nat → World σ → Nat × Nat × World σ) : Prop :=
  (∀ k ≤ PCAL6524_I2C_MAX_ATTEMPTS, ∀ out0 w,
    (∀ j < k, attemptStatus T dev reg w.bus j ≠ HAL_OK ∧
      attemptStatus T dev reg w.bus j ≠ HAL_ERROR) →
    attemptStatus T dev reg w.bus k = HAL_OK →
    get out0 w =
      (PCAL6524_SUCCESS, attemptByte T dev reg w.bus k,
        ⟨busAfterRead T dev reg w.bus k,
          w.trace ++ (failedReads T dev reg w.bus k ++
            [Event.read dev reg HAL_OK (attemptByte T dev reg w.bus k)])⟩)) ∧
  ∀ out0 w, (get out0 w).1 = PCAL6524_SUCCESS →
    ∃ k ≤ PCAL6524_I2C_MAX_ATTEMPTS,
      (∀ j < k, attemptStatus T dev reg w.bus j ≠ HAL_OK ∧
        attemptStatus T dev reg w.bus j ≠ HAL_ERROR) ∧
      attemptStatus T dev reg w.bus k = HAL_OK

/-! ## Byte-level facts -/

theorem setBit8_target_table : ∀ b < 256, ∀ pin < 8, ∀ v < 2,
    (setBit8 b pin v).testBit pin = (v == 1) := by
  decide!

theorem setBit8_frame_pin0 : ∀ b < 256, ∀ v < 2, ∀ i < 8,
    i ≠ 0 → (setBit8 b 0 v).testBit i = b.testBit i := by
  decide!

theorem setBit8_frame_pin1 : ∀ b < 256, ∀ v < 2, ∀ i < 8,
    i ≠ 1 → (setBit8 b 1 v).testBit i = b.testBit i := by
  decide!

theorem setBit8_frame_pin2 : ∀ b < 256, ∀ v < 2, ∀ i < 8,
    i ≠ 2 → (setBit8 b 2 v).testBit i = b.testBit i := by
  decide!

theorem setBit8_frame_pin3 : ∀ b < 256, ∀ v < 2, ∀ i < 8,
    i ≠ 3 → (setBit8 b 3 v).testBit i = b.testBit i := by
  decide!

theorem setBit8_frame_pin4 : ∀ b < 256, ∀ v < 2, ∀ i < 8,
    i ≠ 4 → (setBit8 b 4 v).testBit i = b.testBit i := by
  decide!

theorem setBit8_frame_pin5 : ∀ b < 256, ∀ v < 2, ∀ i < 8,
    i ≠ 5 → (setBit8 b 5 v).testBit i = b.testBit i := by
  decide!

theorem setBit8_frame_pin6 : ∀ b < 256, ∀ v < 2, ∀ i < 8,
    i ≠ 6 → (setBit8 b 6 v).testBit i = b.testBit i := by
  decide!

theorem setBit8_frame_pin7 : ∀ b < 256, ∀ v < 2, ∀ i < 8,
    i ≠ 7 → (setBit8 b 7 v).testBit i = b.testBit i := by
  decide!

theorem setBit8_frame_table : ∀ b < 256, ∀ pin < 8, ∀ v < 2, ∀ i < 8,
    i ≠ pin → (setBit8 b pin v).testBit i = b.testBit i := by
  intro b hb pin hpin
  interval_cases pin
  · exact setBit8_frame_pin0 b hb
  · exact setBit8_frame_pin1 b hb
  · exact setBit8_frame_pin2 b hb
  · exact setBit8_frame_pin3 b hb
  · exact setBit8_frame_pin4 b hb
  · exact setBit8_frame_pin5 b hb
  · exact setBit8_frame_pin6 b hb
  · exact setBit8_frame_pin7 b hb

theorem testBit_mod_256 (b i : Nat) (hi : i < 8) : (b % 256).testBit i = b.testBit i := by
  have h := Nat.testBit_mod_two_pow b 8 i
  simpa [hi] using h

theorem setInOut_regFile (device : pcal6524_Device_t) (s : Nat → Nat) (tr : List Event)
    (port pin io : Nat) (hport : port ≤ 2) (hpin : pin ≤ 7) (hio : io ≤ 1) :
    PCAL6524_SetInOut regFile device port pin io ⟨s, tr⟩ =
      (PCAL6524_SUCCESS,
        ⟨Function.update s (PCAL6524_REG_CONF_PORT_0 + port)
            (setBit8 (s (PCAL6524_REG_CONF_PORT_0 + port) % 256) pin io),
          tr ++ [Event.read (devAddress device) (PCAL6524_REG_CONF_PORT_0 + port) HAL_OK
                  (s (PCAL6524_REG_CONF_PORT_0 + port) % 256),
                 Event.write (devAddress device) (PCAL6524_REG_CONF_PORT_0 + port)
                  (setBit8 (s (PCAL6524_REG_CONF_PORT_0 + port) % 256) pin io) HAL_OK]⟩) := by
  interval_cases port <;>
    simp [PCAL6524_SetInOut, hpin, hio, retryLoop, switchRead, switchWrite, readStmt, writeStmt,
      storeU8, PCAL6524_ReadI2C, PCAL6524_WriteI2C, regFile, setBit8]

/-! ## Input validation -/

/-- C2: a call of a function that takes a port whose port is above 2, or whose
pin is above 7, or one of whose enum-valued arguments is out of its range,
returns `PCAL6524_INPUTOUTOFRANGE` and leaves the world as it was: the bus
state is untouched and the trace has no new read, write or delay. -/
theorem out_of_range_rejected_without_bus_activity {σ : Type} (T : Transport σ)
    (device : pcal6524_Device_t) (op : Op) (w : World σ) (hbad : ¬ op.inRange) :
    op.run T device w = (PCAL6524_INPUTOUTOFRANGE, w) := by
  cases op <;> simp only [Op.inRange, not_and_or, not_le, not_true_eq_false] at hbad <;>
    first
    | exact hbad.elim
    | simp only [Op.run, PCAL6524_SetInOut, PCAL6524_GetInOutConfig, PCAL6524_SetInterrupt,
        PCAL6524_GetInterruptConfig, PCAL6524_SetPullupDown, PCAL6524_GetPullupDownConfig,
        PCAL6524_SetPolarity, PCAL6524_GetPolarityConfig, PCAL6524_SetInterruptTrigger,
        PCAL6524_GetInterruptTriggerConfig, PCAL6524_GetPinValue, PCAL6524_OutputValue,
        PCAL6524_GetPortPinValues, PCAL6524_GetInterrupts, gt_iff_lt, hbad, if_true]

/-! ## Every function is its sequence of phases -/

theorem switchRead_0 {σ : Type} (T : Transport σ) (device : pcal6524_Device_t)
    (store : Nat → Nat → Nat) (r0 r1 r2 : Nat) :
    switchRead T device store r0 r1 r2 0 = fun _ data w => readStmt T device store r0 data w :=
  rfl

theorem switchRead_1 {σ : Type} (T : Transport σ) (device : pcal6524_Device_t)
    (store : Nat → Nat → Nat) (r0 r1 r2 : Nat) :
    switchRead T device store r0 r1 r2 1 = fun _ data w => readStmt T device store r1 data w :=
  rfl

theorem switchRead_2 {σ : Type} (T : Transport σ) (device : pcal6524_Device_t)
    (store : Nat → Nat → Nat) (r0 r1 r2 : Nat) :
    switchRead T device store r0 r1 r2 2 = fun _ data w => readStmt T device store r2 data w :=
  rfl

theorem switchWrite_0 {σ : Type} (T : Transport σ) (device : pcal6524_Device_t)
    (r0 r1 r2 : Nat) :
    switchWrite T device r0 r1 r2 0 = fun _ data w => writeStmt T device r0 data w :=
  rfl

theorem switchWrite_1 {σ : Type} (T : Transport σ) (device : pcal6524_Device_t)
    (r0 r1 r2 : Nat) :
    switchWrite T device r0 r1 r2 1 = fun _ data w => writeStmt T device r1 data w :=
  rfl

theorem switchWrite_2 {σ : Type} (T : Transport σ) (device : pcal6524_Device_t)
    (r0 r1 r2 : Nat) :
    switchWrite T device r0 r1 r2 2 = fun _ data w => writeStmt T device r2 data w :=
  rfl

theorem switchReadEdge_0 {σ : Type} (T : Transport σ) (device : pcal6524_Device_t)
    (store : Nat → Nat → Nat) (pin : Nat) :
    switchReadEdge T device store 0 pin = fun _ data w =>
      readStmt T device store (if pin < 4 then PCAL6524_REG_INT_EGDE_PORT_0A
        else PCAL6524_REG_INT_EGDE_PORT_0B) data w := by
  funext _ data w; by_cases hp : pin < 4 <;> simp [switchReadEdge, hp]

theorem switchReadEdge_1 {σ : Type} (T : Transport σ) (device : pcal6524_Device_t)
    (store : Nat → Nat → Nat) (pin : Nat) :
    switchReadEdge T device store 1 pin = fun _ data w =>
      readStmt T device store (if pin < 4 then PCAL6524_REG_INT_EGDE_PORT_1A
        else PCAL6524_REG_INT_EGDE_PORT_1B) data w := by
  funext _ data w; by_cases hp : pin < 4 <;> simp [switchReadEdge, hp]

theorem switchReadEdge_2 {σ : Type} (T : Transport σ) (device : pcal6524_Device_t)
    (store : Nat → Nat → Nat) (pin : Nat) :
    switchReadEdge T device store 2 pin = fun _ data w =>
      readStmt T device store (if pin < 4 then PCAL6524_REG_INT_EGDE_PORT_2A
        else PCAL6524_REG_INT_EGDE_PORT_2B) data w := by
  funext _ data w; by_cases hp : pin < 4 <;> simp [switchReadEdge, hp]

theorem switchWriteEdge_0 {σ : Type} (T : Transport σ) (device : pcal6524_Device_t)
    (pin : Nat) :
    switchWriteEdge T device 0 pin = fun _ data w =>
      writeStmt T device (if pin < 4 then PCAL6524_REG_INT_EGDE_PORT_0A
        else PCAL6524_REG_INT_EGDE_PORT_0B) data w := by
  funext _ data w; by_cases hp : pin < 4 <;> simp [switchWriteEdge, hp]

theorem switchWriteEdge_1 {σ : Type} (T : Transport σ) (device : pcal6524_Device_t)
    (pin : Nat) :
    switchWriteEdge T device 1 pin = fun _ data w =>
      writeStmt T device (if pin < 4 then PCAL6524_REG_INT_EGDE_PORT_1A
        else PCAL6524_REG_INT_EGDE_PORT_1B) data w := by
  funext _ data w; by_cases hp : pin < 4 <;> simp [switchWriteEdge, hp]

theorem switchWriteEdge_2 {σ : Type} (T : Transport σ) (device : pcal6524_Device_t)
    (pin : Nat) :
    switchWriteEdge T device 2 pin = fun _ data w =>
      writeStmt T device (if pin < 4 then PCAL6524_REG_INT_EGDE_PORT_2A
        else PCAL6524_REG_INT_EGDE_PORT_2B) data w := by
  funext _ data w; by_cases hp : pin < 4 <;> simp [switchWriteEdge, hp]

set_option maxHeartbeats 4000000 in
theorem run_eq_runPhases {σ : Type} (T : Transport σ) (device : pcal6524_Device_t) (op : Op)
    (w : World σ) (h : op.inRange) :
    op.run T device w = runPhases T device op.phases 0 op.data0 w := by
  cases op with
  | SetInOut port pin inout =>
    obtain ⟨hport, hpin, hv⟩ := h
    interval_cases port <;> simp [Op.run, PCAL6524_SetInOut, PCAL6524_GetInOutConfig, PCAL6524_SetInterrupt,
      PCAL6524_GetInterruptConfig, PCAL6524_SetPullupDown, PCAL6524_GetPullupDownConfig,
      PCAL6524_SetPolarity, PCAL6524_GetPolarityConfig, PCAL6524_SetInterruptTrigger,
      PCAL6524_GetInterruptTriggerConfig, PCAL6524_GetPinValue, PCAL6524_OutputValue,
      PCAL6524_GetPortPinValues, PCAL6524_GetInterrupts, PCAL6524_ClearAllInterrupts,
      Op.phases, Op.data0, runPhases, switchRead_0, switchRead_1, switchRead_2, switchWrite_0,
      switchWrite_1, switchWrite_2, switchReadEdge_0, switchReadEdge_1, switchReadEdge_2,
      switchWriteEdge_0, switchWriteEdge_1, switchWriteEdge_2,
      Phase.body, Phase.pre, Phase.check, setBit8, maskByte, edgeByte, edgeReg, hpin, hv]
  | GetInOutConfig port ios0 =>
    have hport : port ≤ 2 := h
    interval_cases port <;> simp [Op.run, PCAL6524_SetInOut, PCAL6524_GetInOutConfig, PCAL6524_SetInterrupt,
      PCAL6524_GetInterruptConfig, PCAL6524_SetPullupDown, PCAL6524_GetPullupDownConfig,
      PCAL6524_SetPolarity, PCAL6524_GetPolarityConfig, PCAL6524_SetInterruptTrigger,
      PCAL6524_GetInterruptTriggerConfig, PCAL6524_GetPinValue, PCAL6524_OutputValue,
      PCAL6524_GetPortPinValues, PCAL6524_GetInterrupts, PCAL6524_ClearAllInterrupts,
      Op.phases, Op.data0, runPhases, switchRead_0, switchRead_1, switchRead_2, switchWrite_0,
      switchWrite_1, switchWrite_2, switchReadEdge_0, switchReadEdge_1, switchReadEdge_2,
      switchWriteEdge_0, switchWriteEdge_1, switchWriteEdge_2,
      Phase.body, Phase.pre, Phase.check, setBit8, maskByte, edgeByte, edgeReg] <;>
      (repeat' split) <;> simp_all
  | SetInterrupt port pin intr =>
    obtain ⟨hport, hpin, hv⟩ := h
    interval_cases port <;> simp [Op.run, PCAL6524_SetInOut, PCAL6524_GetInOutConfig, PCAL6524_SetInterrupt,
      PCAL6524_GetInterruptConfig, PCAL6524_SetPullupDown, PCAL6524_GetPullupDownConfig,
      PCAL6524_SetPolarity, PCAL6524_GetPolarityConfig, PCAL6524_SetInterruptTrigger,
      PCAL6524_GetInterruptTriggerConfig, PCAL6524_GetPinValue, PCAL6524_OutputValue,
      PCAL6524_GetPortPinValues, PCAL6524_GetInterrupts, PCAL6524_ClearAllInterrupts,
      Op.phases, Op.data0, runPhases, switchRead_0, switchRead_1, switchRead_2, switchWrite_0,
      switchWrite_1, switchWrite_2, switchReadEdge_0, switchReadEdge_1, switchReadEdge_2,
      switchWriteEdge_0, switchWriteEdge_1, switchWriteEdge_2,
      Phase.body, Phase.pre, Phase.check, setBit8, maskByte, edgeByte, edgeReg, hpin, hv]
  | GetInterruptConfig port intr0 =>
    have hport : port ≤ 2 := h
    interval_cases port <;> simp [Op.run, PCAL6524_SetInOut, PCAL6524_GetInOutConfig, PCAL6524_SetInterrupt,
      PCAL6524_GetInterruptConfig, PCAL6524_SetPullupDown, PCAL6524_GetPullupDownConfig,
      PCAL6524_SetPolarity, PCAL6524_GetPolarityConfig, PCAL6524_SetInterruptTrigger,
      PCAL6524_GetInterruptTriggerConfig, PCAL6524_GetPinValue, PCAL6524_OutputValue,
      PCAL6524_GetPortPinValues, PCAL6524_GetInterrupts, PCAL6524_ClearAllInterrupts,
      Op.phases, Op.data0, runPhases, switchRead_0, switchRead_1, switchRead_2, switchWrite_0,
      switchWrite_1, switchWrite_2, switchReadEdge_0, switchReadEdge_1, switchReadEdge_2,
      switchWriteEdge_0, switchWriteEdge_1, switchWriteEdge_2,
      Phase.body, Phase.pre, Phase.check, setBit8, maskByte, edgeByte, edgeReg] <;>
      (repeat' split) <;> simp_all
  | SetPullupDown port pin pull active =>
    obtain ⟨hport, hpin, hv, hv2⟩ := h
    interval_cases port <;> simp [Op.run, PCAL6524_SetInOut, PCAL6524_GetInOutConfig, PCAL6524_SetInterrupt,
      PCAL6524_GetInterruptConfig, PCAL6524_SetPullupDown, PCAL6524_GetPullupDownConfig,
      PCAL6524_SetPolarity, PCAL6524_GetPolarityConfig, PCAL6524_SetInterruptTrigger,
      PCAL6524_GetInterruptTriggerConfig, PCAL6524_GetPinValue, PCAL6524_OutputValue,
      PCAL6524_GetPortPinValues, PCAL6524_GetInterrupts, PCAL6524_ClearAllInterrupts,
      Op.phases, Op.data0, runPhases, switchRead_0, switchRead_1, switchRead_2, switchWrite_0,
      switchWrite_1, switchWrite_2, switchReadEdge_0, switchReadEdge_1, switchReadEdge_2,
      switchWriteEdge_0, switchWriteEdge_1, switchWriteEdge_2,
      Phase.body, Phase.pre, Phase.check, setBit8, maskByte, edgeByte, edgeReg, hpin, hv, hv2]
  | GetPullupDownConfig port pull0 active0 =>
    have hport : port ≤ 2 := h
    interval_cases port <;> simp [Op.run, PCAL6524_SetInOut, PCAL6524_GetInOutConfig, PCAL6524_SetInterrupt,
      PCAL6524_GetInterruptConfig, PCAL6524_SetPullupDown, PCAL6524_GetPullupDownConfig,
      PCAL6524_SetPolarity, PCAL6524_GetPolarityConfig, PCAL6524_SetInterruptTrigger,
      PCAL6524_GetInterruptTriggerConfig, PCAL6524_GetPinValue, PCAL6524_OutputValue,
      PCAL6524_GetPortPinValues, PCAL6524_GetInterrupts, PCAL6524_ClearAllInterrupts,
      Op.phases, Op.data0, runPhases, switchRead_0, switchRead_1, switchRead_2, switchWrite_0,
      switchWrite_1, switchWrite_2, switchReadEdge_0, switchReadEdge_1, switchReadEdge_2,
      switchWriteEdge_0, switchWriteEdge_1, switchWriteEdge_2,
      Phase.body, Phase.pre, Phase.check, setBit8, maskByte, edgeByte, edgeReg] <;>
      (repeat' split) <;> simp_all
  | SetPolarity port pin pol =>
    obtain ⟨hport, hpin, hv⟩ := h
    interval_cases port <;> simp [Op.run, PCAL6524_SetInOut, PCAL6524_GetInOutConfig, PCAL6524_SetInterrupt,
      PCAL6524_GetInterruptConfig, PCAL6524_SetPullupDown, PCAL6524_GetPullupDownConfig,
      PCAL6524_SetPolarity, PCAL6524_GetPolarityConfig, PCAL6524_SetInterruptTrigger,
      PCAL6524_GetInterruptTriggerConfig, PCAL6524_GetPinValue, PCAL6524_OutputValue,
      PCAL6524_GetPortPinValues, PCAL6524_GetInterrupts, PCAL6524_ClearAllInterrupts,
      Op.phases, Op.data0, runPhases, switchRead_0, switchRead_1, switchRead_2, switchWrite_0,
      switchWrite_1, switchWrite_2, switchReadEdge_0, switchReadEdge_1, switchReadEdge_2,
      switchWriteEdge_0, switchWriteEdge_1, switchWriteEdge_2,
      Phase.body, Phase.pre, Phase.check, setBit8, maskByte, edgeByte, edgeReg, hpin, hv]
  | GetPolarityConfig port pol0 =>
    have hport : port ≤ 2 := h
    interval_cases port <;> simp [Op.run, PCAL6524_SetInOut, PCAL6524_GetInOutConfig, PCAL6524_SetInterrupt,
      PCAL6524_GetInterruptConfig, PCAL6524_SetPullupDown, PCAL6524_GetPullupDownConfig,
      PCAL6524_SetPolarity, PCAL6524_GetPolarityConfig, PCAL6524_SetInterruptTrigger,
      PCAL6524_GetInterruptTriggerConfig, PCAL6524_GetPinValue, PCAL6524_OutputValue,
      PCAL6524_GetPortPinValues, PCAL6524_GetInterrupts, PCAL6524_ClearAllInterrupts,
      Op.phases, Op.data0, runPhases, switchRead_0, switchRead_1, switchRead_2, switchWrite_0,
      switchWrite_1, switchWrite_2, switchReadEdge_0, switchReadEdge_1, switchReadEdge_2,
      switchWriteEdge_0, switchWriteEdge_1, switchWriteEdge_2,
      Phase.body, Phase.pre, Phase.check, setBit8, maskByte, edgeByte, edgeReg] <;>
      (repeat' split) <;> simp_all
  | SetInterruptTrigger port pin trig =>
    obtain ⟨hport, hpin, hv⟩ := h
    interval_cases port <;> by_cases hp : pin < 4 <;> simp [Op.run, PCAL6524_SetInOut, PCAL6524_GetInOutConfig, PCAL6524_SetInterrupt,
      PCAL6524_GetInterruptConfig, PCAL6524_SetPullupDown, PCAL6524_GetPullupDownConfig,
      PCAL6524_SetPolarity, PCAL6524_GetPolarityConfig, PCAL6524_SetInterruptTrigger,
      PCAL6524_GetInterruptTriggerConfig, PCAL6524_GetPinValue, PCAL6524_OutputValue,
      PCAL6524_GetPortPinValues, PCAL6524_GetInterrupts, PCAL6524_ClearAllInterrupts,
      Op.phases, Op.data0, runPhases, switchRead_0, switchRead_1, switchRead_2, switchWrite_0,
      switchWrite_1, switchWrite_2, switchReadEdge_0, switchReadEdge_1, switchReadEdge_2,
      switchWriteEdge_0, switchWriteEdge_1, switchWriteEdge_2,
      Phase.body, Phase.pre, Phase.check, setBit8, maskByte, edgeByte, edgeReg, hpin, hv, hp]
  | GetInterruptTriggerConfig port pin trig0 =>
    obtain ⟨hport, hpin⟩ := h
    have hpin : ¬ 7 < pin := by omega
    interval_cases port <;> by_cases hp : pin < 4 <;> simp [Op.run, PCAL6524_SetInOut, PCAL6524_GetInOutConfig, PCAL6524_SetInterrupt,
      PCAL6524_GetInterruptConfig, PCAL6524_SetPullupDown, PCAL6524_GetPullupDownConfig,
      PCAL6524_SetPolarity, PCAL6524_GetPolarityConfig, PCAL6524_SetInterruptTrigger,
      PCAL6524_GetInterruptTriggerConfig, PCAL6524_GetPinValue, PCAL6524_OutputValue,
      PCAL6524_GetPortPinValues, PCAL6524_GetInterrupts, PCAL6524_ClearAllInterrupts,
      Op.phases, Op.data0, runPhases, switchRead_0, switchRead_1, switchRead_2, switchWrite_0,
      switchWrite_1, switchWrite_2, switchReadEdge_0, switchReadEdge_1, switchReadEdge_2,
      switchWriteEdge_0, switchWriteEdge_1, switchWriteEdge_2,
      Phase.body, Phase.pre, Phase.check, setBit8, maskByte, edgeByte, edgeReg, hpin, hp] <;>
      (repeat' split) <;> simp_all
  | GetPinValue port pin value0 =>
    obtain ⟨hport, hpin⟩ := h
    have hpin : ¬ 7 < pin := by omega
    interval_cases port <;> simp [Op.run, PCAL6524_SetInOut, PCAL6524_GetInOutConfig, PCAL6524_SetInterrupt,
      PCAL6524_GetInterruptConfig, PCAL6524_SetPullupDown, PCAL6524_GetPullupDownConfig,
      PCAL6524_SetPolarity, PCAL6524_GetPolarityConfig, PCAL6524_SetInterruptTrigger,
      PCAL6524_GetInterruptTriggerConfig, PCAL6524_GetPinValue, PCAL6524_OutputValue,
      PCAL6524_GetPortPinValues, PCAL6524_GetInterrupts, PCAL6524_ClearAllInterrupts,
      Op.phases, Op.data0, runPhases, switchRead_0, switchRead_1, switchRead_2, switchWrite_0,
      switchWrite_1, switchWrite_2, switchReadEdge_0, switchReadEdge_1, switchReadEdge_2,
      switchWriteEdge_0, switchWriteEdge_1, switchWriteEdge_2,
      Phase.body, Phase.pre, Phase.check, setBit8, maskByte, edgeByte, edgeReg, hpin] <;>
      (repeat' split) <;> simp_all
  | OutputValue port pin value =>
    obtain ⟨hport, hpin, hv⟩ := h
    interval_cases port <;> simp [Op.run, PCAL6524_SetInOut, PCAL6524_GetInOutConfig, PCAL6524_SetInterrupt,
      PCAL6524_GetInterruptConfig, PCAL6524_SetPullupDown, PCAL6524_GetPullupDownConfig,
      PCAL6524_SetPolarity, PCAL6524_GetPolarityConfig, PCAL6524_SetInterruptTrigger,
      PCAL6524_GetInterruptTriggerConfig, PCAL6524_GetPinValue, PCAL6524_OutputValue,
      PCAL6524_GetPortPinValues, PCAL6524_GetInterrupts, PCAL6524_ClearAllInterrupts,
      Op.phases, Op.data0, runPhases, switchRead_0, switchRead_1, switchRead_2, switchWrite_0,
      switchWrite_1, switchWrite_2, switchReadEdge_0, switchReadEdge_1, switchReadEdge_2,
      switchWriteEdge_0, switchWriteEdge_1, switchWriteEdge_2,
      Phase.body, Phase.pre, Phase.check, setBit8, maskByte, edgeByte, edgeReg, hpin, hv]
  | GetPortPinValues port values0 =>
    have hport : port ≤ 2 := h
    interval_cases port <;> simp [Op.run, PCAL6524_SetInOut, PCAL6524_GetInOutConfig, PCAL6524_SetInterrupt,
      PCAL6524_GetInterruptConfig, PCAL6524_SetPullupDown, PCAL6524_GetPullupDownConfig,
      PCAL6524_SetPolarity, PCAL6524_GetPolarityConfig, PCAL6524_SetInterruptTrigger,
      PCAL6524_GetInterruptTriggerConfig, PCAL6524_GetPinValue, PCAL6524_OutputValue,
      PCAL6524_GetPortPinValues, PCAL6524_GetInterrupts, PCAL6524_ClearAllInterrupts,
      Op.phases, Op.data0, runPhases, switchRead_0, switchRead_1, switchRead_2, switchWrite_0,
      switchWrite_1, switchWrite_2, switchReadEdge_0, switchReadEdge_1, switchReadEdge_2,
      switchWriteEdge_0, switchWriteEdge_1, switchWriteEdge_2,
      Phase.body, Phase.pre, Phase.check, setBit8, maskByte, edgeByte, edgeReg] <;>
      (repeat' split) <;> simp_all
  | GetInterrupts port intr0 =>
    have hport : port ≤ 2 := h
    interval_cases port <;> simp [Op.run, PCAL6524_SetInOut, PCAL6524_GetInOutConfig, PCAL6524_SetInterrupt,
      PCAL6524_GetInterruptConfig, PCAL6524_SetPullupDown, PCAL6524_GetPullupDownConfig,
      PCAL6524_SetPolarity, PCAL6524_GetPolarityConfig, PCAL6524_SetInterruptTrigger,
      PCAL6524_GetInterruptTriggerConfig, PCAL6524_GetPinValue, PCAL6524_OutputValue,
      PCAL6524_GetPortPinValues, PCAL6524_GetInterrupts, PCAL6524_ClearAllInterrupts,
      Op.phases, Op.data0, runPhases, switchRead_0, switchRead_1, switchRead_2, switchWrite_0,
      switchWrite_1, switchWrite_2, switchReadEdge_0, switchReadEdge_1, switchReadEdge_2,
      switchWriteEdge_0, switchWriteEdge_1, switchWriteEdge_2,
      Phase.body, Phase.pre, Phase.check, setBit8, maskByte, edgeByte, edgeReg] <;>
      (repeat' split) <;> simp_all
  | ClearAllInterrupts => simp [Op.run, PCAL6524_SetInOut, PCAL6524_GetInOutConfig, PCAL6524_SetInterrupt,
      PCAL6524_GetInterruptConfig, PCAL6524_SetPullupDown, PCAL6524_GetPullupDownConfig,
      PCAL6524_SetPolarity, PCAL6524_GetPolarityConfig, PCAL6524_SetInterruptTrigger,
      PCAL6524_GetInterruptTriggerConfig, PCAL6524_GetPinValue, PCAL6524_OutputValue,
      PCAL6524_GetPortPinValues, PCAL6524_GetInterrupts, PCAL6524_ClearAllInterrupts,
      Op.phases, Op.data0, runPhases, switchRead_0, switchRead_1, switchRead_2, switchWrite_0,
      switchWrite_1, switchWrite_2, switchReadEdge_0, switchReadEdge_1, switchReadEdge_2,
      switchWriteEdge_0, switchWriteEdge_1, switchWriteEdge_2,
      Phase.body, Phase.pre, Phase.check, setBit8, maskByte, edgeByte, edgeReg]

/-! ## The retry loop

`R e t d` relates the event of one call of the loop body to the status `t` the
call returned and to the content `d` of the data cell after it; `I` is an
invariant of the data cell. -/

theorem retryLoop_shape {σ : Type} (T : Transport σ)
    (body : Nat → Nat → World σ → Nat × Nat × World σ)
    (R : Event → Nat → Nat → Prop) (I : Nat → Prop)
    (hb : ∀ st d w, I d → ∃ e, (body st d w).2.2.trace = w.trace ++ [e] ∧
      R e (body st d w).1 (body st d w).2.1 ∧ I (body st d w).2.1) :
    ∀ (n st d : Nat) (w : World σ), I d →
      ∃ evs, (retryLoop T body n st d w).2.2.2.trace = w.trace ++ evs ∧
        I (retryLoop T body n st d w).2.2.1 ∧
        (∀ e ∈ evs, e = Event.delay PCAL6524_I2C_ATTEMPT_DELAY ∨ ∃ t d1, R e t d1) ∧
        ((retryLoop T body n st d w).1 = none → (retryLoop T body n st d w).2.1 = HAL_OK →
          0 < n → ∃ pre e, evs = pre ++ [e] ∧ R e HAL_OK (retryLoop T body n st d w).2.2.1) := by
  intro n
  induction n with
  | zero => intro st d w hd; exact ⟨[], by simp [retryLoop], by simpa [retryLoop] using hd,
      by simp, by simp⟩
  | succ n ih =>
    intro st d w hd
    obtain ⟨e, htr, hR, hI⟩ := hb st d w hd
    simp only [retryLoop]
    split_ifs with hok herr
    · refine ⟨[e], htr, hI, ?_, ?_⟩
      · intro e1 he1
        rw [List.mem_singleton] at he1
        exact Or.inr ⟨_, _, he1 ▸ hR⟩
      · intro _ _ _
        exact ⟨[], e, by simp, hok ▸ hR⟩
    · refine ⟨[e], htr, hI, ?_, ?_⟩
      · intro e1 he1
        rw [List.mem_singleton] at he1
        exact Or.inr ⟨_, _, he1 ▸ hR⟩
      · intro h; simp at h
    · obtain ⟨evs, htr1, hI1, hall, hlast⟩ := ih (body st d w).1 (body st d w).2.1
        (HAL_Delay T PCAL6524_I2C_ATTEMPT_DELAY (body st d w).2.2) hI
      refine ⟨e :: Event.delay PCAL6524_I2C_ATTEMPT_DELAY :: evs, ?_, hI1, ?_, ?_⟩
      · rw [htr1]; simp [HAL_Delay, htr]
      · intro e1 he1
        simp only [List.mem_cons] at he1
        rcases he1 with rfl | rfl | he1
        · exact Or.inr ⟨_, _, hR⟩
        · exact Or.inl rfl
        · exact hall e1 he1
      · intro h1 h2 _
        rcases Nat.eq_zero_or_pos n with hn | hn
        · subst hn
          simp only [retryLoop] at h2
          exact absurd h2 hok
        · obtain ⟨pre, e2, hevs, hd2⟩ := hlast h1 h2 hn
          exact ⟨e :: Event.delay PCAL6524_I2C_ATTEMPT_DELAY :: pre, e2, by simp [hevs], hd2⟩

theorem retryLoop_hard {σ : Type} (T : Transport σ)
    (body : Nat → Nat → World σ → Nat × Nat × World σ)
    (hb : ∀ st d w, ∃ e, (body st d w).2.2.trace = w.trace ++ [e] ∧
      e.status? = some (body st d w).1) :
    ∀ (n st d : Nat) (w : World σ),
      ∃ evs, (retryLoop T body n st d w).2.2.2.trace = w.trace ++ evs ∧
        ((retryLoop T body n st d w).1 = none → NoHard evs) ∧
        (∀ c, (retryLoop T body n st d w).1 = some c → c = HAL_ERROR ∧
          ∃ pre e, evs = pre ++ [e] ∧ NoHard pre ∧ e.status? = some HAL_ERROR) := by
  intro n
  induction n with
  | zero =>
    intro st d w
    exact ⟨[], by simp [retryLoop], fun _ e he => by simp at he, by simp [retryLoop]⟩
  | succ n ih =>
    intro st d w
    obtain ⟨e, htr, hst⟩ := hb st d w
    simp only [retryLoop]
    split_ifs with hok herr
    · refine ⟨[e], htr, ?_, ?_⟩
      · intro _ e1 he1
        rw [List.mem_singleton] at he1
        rw [he1, hst, hok]; simp
      · intro c hc; simp at hc
    · refine ⟨[e], htr, ?_, ?_⟩
      · intro h; simp at h
      · intro c hc
        simp only [Option.some.injEq] at hc
        exact ⟨hc.symm, [], e, by simp, fun _ h => by simp at h, by rw [hst, herr]⟩
    · obtain ⟨evs, htr1, hnone, hsome⟩ := ih (body st d w).1 (body st d w).2.1
        (HAL_Delay T PCAL6524_I2C_ATTEMPT_DELAY (body st d w).2.2)
      have hhead : NoHard [e, Event.delay PCAL6524_I2C_ATTEMPT_DELAY] := by
        intro e1 he1
        simp only [List.mem_cons, List.mem_singleton, List.not_mem_nil, or_false] at he1
        rcases he1 with rfl | rfl
        · rw [hst]; simpa using herr
        · simp [Event.status?]
      refine ⟨e :: Event.delay PCAL6524_I2C_ATTEMPT_DELAY :: evs, ?_, ?_, ?_⟩
      · rw [htr1]; simp [HAL_Delay, htr]
      · intro h1 e1 he1
        simp only [List.mem_cons] at he1
        rcases he1 with rfl | rfl | he1
        · exact hhead _ (by simp)
        · exact hhead _ (by simp)
        · exact hnone h1 e1 he1
      · intro c hc
        obtain ⟨hc1, pre, e2, hevs, hpre, he2⟩ := hsome c hc
        refine ⟨hc1, e :: Event.delay PCAL6524_I2C_ATTEMPT_DELAY :: pre, e2, by simp [hevs], ?_, he2⟩
        intro e1 he1
        simp only [List.mem_cons] at he1
        rcases he1 with rfl | rfl | he1
        · exact hhead _ (by simp)
        · exact hhead _ (by simp)
        · exact hpre e1 he1

theorem Phase.body_call {σ : Type} (T : Transport σ) (device : pcal6524_Device_t) (p : Phase)
    (st d : Nat) (w : World σ) :
    ∃ e, (p.body T device st d w).2.2.trace = w.trace ++ [e] ∧
      e.status? = some (p.body T device st d w).1 := by
  cases p with
  | read store reg f =>
    exact ⟨_, rfl, rfl⟩
  | write reg f check =>
    exact ⟨_, rfl, rfl⟩

theorem runPhases_hard {σ : Type} (T : Transport σ) (device : pcal6524_Device_t) :
    ∀ (ps : List Phase) (st d : Nat) (w : World σ),
      ∃ evs, (runPhases T device ps st d w).2.trace = w.trace ++ evs ∧
        (NoHard evs ∨ ((runPhases T device ps st d w).1 = HAL_ERROR ∧
          ∃ pre e, evs = pre ++ [e] ∧ NoHard pre ∧ e.status? = some HAL_ERROR)) := by
  intro ps
  induction ps with
  | nil =>
    intro st d w
    exact ⟨[], by simp [runPhases], Or.inl (fun e he => by simp at he)⟩
  | cons p ps ih =>
    intro st d w
    obtain ⟨evs1, htr1, hnone, hsome⟩ := retryLoop_hard T (p.body T device)
      (Phase.body_call T device p) (PCAL6524_I2C_MAX_ATTEMPTS + 1) st (p.pre d) w
    simp only [runPhases]
    rcases hr : retryLoop T (p.body T device) (PCAL6524_I2C_MAX_ATTEMPTS + 1) st (p.pre d) w
      with ⟨ret, st1, d1, w1⟩
    rw [hr] at htr1 hnone hsome
    cases ret with
    | some c =>
      obtain ⟨hc, hrest⟩ := hsome c rfl
      exact ⟨evs1, htr1, Or.inr ⟨hc, hrest⟩⟩
    | none =>
      have hclean := hnone rfl
      dsimp only
      split_ifs with hcheck
      · exact ⟨evs1, htr1, Or.inl hclean⟩
      · obtain ⟨evs2, htr2, hout⟩ := ih st1 d1 w1
        refine ⟨evs1 ++ evs2, ?_, ?_⟩
        · rw [htr2]; simp only at htr1; rw [htr1, List.append_assoc]
        · rcases hout with h2 | ⟨hcode, pre, e, hevs, hpre, he⟩
          · left
            intro e he
            rcases List.mem_append.mp he with h | h
            · exact hclean e h
            · exact h2 e h
          · right
            refine ⟨hcode, evs1 ++ pre, e, by simp [hevs], ?_, he⟩
            intro e1 he1
            rcases List.mem_append.mp he1 with h | h
            · exact hclean e1 h
            · exact hpre e1 h

theorem last_or_mem_of_concat_eq {α : Type} (pre1 pre : List α) (e1 e : α) (post : List α)
    (h : pre1 ++ [e1] = pre ++ e :: post) : post = [] ∨ e ∈ pre1 := by
  rcases List.eq_nil_or_concat post with hp | ⟨post1, z, hp⟩
  · exact Or.inl hp
  · right
    subst hp
    have h2 : pre1 ++ [e1] = (pre ++ e :: post1) ++ [z] := by simpa using h
    have h3 := List.append_inj_left' h2 rfl
    rw [h3]; simp

/-- C8: in a call with arguments in range, over any transport, a bus transaction
that reports `HAL_ERROR` is the last event of the call (no read, write or delay
follows it, in whatever phase and after however many transient failures it
occurs) and the call returns `HAL_ERROR`. -/
theorem hard_failure_stops_immediately {σ : Type} (T : Transport σ)
    (device : pcal6524_Device_t) (op : Op) (w : World σ) (h : op.inRange) :
    ∃ evs, (op.run T device w).2.trace = w.trace ++ evs ∧
      ∀ pre e post, evs = pre ++ e :: post → e.status? = some HAL_ERROR →
        post = [] ∧ (op.run T device w).1 = HAL_ERROR := by
  rw [run_eq_runPhases T device op w h]
  obtain ⟨evs, htr, hout⟩ := runPhases_hard T device op.phases 0 op.data0 w
  refine ⟨evs, htr, ?_⟩
  intro pre e post hevs he
  rcases hout with hclean | ⟨hcode, pre1, e1, hevs1, hpre1, _⟩
  · exact absurd he (hclean e (by rw [hevs]; simp))
  · rcases last_or_mem_of_concat_eq pre1 pre e1 e post (hevs1 ▸ hevs) with hp | hmem
    · exact ⟨hp, hcode⟩
    · exact absurd he (hpre1 e hmem)

/-! ## Exhausted retries in the first phase -/

theorem retryLoop_read_all_transient {σ : Type} (T : Transport σ) (device : pcal6524_Device_t)
    (store : Nat → Nat → Nat) (reg st d : Nat) (w : World σ)
    (htrans : ∀ k < PCAL6524_I2C_MAX_ATTEMPTS + 1,
      attemptStatus T (devAddress device) reg w.bus k ≠ HAL_OK ∧
      attemptStatus T (devAddress device) reg w.bus k ≠ HAL_ERROR) :
    (retryLoop T (fun _ data w => readStmt T device store reg data w)
        (PCAL6524_I2C_MAX_ATTEMPTS + 1) st d w).1 = none ∧
    (retryLoop T (fun _ data w => readStmt T device store reg data w)
        (PCAL6524_I2C_MAX_ATTEMPTS + 1) st d w).2.1
      = attemptStatus T (devAddress device) reg w.bus 3 ∧
    (retryLoop T (fun _ data w => readStmt T device store reg data w)
        (PCAL6524_I2C_MAX_ATTEMPTS + 1) st d w).2.2.2
      = ⟨attemptBus T (devAddress device) reg w.bus 4,
         w.trace ++
          [Event.read (devAddress device) reg (attemptStatus T (devAddress device) reg w.bus 0)
             (attemptByte T (devAddress device) reg w.bus 0),
           Event.delay PCAL6524_I2C_ATTEMPT_DELAY,
           Event.read (devAddress device) reg (attemptStatus T (devAddress device) reg w.bus 1)
             (attemptByte T (devAddress device) reg w.bus 1),
           Event.delay PCAL6524_I2C_ATTEMPT_DELAY,
           Event.read (devAddress device) reg (attemptStatus T (devAddress device) reg w.bus 2)
             (attemptByte T (devAddress device) reg w.bus 2),
           Event.delay PCAL6524_I2C_ATTEMPT_DELAY,
           Event.read (devAddress device) reg (attemptStatus T (devAddress device) reg w.bus 3)
             (attemptByte T (devAddress device) reg w.bus 3),
           Event.delay PCAL6524_I2C_ATTEMPT_DELAY]⟩ := by
  have h0 := htrans 0 (by decide)
  have h1 := htrans 1 (by decide)
  have h2 := htrans 2 (by decide)
  have h3 := htrans 3 (by decide)
  simp only [attemptStatus, attemptBus] at h0 h1 h2 h3
  simp [retryLoop, readStmt, PCAL6524_ReadI2C, HAL_Delay, attemptStatus, attemptBus, attemptByte,
    h0, h1, h2, h3]

theorem Op.phases_head_read (op : Op) (hport : op.takesPort = true) :
    ∃ store f rest, op.phases = Phase.read store op.firstReg f :: rest := by
  cases op <;> first
    | exact ⟨_, _, _, rfl⟩
    | simp [Op.takesPort] at hport

/-- C7: in a call of a function that takes a port, with arguments in range, if
each of the `PCAL6524_I2C_MAX_ATTEMPTS + 1 = 4` attempts of the first bus phase
reports a transient status (neither `HAL_OK` nor `HAL_ERROR`), then the events
of the call are exactly four reads of the register of that phase, each followed
by a delay of `PCAL6524_I2C_ATTEMPT_DELAY` (so a delay lies between every two
consecutive attempts), no later phase is started, and the call returns the
status of the fourth attempt, which is not `PCAL6524_SUCCESS`. -/
theorem transient_first_phase_exhausts {σ : Type} (T : Transport σ)
    (device : pcal6524_Device_t) (op : Op) (w : World σ) (hport : op.takesPort = true)
    (h : op.inRange)
    (htrans : ∀ k < PCAL6524_I2C_MAX_ATTEMPTS + 1,
      attemptStatus T (devAddress device) op.firstReg w.bus k ≠ HAL_OK ∧
      attemptStatus T (devAddress device) op.firstReg w.bus k ≠ HAL_ERROR) :
    op.run T device w =
      (attemptStatus T (devAddress device) op.firstReg w.bus PCAL6524_I2C_MAX_ATTEMPTS,
        ⟨attemptBus T (devAddress device) op.firstReg w.bus (PCAL6524_I2C_MAX_ATTEMPTS + 1),
         w.trace ++
          [Event.read (devAddress device) op.firstReg
             (attemptStatus T (devAddress device) op.firstReg w.bus 0)
             (attemptByte T (devAddress device) op.firstReg w.bus 0),
           Event.delay PCAL6524_I2C_ATTEMPT_DELAY,
           Event.read (devAddress device) op.firstReg
             (attemptStatus T (devAddress device) op.firstReg w.bus 1)
             (attemptByte T (devAddress device) op.firstReg w.bus 1),
           Event.delay PCAL6524_I2C_ATTEMPT_DELAY,
           Event.read (devAddress device) op.firstReg
             (attemptStatus T (devAddress device) op.firstReg w.bus 2)
             (attemptByte T (devAddress device) op.firstReg w.bus 2),
           Event.delay PCAL6524_I2C_ATTEMPT_DELAY,
           Event.read (devAddress device) op.firstReg
             (attemptStatus T (devAddress device) op.firstReg w.bus 3)
             (attemptByte T (devAddress device) op.firstReg w.bus 3),
           Event.delay PCAL6524_I2C_ATTEMPT_DELAY]⟩) ∧
      (op.run T device w).1 ≠ PCAL6524_SUCCESS := by
  obtain ⟨store, f, rest, hph⟩ := Op.phases_head_read op hport
  obtain ⟨h1, h2, h3⟩ := retryLoop_read_all_transient T device store op.firstReg 0
    (f op.data0) w htrans
  have hne : attemptStatus T (devAddress device) op.firstReg w.bus 3 ≠ HAL_OK :=
    (htrans 3 (by decide)).1
  have hrun : op.run T device w =
      (attemptStatus T (devAddress device) op.firstReg w.bus 3,
        (retryLoop T (fun _ data w => readStmt T device store op.firstReg data w)
          (PCAL6524_I2C_MAX_ATTEMPTS + 1) 0 (f op.data0) w).2.2.2) := by
    rw [run_eq_runPhases T device op w h, hph]
    simp only [runPhases, Phase.body, Phase.pre, Phase.check]
    rcases hr : retryLoop T (fun _ data w => readStmt T device store op.firstReg data w)
      (PCAL6524_I2C_MAX_ATTEMPTS + 1) 0 (f op.data0) w with ⟨ret, st1, d1, w1⟩
    rw [hr] at h1 h2
    simp only at h1 h2
    subst h1 h2
    have hpos : attemptStatus T (devAddress device) op.firstReg w.bus 3 > HAL_OK :=
      Nat.pos_of_ne_zero hne
    simp [hpos]
  rw [hrun, h3]
  exact ⟨rfl, hne⟩

/-! ## Read-modify-write -/

theorem readStmt_call {σ : Type} (T : Transport σ) (device : pcal6524_Device_t) (reg : Nat)
    (st d : Nat) (w : World σ) (_h : True) :
    ∃ e, ((fun (_ : Nat) data w => readStmt T device storeU8 reg data w) st d w).2.2.trace
        = w.trace ++ [e] ∧
      (fun e t d1 => e = Event.read (devAddress device) reg t d1 ∧ d1 < 256) e
        ((fun (_ : Nat) data w => readStmt T device storeU8 reg data w) st d w).1
        ((fun (_ : Nat) data w => readStmt T device storeU8 reg data w) st d w).2.1 ∧ True :=
  ⟨_, rfl, ⟨rfl, Nat.mod_lt _ (by decide)⟩, trivial⟩

theorem writeStmt_call {σ : Type} (T : Transport σ) (device : pcal6524_Device_t) (reg x : Nat)
    (st d : Nat) (w : World σ) (h : d = x) :
    ∃ e, ((fun (_ : Nat) data w => writeStmt T device reg data w) st d w).2.2.trace
        = w.trace ++ [e] ∧
      (fun e t (_ : Nat) => e = Event.write (devAddress device) reg x t) e
        ((fun (_ : Nat) data w => writeStmt T device reg data w) st d w).1
        ((fun (_ : Nat) data w => writeStmt T device reg data w) st d w).2.1 ∧
      ((fun (_ : Nat) data w => writeStmt T device reg data w) st d w).2.1 = x := by
  subst h
  exact ⟨_, rfl, rfl, rfl⟩

theorem runPhases_single_world {σ : Type} (T : Transport σ) (device : pcal6524_Device_t)
    (p : Phase) (st d : Nat) (w : World σ) :
    (runPhases T device [p] st d w).2 =
      (retryLoop T (p.body T device) (PCAL6524_I2C_MAX_ATTEMPTS + 1) st (p.pre d) w).2.2.2 := by
  simp only [runPhases]
  rcases retryLoop T (p.body T device) (PCAL6524_I2C_MAX_ATTEMPTS + 1) st (p.pre d) w
    with ⟨_ | c, s2, d2, w2⟩
  · dsimp only; split_ifs <;> rfl
  · rfl

/-- The events of a read-modify-write of register `reg`: reads of `reg` (and
delays), then writes to `reg` (and delays) of the byte `f b`, where `b` is the
byte delivered by the last read, which reported `HAL_OK`. -/
theorem rmw_trace {σ : Type} (T : Transport σ) (device : pcal6524_Device_t) (reg : Nat)
    (f g : Nat → Nat) (st d : Nat) (w : World σ) :
    ∃ evsR evsW b, b < 256 ∧
      (runPhases T device [Phase.read storeU8 reg g, Phase.write reg f true] st d w).2.trace
        = w.trace ++ (evsR ++ evsW) ∧
      (∀ e ∈ evsR, ReadOrDelay (devAddress device) reg e) ∧
      (∀ e ∈ evsW, WriteOrDelay (devAddress device) reg (f b) e) ∧
      (evsW ≠ [] → ∃ pre, evsR = pre ++ [Event.read (devAddress device) reg HAL_OK b]) := by
  obtain ⟨evsR, htr, _, hall, hlast⟩ := retryLoop_shape T
    (fun _ data w => readStmt T device storeU8 reg data w)
    (fun e t d1 => e = Event.read (devAddress device) reg t d1 ∧ d1 < 256) (fun _ => True)
    (readStmt_call T device reg) (PCAL6524_I2C_MAX_ATTEMPTS + 1) st (g d) w trivial
  have hallR : ∀ e ∈ evsR, ReadOrDelay (devAddress device) reg e := by
    intro e he
    rcases hall e he with h | ⟨t, d1, h, _⟩
    · exact Or.inl h
    · exact Or.inr ⟨t, d1, h⟩
  rw [runPhases]
  simp only [Phase.body, Phase.pre, Phase.check]
  rcases hr : retryLoop T (fun _ data w => readStmt T device storeU8 reg data w)
    (PCAL6524_I2C_MAX_ATTEMPTS + 1) st (g d) w with ⟨ret, st1, d1, w1⟩
  rw [hr] at htr hlast
  simp only at htr hlast
  cases ret with
  | some c => exact ⟨evsR, [], 0, by decide, by simpa using htr, hallR, by simp, by simp⟩
  | none =>
    dsimp only
    split_ifs with hcheck
    · exact ⟨evsR, [], 0, by decide, by simpa using htr, hallR, by simp, by simp⟩
    · have hst1 : st1 = HAL_OK := by
        simp only [true_and, gt_iff_lt, not_lt] at hcheck
        exact Nat.le_zero.mp hcheck
      obtain ⟨pre, e, hevs, he, hd1⟩ := hlast rfl hst1 (by decide)
      obtain ⟨evsW, htrW, _, hallW, _⟩ := retryLoop_shape T
        (fun _ data w => writeStmt T device reg data w)
        (fun e t (_ : Nat) => e = Event.write (devAddress device) reg (f d1) t)
        (fun d2 => d2 = f d1)
        (writeStmt_call T device reg (f d1)) (PCAL6524_I2C_MAX_ATTEMPTS + 1) st1 (f d1) w1 rfl
      refine ⟨evsR, evsW, d1, hd1, ?_, hallR, ?_, ?_⟩
      · rw [runPhases_single_world]
        simp only [Phase.body, Phase.pre]
        rw [htrW, htr, List.append_assoc]
      · intro e1 he1
        rcases hallW e1 he1 with h | ⟨t, _, h⟩
        · exact Or.inl h
        · exact Or.inr ⟨t, h⟩
      · intro _
        exact ⟨pre, by rw [hevs, he]⟩

/-! ## Interrupt mask and edge trigger -/

theorem maskByte_target_table : ∀ b < 256, ∀ pin < 8, ∀ intr < 2,
    (maskByte b pin intr).testBit pin = (intr == 0) := by
  decide!

theorem edgeByte_frame_pin0 : ∀ b < 256, ∀ trig < 4, ∀ i < 8,
    (i == 2 * (0 % 4) || i == 2 * (0 % 4) + 1 ||
      (edgeByte b 0 trig).testBit i == b.testBit i) = true := by
  decide!

theorem edgeByte_frame_pin1 : ∀ b < 256, ∀ trig < 4, ∀ i < 8,
    (i == 2 * (1 % 4) || i == 2 * (1 % 4) + 1 ||
      (edgeByte b 1 trig).testBit i == b.testBit i) = true := by
  decide!

theorem edgeByte_frame_pin2 : ∀ b < 256, ∀ trig < 4, ∀ i < 8,
    (i == 2 * (2 % 4) || i == 2 * (2 % 4) + 1 ||
      (edgeByte b 2 trig).testBit i == b.testBit i) = true := by
  decide!

theorem edgeByte_frame_pin3 : ∀ b < 256, ∀ trig < 4, ∀ i < 8,
    (i == 2 * (3 % 4) || i == 2 * (3 % 4) + 1 ||
      (edgeByte b 3 trig).testBit i == b.testBit i) = true := by
  decide!

theorem edgeByte_frame_pin4 : ∀ b < 256, ∀ trig < 4, ∀ i < 8,
    (i == 2 * (4 % 4) || i == 2 * (4 % 4) + 1 ||
      (edgeByte b 4 trig).testBit i == b.testBit i) = true := by
  decide!

theorem edgeByte_frame_pin5 : ∀ b < 256, ∀ trig < 4, ∀ i < 8,
    (i == 2 * (5 % 4) || i == 2 * (5 % 4) + 1 ||
      (edgeByte b 5 trig).testBit i == b.testBit i) = true := by
  decide!

theorem edgeByte_frame_pin6 : ∀ b < 256, ∀ trig < 4, ∀ i < 8,
    (i == 2 * (6 % 4) || i == 2 * (6 % 4) + 1 ||
      (edgeByte b 6 trig).testBit i == b.testBit i) = true := by
  decide!

theorem edgeByte_frame_pin7 : ∀ b < 256, ∀ trig < 4, ∀ i < 8,
    (i == 2 * (7 % 4) || i == 2 * (7 % 4) + 1 ||
      (edgeByte b 7 trig).testBit i == b.testBit i) = true := by
  decide!

theorem edgeByte_frame_table : ∀ b < 256, ∀ pin < 8, ∀ trig < 4, ∀ i < 8,
    (i == 2 * (pin % 4) || i == 2 * (pin % 4) + 1 ||
      (edgeByte b pin trig).testBit i == b.testBit i) = true := by
  intro b hb pin hpin
  interval_cases pin
  · exact edgeByte_frame_pin0 b hb
  · exact edgeByte_frame_pin1 b hb
  · exact edgeByte_frame_pin2 b hb
  · exact edgeByte_frame_pin3 b hb
  · exact edgeByte_frame_pin4 b hb
  · exact edgeByte_frame_pin5 b hb
  · exact edgeByte_frame_pin6 b hb
  · exact edgeByte_frame_pin7 b hb

/-- In a call of `PCAL6524_SetInterrupt` with arguments in range, over any
transport, every write is made to the interrupt-mask register of the port and
carries a byte whose bit `pin` is 0 when `intr` is 1 (`PCAL6524_EnableInterrupt`)
and 1 when `intr` is 0 (`PCAL6524_DisableInterrupt`), whatever byte was read. -/
theorem setInterrupt_write_bits {σ : Type} (T : Transport σ)
    (device : pcal6524_Device_t) (port pin intr : Nat) (w : World σ)
    (hport : port ≤ 2) (hpin : pin ≤ 7) (hintr : intr ≤ 1) :
    ∃ evs, (PCAL6524_SetInterrupt T device port pin intr w).2.trace = w.trace ++ evs ∧
      ∀ dev reg x st, Event.write dev reg x st ∈ evs →
        reg = PCAL6524_REG_INT_MASK_PORT_0 + port ∧
        (intr = 1 → x.testBit pin = false) ∧ (intr = 0 → x.testBit pin = true) := by
  have hrun := run_eq_runPhases T device (Op.SetInterrupt port pin intr) w ⟨hport, hpin, hintr⟩
  simp only [Op.run, Op.phases, Op.data0] at hrun
  obtain ⟨evsR, evsW, b, hb, htr, hR, hW, _⟩ := rmw_trace T device
    (PCAL6524_REG_INT_MASK_PORT_0 + port) (fun d => maskByte d pin intr) (fun d => d) 0 0 w
  refine ⟨evsR ++ evsW, by rw [hrun]; exact htr, ?_⟩
  intro dev reg x st hmem
  rcases List.mem_append.mp hmem with h | h
  · rcases hR _ h with h1 | ⟨t, y, h1⟩ <;> simp at h1
  · rcases hW _ h with h1 | ⟨t, h1⟩
    · simp at h1
    · simp only [Event.write.injEq] at h1
      obtain ⟨_, hreg, hx, _⟩ := h1
      have hbit := maskByte_target_table b hb pin (by omega) intr (by omega)
      subst hx
      refine ⟨hreg, ?_, ?_⟩
      · intro h1; rw [hbit, h1]; rfl
      · intro h0; rw [hbit, h0]; rfl

/-- C6: in a call of `PCAL6524_SetInterruptTrigger` with arguments in range,
over any transport, every read and every write addresses the sub-register of
the pin (`edgeReg`: A for `pin < 4`, B otherwise) and none the other
sub-register of the port; and every byte written agrees with the byte `b`
delivered by the successful read on all bits but `2 * (pin % 4)` and
`2 * (pin % 4) + 1`. -/
theorem setInterruptTrigger_frame {σ : Type} (T : Transport σ)
    (device : pcal6524_Device_t) (port pin trig : Nat) (w : World σ)
    (hport : port ≤ 2) (hpin : pin ≤ 7) (htrig : trig ≤ 3) :
    ∃ evsR evsW b,
      (PCAL6524_SetInterruptTrigger T device port pin trig w).2.trace
        = w.trace ++ (evsR ++ evsW) ∧
      (∀ e ∈ evsR, ReadOrDelay (devAddress device) (edgeReg port pin) e) ∧
      (∀ e ∈ evsW, e = Event.delay PCAL6524_I2C_ATTEMPT_DELAY ∨
        ∃ x t, e = Event.write (devAddress device) (edgeReg port pin) x t ∧
          ∀ i < 8, i ≠ 2 * (pin % 4) → i ≠ 2 * (pin % 4) + 1 → x.testBit i = b.testBit i) ∧
      (evsW ≠ [] →
        ∃ pre, evsR = pre ++ [Event.read (devAddress device) (edgeReg port pin) HAL_OK b]) ∧
      (∀ e ∈ evsR ++ evsW, e.reg? ≠
        some (PCAL6524_REG_INT_EGDE_PORT_0A + 2 * port + (if pin < 4 then 1 else 0))) := by
  have hrun := run_eq_runPhases T device (Op.SetInterruptTrigger port pin trig) w
    ⟨hport, hpin, htrig⟩
  simp only [Op.run, Op.phases, Op.data0] at hrun
  obtain ⟨evsR, evsW, b, hb, htr, hR, hW, hlast⟩ := rmw_trace T device
    (edgeReg port pin) (fun d => edgeByte d pin trig) (fun d => d) 0 0 w
  have hne : edgeReg port pin ≠
      PCAL6524_REG_INT_EGDE_PORT_0A + 2 * port + (if pin < 4 then 1 else 0) := by
    unfold edgeReg; split_ifs <;> omega
  refine ⟨evsR, evsW, b, by rw [hrun]; exact htr, hR, ?_, hlast, ?_⟩
  · intro e he
    rcases hW e he with h1 | ⟨t, h1⟩
    · exact Or.inl h1
    · refine Or.inr ⟨_, t, h1, fun i hi h2 h3 => ?_⟩
      have h4 := edgeByte_frame_table b hb pin (by omega) trig (by omega) i hi
      simp only [Bool.or_eq_true, beq_iff_eq] at h4
      rcases h4 with (h4 | h4) | h4
      · exact absurd h4 h2
      · exact absurd h4 h3
      · exact h4
  · intro e he
    rcases List.mem_append.mp he with h | h
    · rcases hR e h with h1 | ⟨t, y, h1⟩
      · rw [h1]; simp [Event.reg?]
      · rw [h1]; simpa [Event.reg?] using hne
    · rcases hW e h with h1 | ⟨t, h1⟩
      · rw [h1]; simp [Event.reg?]
      · rw [h1]; simpa [Event.reg?] using hne

/-! ## Round trips over the simulated register file -/

theorem getInOutConfig_regFile (device : pcal6524_Device_t) (s : Nat → Nat) (tr : List Event)
    (port ios0 : Nat) (hport : port ≤ 2) :
    PCAL6524_GetInOutConfig regFile device port ios0 ⟨s, tr⟩ =
      (PCAL6524_SUCCESS, s (PCAL6524_REG_CONF_PORT_0 + port) % 256,
        ⟨s, tr ++ [Event.read (devAddress device) (PCAL6524_REG_CONF_PORT_0 + port) HAL_OK
                  (s (PCAL6524_REG_CONF_PORT_0 + port) % 256)]⟩) := by
  interval_cases port <;>
    simp [PCAL6524_GetInOutConfig, retryLoop, switchRead, readStmt, storeU8, PCAL6524_ReadI2C,
      regFile]

theorem setBit8_lt (b pin v : Nat) : setBit8 b pin v < 256 :=
  Nat.mod_lt _ (by decide)

/-- C1: over the register file, for a port up to 2, a pin up to 7 and `io` 0 or
1, whatever the registers hold: `PCAL6524_SetInOut` returns `PCAL6524_SUCCESS`,
and `PCAL6524_GetInOutConfig` called next on the same port returns
`PCAL6524_SUCCESS` with a byte whose bit `pin` is `io` and whose other seven
bits are those the direction register of the port held before the set. -/
theorem setInOut_getInOutConfig_roundtrip (device : pcal6524_Device_t) (s : Nat → Nat)
    (tr : List Event) (port pin inout ios0 : Nat)
    (hport : port ≤ 2) (hpin : pin ≤ 7) (hio : inout ≤ 1) :
    (PCAL6524_SetInOut regFile device port pin inout ⟨s, tr⟩).1 = PCAL6524_SUCCESS ∧
    (PCAL6524_GetInOutConfig regFile device port ios0
      (PCAL6524_SetInOut regFile device port pin inout ⟨s, tr⟩).2).1 = PCAL6524_SUCCESS ∧
    (PCAL6524_GetInOutConfig regFile device port ios0
      (PCAL6524_SetInOut regFile device port pin inout ⟨s, tr⟩).2).2.1.testBit pin
        = decide (inout = 1) ∧
    ∀ i < 8, i ≠ pin →
      (PCAL6524_GetInOutConfig regFile device port ios0
        (PCAL6524_SetInOut regFile device port pin inout ⟨s, tr⟩).2).2.1.testBit i
        = (s (PCAL6524_REG_CONF_PORT_0 + port)).testBit i := by
  have hb : s (PCAL6524_REG_CONF_PORT_0 + port) % 256 < 256 := Nat.mod_lt _ (by decide)
  rw [setInOut_regFile device s tr port pin inout hport hpin hio]
  simp only [getInOutConfig_regFile device _ _ port ios0 hport, Function.update_same,
    Nat.mod_eq_of_lt (setBit8_lt _ _ _), true_and]
  refine ⟨?_, ?_⟩
  · rw [setBit8_target_table _ hb pin (by omega) inout (by omega)]
    interval_cases inout <;> rfl
  · intro i hi hne
    rw [setBit8_frame_table _ hb pin (by omega) inout (by omega) i hi hne, testBit_mod_256 _ _ hi]

theorem setPullupDown_regFile (device : pcal6524_Device_t) (s : Nat → Nat) (tr : List Event)
    (port pin pull active : Nat) (hport : port ≤ 2) (hpin : pin ≤ 7) (hpull : pull ≤ 1)
    (hactive : active ≤ 1) :
    PCAL6524_SetPullupDown regFile device port pin pull active ⟨s, tr⟩ =
      (PCAL6524_SUCCESS,
        ⟨Function.update
            (Function.update s (PCAL6524_REG_PULL_SEL_PORT_0 + port)
              (setBit8 (s (PCAL6524_REG_PULL_SEL_PORT_0 + port) % 256) pin pull))
            (PCAL6524_REG_PULL_EN_PORT_0 + port)
            (setBit8 (s (PCAL6524_REG_PULL_EN_PORT_0 + port) % 256) pin active),
          tr ++ [Event.read (devAddress device) (PCAL6524_REG_PULL_SEL_PORT_0 + port) HAL_OK
                  (s (PCAL6524_REG_PULL_SEL_PORT_0 + port) % 256),
                 Event.write (devAddress device) (PCAL6524_REG_PULL_SEL_PORT_0 + port)
                  (setBit8 (s (PCAL6524_REG_PULL_SEL_PORT_0 + port) % 256) pin pull) HAL_OK,
                 Event.read (devAddress device) (PCAL6524_REG_PULL_EN_PORT_0 + port) HAL_OK
                  (s (PCAL6524_REG_PULL_EN_PORT_0 + port) % 256),
                 Event.write (devAddress device) (PCAL6524_REG_PULL_EN_PORT_0 + port)
                  (setBit8 (s (PCAL6524_REG_PULL_EN_PORT_0 + port) % 256) pin active) HAL_OK]⟩) := by
  interval_cases port <;>
    simp [PCAL6524_SetPullupDown, hpin, hpull, hactive, retryLoop, switchRead, switchWrite,
      readStmt, writeStmt, storeU8, PCAL6524_ReadI2C, PCAL6524_WriteI2C, regFile, setBit8]

theorem getPullupDownConfig_regFile (device : pcal6524_Device_t) (s : Nat → Nat)
    (tr : List Event) (port pull0 active0 : Nat) (hport : port ≤ 2) :
    PCAL6524_GetPullupDownConfig regFile device port pull0 active0 ⟨s, tr⟩ =
      (PCAL6524_SUCCESS, s (PCAL6524_REG_PULL_SEL_PORT_0 + port) % 256,
        s (PCAL6524_REG_PULL_EN_PORT_0 + port) % 256,
        ⟨s, tr ++ [Event.read (devAddress device) (PCAL6524_REG_PULL_SEL_PORT_0 + port) HAL_OK
                  (s (PCAL6524_REG_PULL_SEL_PORT_0 + port) % 256),
                 Event.read (devAddress device) (PCAL6524_REG_PULL_EN_PORT_0 + port) HAL_OK
                  (s (PCAL6524_REG_PULL_EN_PORT_0 + port) % 256)]⟩) := by
  interval_cases port <;>
    simp [PCAL6524_GetPullupDownConfig, retryLoop, switchRead, readStmt, storeU8,
      PCAL6524_ReadI2C, regFile]

/-- C10: over the register file, for a port up to 2, a pin up to 7, `pull` and
`active` 0 or 1, whatever the registers hold: `PCAL6524_SetPullupDown` returns
`PCAL6524_SUCCESS`, and `PCAL6524_GetPullupDownConfig` called next on the same
port returns `PCAL6524_SUCCESS` with a pull byte whose bit `pin` is `pull`, an
active byte whose bit `pin` is `active`, and every other bit of the two bytes
as the pull-select and pull-enable registers of the port held it before. -/
theorem setPullupDown_getPullupDownConfig_roundtrip (device : pcal6524_Device_t)
    (s : Nat → Nat) (tr : List Event) (port pin pull active pull0 active0 : Nat)
    (hport : port ≤ 2) (hpin : pin ≤ 7) (hpull : pull ≤ 1) (hactive : active ≤ 1) :
    (PCAL6524_SetPullupDown regFile device port pin pull active ⟨s, tr⟩).1 = PCAL6524_SUCCESS ∧
    ∃ p a w1,
      PCAL6524_GetPullupDownConfig regFile device port pull0 active0
        (PCAL6524_SetPullupDown regFile device port pin pull active ⟨s, tr⟩).2
          = (PCAL6524_SUCCESS, p, a, w1) ∧
      p.testBit pin = decide (pull = 1) ∧ a.testBit pin = decide (active = 1) ∧
      ∀ i < 8, i ≠ pin →
        p.testBit i = (s (PCAL6524_REG_PULL_SEL_PORT_0 + port)).testBit i ∧
        a.testBit i = (s (PCAL6524_REG_PULL_EN_PORT_0 + port)).testBit i := by
  have hp : s (PCAL6524_REG_PULL_SEL_PORT_0 + port) % 256 < 256 := Nat.mod_lt _ (by decide)
  have ha : s (PCAL6524_REG_PULL_EN_PORT_0 + port) % 256 < 256 := Nat.mod_lt _ (by decide)
  have hne : PCAL6524_REG_PULL_SEL_PORT_0 + port ≠ PCAL6524_REG_PULL_EN_PORT_0 + port := by
    show 0x50 + port ≠ 0x4C + port
    omega
  rw [setPullupDown_regFile device s tr port pin pull active hport hpin hpull hactive,
    getPullupDownConfig_regFile device _ _ port pull0 active0 hport]
  refine ⟨rfl, _, _, _, rfl, ?_, ?_, ?_⟩ <;>
    simp only [Function.update_same, Function.update_noteq hne,
      Nat.mod_eq_of_lt (setBit8_lt _ _ _)]
  · rw [setBit8_target_table _ hp pin (by omega) pull (by omega)]
    interval_cases pull <;> rfl
  · rw [setBit8_target_table _ ha pin (by omega) active (by omega)]
    interval_cases active <;> rfl
  · intro i hi hne1
    rw [setBit8_frame_table _ hp pin (by omega) pull (by omega) i hi hne1,
      setBit8_frame_table _ ha pin (by omega) active (by omega) i hi hne1,
      testBit_mod_256 _ _ hi, testBit_mod_256 _ _ hi]
    exact ⟨rfl, rfl⟩

/-! ## Reading one pin -/

theorem pinValue_extract (value0 r pin : Nat) (hr : r < 256) (hpin : pin ≤ 7) :
    (storeEnum value0 r &&& (1 <<< pin)) >>> pin = (r >>> pin) &&& 1 := by
  have hlow : ∀ j, j < 8 → (storeEnum value0 r).testBit j = r.testBit j := by
    intro j hj
    have h := Nat.testBit_mul_pow_two_add (value0 / 256) (show r < 2 ^ 8 from hr) j
    rw [if_pos hj] at h
    rw [← h]
    unfold storeEnum
    congr 1
    ring
  apply Nat.eq_of_testBit_eq
  intro i
  rw [Nat.testBit_shiftRight, Nat.testBit_and, Nat.testBit_and, Nat.testBit_shiftRight,
    Nat.one_shiftLeft, Nat.testBit_two_pow]
  rcases Nat.eq_zero_or_pos i with h0 | hpos
  · subst h0
    simp [hlow pin (by omega)]
  · have h1 : ¬ (pin = pin + i) := by omega
    have h2 : Nat.testBit 1 i = false := by
      have := @Nat.testBit_two_pow 0 i
      simp only [pow_zero] at this
      rw [this]
      simp; omega
    simp [h1, h2]

/-- C9: for a port up to 2 and a pin up to 7, when the read of the input-status
register `0x6C + port` (the one that does not clear interrupts) succeeds and
delivers the byte `r`, and the write that follows succeeds:
`PCAL6524_GetPinValue` returns `PCAL6524_SUCCESS`, `*value` is
`(r >> pin) & 1` (1 when bit `pin` of `r` is set and 0 otherwise) whatever it
held before, and the events of the call are that read followed by exactly one
write, to the interrupt-clear register `0x68 + port`, of the byte `1 << pin`. -/
theorem getPinValue_reads_then_clears {σ : Type} (T : Transport σ)
    (device : pcal6524_Device_t) (port pin value0 : Nat) (w : World σ)
    (hport : port ≤ 2) (hpin : pin ≤ 7)
    (hread : (T.HAL_I2C_Mem_Read w.bus (devAddress device)
      (PCAL6524_REG_IN_STATUS_PORT_0 + port)).1 % 256 = HAL_OK)
    (hwrite : (T.HAL_I2C_Mem_Write
      (T.HAL_I2C_Mem_Read w.bus (devAddress device) (PCAL6524_REG_IN_STATUS_PORT_0 + port)).2.2
      (devAddress device) (PCAL6524_REG_INT_CLEAR_PORT_0 + port) (1 <<< pin)).1 % 256 = HAL_OK) :
    PCAL6524_GetPinValue T device port pin value0 w =
      (PCAL6524_SUCCESS,
        (((T.HAL_I2C_Mem_Read w.bus (devAddress device)
          (PCAL6524_REG_IN_STATUS_PORT_0 + port)).2.1 % 256) >>> pin) &&& 1,
        ⟨(T.HAL_I2C_Mem_Write
            (T.HAL_I2C_Mem_Read w.bus (devAddress device)
              (PCAL6524_REG_IN_STATUS_PORT_0 + port)).2.2
            (devAddress device) (PCAL6524_REG_INT_CLEAR_PORT_0 + port) (1 <<< pin)).2,
         w.trace ++
          [Event.read (devAddress device) (PCAL6524_REG_IN_STATUS_PORT_0 + port) HAL_OK
             ((T.HAL_I2C_Mem_Read w.bus (devAddress device)
               (PCAL6524_REG_IN_STATUS_PORT_0 + port)).2.1 % 256),
           Event.write (devAddress device) (PCAL6524_REG_INT_CLEAR_PORT_0 + port)
             (1 <<< pin) HAL_OK]⟩) ∧
      ((((T.HAL_I2C_Mem_Read w.bus (devAddress device)
          (PCAL6524_REG_IN_STATUS_PORT_0 + port)).2.1 % 256) >>> pin) &&& 1 =
        if ((T.HAL_I2C_Mem_Read w.bus (devAddress device)
          (PCAL6524_REG_IN_STATUS_PORT_0 + port)).2.1 % 256).testBit pin then 1 else 0) ∧
      (1 <<< pin < 256 ∧ ∀ i, (1 <<< pin).testBit i = decide (i = pin)) := by
  have hdata : (1 <<< pin) % 256 = 1 <<< pin := by interval_cases pin <;> rfl
  have hpin1 : ¬ 7 < pin := by omega
  have hext := pinValue_extract value0 ((T.HAL_I2C_Mem_Read w.bus (devAddress device)
    (PCAL6524_REG_IN_STATUS_PORT_0 + port)).2.1 % 256) pin (Nat.mod_lt _ (by decide)) hpin
  refine ⟨?_, ?_, ?_, ?_⟩
  · interval_cases port <;>
      (try simp only [Nat.add_zero] at hread hwrite hext) <;>
      simp [PCAL6524_GetPinValue, hpin1, retryLoop, switchRead, switchWrite, readStmt, writeStmt,
        PCAL6524_ReadI2C, PCAL6524_WriteI2C, hread, hwrite, hdata, hext]
  · rw [Nat.and_one_is_mod, Nat.shiftRight_eq_div_pow, ← Nat.toNat_testBit]
    cases Nat.testBit _ pin <;> rfl
  · interval_cases pin <;> decide
  · intro i
    rw [Nat.one_shiftLeft, Nat.testBit_two_pow]
    simp [eq_comm]

/-! ## Concrete runs -/

/-- C3: at port 0, pin 0, with the sub-register `0x60` holding `0b10` (falling
edge) and `trig = 0` (`PCAL6524_TriggerOnChange`), `PCAL6524_SetInterruptTrigger`
reads `0b10` and writes `0b10` back: the 2-bit field keeps its old high bit and
is not `trig`, while the byte with the 2-bit mask `0b11` cleared would be 0. -/
theorem setInterruptTrigger_keeps_high_bit :
    (PCAL6524_SetInterruptTrigger regFile ⟨0⟩ 0 0 0 ⟨fun _ => 0b10, []⟩).1 = PCAL6524_SUCCESS ∧
    (PCAL6524_SetInterruptTrigger regFile ⟨0⟩ 0 0 0 ⟨fun _ => 0b10, []⟩).2.trace =
      [Event.read 0x40 PCAL6524_REG_INT_EGDE_PORT_0A HAL_OK 0b10,
       Event.write 0x40 PCAL6524_REG_INT_EGDE_PORT_0A 0b10 HAL_OK] ∧
    ((0b10 &&& not32 (0b11 <<< (2 * (0 % 4)))) ||| (0 <<< (2 * (0 % 4)))) % 256 = 0 := by
  decide

/-- C4: at port 0, pin 0, with the interrupt-mask register `0x54` holding `0x00`
and `intr = 1` (`PCAL6524_EnableInterrupt`), `PCAL6524_SetInterrupt` reads `0x00`
and writes `0xFE`: bits 1 to 7, which were 0 in the byte read, are 1 in the byte
written. -/
theorem setInterrupt_sets_higher_bits :
    (PCAL6524_SetInterrupt regFile ⟨0⟩ 0 0 1 ⟨fun _ => 0x00, []⟩).1 = PCAL6524_SUCCESS ∧
    (PCAL6524_SetInterrupt regFile ⟨0⟩ 0 0 1 ⟨fun _ => 0x00, []⟩).2.trace =
      [Event.read 0x40 PCAL6524_REG_INT_MASK_PORT_0 HAL_OK 0x00,
       Event.write 0x40 PCAL6524_REG_INT_MASK_PORT_0 0xFE HAL_OK] ∧
    Nat.testBit 0xFE 1 = true ∧ Nat.testBit 0x00 1 = false := by
  decide

theorem setInOut_getInOutConfig_roundtrip_witness :
    (1 ≤ 2 ∧ 3 ≤ 7 ∧ 1 ≤ 1) ∧
    (PCAL6524_GetInOutConfig regFile ⟨0⟩ 1 0
      (PCAL6524_SetInOut regFile ⟨0⟩ 1 3 1 ⟨fun _ => 0x41, []⟩).2).2.1.testBit 3
        = decide (1 = 1) :=
  ⟨by decide, (setInOut_getInOutConfig_roundtrip ⟨0⟩ (fun _ => 0x41) [] 1 3 1 0
    (by decide) (by decide) (by decide)).2.2.1⟩

theorem out_of_range_rejected_without_bus_activity_witness :
    ¬ (Op.SetInterruptTrigger 1 8 2).inRange ∧
    (Op.SetInterruptTrigger 1 8 2).run scripted ⟨0⟩ ⟨[(1, 0)], []⟩
      = (PCAL6524_INPUTOUTOFRANGE, ⟨[(1, 0)], []⟩) :=
  ⟨by decide, out_of_range_rejected_without_bus_activity scripted ⟨0⟩
    (Op.SetInterruptTrigger 1 8 2) ⟨[(1, 0)], []⟩ (by decide)⟩

theorem setInterruptTrigger_frame_witness :
    (1 ≤ 2 ∧ 6 ≤ 7 ∧ 3 ≤ 3) ∧
    ∃ evsR evsW b,
      (PCAL6524_SetInterruptTrigger scripted ⟨0⟩ 1 6 3 ⟨[(2, 0), (0, 0x1B), (0, 0)], []⟩).2.trace
        = [] ++ (evsR ++ evsW) ∧
      (∀ e ∈ evsR, ReadOrDelay (devAddress ⟨0⟩) (edgeReg 1 6) e) ∧
      (∀ e ∈ evsW, e = Event.delay PCAL6524_I2C_ATTEMPT_DELAY ∨
        ∃ x t, e = Event.write (devAddress ⟨0⟩) (edgeReg 1 6) x t ∧
          ∀ i < 8, i ≠ 2 * (6 % 4) → i ≠ 2 * (6 % 4) + 1 → x.testBit i = b.testBit i) ∧
      (evsW ≠ [] →
        ∃ pre, evsR = pre ++ [Event.read (devAddress ⟨0⟩) (edgeReg 1 6) HAL_OK b]) ∧
      (∀ e ∈ evsR ++ evsW, e.reg? ≠
        some (PCAL6524_REG_INT_EGDE_PORT_0A + 2 * 1 + (if 6 < 4 then 1 else 0))) :=
  ⟨by decide, setInterruptTrigger_frame scripted ⟨0⟩ 1 6 3 ⟨[(2, 0), (0, 0x1B), (0, 0)], []⟩
    (by decide) (by decide) (by decide)⟩

theorem transient_first_phase_exhausts_witness :
    (Op.GetInterrupts 1 0).run scripted ⟨0⟩ ⟨[(2, 7), (2, 7), (2, 7), (3, 7), (0, 9)], []⟩ =
      (3, ⟨[(0, 9)],
        [Event.read 0x40 PCAL6524_REG_INT_STAT_PORT_1 2 7, Event.delay 10,
         Event.read 0x40 PCAL6524_REG_INT_STAT_PORT_1 2 7, Event.delay 10,
         Event.read 0x40 PCAL6524_REG_INT_STAT_PORT_1 2 7, Event.delay 10,
         Event.read 0x40 PCAL6524_REG_INT_STAT_PORT_1 3 7, Event.delay 10]⟩) :=
  (transient_first_phase_exhausts scripted ⟨0⟩ (Op.GetInterrupts 1 0)
    ⟨[(2, 7), (2, 7), (2, 7), (3, 7), (0, 9)], []⟩ rfl (by decide) (by decide)).1

theorem hard_failure_stops_immediately_witness :
    (Op.SetPolarity 2 5 1).inRange ∧
    ∃ evs, ((Op.SetPolarity 2 5 1).run scripted ⟨1⟩ ⟨[(2, 0), (0, 4), (2, 0), (1, 0)], []⟩).2.trace
        = [] ++ evs ∧
      ∀ pre e post, evs = pre ++ e :: post → e.status? = some HAL_ERROR →
        post = [] ∧
        ((Op.SetPolarity 2 5 1).run scripted ⟨1⟩ ⟨[(2, 0), (0, 4), (2, 0), (1, 0)], []⟩).1
          = HAL_ERROR :=
  ⟨by decide, hard_failure_stops_immediately scripted ⟨1⟩ (Op.SetPolarity 2 5 1)
    ⟨[(2, 0), (0, 4), (2, 0), (1, 0)], []⟩ (by decide)⟩

theorem getPinValue_reads_then_clears_witness :
    PCAL6524_GetPinValue scripted ⟨0⟩ 1 2 0xABCD ⟨[(0, 0x04), (0, 0)], []⟩ =
      (PCAL6524_SUCCESS, 1,
        ⟨[], [Event.read 0x40 PCAL6524_REG_IN_STATUS_PORT_1 HAL_OK 0x04,
              Event.write 0x40 PCAL6524_REG_INT_CLEAR_PORT_1 0x04 HAL_OK]⟩) :=
  (getPinValue_reads_then_clears scripted ⟨0⟩ 1 2 0xABCD ⟨[(0, 0x04), (0, 0)], []⟩
    (by decide) (by decide) rfl rfl).1

theorem setPullupDown_getPullupDownConfig_roundtrip_witness :
    (2 ≤ 2 ∧ 7 ≤ 7 ∧ 1 ≤ 1 ∧ 1 ≤ 1) ∧
    (PCAL6524_SetPullupDown regFile ⟨2⟩ 2 7 1 1 ⟨fun r => r, []⟩).1 = PCAL6524_SUCCESS ∧
    ∃ p a w1,
      PCAL6524_GetPullupDownConfig regFile ⟨2⟩ 2 0 0
        (PCAL6524_SetPullupDown regFile ⟨2⟩ 2 7 1 1 ⟨fun r => r, []⟩).2
          = (PCAL6524_SUCCESS, p, a, w1) ∧
      p.testBit 7 = decide (1 = 1) ∧ a.testBit 7 = decide (1 = 1) ∧
      ∀ i < 8, i ≠ 7 →
        p.testBit i = ((fun r => r) (PCAL6524_REG_PULL_SEL_PORT_0 + 2)).testBit i ∧
        a.testBit i = ((fun r => r) (PCAL6524_REG_PULL_EN_PORT_0 + 2)).testBit i :=
  ⟨by decide, setPullupDown_getPullupDownConfig_roundtrip ⟨2⟩ (fun r => r) [] 2 7 1 1 0 0
    (by decide) (by decide) (by decide) (by decide)⟩

/-! ## The last transaction of a trace -/

theorem lastStatus?_append_some (a b : List Event) (s : Nat) (h : lastStatus? b = some s) :
    lastStatus? (a ++ b) = some s := by
  induction a with
  | nil => simpa using h
  | cons e a ih => simp [lastStatus?, ih]

theorem lastStatus?_append_none (a b : List Event) (h : lastStatus? b = none) :
    lastStatus? (a ++ b) = lastStatus? a := by
  induction a with
  | nil => simpa [lastStatus?] using h
  | cons e a ih => simp [lastStatus?, ih]

theorem lastStatus?_delays (b : List Event)
    (h : ∀ e ∈ b, e = Event.delay PCAL6524_I2C_ATTEMPT_DELAY) : lastStatus? b = none := by
  induction b with
  | nil => rfl
  | cons e b ih =>
    have he := h e (by simp)
    have hb := ih (fun e1 he1 => h e1 (by simp [he1]))
    simp [lastStatus?, hb, he, Event.status?]

theorem lastStatus?_ne_nil (a : List Event) (s : Nat) (h : lastStatus? a = some s) : a ≠ [] := by
  intro h0; subst h0; simp [lastStatus?] at h

theorem retryLoop_last {σ : Type} (T : Transport σ)
    (body : Nat → Nat → World σ → Nat × Nat × World σ)
    (hb : ∀ st d w, ∃ e, (body st d w).2.2.trace = w.trace ++ [e] ∧
      e.status? = some (body st d w).1) :
    ∀ (n st d : Nat) (w : World σ),
      ∃ evs, (retryLoop T body n st d w).2.2.2.trace = w.trace ++ evs ∧
        (0 < n → lastStatus? evs = some (retryLoop T body n st d w).2.1) ∧
        (∀ c, (retryLoop T body n st d w).1 = some c → c = (retryLoop T body n st d w).2.1) ∧
        (∀ pre e post, evs = pre ++ e :: post → post ≠ [] →
          e.status? ≠ some HAL_OK ∧ e.status? ≠ some HAL_ERROR) := by
  intro n
  induction n with
  | zero =>
    intro st d w
    refine ⟨[], by simp [retryLoop], by simp, by simp [retryLoop], ?_⟩
    intro pre e post h; simp at h
  | succ n ih =>
    intro st d w
    obtain ⟨e, htr, hst⟩ := hb st d w
    simp only [retryLoop]
    split_ifs with hok herr
    · refine ⟨[e], htr, fun _ => by simp [lastStatus?, hst], by simp, ?_⟩
      intro pre e1 post h hpost
      have := congrArg List.length h
      simp at this
      cases post with
      | nil => exact absurd rfl hpost
      | cons p ps => simp at this; omega
    · refine ⟨[e], htr, fun _ => by simp [lastStatus?, hst], ?_, ?_⟩
      · intro c hc; simp only [Option.some.injEq] at hc; rw [← hc, herr]
      · intro pre e1 post h hpost
        have := congrArg List.length h
        simp at this
        cases post with
        | nil => exact absurd rfl hpost
        | cons p ps => simp at this; omega
    · obtain ⟨evs, htr1, hlast, hret, hinner⟩ := ih (body st d w).1 (body st d w).2.1
        (HAL_Delay T PCAL6524_I2C_ATTEMPT_DELAY (body st d w).2.2)
      refine ⟨e :: Event.delay PCAL6524_I2C_ATTEMPT_DELAY :: evs, ?_, ?_, hret, ?_⟩
      · rw [htr1]; simp [HAL_Delay, htr]
      · intro _
        rcases Nat.eq_zero_or_pos n with hn | hn
        · subst hn
          have hevs : evs = [] := by simpa [retryLoop] using htr1
          subst hevs
          have hd : (Event.delay PCAL6524_I2C_ATTEMPT_DELAY).status? = none := rfl
          simp [retryLoop, lastStatus?, hd, hst]
        · have h := hlast hn
          have h2 := lastStatus?_append_some [e, Event.delay PCAL6524_I2C_ATTEMPT_DELAY] evs _ h
          simpa using h2
      · intro pre e1 post h hpost
        cases pre with
        | nil =>
          simp only [List.nil_append, List.cons.injEq] at h
          rw [← h.1, hst]
          exact ⟨by simpa using hok, by simpa using herr⟩
        | cons p1 pre1 =>
          cases pre1 with
          | nil =>
            simp only [List.cons_append, List.nil_append, List.cons.injEq] at h
            rw [← h.2.1]
            simp [Event.status?]
          | cons p2 pre2 =>
            simp only [List.cons_append, List.cons.injEq] at h
            exact hinner pre2 e1 post h.2.2 hpost

/-! ## The events of a sequence of phases -/

theorem Phase.body_event {σ : Type} (T : Transport σ) (device : pcal6524_Device_t) (p : Phase)
    (st d : Nat) (w : World σ) (_h : True) :
    ∃ e, (p.body T device st d w).2.2.trace = w.trace ++ [e] ∧
      (fun e (_ _ : Nat) => p.isEvent (devAddress device) e) e
        (p.body T device st d w).1 (p.body T device st d w).2.1 ∧ True := by
  cases p with
  | read store reg f => exact ⟨_, rfl, ⟨_, _, rfl⟩, trivial⟩
  | write reg f check => exact ⟨_, rfl, ⟨_, _, rfl⟩, trivial⟩

theorem runPhases_events {σ : Type} (T : Transport σ) (device : pcal6524_Device_t) :
    ∀ (ps : List Phase) (st d : Nat) (w : World σ),
      ∃ evs, (runPhases T device ps st d w).2.trace = w.trace ++ evs ∧
        ∀ e ∈ evs, e = Event.delay PCAL6524_I2C_ATTEMPT_DELAY ∨
          ∃ p ∈ ps, p.isEvent (devAddress device) e := by
  intro ps
  induction ps with
  | nil =>
    intro st d w
    exact ⟨[], by simp [runPhases], by simp⟩
  | cons p ps ih =>
    intro st d w
    obtain ⟨evs1, htr1, _, hall, _⟩ := retryLoop_shape T (p.body T device)
      (fun e (_ _ : Nat) => p.isEvent (devAddress device) e) (fun _ => True)
      (Phase.body_event T device p) (PCAL6524_I2C_MAX_ATTEMPTS + 1) st (p.pre d) w trivial
    have hall1 : ∀ e ∈ evs1, e = Event.delay PCAL6524_I2C_ATTEMPT_DELAY ∨
        ∃ q ∈ p :: ps, q.isEvent (devAddress device) e := by
      intro e he
      rcases hall e he with h | ⟨_, _, h⟩
      · exact Or.inl h
      · exact Or.inr ⟨p, by simp, h⟩
    simp only [runPhases]
    rcases hr : retryLoop T (p.body T device) (PCAL6524_I2C_MAX_ATTEMPTS + 1) st (p.pre d) w
      with ⟨ret, st1, d1, w1⟩
    rw [hr] at htr1
    simp only at htr1
    cases ret with
    | some c => exact ⟨evs1, htr1, hall1⟩
    | none =>
      dsimp only
      split_ifs with hcheck
      · exact ⟨evs1, htr1, hall1⟩
      · obtain ⟨evs2, htr2, hall2⟩ := ih st1 d1 w1
        refine ⟨evs1 ++ evs2, by rw [htr2, htr1, List.append_assoc], ?_⟩
        intro e he
        rcases List.mem_append.mp he with h | h
        · exact hall1 e h
        · rcases hall2 e h with h2 | ⟨q, hq, h2⟩
          · exact Or.inl h2
          · exact Or.inr ⟨q, by simp [hq], h2⟩

theorem runPhases_lastStatus {σ : Type} (T : Transport σ) (device : pcal6524_Device_t) :
    ∀ (ps : List Phase) (st d : Nat) (w : World σ), ps ≠ [] →
      (∀ p, ps.getLast? = some p → p.check = true) →
      ∃ evs, (runPhases T device ps st d w).2.trace = w.trace ++ evs ∧
        lastStatus? evs = some (runPhases T device ps st d w).1 := by
  intro ps
  induction ps with
  | nil => intro st d w h; exact absurd rfl h
  | cons p ps ih =>
    intro st d w _ hchk
    obtain ⟨evs1, htr1, hlast, hret, _⟩ := retryLoop_last T (p.body T device)
      (Phase.body_call T device p) (PCAL6524_I2C_MAX_ATTEMPTS + 1) st (p.pre d) w
    have hlast1 := hlast (by decide)
    simp only [runPhases]
    rcases hr : retryLoop T (p.body T device) (PCAL6524_I2C_MAX_ATTEMPTS + 1) st (p.pre d) w
      with ⟨ret, st1, d1, w1⟩
    rw [hr] at htr1 hlast1 hret
    simp only at htr1 hlast1 hret
    cases ret with
    | some c =>
      have hc := hret c rfl
      exact ⟨evs1, htr1, by rw [hlast1, hc]⟩
    | none =>
      dsimp only
      split_ifs with hcheck
      · exact ⟨evs1, htr1, hlast1⟩
      · cases ps with
        | nil =>
          have hp : p.check = true := hchk p rfl
          have hst1 : st1 = HAL_OK := by
            simp only [hp, true_and, gt_iff_lt, not_lt] at hcheck
            exact Nat.le_zero.mp hcheck
          exact ⟨evs1, by simpa [runPhases] using htr1, by rw [hlast1, hst1]; rfl⟩
        | cons q qs =>
          obtain ⟨evs2, htr2, hlast2⟩ := ih st1 d1 w1 (by simp)
            (fun p1 h1 => hchk p1 (by rw [List.getLast?_cons_cons]; exact h1))
          exact ⟨evs1 ++ evs2, by rw [htr2, htr1, List.append_assoc],
            lastStatus?_append_some evs1 evs2 _ hlast2⟩

/-! ## Clearing all interrupts -/

/-- C11: when the three writes of `PCAL6524_ClearAllInterrupts` succeed, the
events of the call are exactly three writes of `0xFF`, to the interrupt-clear
registers `0x68`, `0x69`, `0x6A` in that order (no read, no delay), and the call
returns `PCAL6524_SUCCESS`. -/
theorem clearAllInterrupts_three_writes {σ : Type} (T : Transport σ)
    (device : pcal6524_Device_t) (w : World σ)
    (h0 : (T.HAL_I2C_Mem_Write w.bus (devAddress device) 0x68 0xFF).1 % 256 = HAL_OK)
    (h1 : (T.HAL_I2C_Mem_Write (T.HAL_I2C_Mem_Write w.bus (devAddress device) 0x68 0xFF).2
      (devAddress device) 0x69 0xFF).1 % 256 = HAL_OK)
    (h2 : (T.HAL_I2C_Mem_Write
      (T.HAL_I2C_Mem_Write (T.HAL_I2C_Mem_Write w.bus (devAddress device) 0x68 0xFF).2
        (devAddress device) 0x69 0xFF).2
      (devAddress device) 0x6A 0xFF).1 % 256 = HAL_OK) :
    PCAL6524_ClearAllInterrupts T device w =
      (PCAL6524_SUCCESS,
        ⟨(T.HAL_I2C_Mem_Write
            (T.HAL_I2C_Mem_Write (T.HAL_I2C_Mem_Write w.bus (devAddress device) 0x68 0xFF).2
              (devAddress device) 0x69 0xFF).2
            (devAddress device) 0x6A 0xFF).2,
         w.trace ++
          [Event.write (devAddress device) 0x68 0xFF HAL_OK,
           Event.write (devAddress device) 0x69 0xFF HAL_OK,
           Event.write (devAddress device) 0x6A 0xFF HAL_OK]⟩) := by
  simp [PCAL6524_ClearAllInterrupts, retryLoop, writeStmt, PCAL6524_WriteI2C, h0, h1, h2]

theorem clearAllInterrupts_three_writes_witness :
    PCAL6524_ClearAllInterrupts regFile ⟨1⟩ ⟨fun _ => 0, []⟩ =
      (PCAL6524_SUCCESS,
        ⟨Function.update (Function.update (Function.update (fun _ => 0) 0x68 0xFF) 0x69 0xFF)
            0x6A 0xFF,
         [] ++ [Event.write 0x42 0x68 0xFF HAL_OK, Event.write 0x42 0x69 0xFF HAL_OK,
           Event.write 0x42 0x6A 0xFF HAL_OK]⟩) :=
  clearAllInterrupts_three_writes regFile ⟨1⟩ ⟨fun _ => 0, []⟩ rfl rfl rfl

/-- C12: over a transport that reports the transient status 2 on the four
attempts of the write to `0x68` and then succeeds, `PCAL6524_ClearAllInterrupts`
goes on to `0x69` and `0x6A` and returns `PCAL6524_SUCCESS`, although no write
to the interrupt-clear register of port 0 succeeded. -/
theorem clearAllInterrupts_loses_exhausted_port0 :
    PCAL6524_ClearAllInterrupts scripted ⟨0⟩
        ⟨[(2, 0), (2, 0), (2, 0), (2, 0), (0, 0), (0, 0)], []⟩ =
      (PCAL6524_SUCCESS,
        ⟨[], [Event.write 0x40 0x68 0xFF 2, Event.delay 10,
              Event.write 0x40 0x68 0xFF 2, Event.delay 10,
              Event.write 0x40 0x68 0xFF 2, Event.delay 10,
              Event.write 0x40 0x68 0xFF 2, Event.delay 10,
              Event.write 0x40 0x69 0xFF HAL_OK,
              Event.write 0x40 0x6A 0xFF HAL_OK]⟩) := by
  rfl

/-! ## The out-of-range code -/

theorem run_of_not_inRange {σ : Type} (T : Transport σ) (device : pcal6524_Device_t) (op : Op)
    (w : World σ) (hbad : ¬ op.inRange) :
    op.run T device w = (PCAL6524_INPUTOUTOFRANGE, w) := by
  cases op <;> simp only [Op.inRange, not_and_or, not_le, not_true_eq_false] at hbad <;>
    first
    | exact hbad.elim
    | simp only [Op.run, PCAL6524_SetInOut, PCAL6524_GetInOutConfig, PCAL6524_SetInterrupt,
        PCAL6524_GetInterruptConfig, PCAL6524_SetPullupDown, PCAL6524_GetPullupDownConfig,
        PCAL6524_SetPolarity, PCAL6524_GetPolarityConfig, PCAL6524_SetInterruptTrigger,
        PCAL6524_GetInterruptTriggerConfig, PCAL6524_GetPinValue, PCAL6524_OutputValue,
        PCAL6524_GetPortPinValues, PCAL6524_GetInterrupts, gt_iff_lt, hbad, if_true]

theorem Op.phases_ne_nil (op : Op) : op.phases ≠ [] := by
  cases op <;> simp [Op.phases]

theorem Op.phases_last_checked (op : Op) (p : Phase) (h : op.phases.getLast? = some p) :
    p.check = true := by
  cases op <;> simp [Op.phases] at h <;> subst h <;> rfl

/-- C13 (as stated, refuted): `PCAL6524_GetInterrupts` on port 1, arguments in
range, over a transport that reports the status 3 on all four attempts, returns
3, the value of `PCAL6524_INPUTOUTOFRANGE`, after four reads. -/
theorem valid_call_returns_out_of_range_code :
    (Op.GetInterrupts 1 0).inRange ∧
    ((Op.GetInterrupts 1 0).run scripted ⟨0⟩ ⟨[(3, 0), (3, 0), (3, 0), (3, 0)], []⟩).1
      = PCAL6524_INPUTOUTOFRANGE ∧
    ((Op.GetInterrupts 1 0).run scripted ⟨0⟩ ⟨[(3, 0), (3, 0), (3, 0), (3, 0)], []⟩).2.trace =
      [Event.read 0x40 0x59 3 0, Event.delay 10, Event.read 0x40 0x59 3 0, Event.delay 10,
       Event.read 0x40 0x59 3 0, Event.delay 10, Event.read 0x40 0x59 3 0, Event.delay 10] := by
  decide

/-- C13 (amended): a call that returns 3 (`PCAL6524_INPUTOUTOFRANGE`) either had
an argument out of range, and then made no transport call, or had its arguments
in range, and then the last bus transaction it made reported the status 3, which
the call passes on as its return value. -/
theorem out_of_range_code_origin {σ : Type} (T : Transport σ)
    (device : pcal6524_Device_t) (op : Op) (w : World σ)
    (h3 : (op.run T device w).1 = PCAL6524_INPUTOUTOFRANGE) :
    (¬ op.inRange ∧ op.run T device w = (PCAL6524_INPUTOUTOFRANGE, w)) ∨
    (op.inRange ∧ ∃ evs, (op.run T device w).2.trace = w.trace ++ evs ∧
      lastStatus? evs = some PCAL6524_INPUTOUTOFRANGE) := by
  by_cases h : op.inRange
  · right
    refine ⟨h, ?_⟩
    rw [run_eq_runPhases T device op w h] at h3 ⊢
    obtain ⟨evs, htr, hlast⟩ := runPhases_lastStatus T device op.phases 0 op.data0 w
      (Op.phases_ne_nil op) (Op.phases_last_checked op)
    exact ⟨evs, htr, by rw [hlast, h3]⟩
  · exact Or.inl ⟨h, run_of_not_inRange T device op w h⟩

theorem out_of_range_code_origin_witness :
    (¬ (Op.OutputValue 0 3 1).inRange ∧
      (Op.OutputValue 0 3 1).run scripted ⟨0⟩ ⟨[(2, 0), (2, 0), (2, 0), (3, 0)], []⟩
        = (PCAL6524_INPUTOUTOFRANGE, ⟨[(2, 0), (2, 0), (2, 0), (3, 0)], []⟩)) ∨
    ((Op.OutputValue 0 3 1).inRange ∧
      ∃ evs, ((Op.OutputValue 0 3 1).run scripted ⟨0⟩
          ⟨[(2, 0), (2, 0), (2, 0), (3, 0)], []⟩).2.trace = [] ++ evs ∧
        lastStatus? evs = some PCAL6524_INPUTOUTOFRANGE) :=
  out_of_range_code_origin scripted ⟨0⟩ (Op.OutputValue 0 3 1)
    ⟨[(2, 0), (2, 0), (2, 0), (3, 0)], []⟩ (by decide)

/-! ## The trigger getter -/

/-- C16: at port 0, pin 1, with the sub-register `0x60` holding `0b00001100`
(pin 1 set to any edge, `0b11`), `PCAL6524_GetInterruptTriggerConfig` returns
`PCAL6524_SUCCESS` with `*trig` equal to the whole byte `0x0C`, while the 2-bit
configuration of pin 1 is `(0x0C >> 2) & 0b11 = 3`. -/
theorem getInterruptTriggerConfig_stores_raw_byte :
    (PCAL6524_GetInterruptTriggerConfig regFile ⟨0⟩ 0 1 0 ⟨fun _ => 0x0C, []⟩).1
      = PCAL6524_SUCCESS ∧
    (PCAL6524_GetInterruptTriggerConfig regFile ⟨0⟩ 0 1 0 ⟨fun _ => 0x0C, []⟩).2.1 = 0x0C ∧
    (PCAL6524_GetInterruptTriggerConfig regFile ⟨0⟩ 0 1 0 ⟨fun _ => 0x0C, []⟩).2.2.trace =
      [Event.read 0x40 PCAL6524_REG_INT_EGDE_PORT_0A HAL_OK 0x0C] ∧
    (0x0C >>> (2 * (1 % 4))) &&& 0b11 = 3 := by
  decide

/-! ## Registers and device address of every call -/

theorem run_events {σ : Type} (T : Transport σ) (device : pcal6524_Device_t) (op : Op)
    (w : World σ) (h : op.inRange) :
    ∃ evs, (op.run T device w).2.trace = w.trace ++ evs ∧
      ∀ e ∈ evs, e = Event.delay PCAL6524_I2C_ATTEMPT_DELAY ∨
        ∃ p ∈ op.phases, p.isEvent (devAddress device) e := by
  rw [run_eq_runPhases T device op w h]
  exact runPhases_events T device op.phases 0 op.data0 w

/-- C17: for each function of the register table (`specRegs`) called with
arguments in range, over any transport, every read of the call addresses a
register the table lists as read for that function and port, and every write a
register it lists as written; so no register of another port or field is
touched. -/
theorem calls_address_table_registers {σ : Type} (T : Transport σ)
    (device : pcal6524_Device_t) (op : Op) (w : World σ) (rs ws : List Nat)
    (htab : specRegs op = some (rs, ws)) (h : op.inRange) :
    ∃ evs, (op.run T device w).2.trace = w.trace ++ evs ∧
      ∀ e ∈ evs,
        (∀ dv r t x, e = Event.read dv r t x → r ∈ rs) ∧
        (∀ dv r x t, e = Event.write dv r x t → r ∈ ws) := by
  obtain ⟨evs, htr, hall⟩ := run_events T device op w h
  refine ⟨evs, htr, ?_⟩
  intro e he
  rcases hall e he with hd | ⟨p, hp, hev⟩
  · subst hd
    exact ⟨fun _ _ _ _ h1 => by simp at h1, fun _ _ _ _ h1 => by simp at h1⟩
  · cases op <;> simp only [specRegs, Option.some.injEq, Prod.mk.injEq, reduceCtorEq] at htab <;>
      obtain ⟨hrs, hws⟩ := htab <;> subst hrs <;> subst hws <;>
      simp only [Op.phases, List.mem_cons, List.mem_singleton, List.not_mem_nil, or_false] at hp <;>
      (rcases hp with rfl | rfl | rfl | rfl) <;>
      simp only [Phase.isEvent] at hev <;> obtain ⟨a, b, rfl⟩ := hev <;>
      refine ⟨?_, ?_⟩ <;> intro dv r t x h1 <;>
      simp only [Event.read.injEq, Event.write.injEq, reduceCtorEq] at h1 <;>
      obtain ⟨_, rfl, _, _⟩ := h1 <;>
      first
        | exact List.mem_singleton.mpr rfl
        | exact List.mem_cons_self _ _
        | exact List.mem_cons_of_mem _ (List.mem_singleton.mpr rfl)

/-- C18: for a port up to 2 and a pin up to 7, over any transport, every read
and every write of `PCAL6524_SetInterruptTrigger` and every read of
`PCAL6524_GetInterruptTriggerConfig` addresses the register `0x60 + 2 * port`
when `pin < 4` and `0x61 + 2 * port` otherwise; in particular the read and the
write of the setter address one and the same register. -/
theorem edge_functions_address_sub_register {σ : Type} (T : Transport σ)
    (device : pcal6524_Device_t) (port pin trig trig0 : Nat) (w : World σ)
    (hport : port ≤ 2) (hpin : pin ≤ 7) (htrig : trig ≤ 3) :
    (∃ evs, (PCAL6524_SetInterruptTrigger T device port pin trig w).2.trace = w.trace ++ evs ∧
      ∀ e ∈ evs, ∀ r, e.reg? = some r →
        r = if pin < 4 then 0x60 + 2 * port else 0x61 + 2 * port) ∧
    (∃ evs, (PCAL6524_GetInterruptTriggerConfig T device port pin trig0 w).2.2.trace
        = w.trace ++ evs ∧
      (∀ e ∈ evs, e.isRead = true ∨ e = Event.delay PCAL6524_I2C_ATTEMPT_DELAY) ∧
      ∀ e ∈ evs, ∀ r, e.reg? = some r →
        r = if pin < 4 then 0x60 + 2 * port else 0x61 + 2 * port) := by
  have hedge : edgeReg port pin = if pin < 4 then 0x60 + 2 * port else 0x61 + 2 * port := by
    unfold edgeReg
    split_ifs
    · rfl
    · show 0x60 + 2 * port + 1 = 0x61 + 2 * port
      omega
  constructor
  · obtain ⟨evs, htr, hall⟩ := run_events T device (Op.SetInterruptTrigger port pin trig) w
      ⟨hport, hpin, htrig⟩
    refine ⟨evs, htr, ?_⟩
    intro e he r hr
    rcases hall e he with rfl | ⟨p, hp, hev⟩
    · simp [Event.reg?] at hr
    · simp only [Op.phases, List.mem_cons, List.mem_singleton, List.not_mem_nil, or_false] at hp
      rcases hp with rfl | rfl <;>
        simp only [Phase.isEvent] at hev <;> obtain ⟨a, b, rfl⟩ := hev <;>
        simp only [Event.reg?, Option.some.injEq] at hr <;> rw [← hr, hedge]
  · obtain ⟨evs, htr, hall⟩ := run_events T device (Op.GetInterruptTriggerConfig port pin trig0)
      w ⟨hport, hpin⟩
    refine ⟨evs, htr, ?_, ?_⟩
    · intro e he
      rcases hall e he with rfl | ⟨p, hp, hev⟩
      · exact Or.inr rfl
      · simp only [Op.phases, List.mem_singleton] at hp
        subst hp
        simp only [Phase.isEvent] at hev
        obtain ⟨a, b, rfl⟩ := hev
        exact Or.inl rfl
    · intro e he r hr
      rcases hall e he with rfl | ⟨p, hp, hev⟩
      · simp [Event.reg?] at hr
      · simp only [Op.phases, List.mem_singleton] at hp
        subst hp
        simp only [Phase.isEvent] at hev
        obtain ⟨a, b, rfl⟩ := hev
        simp only [Event.reg?, Option.some.injEq] at hr
        rw [← hr, hedge]

theorem edge_functions_address_sub_register_witness :
    (2 ≤ 2 ∧ 4 ≤ 7 ∧ 1 ≤ 3) ∧
    (∃ evs, (PCAL6524_SetInterruptTrigger scripted ⟨0⟩ 2 4 1 ⟨[(2, 0), (0, 5)], []⟩).2.trace
        = [] ++ evs ∧
      ∀ e ∈ evs, ∀ r, e.reg? = some r →
        r = if 4 < 4 then 0x60 + 2 * 2 else 0x61 + 2 * 2) ∧
    (∃ evs, (PCAL6524_GetInterruptTriggerConfig scripted ⟨0⟩ 2 4 0 ⟨[(2, 0), (0, 5)], []⟩).2.2.trace
        = [] ++ evs ∧
      (∀ e ∈ evs, e.isRead = true ∨ e = Event.delay PCAL6524_I2C_ATTEMPT_DELAY) ∧
      ∀ e ∈ evs, ∀ r, e.reg? = some r →
        r = if 4 < 4 then 0x60 + 2 * 2 else 0x61 + 2 * 2) :=
  ⟨by decide, edge_functions_address_sub_register scripted ⟨0⟩ 2 4 1 0 ⟨[(2, 0), (0, 5)], []⟩
    (by decide) (by decide) (by decide)⟩

theorem calls_address_table_registers_witness :
    (specRegs (Op.GetPinValue 1 2 0) = some ([0x6C + 1], [0x68 + 1]) ∧
      (Op.GetPinValue 1 2 0).inRange) ∧
    ∃ evs, ((Op.GetPinValue 1 2 0).run scripted ⟨0⟩ ⟨[(2, 0), (0, 4), (0, 0)], []⟩).2.trace
        = [] ++ evs ∧
      ∀ e ∈ evs,
        (∀ dv r t x, e = Event.read dv r t x → r ∈ [0x6C + 1]) ∧
        (∀ dv r x t, e = Event.write dv r x t → r ∈ [0x68 + 1]) :=
  ⟨by decide, calls_address_table_registers scripted ⟨0⟩ (Op.GetPinValue 1 2 0)
    ⟨[(2, 0), (0, 4), (0, 0)], []⟩ [0x6C + 1] [0x68 + 1] rfl (by decide)⟩

/-- C19: for a strap value `a0` up to 3, every bus transaction of every call
(whatever the function and its port, pin and value arguments) uses the device
address `(0x20 + a0) << 1`, which is `0x40 + 2 * a0` (one of `0x40`, `0x42`,
`0x44`, `0x46`): the shifted form of the 7-bit address `0x20 + a0`, with low bit
0; and two strap values up to 3 with the same device address are equal. -/
theorem calls_use_strap_address {σ : Type} (T : Transport σ)
    (device : pcal6524_Device_t) (op : Op) (w : World σ) (ha0 : device.a0 ≤ 3) :
    (∃ evs, (op.run T device w).2.trace = w.trace ++ evs ∧
      ∀ e ∈ evs, ∀ dv, e.dev? = some dv → dv = (PCAL6524_ADDRESS + device.a0) <<< 1) ∧
    (PCAL6524_ADDRESS + device.a0) <<< 1 = 0x40 + 2 * device.a0 ∧
    ((PCAL6524_ADDRESS + device.a0) <<< 1) % 2 = 0 ∧
    ((PCAL6524_ADDRESS + device.a0) <<< 1) >>> 1 = 0x20 + device.a0 ∧
    0x20 + device.a0 < 128 ∧
    ∀ other : pcal6524_Device_t, other.a0 ≤ 3 →
      devAddress other = devAddress device → other.a0 = device.a0 := by
  have hdev : ∀ a, a ≤ 3 → devAddress ⟨a⟩ = 0x40 + 2 * a := by
    intro a ha
    interval_cases a <;> rfl
  have hshift : (PCAL6524_ADDRESS + device.a0) <<< 1 = 0x40 + 2 * device.a0 := by
    have : device.a0 ≤ 3 := ha0
    interval_cases device.a0 <;> rfl
  refine ⟨?_, hshift, ?_, ?_, by omega, ?_⟩
  · by_cases h : op.inRange
    · obtain ⟨evs, htr, hall⟩ := run_events T device op w h
      refine ⟨evs, htr, ?_⟩
      intro e he dv hdv
      have hd := hdev device.a0 ha0
      rcases hall e he with rfl | ⟨p, _, hev⟩
      · simp [Event.dev?] at hdv
      · cases p <;> simp only [Phase.isEvent] at hev <;> obtain ⟨a, b, rfl⟩ := hev <;>
          simp only [Event.dev?, Option.some.injEq] at hdv <;> rw [← hdv, hshift] <;> exact hd
    · rw [run_of_not_inRange T device op w h]
      exact ⟨[], by simp, by simp⟩
  · rw [hshift]; omega
  · rw [hshift, Nat.shiftRight_eq_div_pow]; omega
  · intro other ho heq
    have h1 := hdev other.a0 ho
    have h2 := hdev device.a0 ha0
    have : devAddress other = devAddress ⟨other.a0⟩ := rfl
    have : devAddress device = devAddress ⟨device.a0⟩ := rfl
    omega

theorem calls_use_strap_address_witness :
    (3 ≤ 3) ∧
    ∃ evs, ((Op.SetPullupDown 1 2 1 1).run scripted ⟨3⟩ ⟨[(2, 0), (0, 4)], []⟩).2.trace
        = [] ++ evs ∧
      ∀ e ∈ evs, ∀ dv, e.dev? = some dv → dv = (PCAL6524_ADDRESS + 3) <<< 1 :=
  ⟨by decide, (calls_use_strap_address scripted ⟨3⟩ (Op.SetPullupDown 1 2 1 1)
    ⟨[(2, 0), (0, 4)], []⟩ (by decide)).1⟩

/-! ## A read phase followed by a write phase -/

theorem lastStatus?_mem (l : List Event) (s : Nat) (h : lastStatus? l = some s) :
    ∃ e ∈ l, e.status? = some s := by
  induction l with
  | nil => simp [lastStatus?] at h
  | cons e l ih =>
    simp only [lastStatus?] at h
    cases hl : lastStatus? l with
    | some s1 =>
      rw [hl] at h
      simp only [Option.some.injEq] at h
      obtain ⟨e1, he1, hs1⟩ := ih (by rw [hl, h])
      exact ⟨e1, by simp [he1], hs1⟩
    | none =>
      rw [hl] at h
      exact ⟨e, by simp, h⟩

theorem readStmt_call_store {σ : Type} (T : Transport σ) (device : pcal6524_Device_t)
    (store : Nat → Nat → Nat) (reg : Nat) (st d : Nat) (w : World σ) (_h : True) :
    ∃ e, ((fun (_ : Nat) data w => readStmt T device store reg data w) st d w).2.2.trace
        = w.trace ++ [e] ∧
      (fun e t d1 => ∃ x dprev, x < 256 ∧ e = Event.read (devAddress device) reg t x ∧
          d1 = store dprev x) e
        ((fun (_ : Nat) data w => readStmt T device store reg data w) st d w).1
        ((fun (_ : Nat) data w => readStmt T device store reg data w) st d w).2.1 ∧ True :=
  ⟨_, rfl, ⟨_, d, Nat.mod_lt _ (by decide), rfl, rfl⟩, trivial⟩

theorem readStmt_status {σ : Type} (T : Transport σ) (device : pcal6524_Device_t)
    (store : Nat → Nat → Nat) (reg : Nat) (st d : Nat) (w : World σ) :
    ∃ e, ((fun (_ : Nat) data w => readStmt T device store reg data w) st d w).2.2.trace
        = w.trace ++ [e] ∧
      e.status? = some ((fun (_ : Nat) data w => readStmt T device store reg data w) st d w).1 :=
  ⟨_, rfl, rfl⟩

theorem writeStmt_status {σ : Type} (T : Transport σ) (device : pcal6524_Device_t)
    (reg : Nat) (st d : Nat) (w : World σ) :
    ∃ e, ((fun (_ : Nat) data w => writeStmt T device reg data w) st d w).2.2.trace
        = w.trace ++ [e] ∧
      e.status? = some ((fun (_ : Nat) data w => writeStmt T device reg data w) st d w).1 :=
  ⟨_, rfl, rfl⟩

/-- The events of one retry loop around a read of `reg`, and how the loop ends. -/
theorem readLoop_spec {σ : Type} (T : Transport σ) (device : pcal6524_Device_t)
    (store : Nat → Nat → Nat) (reg st d : Nat) (w : World σ) :
    ∃ evs, (retryLoop T (fun _ data w => readStmt T device store reg data w)
          (PCAL6524_I2C_MAX_ATTEMPTS + 1) st d w).2.2.2.trace = w.trace ++ evs ∧
      (∀ e ∈ evs, ReadOrDelay (devAddress device) reg e) ∧
      lastStatus? evs = some (retryLoop T (fun _ data w => readStmt T device store reg data w)
          (PCAL6524_I2C_MAX_ATTEMPTS + 1) st d w).2.1 ∧
      (∀ c, (retryLoop T (fun _ data w => readStmt T device store reg data w)
          (PCAL6524_I2C_MAX_ATTEMPTS + 1) st d w).1 = some c →
        c = HAL_ERROR ∧ (retryLoop T (fun _ data w => readStmt T device store reg data w)
          (PCAL6524_I2C_MAX_ATTEMPTS + 1) st d w).2.1 = HAL_ERROR) ∧
      ((retryLoop T (fun _ data w => readStmt T device store reg data w)
          (PCAL6524_I2C_MAX_ATTEMPTS + 1) st d w).1 = none →
        (retryLoop T (fun _ data w => readStmt T device store reg data w)
          (PCAL6524_I2C_MAX_ATTEMPTS + 1) st d w).2.1 = HAL_OK →
        ∃ pre b dprev, b < 256 ∧ evs = pre ++ [Event.read (devAddress device) reg HAL_OK b] ∧
          (retryLoop T (fun _ data w => readStmt T device store reg data w)
            (PCAL6524_I2C_MAX_ATTEMPTS + 1) st d w).2.2.1 = store dprev b) ∧
      (∀ pre e post, evs = pre ++ e :: post → post ≠ [] →
        e.status? ≠ some HAL_OK ∧ e.status? ≠ some HAL_ERROR) := by
  obtain ⟨evs, htr, _, hall, hok⟩ := retryLoop_shape T
    (fun _ data w => readStmt T device store reg data w)
    (fun e t d1 => ∃ x dprev, x < 256 ∧ e = Event.read (devAddress device) reg t x ∧
      d1 = store dprev x) (fun _ => True)
    (readStmt_call_store T device store reg) (PCAL6524_I2C_MAX_ATTEMPTS + 1) st d w trivial
  obtain ⟨evs1, htr1, hlast, hret, hinner⟩ := retryLoop_last T
    (fun _ data w => readStmt T device store reg data w)
    (readStmt_status T device store reg) (PCAL6524_I2C_MAX_ATTEMPTS + 1) st d w
  obtain ⟨evs2, htr2, _, hsome⟩ := retryLoop_hard T
    (fun _ data w => readStmt T device store reg data w)
    (readStmt_status T device store reg) (PCAL6524_I2C_MAX_ATTEMPTS + 1) st d w
  have h1 : evs1 = evs := List.append_cancel_left (htr1.symm.trans htr)
  subst h1
  refine ⟨evs1, htr, ?_, hlast (by decide), ?_, ?_, hinner⟩
  · intro e he
    rcases hall e he with h | ⟨t, d1, x, dprev, _, h, _⟩
    · exact Or.inl h
    · exact Or.inr ⟨t, x, h⟩
  · intro c hc
    have h2 := (hsome c hc).1
    exact ⟨h2, by rw [← hret c hc, h2]⟩
  · intro hn hs
    obtain ⟨pre, e, hevs, x, dprev, hx, he, hd⟩ := hok hn hs (by decide)
    exact ⟨pre, x, dprev, hx, by rw [hevs, he], hd⟩

/-- The events of one retry loop around a write of `data` to `reg`, and how the
loop ends. -/
theorem writeLoop_spec {σ : Type} (T : Transport σ) (device : pcal6524_Device_t)
    (reg st data : Nat) (w : World σ) :
    ∃ evs, (retryLoop T (fun _ data w => writeStmt T device reg data w)
          (PCAL6524_I2C_MAX_ATTEMPTS + 1) st data w).2.2.2.trace = w.trace ++ evs ∧
      (∀ e ∈ evs, WriteOrDelay (devAddress device) reg data e) ∧
      lastStatus? evs = some (retryLoop T (fun _ data w => writeStmt T device reg data w)
          (PCAL6524_I2C_MAX_ATTEMPTS + 1) st data w).2.1 ∧
      (∀ c, (retryLoop T (fun _ data w => writeStmt T device reg data w)
          (PCAL6524_I2C_MAX_ATTEMPTS + 1) st data w).1 = some c →
        c = HAL_ERROR ∧ (retryLoop T (fun _ data w => writeStmt T device reg data w)
          (PCAL6524_I2C_MAX_ATTEMPTS + 1) st data w).2.1 = HAL_ERROR) ∧
      ((retryLoop T (fun _ data w => writeStmt T device reg data w)
          (PCAL6524_I2C_MAX_ATTEMPTS + 1) st data w).1 = none →
        (retryLoop T (fun _ data w => writeStmt T device reg data w)
          (PCAL6524_I2C_MAX_ATTEMPTS + 1) st data w).2.1 = HAL_OK →
        ∃ pre, evs = pre ++ [Event.write (devAddress device) reg data HAL_OK]) := by
  obtain ⟨evs, htr, _, hall, hok⟩ := retryLoop_shape T
    (fun _ data w => writeStmt T device reg data w)
    (fun e t (_ : Nat) => e = Event.write (devAddress device) reg data t)
    (fun d2 => d2 = data)
    (writeStmt_call T device reg data) (PCAL6524_I2C_MAX_ATTEMPTS + 1) st data w rfl
  obtain ⟨evs1, htr1, hlast, hret, _⟩ := retryLoop_last T
    (fun _ data w => writeStmt T device reg data w)
    (writeStmt_status T device reg) (PCAL6524_I2C_MAX_ATTEMPTS + 1) st data w
  obtain ⟨evs2, htr2, _, hsome⟩ := retryLoop_hard T
    (fun _ data w => writeStmt T device reg data w)
    (writeStmt_status T device reg) (PCAL6524_I2C_MAX_ATTEMPTS + 1) st data w
  have h1 : evs1 = evs := List.append_cancel_left (htr1.symm.trans htr)
  subst h1
  refine ⟨evs1, htr, ?_, hlast (by decide), ?_, ?_⟩
  · intro e he
    rcases hall e he with h | ⟨t, _, h⟩
    · exact Or.inl h
    · exact Or.inr ⟨t, h⟩
  · intro c hc
    have h2 := (hsome c hc).1
    exact ⟨h2, by rw [← hret c hc, h2]⟩
  · intro hn hs
    obtain ⟨pre, e, hevs, he⟩ := hok hn hs (by decide)
    exact ⟨pre, by rw [hevs, he]⟩

theorem runPhases_single_code {σ : Type} (T : Transport σ) (device : pcal6524_Device_t)
    (p : Phase) (hp : p.check = true) (st d : Nat) (w : World σ) :
    (runPhases T device [p] st d w).1 =
      (retryLoop T (p.body T device) (PCAL6524_I2C_MAX_ATTEMPTS + 1) st (p.pre d) w).2.1 := by
  obtain ⟨evs, _, _, hret, _⟩ := retryLoop_last T (p.body T device)
    (Phase.body_call T device p) (PCAL6524_I2C_MAX_ATTEMPTS + 1) st (p.pre d) w
  simp only [runPhases]
  rcases hr : retryLoop T (p.body T device) (PCAL6524_I2C_MAX_ATTEMPTS + 1) st (p.pre d) w
    with ⟨_ | c, s2, d2, w2⟩
  · dsimp only
    split_ifs with h
    · rfl
    · simp only [hp, true_and, gt_iff_lt, not_lt] at h
      exact (Nat.le_zero.mp h).symm
  · rw [hr] at hret
    exact hret c rfl

theorem readOrDelay_isRead (dev reg : Nat) (e : Event) (h : ReadOrDelay dev reg e) (s : Nat)
    (hs : e.status? = some s) : e.isRead = true := by
  rcases h with rfl | ⟨t, x, rfl⟩
  · simp [Event.status?] at hs
  · rfl

/-- The events and the return code of a read phase followed by a checked write
phase. -/
theorem readWrite_spec {σ : Type} (T : Transport σ) (device : pcal6524_Device_t)
    (store : Nat → Nat → Nat) (regR regW : Nat) (f g : Nat → Nat) (st d : Nat) (w : World σ) :
    ∃ evsR evsW d1,
      (runPhases T device [Phase.read store regR g, Phase.write regW f true] st d w).2.trace
        = w.trace ++ (evsR ++ evsW) ∧
      (∀ e ∈ evsR, ReadOrDelay (devAddress device) regR e) ∧
      (∀ e ∈ evsW, WriteOrDelay (devAddress device) regW (f d1) e) ∧
      (∃ e ∈ evsR, e.isRead = true) ∧
      (evsW ≠ [] → ∃ pre b dprev, b < 256 ∧
        evsR = pre ++ [Event.read (devAddress device) regR HAL_OK b] ∧ d1 = store dprev b) ∧
      lastStatus? (evsR ++ evsW) = some
        (runPhases T device [Phase.read store regR g, Phase.write regW f true] st d w).1 ∧
      ((runPhases T device [Phase.read store regR g, Phase.write regW f true] st d w).1
          = PCAL6524_SUCCESS →
        ∃ pre, evsW = pre ++ [Event.write (devAddress device) regW (f d1) HAL_OK]) := by
  obtain ⟨evsR, htr, hallR, hlastR, hretR, hokR, _⟩ :=
    readLoop_spec T device store regR st (g d) w
  have hread : ∃ e ∈ evsR, e.isRead = true := by
    obtain ⟨e, he, hs⟩ := lastStatus?_mem evsR _ hlastR
    exact ⟨e, he, readOrDelay_isRead _ _ e (hallR e he) _ hs⟩
  rw [runPhases]
  simp only [Phase.body, Phase.pre, Phase.check]
  rcases hr : retryLoop T (fun _ data w => readStmt T device store regR data w)
    (PCAL6524_I2C_MAX_ATTEMPTS + 1) st (g d) w with ⟨ret, st1, d1, w1⟩
  rw [hr] at htr hlastR hretR hokR
  simp only at htr hlastR hretR hokR
  cases ret with
  | some c =>
    obtain ⟨hc, hs1⟩ := hretR c rfl
    refine ⟨evsR, [], 0, by simpa using htr, hallR, by simp, hread, by simp, ?_, ?_⟩
    · simp only [List.append_nil]; rw [hlastR, hs1, hc]
    · intro h
      dsimp only at h
      rw [hc] at h
      exact absurd h (by decide : ¬ (HAL_ERROR = PCAL6524_SUCCESS))
  | none =>
    dsimp only
    split_ifs with hcheck
    · refine ⟨evsR, [], 0, by simpa using htr, hallR, by simp, hread, by simp, ?_, ?_⟩
      · simp only [List.append_nil]; exact hlastR
      · intro h
        dsimp only at h
        simp only [true_and, gt_iff_lt] at hcheck
        rw [h] at hcheck
        exact absurd hcheck (by decide : ¬ (HAL_OK < PCAL6524_SUCCESS))
    · have hst1 : st1 = HAL_OK := by
        simp only [true_and, gt_iff_lt, not_lt] at hcheck
        exact Nat.le_zero.mp hcheck
      obtain ⟨pre, b, dprev, hb, hevs, hd1⟩ := hokR rfl hst1
      obtain ⟨evsW, htrW, hallW, hlastW, hretW, hokW⟩ :=
        writeLoop_spec T device regW st1 (f d1) w1
      have hcode := runPhases_single_code T device (Phase.write regW f true) rfl st1 d1 w1
      have hworld := runPhases_single_world T device (Phase.write regW f true) st1 d1 w1
      simp only [Phase.body, Phase.pre] at hcode hworld
      refine ⟨evsR, evsW, d1, ?_, hallR, hallW, hread, fun _ => ⟨pre, b, dprev, hb, hevs, hd1⟩,
        ?_, ?_⟩
      · rw [hworld, htrW, htr, List.append_assoc]
      · rw [hcode]; exact lastStatus?_append_some evsR evsW _ hlastW
      · intro hsucc
        rw [hcode] at hsucc
        apply hokW _ hsucc
        cases hret : (retryLoop T (fun _ data w => writeStmt T device regW data w)
          (PCAL6524_I2C_MAX_ATTEMPTS + 1) st1 (f d1) w1).1 with
        | none => rfl
        | some c =>
          have := (hretW c hret).2
          rw [hsucc] at this
          exact absurd this (by decide)

theorem runPhases_append {σ : Type} (T : Transport σ) (device : pcal6524_Device_t)
    (ps2 : List Phase) :
    ∀ (ps1 : List Phase) (st d : Nat) (w : World σ),
      ((runPhases T device ps1 st d w).1 ≠ PCAL6524_SUCCESS ∧
        runPhases T device (ps1 ++ ps2) st d w = runPhases T device ps1 st d w) ∨
      ((runPhases T device ps1 st d w).1 = PCAL6524_SUCCESS ∧
        ∃ st1 d1, runPhases T device (ps1 ++ ps2) st d w
          = runPhases T device ps2 st1 d1 (runPhases T device ps1 st d w).2) := by
  intro ps1
  induction ps1 with
  | nil =>
    intro st d w
    exact Or.inr ⟨rfl, st, d, rfl⟩
  | cons p ps ih =>
    intro st d w
    obtain ⟨evs, _, _, hsome⟩ := retryLoop_hard T (p.body T device)
      (Phase.body_call T device p) (PCAL6524_I2C_MAX_ATTEMPTS + 1) st (p.pre d) w
    simp only [List.cons_append, runPhases]
    rcases hr : retryLoop T (p.body T device) (PCAL6524_I2C_MAX_ATTEMPTS + 1) st (p.pre d) w
      with ⟨_ | c, s2, d2, w2⟩
    · dsimp only
      split_ifs with h
      · left
        refine ⟨fun h0 => ?_, rfl⟩
        dsimp only at h0
        rw [h0] at h
        exact absurd h.2 (by decide : ¬ (PCAL6524_SUCCESS > HAL_OK))
      · exact ih s2 d2 w2
    · left
      rw [hr] at hsome
      have hc := (hsome c rfl).1
      refine ⟨?_, rfl⟩
      dsimp only
      rw [hc]
      decide

/-! ## A failed read phase -/

theorem failedReadStops_of_segments (dev regR code : Nat) (evsR evsW : List Event)
    (hR : ∀ e ∈ evsR, ReadOrDelay dev regR e)
    (hW : ∀ e ∈ evsW, e.isRead = false)
    (hlink : evsW ≠ [] → ∃ pre b, evsR = pre ++ [Event.read dev regR HAL_OK b])
    (hlast : lastStatus? (evsR ++ evsW) = some code) :
    FailedReadStops code (evsR ++ evsW) := by
  intro pre dv rg st x post hsplit hnoread hst
  rcases List.append_eq_append_iff.mp hsplit with ⟨a, _, ha⟩ | ⟨c, hc, hc2⟩
  · have := hW (Event.read dv rg st x) (by rw [ha]; simp)
    simp [Event.isRead] at this
  · cases c with
    | nil =>
      have := hW (Event.read dv rg st x) (by rw [← List.nil_append evsW, ← hc2]; simp)
      simp [Event.isRead] at this
    | cons e1 c2 =>
      simp only [List.cons_append, List.cons.injEq] at hc2
      obtain ⟨he1, hpost⟩ := hc2
      subst he1
      have hdelays : ∀ e ∈ c2, e = Event.delay PCAL6524_I2C_ATTEMPT_DELAY := by
        intro e he
        have h1 := hR e (by rw [hc]; simp [he])
        have h2 := hnoread e (by rw [hpost]; simp [he])
        rcases h1 with h | ⟨t, y, h⟩
        · exact h
        · rw [h] at h2; simp [Event.isRead] at h2
      have hWnil : evsW = [] := by
        by_contra hne
        obtain ⟨pre1, b, hevs⟩ := hlink hne
        rw [hc] at hevs
        rcases List.eq_nil_or_concat c2 with h0 | ⟨c3, z, h0⟩
        · subst h0
          have := List.append_inj_right' hevs rfl
          simp only [List.cons.injEq, Event.read.injEq, and_true] at this
          exact hst this.2.2.1
        · subst h0
          have hz := hdelays z (by simp)
          have h3 : (pre ++ Event.read dv rg st x :: c3) ++ [z] =
              pre1 ++ [Event.read dev regR HAL_OK b] := by simpa using hevs
          have := List.append_inj_right' h3 rfl
          rw [hz] at this
          simp at this
      subst hWnil
      simp only [List.append_nil] at hpost hlast
      subst hpost
      refine ⟨?_, hdelays⟩
      rw [hc] at hlast
      have h4 : lastStatus? (Event.read dv rg st x :: post) = some st := by
        simp [lastStatus?, lastStatus?_delays post hdelays, Event.status?]
      rw [lastStatus?_append_some pre _ st h4] at hlast
      exact (Option.some.inj hlast).symm

theorem failedReadStops_prepend (code : Nat) (evs1 evs2 : List Event)
    (hread : ∃ e ∈ evs2, e.isRead = true) (h : FailedReadStops code evs2) :
    FailedReadStops code (evs1 ++ evs2) := by
  intro pre dv rg st x post hsplit hnoread hst
  rcases List.append_eq_append_iff.mp hsplit with ⟨a, _, ha⟩ | ⟨c, _, hc2⟩
  · exact h a dv rg st x post ha hnoread hst
  · cases c with
    | nil =>
      simp only [List.nil_append] at hc2
      exact h [] dv rg st x post (by simpa using hc2.symm) hnoread hst
    | cons e1 c2 =>
      simp only [List.cons_append, List.cons.injEq] at hc2
      obtain ⟨e, he, hr⟩ := hread
      have := hnoread e (by rw [hc2.2]; simp [he])
      rw [hr] at this
      exact absurd this (by decide)

theorem writeOrDelay_not_isRead (dev reg data : Nat) (e : Event)
    (h : WriteOrDelay dev reg data e) : e.isRead = false := by
  rcases h with rfl | ⟨t, rfl⟩ <;> rfl

theorem readWrite_failedReadStops {σ : Type} (T : Transport σ) (device : pcal6524_Device_t)
    (store : Nat → Nat → Nat) (regR regW : Nat) (f g : Nat → Nat) (st d : Nat) (w : World σ) :
    ∃ evs,
      (runPhases T device [Phase.read store regR g, Phase.write regW f true] st d w).2.trace
        = w.trace ++ evs ∧
      (∃ e ∈ evs, e.isRead = true) ∧
      FailedReadStops
        (runPhases T device [Phase.read store regR g, Phase.write regW f true] st d w).1 evs := by
  obtain ⟨evsR, evsW, d1, htr, hR, hW, hread, hlink, hlast, _⟩ :=
    readWrite_spec T device store regR regW f g st d w
  refine ⟨evsR ++ evsW, htr, ?_, ?_⟩
  · obtain ⟨e, he, hr⟩ := hread
    exact ⟨e, by simp [he], hr⟩
  · apply failedReadStops_of_segments (devAddress device) regR _ evsR evsW hR
    · exact fun e he => writeOrDelay_not_isRead _ _ _ e (hW e he)
    · intro hne
      obtain ⟨pre, b, _, _, hevs, _⟩ := hlink hne
      exact ⟨pre, b, hevs⟩
    · exact hlast

theorem setPullupDown_phases_split (port pin pull active : Nat) :
    (Op.SetPullupDown port pin pull active).phases =
      [Phase.read storeU8 (PCAL6524_REG_PULL_SEL_PORT_0 + port) (fun d => d),
       Phase.write (PCAL6524_REG_PULL_SEL_PORT_0 + port) (fun d => setBit8 d pin pull) true] ++
      [Phase.read storeU8 (PCAL6524_REG_PULL_EN_PORT_0 + port) (fun d => d),
       Phase.write (PCAL6524_REG_PULL_EN_PORT_0 + port) (fun d => setBit8 d pin active) true] :=
  rfl

/-- In a call of a read-then-write function (`Op.isReadThenWrite`) with
arguments in range, over any transport: if the last read of the call, which is
the final attempt of the read phase that ran last, reported a status other than
`HAL_OK` (a hard failure, or the transient status of the fourth attempt), then
the call returns that status and only delays follow that read, so no write of
that phase or of a later one is issued. -/
theorem last_failed_read_stops {σ : Type} (T : Transport σ)
    (device : pcal6524_Device_t) (op : Op) (w : World σ)
    (hrw : op.isReadThenWrite = true) (h : op.inRange) :
    ∃ evs, (op.run T device w).2.trace = w.trace ++ evs ∧
      ∀ pre dv rg st x post, evs = pre ++ Event.read dv rg st x :: post →
        (∀ e ∈ post, e.isRead = false) → st ≠ HAL_OK →
        (op.run T device w).1 = st ∧
        ∀ e ∈ post, e = Event.delay PCAL6524_I2C_ATTEMPT_DELAY := by
  rw [run_eq_runPhases T device op w h]
  cases op with
  | SetPullupDown port pin pull active =>
    rw [setPullupDown_phases_split]
    obtain ⟨evs1, htr1, _, hF1⟩ := readWrite_failedReadStops T device storeU8
      (PCAL6524_REG_PULL_SEL_PORT_0 + port) (PCAL6524_REG_PULL_SEL_PORT_0 + port)
      (fun d => setBit8 d pin pull) (fun d => d) 0
      (Op.SetPullupDown port pin pull active).data0 w
    rcases runPhases_append T device
      [Phase.read storeU8 (PCAL6524_REG_PULL_EN_PORT_0 + port) (fun d => d),
       Phase.write (PCAL6524_REG_PULL_EN_PORT_0 + port) (fun d => setBit8 d pin active) true]
      [Phase.read storeU8 (PCAL6524_REG_PULL_SEL_PORT_0 + port) (fun d => d),
       Phase.write (PCAL6524_REG_PULL_SEL_PORT_0 + port) (fun d => setBit8 d pin pull) true]
      0 (Op.SetPullupDown port pin pull active).data0 w with ⟨_, heq⟩ | ⟨_, st1, d1, heq⟩
    · rw [heq]
      exact ⟨evs1, htr1, hF1⟩
    · rw [heq]
      obtain ⟨evs2, htr2, hread2, hF2⟩ := readWrite_failedReadStops T device storeU8
        (PCAL6524_REG_PULL_EN_PORT_0 + port) (PCAL6524_REG_PULL_EN_PORT_0 + port)
        (fun d => setBit8 d pin active) (fun d => d) st1 d1
        (runPhases T device
          [Phase.read storeU8 (PCAL6524_REG_PULL_SEL_PORT_0 + port) (fun d => d),
           Phase.write (PCAL6524_REG_PULL_SEL_PORT_0 + port) (fun d => setBit8 d pin pull) true]
          0 (Op.SetPullupDown port pin pull active).data0 w).2
      exact ⟨evs1 ++ evs2, by rw [htr2, htr1, List.append_assoc],
        failedReadStops_prepend _ evs1 evs2 hread2 hF2⟩
  | SetInOut port pin inout =>
    obtain ⟨evs, htr, _, hF⟩ := readWrite_failedReadStops T device storeU8
      (PCAL6524_REG_CONF_PORT_0 + port) (PCAL6524_REG_CONF_PORT_0 + port)
      (fun d => setBit8 d pin inout) (fun d => d) 0 (Op.SetInOut port pin inout).data0 w
    exact ⟨evs, htr, hF⟩
  | SetInterrupt port pin intr =>
    obtain ⟨evs, htr, _, hF⟩ := readWrite_failedReadStops T device storeU8
      (PCAL6524_REG_INT_MASK_PORT_0 + port) (PCAL6524_REG_INT_MASK_PORT_0 + port)
      (fun d => maskByte d pin intr) (fun d => d) 0 (Op.SetInterrupt port pin intr).data0 w
    exact ⟨evs, htr, hF⟩
  | SetPolarity port pin pol =>
    obtain ⟨evs, htr, _, hF⟩ := readWrite_failedReadStops T device storeU8
      (PCAL6524_REG_POL_PORT_0 + port) (PCAL6524_REG_POL_PORT_0 + port)
      (fun d => setBit8 d pin pol) (fun d => d) 0 (Op.SetPolarity port pin pol).data0 w
    exact ⟨evs, htr, hF⟩
  | SetInterruptTrigger port pin trig =>
    obtain ⟨evs, htr, _, hF⟩ := readWrite_failedReadStops T device storeU8
      (edgeReg port pin) (edgeReg port pin)
      (fun d => edgeByte d pin trig) (fun d => d) 0 (Op.SetInterruptTrigger port pin trig).data0 w
    exact ⟨evs, htr, hF⟩
  | OutputValue port pin value =>
    obtain ⟨evs, htr, _, hF⟩ := readWrite_failedReadStops T device storeU8
      (PCAL6524_REG_OUT_PORT_0 + port) (PCAL6524_REG_OUT_PORT_0 + port)
      (fun d => setBit8 d pin value) (fun d => d) 0 (Op.OutputValue port pin value).data0 w
    exact ⟨evs, htr, hF⟩
  | GetPinValue port pin value0 =>
    obtain ⟨evs, htr, _, hF⟩ := readWrite_failedReadStops T device storeEnum
      (PCAL6524_REG_IN_STATUS_PORT_0 + port) (PCAL6524_REG_INT_CLEAR_PORT_0 + port)
      (fun _ => (1 <<< pin) % 256) (fun d => d) 0 (Op.GetPinValue port pin value0).data0 w
    exact ⟨evs, htr, hF⟩
  | _ => simp [Op.isReadThenWrite] at hrw

/-! ## Half-applied pull configuration -/

theorem lastStatus?_concat (pre : List Event) (e : Event) (s : Nat) (h : e.status? = some s) :
    lastStatus? (pre ++ [e]) = some s :=
  lastStatus?_append_some pre [e] s (by simp [lastStatus?, h])

theorem readLoop_raw {σ : Type} (T : Transport σ) (device : pcal6524_Device_t)
    (reg st d : Nat) (w : World σ) :
    ∃ evs, (retryLoop T (fun _ data w => readStmt T device storeU8 reg data w)
          (PCAL6524_I2C_MAX_ATTEMPTS + 1) st d w).2.2.2.trace = w.trace ++ evs ∧
      DeliversRaw (devAddress device) reg
        (retryLoop T (fun _ data w => readStmt T device storeU8 reg data w)
          (PCAL6524_I2C_MAX_ATTEMPTS + 1) st d w).2.2.1 evs ∧
      ((∃ r, Event.read (devAddress device) reg HAL_OK r ∈ evs) →
        (retryLoop T (fun _ data w => readStmt T device storeU8 reg data w)
          (PCAL6524_I2C_MAX_ATTEMPTS + 1) st d w).1 = none ∧
        (retryLoop T (fun _ data w => readStmt T device storeU8 reg data w)
          (PCAL6524_I2C_MAX_ATTEMPTS + 1) st d w).2.1 = HAL_OK) ∧
      ((retryLoop T (fun _ data w => readStmt T device storeU8 reg data w)
          (PCAL6524_I2C_MAX_ATTEMPTS + 1) st d w).1 = none →
        (retryLoop T (fun _ data w => readStmt T device storeU8 reg data w)
          (PCAL6524_I2C_MAX_ATTEMPTS + 1) st d w).2.1 = HAL_OK →
        ∃ r, Event.read (devAddress device) reg HAL_OK r ∈ evs) := by
  obtain ⟨evs, htr, hall, hlast, hret, hok, hinner⟩ := readLoop_spec T device storeU8 reg st d w
  have key : ∀ r, Event.read (devAddress device) reg HAL_OK r ∈ evs →
      (∃ pre, evs = pre ++ [Event.read (devAddress device) reg HAL_OK r] ∧
        ∀ e ∈ pre, e.status? ≠ some HAL_OK) ∧
      (retryLoop T (fun _ data w => readStmt T device storeU8 reg data w)
          (PCAL6524_I2C_MAX_ATTEMPTS + 1) st d w).1 = none ∧
      (retryLoop T (fun _ data w => readStmt T device storeU8 reg data w)
          (PCAL6524_I2C_MAX_ATTEMPTS + 1) st d w).2.1 = HAL_OK := by
    intro r hr
    obtain ⟨pre, post, hsplit⟩ := List.append_of_mem hr
    have hpost : post = [] := by
      by_contra hne
      exact (hinner pre _ post hsplit hne).1 rfl
    subst hpost
    have hst : (retryLoop T (fun _ data w => readStmt T device storeU8 reg data w)
        (PCAL6524_I2C_MAX_ATTEMPTS + 1) st d w).2.1 = HAL_OK := by
      rw [hsplit, lastStatus?_concat pre (Event.read (devAddress device) reg HAL_OK r)
        HAL_OK rfl] at hlast
      exact (Option.some.inj hlast).symm
    refine ⟨⟨pre, hsplit, ?_⟩, ?_, hst⟩
    · intro e he
      obtain ⟨p1, p2, hp⟩ := List.append_of_mem he
      refine (hinner p1 e (p2 ++ [Event.read (devAddress device) reg HAL_OK r]) ?_ (by simp)).1
      rw [hsplit, hp]; simp
    · cases hc : (retryLoop T (fun _ data w => readStmt T device storeU8 reg data w)
          (PCAL6524_I2C_MAX_ATTEMPTS + 1) st d w).1 with
      | none => rfl
      | some c =>
        have := (hret c hc).2
        rw [hst] at this
        exact absurd this (by decide)
  refine ⟨evs, htr, ⟨hall, ?_⟩, ?_, ?_⟩
  · intro r hr
    obtain ⟨⟨pre, hsplit, hpre⟩, hnone, hst⟩ := key r hr
    refine ⟨?_, pre, hsplit, hpre⟩
    obtain ⟨pre1, b, dprev, _, hevs, hd⟩ := hok hnone hst
    have h1 := List.append_inj_right' (hsplit.symm.trans hevs) rfl
    simp only [List.cons.injEq, Event.read.injEq, true_and, and_true] at h1
    rw [hd, h1]
    rfl
  · rintro ⟨r, hr⟩
    exact (key r hr).2
  · intro hnone hst
    obtain ⟨pre1, b, dprev, _, hevs, _⟩ := hok hnone hst
    exact ⟨b, by rw [hevs]; simp⟩

theorem rawGetter_spec {σ : Type} (T : Transport σ) (device : pcal6524_Device_t)
    (reg out0 : Nat) (w : World σ) :
    RawGetterSpec (devAddress device) reg w.trace (rawGetter T device reg out0 w) := by
  obtain ⟨evs, htr, hraw, hokr, _⟩ := readLoop_raw T device reg 0 out0 w
  unfold rawGetter
  rcases hr : retryLoop T (fun _ data w => readStmt T device storeU8 reg data w)
    (PCAL6524_I2C_MAX_ATTEMPTS + 1) 0 out0 w with ⟨ret, st1, d1, w1⟩
  rw [hr] at htr hraw hokr
  simp only at htr hraw hokr
  cases ret with
  | some c =>
    refine ⟨evs, htr, hraw, fun h => ?_⟩
    have := (hokr h).1
    simp at this
  | none =>
    dsimp only
    split_ifs with hcheck
    · refine ⟨evs, htr, hraw, fun h => ?_⟩
      have := (hokr h).2
      rw [this] at hcheck
      exact absurd hcheck (by decide)
    · exact ⟨evs, htr, hraw, fun _ => rfl⟩

theorem rawGetter2_spec {σ : Type} (T : Transport σ) (device : pcal6524_Device_t)
    (regA regB outA0 outB0 : Nat) (w : World σ) :
    ∃ evs1 evs2,
      (rawGetter2 T device regA regB outA0 outB0 w).2.2.2.trace = w.trace ++ (evs1 ++ evs2) ∧
      DeliversRaw (devAddress device) regA (rawGetter2 T device regA regB outA0 outB0 w).2.1
        evs1 ∧
      DeliversRaw (devAddress device) regB (rawGetter2 T device regA regB outA0 outB0 w).2.2.1
        evs2 ∧
      ((∃ r, Event.read (devAddress device) regB HAL_OK r ∈ evs2) →
        (rawGetter2 T device regA regB outA0 outB0 w).1 = PCAL6524_SUCCESS) ∧
      (evs2 ≠ [] → ∃ r, Event.read (devAddress device) regA HAL_OK r ∈ evs1) := by
  obtain ⟨evs1, htr1, hraw1, _, hex1⟩ := readLoop_raw T device regA 0 outA0 w
  have hnil : DeliversRaw (devAddress device) regB outB0 [] :=
    ⟨fun e he => by simp at he, fun r hr => by simp at hr⟩
  unfold rawGetter2
  rcases hr : retryLoop T (fun _ data w => readStmt T device storeU8 regA data w)
    (PCAL6524_I2C_MAX_ATTEMPTS + 1) 0 outA0 w with ⟨ret, st1, d1, w1⟩
  rw [hr] at htr1 hraw1 hex1
  simp only at htr1 hraw1 hex1
  cases ret with
  | some c =>
    exact ⟨evs1, [], by simpa using htr1, hraw1, hnil, by simp, by simp⟩
  | none =>
    dsimp only
    split_ifs with hcheck
    · exact ⟨evs1, [], by simpa using htr1, hraw1, hnil, by simp, by simp⟩
    · have hst1 : st1 = HAL_OK := Nat.le_zero.mp (not_lt.mp hcheck)
      obtain ⟨evs2, htr2, hraw2, hokr2, _⟩ := readLoop_raw T device regB st1 outB0 w1
      rcases hr2 : retryLoop T (fun _ data w => readStmt T device storeU8 regB data w)
        (PCAL6524_I2C_MAX_ATTEMPTS + 1) st1 outB0 w1 with ⟨ret2, st2, d2, w2⟩
      rw [hr2] at htr2 hraw2 hokr2
      simp only at htr2 hraw2 hokr2
      have htr : w2.trace = w.trace ++ (evs1 ++ evs2) := by
        rw [htr2, htr1, List.append_assoc]
      cases ret2 with
      | some c =>
        refine ⟨evs1, evs2, htr, hraw1, hraw2, fun h => ?_, fun _ => hex1 rfl hst1⟩
        have := (hokr2 h).1
        simp at this
      | none =>
        dsimp only
        split_ifs with hcheck2
        · refine ⟨evs1, evs2, htr, hraw1, hraw2, fun h => ?_, fun _ => hex1 rfl hst1⟩
          have := (hokr2 h).2
          rw [this] at hcheck2
          exact absurd hcheck2 (by decide)
        · exact ⟨evs1, evs2, htr, hraw1, hraw2, fun _ => rfl, fun _ => hex1 rfl hst1⟩

theorem getInOutConfig_eq_rawGetter {σ : Type} (T : Transport σ) (device : pcal6524_Device_t)
    (port out0 : Nat) (w : World σ) (hport : port ≤ 2) :
    PCAL6524_GetInOutConfig T device port out0 w
      = rawGetter T device (PCAL6524_REG_CONF_PORT_0 + port) out0 w := by
  interval_cases port <;>
    simp [PCAL6524_GetInOutConfig, rawGetter, switchRead_0, switchRead_1, switchRead_2]

theorem getInterruptConfig_eq_rawGetter {σ : Type} (T : Transport σ)
    (device : pcal6524_Device_t) (port out0 : Nat) (w : World σ) (hport : port ≤ 2) :
    PCAL6524_GetInterruptConfig T device port out0 w
      = rawGetter T device (PCAL6524_REG_INT_MASK_PORT_0 + port) out0 w := by
  interval_cases port <;>
    simp [PCAL6524_GetInterruptConfig, rawGetter, switchRead_0, switchRead_1, switchRead_2]

theorem getPolarityConfig_eq_rawGetter {σ : Type} (T : Transport σ)
    (device : pcal6524_Device_t) (port out0 : Nat) (w : World σ) (hport : port ≤ 2) :
    PCAL6524_GetPolarityConfig T device port out0 w
      = rawGetter T device (PCAL6524_REG_POL_PORT_0 + port) out0 w := by
  interval_cases port <;>
    simp [PCAL6524_GetPolarityConfig, rawGetter, switchRead_0, switchRead_1, switchRead_2]

theorem getPortPinValues_eq_rawGetter {σ : Type} (T : Transport σ)
    (device : pcal6524_Device_t) (port out0 : Nat) (w : World σ) (hport : port ≤ 2) :
    PCAL6524_GetPortPinValues T device port out0 w
      = rawGetter T device (PCAL6524_REG_IN_PORT_0 + port) out0 w := by
  interval_cases port <;>
    simp [PCAL6524_GetPortPinValues, rawGetter, switchRead_0, switchRead_1, switchRead_2]

theorem getInterrupts_eq_rawGetter {σ : Type} (T : Transport σ)
    (device : pcal6524_Device_t) (port out0 : Nat) (w : World σ) (hport : port ≤ 2) :
    PCAL6524_GetInterrupts T device port out0 w
      = rawGetter T device (PCAL6524_REG_INT_STAT_PORT_0 + port) out0 w := by
  interval_cases port <;>
    simp [PCAL6524_GetInterrupts, rawGetter, switchRead_0, switchRead_1, switchRead_2]

theorem getPullupDownConfig_eq_rawGetter2 {σ : Type} (T : Transport σ)
    (device : pcal6524_Device_t) (port pull0 active0 : Nat) (w : World σ) (hport : port ≤ 2) :
    PCAL6524_GetPullupDownConfig T device port pull0 active0 w
      = rawGetter2 T device (PCAL6524_REG_PULL_SEL_PORT_0 + port)
          (PCAL6524_REG_PULL_EN_PORT_0 + port) pull0 active0 w := by
  interval_cases port <;>
    simp [PCAL6524_GetPullupDownConfig, rawGetter2, switchRead_0, switchRead_1, switchRead_2]

/-- For a port up to 2, over any transport, each port-wide getter makes
only reads of its register (and delays), never a write; and when a read
succeeds and delivers the byte `r`, that read is the last event and the only
successful read, the output cell holds `r` unmodified and the getter returns
`PCAL6524_SUCCESS`. This holds for `PCAL6524_GetInOutConfig`,
`PCAL6524_GetInterruptConfig`, `PCAL6524_GetPolarityConfig`,
`PCAL6524_GetPortPinValues`, `PCAL6524_GetInterrupts`, and for each of the two
outputs of `PCAL6524_GetPullupDownConfig`, whose events are the reads for
`*pull` followed by the reads for `*active`. -/
theorem port_getters_only_read {σ : Type} (T : Transport σ)
    (device : pcal6524_Device_t) (port out0 out1 : Nat) (w : World σ) (hport : port ≤ 2) :
    RawGetterSpec (devAddress device) (PCAL6524_REG_CONF_PORT_0 + port) w.trace
      (PCAL6524_GetInOutConfig T device port out0 w) ∧
    RawGetterSpec (devAddress device) (PCAL6524_REG_INT_MASK_PORT_0 + port) w.trace
      (PCAL6524_GetInterruptConfig T device port out0 w) ∧
    RawGetterSpec (devAddress device) (PCAL6524_REG_POL_PORT_0 + port) w.trace
      (PCAL6524_GetPolarityConfig T device port out0 w) ∧
    RawGetterSpec (devAddress device) (PCAL6524_REG_IN_PORT_0 + port) w.trace
      (PCAL6524_GetPortPinValues T device port out0 w) ∧
    RawGetterSpec (devAddress device) (PCAL6524_REG_INT_STAT_PORT_0 + port) w.trace
      (PCAL6524_GetInterrupts T device port out0 w) ∧
    ∃ evs1 evs2,
      (PCAL6524_GetPullupDownConfig T device port out0 out1 w).2.2.2.trace
        = w.trace ++ (evs1 ++ evs2) ∧
      DeliversRaw (devAddress device) (PCAL6524_REG_PULL_SEL_PORT_0 + port)
        (PCAL6524_GetPullupDownConfig T device port out0 out1 w).2.1 evs1 ∧
      DeliversRaw (devAddress device) (PCAL6524_REG_PULL_EN_PORT_0 + port)
        (PCAL6524_GetPullupDownConfig T device port out0 out1 w).2.2.1 evs2 ∧
      ((∃ r, Event.read (devAddress device) (PCAL6524_REG_PULL_EN_PORT_0 + port) HAL_OK r
          ∈ evs2) →
        (PCAL6524_GetPullupDownConfig T device port out0 out1 w).1 = PCAL6524_SUCCESS) ∧
      (evs2 ≠ [] →
        ∃ r, Event.read (devAddress device) (PCAL6524_REG_PULL_SEL_PORT_0 + port) HAL_OK r
          ∈ evs1) := by
  rw [getInOutConfig_eq_rawGetter T device port out0 w hport,
    getInterruptConfig_eq_rawGetter T device port out0 w hport,
    getPolarityConfig_eq_rawGetter T device port out0 w hport,
    getPortPinValues_eq_rawGetter T device port out0 w hport,
    getInterrupts_eq_rawGetter T device port out0 w hport,
    getPullupDownConfig_eq_rawGetter2 T device port out0 out1 w hport]
  exact ⟨rawGetter_spec T device _ out0 w, rawGetter_spec T device _ out0 w,
    rawGetter_spec T device _ out0 w, rawGetter_spec T device _ out0 w,
    rawGetter_spec T device _ out0 w, rawGetter2_spec T device _ _ out0 out1 w⟩

/-! ## Single-bit setters: the byte written -/

theorem setBit8_eq_specUpdateBit : ∀ b < 256, ∀ pin < 8, ∀ v < 2,
    setBit8 b pin v = specUpdateBit b pin v := by
  decide!

theorem rmw_spec {σ : Type} (T : Transport σ) (device : pcal6524_Device_t) (reg : Nat)
    (f g : Nat → Nat) (st d : Nat) (w : World σ) :
    ∃ evs,
      (runPhases T device [Phase.read storeU8 reg g, Phase.write reg f true] st d w).2.trace
        = w.trace ++ evs ∧
      RmwSpec (devAddress device) reg f
        (runPhases T device [Phase.read storeU8 reg g, Phase.write reg f true] st d w).1 evs := by
  obtain ⟨evsR, evsW, d1, htr, hR, hW, _, hlink, _, hok⟩ :=
    readWrite_spec T device storeU8 reg reg f g st d w
  by_cases hW0 : evsW = []
  · refine ⟨evsR ++ evsW, htr, evsR, evsW, 0, by decide, rfl, hR, ?_, ?_, ?_⟩
    · intro e he; rw [hW0] at he; simp at he
    · intro h; exact absurd hW0 h
    · intro hc
      obtain ⟨pre, hpre⟩ := hok hc
      rw [hW0] at hpre
      simp at hpre
  · obtain ⟨pre, b, dprev, hb, hevsR, hd1⟩ := hlink hW0
    have hd1b : d1 = b := by rw [hd1]; rfl
    subst hd1b
    exact ⟨evsR ++ evsW, htr, evsR, evsW, d1, hb, rfl, hR, hW, fun _ => ⟨pre, hevsR⟩, hok⟩

/-- C21: in a call of `PCAL6524_SetPolarity` or of `PCAL6524_OutputValue` with
arguments in range, over any transport, the events are a read-modify-write of
the polarity (output) register of the port in which every write carries
`((b & ~(1 << pin)) | (v << pin)) % 256`, `b` being the byte delivered by the
successful read; that byte is the 8-bit update of the specification, its bit
`pin` equals `v` and its other seven bits equal those of `b`. -/
theorem setPolarity_outputValue_write_updated_byte {σ : Type} (T : Transport σ)
    (device : pcal6524_Device_t) (port pin v : Nat) (w : World σ)
    (hport : port ≤ 2) (hpin : pin ≤ 7) (hv : v ≤ 1) :
    (∃ evs, (PCAL6524_SetPolarity T device port pin v w).2.trace = w.trace ++ evs ∧
      RmwSpec (devAddress device) (PCAL6524_REG_POL_PORT_0 + port)
        (fun b => ((b &&& not32 (1 <<< pin)) ||| (v <<< pin)) % 256)
        (PCAL6524_SetPolarity T device port pin v w).1 evs) ∧
    (∃ evs, (PCAL6524_OutputValue T device port pin v w).2.trace = w.trace ++ evs ∧
      RmwSpec (devAddress device) (PCAL6524_REG_OUT_PORT_0 + port)
        (fun b => ((b &&& not32 (1 <<< pin)) ||| (v <<< pin)) % 256)
        (PCAL6524_OutputValue T device port pin v w).1 evs) ∧
    ∀ b < 256,
      ((b &&& not32 (1 <<< pin)) ||| (v <<< pin)) % 256 = specUpdateBit b pin v ∧
      (specUpdateBit b pin v).testBit pin = decide (v = 1) ∧
      ∀ i < 8, i ≠ pin → (specUpdateBit b pin v).testBit i = b.testBit i := by
  have hpol := run_eq_runPhases T device (Op.SetPolarity port pin v) w ⟨hport, hpin, hv⟩
  have hout := run_eq_runPhases T device (Op.OutputValue port pin v) w ⟨hport, hpin, hv⟩
  simp only [Op.run, Op.phases, Op.data0] at hpol hout
  refine ⟨?_, ?_, ?_⟩
  · rw [hpol]
    exact rmw_spec T device (PCAL6524_REG_POL_PORT_0 + port) (fun d => setBit8 d pin v)
      (fun d => d) 0 0 w
  · rw [hout]
    exact rmw_spec T device (PCAL6524_REG_OUT_PORT_0 + port) (fun d => setBit8 d pin v)
      (fun d => d) 0 0 w
  · intro b hb
    have heq := setBit8_eq_specUpdateBit b hb pin (by omega) v (by omega)
    have ht := setBit8_target_table b hb pin (by omega) v (by omega)
    refine ⟨heq, ?_, ?_⟩
    · rw [← heq, ht]
      interval_cases v <;> rfl
    · intro i hi hne
      rw [← heq]
      exact setBit8_frame_table b hb pin (by omega) v (by omega) i hi hne

theorem setPolarity_outputValue_write_updated_byte_witness :
    (2 ≤ 2 ∧ 3 ≤ 7 ∧ 1 ≤ 1) ∧
    (∃ evs, (PCAL6524_SetPolarity scripted ⟨0⟩ 2 3 1 ⟨[(2, 0), (0, 0x41), (0, 0)], []⟩).2.trace
        = [] ++ evs ∧
      RmwSpec (devAddress ⟨0⟩) (PCAL6524_REG_POL_PORT_0 + 2)
        (fun b => ((b &&& not32 (1 <<< 3)) ||| (1 <<< 3)) % 256)
        (PCAL6524_SetPolarity scripted ⟨0⟩ 2 3 1 ⟨[(2, 0), (0, 0x41), (0, 0)], []⟩).1 evs) ∧
    (specUpdateBit 0x41 3 1).testBit 3 = decide (1 = 1) :=
  ⟨by decide,
    (setPolarity_outputValue_write_updated_byte scripted ⟨0⟩ 2 3 1
      ⟨[(2, 0), (0, 0x41), (0, 0)], []⟩ (by decide) (by decide) (by decide)).1,
    ((setPolarity_outputValue_write_updated_byte scripted ⟨0⟩ 2 3 1
      ⟨[(2, 0), (0, 0x41), (0, 0)], []⟩ (by decide) (by decide) (by decide)).2.2
        0x41 (by decide)).2.1⟩

/-! ## The bytes written by the interrupt setters -/

theorem maskByte_eq_specMaskByte : ∀ b < 256, ∀ pin < 8, ∀ intr < 2,
    maskByte b pin intr = specMaskByte b pin intr := by
  decide!

theorem maskByte_bits_pin0 : ∀ b < 256, ∀ intr < 2, ∀ i < 8,
    (maskByte b 0 intr).testBit i =
      (if i < 0 then b.testBit i else if i = 0 then intr == 0 else true) := by
  decide!

theorem maskByte_bits_pin1 : ∀ b < 256, ∀ intr < 2, ∀ i < 8,
    (maskByte b 1 intr).testBit i =
      (if i < 1 then b.testBit i else if i = 1 then intr == 0 else true) := by
  decide!

theorem maskByte_bits_pin2 : ∀ b < 256, ∀ intr < 2, ∀ i < 8,
    (maskByte b 2 intr).testBit i =
      (if i < 2 then b.testBit i else if i = 2 then intr == 0 else true) := by
  decide!

theorem maskByte_bits_pin3 : ∀ b < 256, ∀ intr < 2, ∀ i < 8,
    (maskByte b 3 intr).testBit i =
      (if i < 3 then b.testBit i else if i = 3 then intr == 0 else true) := by
  decide!

theorem maskByte_bits_pin4 : ∀ b < 256, ∀ intr < 2, ∀ i < 8,
    (maskByte b 4 intr).testBit i =
      (if i < 4 then b.testBit i else if i = 4 then intr == 0 else true) := by
  decide!

theorem maskByte_bits_pin5 : ∀ b < 256, ∀ intr < 2, ∀ i < 8,
    (maskByte b 5 intr).testBit i =
      (if i < 5 then b.testBit i else if i = 5 then intr == 0 else true) := by
  decide!

theorem maskByte_bits_pin6 : ∀ b < 256, ∀ intr < 2, ∀ i < 8,
    (maskByte b 6 intr).testBit i =
      (if i < 6 then b.testBit i else if i = 6 then intr == 0 else true) := by
  decide!

theorem maskByte_bits_pin7 : ∀ b < 256, ∀ intr < 2, ∀ i < 8,
    (maskByte b 7 intr).testBit i =
      (if i < 7 then b.testBit i else if i = 7 then intr == 0 else true) := by
  decide!

theorem maskByte_bits_table : ∀ b < 256, ∀ pin < 8, ∀ intr < 2, ∀ i < 8,
    (maskByte b pin intr).testBit i =
      (if i < pin then b.testBit i else if i = pin then intr == 0 else true) := by
  intro b hb pin hpin
  interval_cases pin
  · exact maskByte_bits_pin0 b hb
  · exact maskByte_bits_pin1 b hb
  · exact maskByte_bits_pin2 b hb
  · exact maskByte_bits_pin3 b hb
  · exact maskByte_bits_pin4 b hb
  · exact maskByte_bits_pin5 b hb
  · exact maskByte_bits_pin6 b hb
  · exact maskByte_bits_pin7 b hb

theorem edgeByte_eq_specEdgeByte : ∀ b < 256, ∀ pin < 8, ∀ trig < 4,
    edgeByte b pin trig = specEdgeByte b pin trig := by
  decide!

theorem edgeByte_field_table : ∀ b < 256, ∀ pin < 8, ∀ trig < 4,
    edgeField (edgeByte b pin trig) pin = ((edgeField b pin &&& 0b10) ||| trig) ∧
    (decide (edgeField (edgeByte b pin trig) pin = trig) =
      (!(edgeField b pin).testBit 1 || trig.testBit 1)) := by
  decide!

/-- C27: in a call of `PCAL6524_SetInterrupt` with arguments in range, over any
transport, the events are a read-modify-write of the interrupt-mask register of
the port in which every write carries
`((b & ~(1 << pin)) | (~intr << pin)) % 256`, `b` being the byte delivered by the
successful read; that byte is the one the formula gives with the complements
taken on 16 bits, its bits below `pin` are those of `b`, its bit `pin` is 1
exactly when `intr` is 0, and each of its bits above `pin` is 1. -/
theorem setInterrupt_written_byte {σ : Type} (T : Transport σ)
    (device : pcal6524_Device_t) (port pin intr : Nat) (w : World σ)
    (hport : port ≤ 2) (hpin : pin ≤ 7) (hintr : intr ≤ 1) :
    (∃ evs, (PCAL6524_SetInterrupt T device port pin intr w).2.trace = w.trace ++ evs ∧
      RmwSpec (devAddress device) (PCAL6524_REG_INT_MASK_PORT_0 + port)
        (fun b => ((b &&& not32 (1 <<< pin)) ||| ((not32 intr <<< pin) % 4294967296)) % 256)
        (PCAL6524_SetInterrupt T device port pin intr w).1 evs) ∧
    ∀ b < 256,
      ((b &&& not32 (1 <<< pin)) ||| ((not32 intr <<< pin) % 4294967296)) % 256
        = specMaskByte b pin intr ∧
      (∀ i < pin, (specMaskByte b pin intr).testBit i = b.testBit i) ∧
      (specMaskByte b pin intr).testBit pin = decide (intr = 0) ∧
      (∀ i < 8, pin < i → (specMaskByte b pin intr).testBit i = true) := by
  have hrun := run_eq_runPhases T device (Op.SetInterrupt port pin intr) w ⟨hport, hpin, hintr⟩
  simp only [Op.run, Op.phases, Op.data0] at hrun
  refine ⟨?_, ?_⟩
  · rw [hrun]
    exact rmw_spec T device (PCAL6524_REG_INT_MASK_PORT_0 + port) (fun d => maskByte d pin intr)
      (fun d => d) 0 0 w
  · intro b hb
    have heq := maskByte_eq_specMaskByte b hb pin (by omega) intr (by omega)
    have ht := maskByte_bits_table b hb pin (by omega) intr (by omega)
    refine ⟨heq, ?_, ?_, ?_⟩
    · intro i hi
      rw [← heq, ht i (by omega), if_pos hi]
    · rw [← heq, ht pin (by omega), if_neg (lt_irrefl pin), if_pos rfl]
      interval_cases intr <;> rfl
    · intro i hi hlt
      rw [← heq, ht i hi, if_neg (by omega), if_neg (by omega)]

theorem setInterrupt_written_byte_witness :
    (1 ≤ 2 ∧ 2 ≤ 7 ∧ 1 ≤ 1) ∧
    (∃ evs, (PCAL6524_SetInterrupt scripted ⟨0⟩ 1 2 1 ⟨[(0, 0x05), (2, 0), (0, 0)], []⟩).2.trace
        = [] ++ evs ∧
      RmwSpec (devAddress ⟨0⟩) (PCAL6524_REG_INT_MASK_PORT_0 + 1)
        (fun b => ((b &&& not32 (1 <<< 2)) ||| ((not32 1 <<< 2) % 4294967296)) % 256)
        (PCAL6524_SetInterrupt scripted ⟨0⟩ 1 2 1 ⟨[(0, 0x05), (2, 0), (0, 0)], []⟩).1 evs) ∧
    ((0x05 &&& not32 (1 <<< 2)) ||| ((not32 1 <<< 2) % 4294967296)) % 256
      = specMaskByte 0x05 2 1 ∧
    specMaskByte 0x05 2 1 = 0xF9 :=
  ⟨by decide,
    (setInterrupt_written_byte scripted ⟨0⟩ 1 2 1 ⟨[(0, 0x05), (2, 0), (0, 0)], []⟩
      (by decide) (by decide) (by decide)).1,
    ((setInterrupt_written_byte scripted ⟨0⟩ 1 2 1 ⟨[(0, 0x05), (2, 0), (0, 0)], []⟩
      (by decide) (by decide) (by decide)).2 0x05 (by decide)).1,
    by decide⟩

/-- C28: in a call of `PCAL6524_SetInterruptTrigger` with arguments in range,
over any transport, the events are a read-modify-write of the sub-register of
the pin in which every write carries
`((b & ~(0b1 << s)) | (trig << s)) % 256` with `s = 2 * (pin % 4)`, `b` being the
byte delivered by the successful read; that byte is `(b AND NOT (1 << s)) OR
(trig << s)`, the 2-bit field of the pin in it is `(old field AND 0b10) OR trig`,
and the field equals `trig` exactly when the high bit of the old field is 0 or
the high bit of `trig` is 1. -/
theorem setInterruptTrigger_written_byte {σ : Type} (T : Transport σ)
    (device : pcal6524_Device_t) (port pin trig : Nat) (w : World σ)
    (hport : port ≤ 2) (hpin : pin ≤ 7) (htrig : trig ≤ 3) :
    (∃ evs, (PCAL6524_SetInterruptTrigger T device port pin trig w).2.trace = w.trace ++ evs ∧
      RmwSpec (devAddress device) (edgeReg port pin)
        (fun b => ((b &&& not32 (0b1 <<< (2 * (pin % 4)))) ||| (trig <<< (2 * (pin % 4)))) % 256)
        (PCAL6524_SetInterruptTrigger T device port pin trig w).1 evs) ∧
    ∀ b < 256,
      ((b &&& not32 (0b1 <<< (2 * (pin % 4)))) ||| (trig <<< (2 * (pin % 4)))) % 256
        = specEdgeByte b pin trig ∧
      edgeField (specEdgeByte b pin trig) pin = ((edgeField b pin &&& 0b10) ||| trig) ∧
      (edgeField (specEdgeByte b pin trig) pin = trig ↔
        ((edgeField b pin).testBit 1 = false ∨ trig.testBit 1 = true)) := by
  have hrun := run_eq_runPhases T device (Op.SetInterruptTrigger port pin trig) w
    ⟨hport, hpin, htrig⟩
  simp only [Op.run, Op.phases, Op.data0] at hrun
  refine ⟨?_, ?_⟩
  · rw [hrun]
    exact rmw_spec T device (edgeReg port pin) (fun d => edgeByte d pin trig) (fun d => d) 0 0 w
  · intro b hb
    have heq := edgeByte_eq_specEdgeByte b hb pin (by omega) trig (by omega)
    obtain ⟨hf, hiff⟩ := edgeByte_field_table b hb pin (by omega) trig (by omega)
    refine ⟨heq, ?_, ?_⟩
    · rw [← heq]; exact hf
    · rw [← heq]
      constructor
      · intro h
        have h1 : decide (edgeField (edgeByte b pin trig) pin = trig) = true := decide_eq_true h
        rw [hiff] at h1
        simpa using h1
      · intro h
        have h1 : (!(edgeField b pin).testBit 1 || trig.testBit 1) = true := by simpa using h
        rw [← hiff] at h1
        exact of_decide_eq_true h1

theorem setInterruptTrigger_written_byte_witness :
    (0 ≤ 2 ∧ 5 ≤ 7 ∧ 1 ≤ 3) ∧
    (∃ evs, (PCAL6524_SetInterruptTrigger scripted ⟨0⟩ 0 5 1
        ⟨[(0, 0x08), (0, 0)], []⟩).2.trace = [] ++ evs ∧
      RmwSpec (devAddress ⟨0⟩) (edgeReg 0 5)
        (fun b => ((b &&& not32 (0b1 <<< (2 * (5 % 4)))) ||| (1 <<< (2 * (5 % 4)))) % 256)
        (PCAL6524_SetInterruptTrigger scripted ⟨0⟩ 0 5 1 ⟨[(0, 0x08), (0, 0)], []⟩).1 evs) ∧
    edgeField (specEdgeByte 0x08 5 1) 5 = ((edgeField 0x08 5 &&& 0b10) ||| 1) ∧
    edgeField (specEdgeByte 0x08 5 1) 5 = 3 :=
  ⟨by decide,
    (setInterruptTrigger_written_byte scripted ⟨0⟩ 0 5 1 ⟨[(0, 0x08), (0, 0)], []⟩
      (by decide) (by decide) (by decide)).1,
    ((setInterruptTrigger_written_byte scripted ⟨0⟩ 0 5 1 ⟨[(0, 0x08), (0, 0)], []⟩
      (by decide) (by decide) (by decide)).2 0x08 (by decide)).2.1,
    by decide⟩

/-! ## Counting calls and delays -/

theorem Event.call_of_status (e : Event) (s : Nat) (h : e.status? = some s) :
    e.isCall = true ∧ e.isDelay = false ∧
      e.isTransient = (s != HAL_OK && s != HAL_ERROR) ∧
      ∀ l, delayTime (e :: l) = delayTime l := by
  cases e with
  | read dv rg t x =>
    simp only [Event.status?, Option.some.injEq] at h
    subst h
    exact ⟨rfl, rfl, rfl, fun _ => rfl⟩
  | write dv rg x t =>
    simp only [Event.status?, Option.some.injEq] at h
    subst h
    exact ⟨rfl, rfl, rfl, fun _ => rfl⟩
  | delay ms => simp [Event.status?] at h

theorem retryLoop_counts {σ : Type} (T : Transport σ)
    (body : Nat → Nat → World σ → Nat × Nat × World σ)
    (hb : ∀ st d w, ∃ e, (body st d w).2.2.trace = w.trace ++ [e] ∧
      e.status? = some (body st d w).1) :
    ∀ (n st d : Nat) (w : World σ),
      ∃ evs, (retryLoop T body n st d w).2.2.2.trace = w.trace ++ evs ∧
        callCount evs ≤ n ∧ delayCount evs = transientCount evs ∧
        transientCount evs ≤ callCount evs ∧
        evs.length = callCount evs + delayCount evs ∧
        delayTime evs = PCAL6524_I2C_ATTEMPT_DELAY * delayCount evs ∧
        (∀ e ∈ evs, e.isDelay = true → e = Event.delay PCAL6524_I2C_ATTEMPT_DELAY) := by
  intro n
  induction n with
  | zero =>
    intro st d w
    exact ⟨[], by simp [retryLoop], by simp [callCount], by simp [delayCount, transientCount],
      by simp [callCount, transientCount], by simp [callCount, delayCount], by simp [delayTime,
      delayCount], by simp⟩
  | succ n ih =>
    intro st d w
    obtain ⟨e, htr, hst⟩ := hb st d w
    obtain ⟨hcall, hdel, htrans, htime⟩ := Event.call_of_status e _ hst
    simp only [retryLoop]
    split_ifs with hok herr
    · have htr0 : e.isTransient = false := by rw [htrans, hok]; rfl
      refine ⟨[e], htr, ?_, ?_, ?_, ?_, ?_, ?_⟩
      · simp [callCount, hcall]
      · simp [delayCount, transientCount, hdel, htr0]
      · simp [callCount, transientCount, hcall, htr0]
      · simp [callCount, delayCount, hcall, hdel]
      · rw [htime]; simp [delayTime, delayCount, hdel]
      · intro e1 he1 h1
        rw [List.mem_singleton] at he1
        rw [he1, hdel] at h1
        exact absurd h1 (by decide)
    · have htr0 : e.isTransient = false := by rw [htrans, herr]; rfl
      refine ⟨[e], htr, ?_, ?_, ?_, ?_, ?_, ?_⟩
      · simp [callCount, hcall]
      · simp [delayCount, transientCount, hdel, htr0]
      · simp [callCount, transientCount, hcall, htr0]
      · simp [callCount, delayCount, hcall, hdel]
      · rw [htime]; simp [delayTime, delayCount, hdel]
      · intro e1 he1 h1
        rw [List.mem_singleton] at he1
        rw [he1, hdel] at h1
        exact absurd h1 (by decide)
    · have htr1 : e.isTransient = true := by
        rw [htrans]
        simp only [Bool.and_eq_true, bne_iff_ne, ne_eq]
        exact ⟨hok, herr⟩
      obtain ⟨evs, htrace, hc, hd, ht, hlen, htm, hall⟩ := ih (body st d w).1 (body st d w).2.1
        (HAL_Delay T PCAL6524_I2C_ATTEMPT_DELAY (body st d w).2.2)
      have hdd : (Event.delay PCAL6524_I2C_ATTEMPT_DELAY).isCall = false := rfl
      have hdd2 : (Event.delay PCAL6524_I2C_ATTEMPT_DELAY).isDelay = true := rfl
      have hdd3 : (Event.delay PCAL6524_I2C_ATTEMPT_DELAY).isTransient = false := rfl
      simp only [callCount, delayCount, transientCount] at hc hd ht hlen htm
      refine ⟨e :: Event.delay PCAL6524_I2C_ATTEMPT_DELAY :: evs, ?_, ?_, ?_, ?_, ?_, ?_, ?_⟩
      · rw [htrace]; simp [HAL_Delay, htr]
      · simp only [callCount, List.countP_cons, hcall, hdd]
        simp only [if_true, Bool.false_eq_true, if_false]
        omega
      · simp only [delayCount, transientCount, List.countP_cons, hdel, hdd2, htr1, hdd3]
        simp only [if_true, Bool.false_eq_true, if_false]
        omega
      · simp only [callCount, transientCount, List.countP_cons, hcall, hdd, htr1, hdd3]
        simp only [if_true, Bool.false_eq_true, if_false]
        omega
      · simp only [callCount, delayCount, List.countP_cons, hcall, hdd, hdel, hdd2,
          List.length_cons]
        simp only [if_true, Bool.false_eq_true, if_false]
        omega
      · rw [htime]
        simp only [delayTime, delayCount, List.countP_cons, hdd2, hdel, htm]
        simp only [if_true, Bool.false_eq_true, if_false]
        unfold PCAL6524_I2C_ATTEMPT_DELAY
        omega
      · intro e1 he1 h1
        simp only [List.mem_cons] at he1
        rcases he1 with rfl | rfl | he1
        · rw [hdel] at h1; exact absurd h1 (by decide)
        · rfl
        · exact hall e1 he1 h1

theorem phaseLoop_counts {σ : Type} (T : Transport σ) (device : pcal6524_Device_t) (p : Phase)
    (n st d : Nat) (w : World σ) :
    ∃ evs, (retryLoop T (p.body T device) n st d w).2.2.2.trace = w.trace ++ evs ∧
      callCount evs ≤ n ∧ delayCount evs = transientCount evs ∧
      transientCount evs ≤ callCount evs ∧
      evs.length = callCount evs + delayCount evs ∧
      delayTime evs = PCAL6524_I2C_ATTEMPT_DELAY * delayCount evs ∧
      (∀ e ∈ evs, e.isDelay = true → e = Event.delay PCAL6524_I2C_ATTEMPT_DELAY) ∧
      (∀ e ∈ evs, e = Event.delay PCAL6524_I2C_ATTEMPT_DELAY ∨
        p.isEvent (devAddress device) e) := by
  obtain ⟨evs, htr, h1, h2, h3, h4, h5, h6⟩ :=
    retryLoop_counts T (p.body T device) (Phase.body_call T device p) n st d w
  obtain ⟨evs1, htr1, _, hall, _⟩ := retryLoop_shape T (p.body T device)
    (fun e (_ _ : Nat) => p.isEvent (devAddress device) e) (fun _ => True)
    (fun st d w h => Phase.body_event T device p st d w h) n st d w trivial
  have hevs : evs1 = evs := by
    rw [htr] at htr1
    exact (List.append_cancel_left htr1).symm
  subst hevs
  refine ⟨evs1, htr, h1, h2, h3, h4, h5, h6, ?_⟩
  intro e he
  rcases hall e he with h | ⟨_, _, h⟩
  · exact Or.inl h
  · exact Or.inr h

theorem readsOf_le_of_phase (dev reg : Nat) (p : Phase) :
    ∀ (evs : List Event),
      (∀ e ∈ evs, e = Event.delay PCAL6524_I2C_ATTEMPT_DELAY ∨ p.isEvent dev e) →
      readsOf reg evs ≤ (if p.isReadOf reg = true then callCount evs else 0) ∧
      writesOf reg evs ≤ (if p.isWriteOf reg = true then callCount evs else 0) := by
  intro evs
  induction evs with
  | nil => intro _; simp [readsOf, writesOf, callCount]
  | cons e evs ih =>
    intro h
    obtain ⟨ih1, ih2⟩ := ih (fun e1 he1 => h e1 (List.mem_cons_of_mem _ he1))
    simp only [readsOf, writesOf, callCount] at ih1 ih2 ⊢
    rcases h e (List.mem_cons_self _ _) with he | he
    · subst he
      simp only [List.countP_cons, Event.isReadOf, Event.isWriteOf, Event.isCall,
        Bool.false_eq_true, if_false, Nat.add_zero]
      exact ⟨ih1, ih2⟩
    · cases p with
      | read store r f =>
        obtain ⟨t, x, he⟩ := he
        subst he
        simp only [Phase.isReadOf, Phase.isWriteOf, Bool.false_eq_true, if_false,
          Nat.le_zero_eq] at ih1 ih2 ⊢
        simp only [List.countP_cons, Event.isReadOf, Event.isWriteOf, Event.isCall,
          Bool.false_eq_true, if_false, Nat.add_zero, ih2, and_true, if_true]
        split_ifs at ih1 ⊢ <;> omega
      | write r f c =>
        obtain ⟨x, t, he⟩ := he
        subst he
        simp only [Phase.isReadOf, Phase.isWriteOf, Bool.false_eq_true, if_false,
          Nat.le_zero_eq] at ih1 ih2 ⊢
        simp only [List.countP_cons, Event.isReadOf, Event.isWriteOf, Event.isCall,
          Bool.false_eq_true, if_false, Nat.add_zero, ih1, true_and, if_true]
        split_ifs at ih2 ⊢ <;> omega

theorem delayTime_append (a b : List Event) : delayTime (a ++ b) = delayTime a + delayTime b := by
  induction a with
  | nil => simp [delayTime]
  | cons e a ih =>
    cases e with
    | read dv rg t x => show delayTime (a ++ b) = delayTime a + delayTime b; exact ih
    | write dv rg x t => show delayTime (a ++ b) = delayTime a + delayTime b; exact ih
    | delay ms =>
      show ms + delayTime (a ++ b) = ms + delayTime a + delayTime b
      rw [ih]; omega

theorem runPhases_counts {σ : Type} (T : Transport σ) (device : pcal6524_Device_t) :
    ∀ (ps : List Phase) (st d : Nat) (w : World σ),
      ∃ evs, (runPhases T device ps st d w).2.trace = w.trace ++ evs ∧
        callCount evs ≤ 4 * ps.length ∧
        delayCount evs = transientCount evs ∧
        transientCount evs ≤ callCount evs ∧
        evs.length = callCount evs + delayCount evs ∧
        delayTime evs = 10 * delayCount evs ∧
        ∀ reg, readsOf reg evs ≤ 4 * ps.countP (Phase.isReadOf reg) ∧
          writesOf reg evs ≤ 4 * ps.countP (Phase.isWriteOf reg) := by
  intro ps
  induction ps with
  | nil =>
    intro st d w
    exact ⟨[], by simp [runPhases], by simp [callCount], by simp [delayCount, transientCount],
      by simp [callCount, transientCount], by simp [callCount, delayCount],
      by simp [delayTime, delayCount], fun reg => by simp [readsOf, writesOf]⟩
  | cons p ps ih =>
    intro st d w
    obtain ⟨evs1, htr1, h1, h2, h3, h4, h5, _, hev⟩ :=
      phaseLoop_counts T device p (PCAL6524_I2C_MAX_ATTEMPTS + 1) st (p.pre d) w
    have h1a : callCount evs1 ≤ 4 := h1
    have h5a : delayTime evs1 = 10 * delayCount evs1 := h5
    have hsingle : ∀ reg, readsOf reg evs1 ≤ 4 * (p :: ps).countP (Phase.isReadOf reg) ∧
        writesOf reg evs1 ≤ 4 * (p :: ps).countP (Phase.isWriteOf reg) := by
      intro reg
      obtain ⟨hr, hw⟩ := readsOf_le_of_phase (devAddress device) reg p evs1 hev
      simp only [List.countP_cons]
      constructor
      · split_ifs at hr ⊢ <;> omega
      · split_ifs at hw ⊢ <;> omega
    simp only [runPhases]
    rcases hr : retryLoop T (p.body T device) (PCAL6524_I2C_MAX_ATTEMPTS + 1) st (p.pre d) w
      with ⟨ret, st1, d1, w1⟩
    rw [hr] at htr1
    simp only at htr1
    cases ret with
    | some c =>
      exact ⟨evs1, htr1, by simp only [List.length_cons]; omega, h2, h3, h4, h5a, hsingle⟩
    | none =>
      dsimp only
      split_ifs with hcheck
      · exact ⟨evs1, htr1, by simp only [List.length_cons]; omega, h2, h3, h4, h5a, hsingle⟩
      · obtain ⟨evs2, htr2, g1, g2, g3, g4, g5, g6⟩ := ih st1 d1 w1
        simp only [callCount, delayCount, transientCount, readsOf, writesOf] at *
        refine ⟨evs1 ++ evs2, ?_, ?_, ?_, ?_, ?_, ?_, ?_⟩
        · rw [htr2, htr1, List.append_assoc]
        · simp only [List.countP_append, List.length_cons]; omega
        · simp only [List.countP_append]; omega
        · simp only [List.countP_append]; omega
        · simp only [List.countP_append, List.length_append]; omega
        · rw [delayTime_append]; simp only [List.countP_append]; omega
        · intro reg
          obtain ⟨hr1, hw1⟩ := readsOf_le_of_phase (devAddress device) reg p evs1 hev
          obtain ⟨hr2, hw2⟩ := g6 reg
          simp only [callCount, readsOf, writesOf] at hr1 hw1
          simp only [List.countP_append, List.countP_cons]
          constructor
          · split_ifs at hr1 ⊢ <;> omega
          · split_ifs at hw1 ⊢ <;> omega

theorem Op.maxCalls_eq (op : Op) : op.maxCalls = 4 * op.phases.length := by
  cases op <;> rfl

theorem Op.phases_distinct (op : Op) (reg : Nat) :
    op.phases.countP (Phase.isReadOf reg) ≤ 1 ∧ op.phases.countP (Phase.isWriteOf reg) ≤ 1 := by
  cases op <;>
    simp only [Op.phases, List.countP_cons, List.countP_nil, Phase.isReadOf, Phase.isWriteOf,
      Bool.false_eq_true, if_false, beq_iff_eq, PCAL6524_REG_PULL_SEL_PORT_0,
      PCAL6524_REG_PULL_EN_PORT_0, PCAL6524_REG_INT_CLEAR_PORT_0, PCAL6524_REG_INT_CLEAR_PORT_1,
      PCAL6524_REG_INT_CLEAR_PORT_2] <;>
    constructor <;> (try split_ifs) <;> omega

/-- C22: every call of every function, over any transport and for any
arguments, ends after finitely many HAL calls: its events hold at most the
number of transport calls the specification gives for the function
(`Op.maxCalls`: 4, 8, 16 or 12), at most as many delays as transport calls, and
for every register at most `PCAL6524_I2C_MAX_ATTEMPTS + 1` reads of it and at
most `PCAL6524_I2C_MAX_ATTEMPTS + 1` writes to it. -/
theorem calls_are_bounded {σ : Type} (T : Transport σ) (device : pcal6524_Device_t) (op : Op)
    (w : World σ) :
    ∃ evs, (op.run T device w).2.trace = w.trace ++ evs ∧
      callCount evs ≤ op.maxCalls ∧
      delayCount evs ≤ callCount evs ∧
      evs.length = callCount evs + delayCount evs ∧
      ∀ reg, readsOf reg evs ≤ PCAL6524_I2C_MAX_ATTEMPTS + 1 ∧
        writesOf reg evs ≤ PCAL6524_I2C_MAX_ATTEMPTS + 1 := by
  by_cases h : op.inRange
  · rw [run_eq_runPhases T device op w h]
    obtain ⟨evs, htr, h1, h2, h3, h4, _, h6⟩ := runPhases_counts T device op.phases 0 op.data0 w
    refine ⟨evs, htr, ?_, ?_, h4, ?_⟩
    · rw [Op.maxCalls_eq]; exact h1
    · omega
    · intro reg
      obtain ⟨hr, hw⟩ := h6 reg
      obtain ⟨hr1, hw1⟩ := Op.phases_distinct op reg
      show readsOf reg evs ≤ 3 + 1 ∧ writesOf reg evs ≤ 3 + 1
      omega
  · rw [run_of_not_inRange T device op w h]
    exact ⟨[], by simp, by simp [callCount], by simp [callCount, delayCount],
      by simp [callCount, delayCount], fun reg => by simp [readsOf, writesOf]⟩

/-! ## Attempts of a retry loop, one by one -/

theorem retryLoop_skip {σ : Type} (T : Transport σ)
    (body : Nat → Nat → World σ → Nat × Nat × World σ) (m : Nat) :
    ∀ (k st d : Nat) (w : World σ),
      (∀ j < k, (loopAttempt T body j st d w).1 ≠ HAL_OK ∧
        (loopAttempt T body j st d w).1 ≠ HAL_ERROR) →
      retryLoop T body (k + m) st d w =
        retryLoop T body m (afterAttempts T body k st d w).1 (afterAttempts T body k st d w).2.1
          (afterAttempts T body k st d w).2.2 := by
  intro k
  induction k with
  | zero => intro st d w _; simp [afterAttempts]
  | succ k ih =>
    intro st d w h
    obtain ⟨h0, h1⟩ := h 0 (Nat.succ_pos k)
    have h0a : ¬ (body st d w).1 = HAL_OK := h0
    have h1a : ¬ (body st d w).1 = HAL_ERROR := h1
    have hstep : retryLoop T body (k + 1 + m) st d w =
        retryLoop T body (k + m) (body st d w).1 (body st d w).2.1
          (HAL_Delay T PCAL6524_I2C_ATTEMPT_DELAY (body st d w).2.2) := by
      rw [show k + 1 + m = (k + m) + 1 by omega]
      simp only [retryLoop, if_neg h0a, if_neg h1a]
    rw [hstep, ih _ _ _ (fun j hj => h (j + 1) (Nat.succ_lt_succ hj))]
    rfl

theorem retryLoop_first_ok {σ : Type} (T : Transport σ)
    (body : Nat → Nat → World σ → Nat × Nat × World σ) (m st d : Nat) (w : World σ)
    (h : (body st d w).1 = HAL_OK) :
    retryLoop T body (m + 1) st d w = (none, HAL_OK, (body st d w).2.1, (body st d w).2.2) := by
  simp only [retryLoop, h, if_true]

theorem Phase.body_full {σ : Type} (T : Transport σ) (device : pcal6524_Device_t) (p : Phase)
    (st d : Nat) (w : World σ) :
    ∃ e, (p.body T device st d w).2.2.trace = w.trace ++ [e] ∧
      e.status? = some (p.body T device st d w).1 ∧ p.isEvent (devAddress device) e := by
  cases p with
  | read store reg f => exact ⟨_, rfl, rfl, _, _, rfl⟩
  | write reg f check => exact ⟨_, rfl, rfl, _, _, rfl⟩

theorem afterAttempts_events {σ : Type} (T : Transport σ) (device : pcal6524_Device_t)
    (p : Phase) :
    ∀ (k st d : Nat) (w : World σ),
      (∀ j < k, (loopAttempt T (p.body T device) j st d w).1 ≠ HAL_OK ∧
        (loopAttempt T (p.body T device) j st d w).1 ≠ HAL_ERROR) →
      ∃ calls, (afterAttempts T (p.body T device) k st d w).2.2.trace
          = w.trace ++ withDelays calls ∧
        calls.length = k ∧
        ∀ c ∈ calls, p.isEvent (devAddress device) c ∧ c.isTransient = true := by
  intro k
  induction k with
  | zero => intro st d w _; exact ⟨[], by simp [afterAttempts, withDelays], rfl, by simp⟩
  | succ k ih =>
    intro st d w h
    obtain ⟨h0, h1⟩ := h 0 (Nat.succ_pos k)
    have h0a : ¬ (p.body T device st d w).1 = HAL_OK := h0
    have h1a : ¬ (p.body T device st d w).1 = HAL_ERROR := h1
    obtain ⟨e, htr, hst, hev⟩ := Phase.body_full T device p st d w
    obtain ⟨_, _, htrans, _⟩ := Event.call_of_status e _ hst
    have he : e.isTransient = true := by
      rw [htrans]
      simp only [Bool.and_eq_true, bne_iff_ne, ne_eq]
      exact ⟨h0a, h1a⟩
    obtain ⟨calls, hc1, hc2, hc3⟩ := ih (p.body T device st d w).1 (p.body T device st d w).2.1
      (HAL_Delay T PCAL6524_I2C_ATTEMPT_DELAY (p.body T device st d w).2.2)
      (fun j hj => h (j + 1) (Nat.succ_lt_succ hj))
    refine ⟨e :: calls, ?_, by simp [hc2], ?_⟩
    · show (afterAttempts T (p.body T device) k (p.body T device st d w).1
        (p.body T device st d w).2.1
        (HAL_Delay T PCAL6524_I2C_ATTEMPT_DELAY (p.body T device st d w).2.2)).2.2.trace = _
      rw [hc1]
      simp [HAL_Delay, htr, withDelays]
    · intro c hc
      rcases List.mem_cons.mp hc with rfl | hc
      · exact ⟨hev, he⟩
      · exact hc3 c hc

theorem withDelays_counts :
    ∀ (calls : List Event), (∀ c ∈ calls, c.isTransient = true) →
      callCount (withDelays calls) = calls.length ∧
      delayCount (withDelays calls) = calls.length ∧
      transientCount (withDelays calls) = calls.length ∧
      (withDelays calls).length = 2 * calls.length ∧
      delayTime (withDelays calls) = PCAL6524_I2C_ATTEMPT_DELAY * calls.length ∧
      ∀ x ∈ withDelays calls, x.status? ≠ some HAL_OK ∧ x.status? ≠ some HAL_ERROR := by
  intro calls
  induction calls with
  | nil => intro _; simp [withDelays, callCount, delayCount, transientCount, delayTime]
  | cons c calls ih =>
    intro h
    obtain ⟨i1, i2, i3, i4, i5, i6⟩ := ih (fun c1 hc1 => h c1 (List.mem_cons_of_mem _ hc1))
    have hc := h c (List.mem_cons_self _ _)
    have hfacts : c.isCall = true ∧ c.isDelay = false ∧ (∀ l, delayTime (c :: l) = delayTime l) ∧
        c.status? ≠ some HAL_OK ∧ c.status? ≠ some HAL_ERROR := by
      cases c with
      | read dv rg t x =>
        simp only [Event.isTransient, Event.status?, Bool.and_eq_true, bne_iff_ne, ne_eq] at hc
        exact ⟨rfl, rfl, fun _ => rfl, by simpa [Event.status?] using hc.1,
          by simpa [Event.status?] using hc.2⟩
      | write dv rg x t =>
        simp only [Event.isTransient, Event.status?, Bool.and_eq_true, bne_iff_ne, ne_eq] at hc
        exact ⟨rfl, rfl, fun _ => rfl, by simpa [Event.status?] using hc.1,
          by simpa [Event.status?] using hc.2⟩
      | delay ms => simp [Event.isTransient, Event.status?] at hc
    obtain ⟨f1, f2, f3, f4, f5⟩ := hfacts
    have hdd : (Event.delay PCAL6524_I2C_ATTEMPT_DELAY).isCall = false := rfl
    have hdd2 : (Event.delay PCAL6524_I2C_ATTEMPT_DELAY).isDelay = true := rfl
    have hdd3 : (Event.delay PCAL6524_I2C_ATTEMPT_DELAY).isTransient = false := rfl
    simp only [callCount, delayCount, transientCount] at i1 i2 i3 ⊢
    refine ⟨?_, ?_, ?_, ?_, ?_, ?_⟩
    · simp only [withDelays, List.countP_cons, f1, hdd, i1, List.length_cons]
      simp only [if_true, Bool.false_eq_true, if_false]
    · simp only [withDelays, List.countP_cons, f2, hdd2, i2, List.length_cons]
      simp only [if_true, Bool.false_eq_true, if_false]
    · simp only [withDelays, List.countP_cons, hc, hdd3, i3, List.length_cons]
      simp only [if_true, Bool.false_eq_true, if_false]
    · simp only [withDelays, List.length_cons, i4]; omega
    · simp only [withDelays, f3, delayTime, i5, List.length_cons]
      unfold PCAL6524_I2C_ATTEMPT_DELAY
      omega
    · intro x hx
      simp only [withDelays, List.mem_cons] at hx
      rcases hx with rfl | rfl | hx
      · exact ⟨f4, f5⟩
      · exact ⟨by simp [Event.status?], by simp [Event.status?]⟩
      · exact i6 x hx

theorem afterAttempts_succ {σ : Type} (T : Transport σ)
    (body : Nat → Nat → World σ → Nat × Nat × World σ) :
    ∀ (k st d : Nat) (w : World σ),
      afterAttempts T body (k + 1) st d w =
        ((loopAttempt T body k st d w).1, (loopAttempt T body k st d w).2.1,
          HAL_Delay T PCAL6524_I2C_ATTEMPT_DELAY (loopAttempt T body k st d w).2.2) := by
  intro k
  induction k with
  | zero => intro st d w; rfl
  | succ k ih =>
    intro st d w
    exact ih (body st d w).1 (body st d w).2.1
      (HAL_Delay T PCAL6524_I2C_ATTEMPT_DELAY (body st d w).2.2)

theorem retryLoop_exhausted {σ : Type} (T : Transport σ)
    (body : Nat → Nat → World σ → Nat × Nat × World σ) (st d : Nat) (w : World σ)
    (h : ∀ j < PCAL6524_I2C_MAX_ATTEMPTS + 1, (loopAttempt T body j st d w).1 ≠ HAL_OK ∧
      (loopAttempt T body j st d w).1 ≠ HAL_ERROR) :
    retryLoop T body (PCAL6524_I2C_MAX_ATTEMPTS + 1) st d w =
      (none, (loopAttempt T body PCAL6524_I2C_MAX_ATTEMPTS st d w).1,
        (loopAttempt T body PCAL6524_I2C_MAX_ATTEMPTS st d w).2.1,
        (afterAttempts T body (PCAL6524_I2C_MAX_ATTEMPTS + 1) st d w).2.2) := by
  have h1 := retryLoop_skip T body 0 (PCAL6524_I2C_MAX_ATTEMPTS + 1) st d w h
  rw [Nat.add_zero] at h1
  rw [h1, afterAttempts_succ]
  rfl

/-- C29: in the retry loop of any bus phase, started in any state over any
transport, the number of calls of `HAL_Delay` equals the number of attempts
that reported a transient status, and every one of them asks for
`PCAL6524_I2C_ATTEMPT_DELAY` ms. When all `PCAL6524_I2C_MAX_ATTEMPTS + 1`
attempts report a transient status, the events of the loop are four
transactions of the phase, each followed by a delay: the loop ends without
`return`, with the status of the last attempt, after a fourth delay, having
asked for `(MAX_ATTEMPTS + 1) * 10` ms; a phase followed by the status test then
returns that status. The same count holds for the events of every call of every
function with arguments in range. -/
theorem delays_equal_transient_attempts {σ : Type} (T : Transport σ)
    (device : pcal6524_Device_t) (p : Phase) (st d : Nat) (w : World σ) :
    (∃ evs,
      (retryLoop T (p.body T device) (PCAL6524_I2C_MAX_ATTEMPTS + 1) st d w).2.2.2.trace
        = w.trace ++ evs ∧
      delayCount evs = transientCount evs ∧
      delayTime evs = PCAL6524_I2C_ATTEMPT_DELAY * transientCount evs ∧
      (∀ e ∈ evs, e.isDelay = true → e = Event.delay PCAL6524_I2C_ATTEMPT_DELAY) ∧
      ((∀ j < PCAL6524_I2C_MAX_ATTEMPTS + 1,
          (loopAttempt T (p.body T device) j st d w).1 ≠ HAL_OK ∧
          (loopAttempt T (p.body T device) j st d w).1 ≠ HAL_ERROR) →
        (retryLoop T (p.body T device) (PCAL6524_I2C_MAX_ATTEMPTS + 1) st d w).1 = none ∧
        (retryLoop T (p.body T device) (PCAL6524_I2C_MAX_ATTEMPTS + 1) st d w).2.1
          = (loopAttempt T (p.body T device) PCAL6524_I2C_MAX_ATTEMPTS st d w).1 ∧
        (∃ c0 c1 c2 c3,
          evs = [c0, Event.delay PCAL6524_I2C_ATTEMPT_DELAY,
                 c1, Event.delay PCAL6524_I2C_ATTEMPT_DELAY,
                 c2, Event.delay PCAL6524_I2C_ATTEMPT_DELAY,
                 c3, Event.delay PCAL6524_I2C_ATTEMPT_DELAY] ∧
          ∀ c ∈ [c0, c1, c2, c3], p.isEvent (devAddress device) c ∧ c.isTransient = true) ∧
        delayCount evs = PCAL6524_I2C_MAX_ATTEMPTS + 1 ∧
        delayTime evs = (PCAL6524_I2C_MAX_ATTEMPTS + 1) * PCAL6524_I2C_ATTEMPT_DELAY ∧
        ∀ ps d0, p.check = true → p.pre d0 = d →
          runPhases T device (p :: ps) st d0 w =
            ((loopAttempt T (p.body T device) PCAL6524_I2C_MAX_ATTEMPTS st d w).1,
              (retryLoop T (p.body T device) (PCAL6524_I2C_MAX_ATTEMPTS + 1) st d w).2.2.2))) ∧
    ∀ (op : Op) (w0 : World σ), op.inRange →
      ∃ evs0, (op.run T device w0).2.trace = w0.trace ++ evs0 ∧
        delayCount evs0 = transientCount evs0 ∧
        delayTime evs0 = PCAL6524_I2C_ATTEMPT_DELAY * transientCount evs0 := by
  constructor
  · obtain ⟨evs, htr, _, h2, _, _, h5, h6, _⟩ :=
      phaseLoop_counts T device p (PCAL6524_I2C_MAX_ATTEMPTS + 1) st d w
    refine ⟨evs, htr, h2, by rw [← h2]; exact h5, h6, ?_⟩
    intro hall
    have hex := retryLoop_exhausted T (p.body T device) st d w hall
    obtain ⟨calls, hc1, hc2, hc3⟩ := afterAttempts_events T device p
      (PCAL6524_I2C_MAX_ATTEMPTS + 1) st d w hall
    have hevs : evs = withDelays calls := by
      rw [hex] at htr
      simp only at htr
      rw [hc1] at htr
      exact (List.append_cancel_left htr).symm
    obtain ⟨g1, g2, g3, g4, g5, _⟩ := withDelays_counts calls (fun c hc => (hc3 c hc).2)
    refine ⟨by rw [hex], by rw [hex], ?_, by rw [hevs, g2, hc2], ?_, ?_⟩
    · match calls, hc2, hc3, hevs with
      | [c0, c1, c2, c3], _, hc3, hevs => exact ⟨c0, c1, c2, c3, hevs, hc3⟩
    · rw [hevs, g5, hc2, Nat.mul_comm]
    · intro ps d0 hcheck hpre
      have hpos : (loopAttempt T (p.body T device) PCAL6524_I2C_MAX_ATTEMPTS st d w).1 > HAL_OK :=
        Nat.pos_of_ne_zero (hall PCAL6524_I2C_MAX_ATTEMPTS (by decide)).1
      simp only [runPhases, hpre, hex, hcheck, hpos, and_self, if_true]
  · intro op w0 h
    rw [run_eq_runPhases T device op w0 h]
    obtain ⟨evs, htr, _, h2, _, _, h5, _⟩ := runPhases_counts T device op.phases 0 op.data0 w0
    exact ⟨evs, htr, h2, by rw [← h2]; exact h5⟩

theorem delays_equal_transient_attempts_witness :
    ∃ evs,
      (retryLoop scripted ((Phase.write 0x68 (fun d => d) true).body scripted ⟨0⟩)
          (PCAL6524_I2C_MAX_ATTEMPTS + 1) 0 0xFF
          ⟨[(2, 0), (2, 0), (3, 0), (2, 0), (0, 0)], []⟩).2.2.2.trace = [] ++ evs ∧
      delayCount evs = transientCount evs ∧
      (∃ c0 c1 c2 c3,
        evs = [c0, Event.delay PCAL6524_I2C_ATTEMPT_DELAY,
               c1, Event.delay PCAL6524_I2C_ATTEMPT_DELAY,
               c2, Event.delay PCAL6524_I2C_ATTEMPT_DELAY,
               c3, Event.delay PCAL6524_I2C_ATTEMPT_DELAY] ∧
        ∀ c ∈ [c0, c1, c2, c3],
          (Phase.write 0x68 (fun d => d) true).isEvent (devAddress ⟨0⟩) c ∧
            c.isTransient = true) ∧
      delayTime evs = (PCAL6524_I2C_MAX_ATTEMPTS + 1) * PCAL6524_I2C_ATTEMPT_DELAY := by
  obtain ⟨evs, htr, h1, _, _, hex⟩ :=
    (delays_equal_transient_attempts scripted ⟨0⟩ (Phase.write 0x68 (fun d => d) true) 0 0xFF
      ⟨[(2, 0), (2, 0), (3, 0), (2, 0), (0, 0)], []⟩).1
  obtain ⟨_, _, hlist, _, htime, _⟩ := hex (by decide)
  exact ⟨evs, htr, h1, hlist, htime⟩

/-! ## Transient failures followed by a success -/

theorem Op.phases_storeOk (op : Op) (p : Phase) (hp : p ∈ op.phases) : p.StoreOk := by
  have hU : ∀ c x y : Nat, x < 256 → storeU8 (storeU8 c x) y = storeU8 c y := fun _ _ _ _ => rfl
  have hE : ∀ c x y : Nat, x < 256 → storeEnum (storeEnum c x) y = storeEnum c y := by
    intro c x y hx
    simp only [storeEnum]
    omega
  cases op <;> simp only [Op.phases, List.mem_cons, List.mem_singleton, List.not_mem_nil,
    or_false] at hp <;>
    rcases hp with rfl | rfl | rfl | rfl <;> first | exact hU | exact hE | exact trivial

theorem Phase.cellEquiv_body {σ : Type} (T : Transport σ) (device : pcal6524_Device_t)
    (p : Phase) (hp : p.StoreOk) (d0 d st : Nat) (w : World σ) (h : p.cellEquiv d0 d) :
    p.cellEquiv d0 (p.body T device st d w).2.1 ∧
    ∀ st1, p.body T device st d w = p.body T device st1 d0 w := by
  cases p with
  | read store reg f =>
    have hb : (PCAL6524_ReadI2C T device reg w).2.1 < 256 := Nat.mod_lt _ (by decide)
    refine ⟨?_, ?_⟩
    · intro y hy
      show store (store d (PCAL6524_ReadI2C T device reg w).2.1) y = store d0 y
      rw [hp d _ y hb]
      exact h y hy
    · intro st1
      show readStmt T device store reg d w = readStmt T device store reg d0 w
      simp only [readStmt, h _ hb]
  | write reg f check =>
    have hd : d = d0 := h
    subst hd
    exact ⟨rfl, fun _ => rfl⟩

theorem afterAttempts_cellEquiv {σ : Type} (T : Transport σ) (device : pcal6524_Device_t)
    (p : Phase) (hp : p.StoreOk) (d0 : Nat) :
    ∀ (k st d : Nat) (w : World σ), p.cellEquiv d0 d →
      p.cellEquiv d0 (afterAttempts T (p.body T device) k st d w).2.1 := by
  intro k
  induction k with
  | zero => intro st d w h; exact h
  | succ k ih =>
    intro st d w h
    exact ih _ _ _ (Phase.cellEquiv_body T device p hp d0 d st w h).1

theorem Phase.cellEquiv_refl (p : Phase) (d : Nat) : p.cellEquiv d d := by
  cases p with
  | read store reg f => exact fun _ _ => rfl
  | write reg f check => exact rfl

theorem phase_retry_then_ok {σ : Type} (T : Transport σ) (device : pcal6524_Device_t)
    (p : Phase) (hp : p.StoreOk) (ps : List Phase) (k st d0 : Nat) (w : World σ)
    (hk : k ≤ PCAL6524_I2C_MAX_ATTEMPTS)
    (htrans : ∀ j < k, (loopAttempt T (p.body T device) j st (p.pre d0) w).1 ≠ HAL_OK ∧
      (loopAttempt T (p.body T device) j st (p.pre d0) w).1 ≠ HAL_ERROR)
    (hok : (loopAttempt T (p.body T device) k st (p.pre d0) w).1 = HAL_OK) :
    ∃ calls e,
      (loopAttempt T (p.body T device) k st (p.pre d0) w).2.2.trace
        = w.trace ++ (withDelays calls ++ [e]) ∧
      calls.length = k ∧
      (∀ c ∈ calls, p.isEvent (devAddress device) c ∧ c.isTransient = true) ∧
      p.isEvent (devAddress device) e ∧ e.status? = some HAL_OK ∧
      runPhases T device (p :: ps) st d0 w =
        runPhases T device ps HAL_OK (loopAttempt T (p.body T device) k st (p.pre d0) w).2.1
          (loopAttempt T (p.body T device) k st (p.pre d0) w).2.2 ∧
      (p.body T device st (p.pre d0)
        (afterAttempts T (p.body T device) k st (p.pre d0) w).2.2).1 = HAL_OK ∧
      runPhases T device (p :: ps) st d0 w =
        runPhases T device (p :: ps) st d0
          (afterAttempts T (p.body T device) k st (p.pre d0) w).2.2 := by
  obtain ⟨m, hm⟩ : ∃ m, PCAL6524_I2C_MAX_ATTEMPTS + 1 = k + (m + 1) :=
    ⟨PCAL6524_I2C_MAX_ATTEMPTS - k, by omega⟩
  have hloop : retryLoop T (p.body T device) (PCAL6524_I2C_MAX_ATTEMPTS + 1) st (p.pre d0) w =
      (none, HAL_OK, (loopAttempt T (p.body T device) k st (p.pre d0) w).2.1,
        (loopAttempt T (p.body T device) k st (p.pre d0) w).2.2) := by
    rw [hm, retryLoop_skip T (p.body T device) (m + 1) k st (p.pre d0) w htrans]
    exact retryLoop_first_ok T (p.body T device) m _ _ _ hok
  have hsame := (Phase.cellEquiv_body T device p hp (p.pre d0)
    (afterAttempts T (p.body T device) k st (p.pre d0) w).2.1
    (afterAttempts T (p.body T device) k st (p.pre d0) w).1
    (afterAttempts T (p.body T device) k st (p.pre d0) w).2.2
    (afterAttempts_cellEquiv T device p hp (p.pre d0) k st (p.pre d0) w
      (Phase.cellEquiv_refl p _))).2 st
  have hsame1 : loopAttempt T (p.body T device) k st (p.pre d0) w =
      p.body T device st (p.pre d0) (afterAttempts T (p.body T device) k st (p.pre d0) w).2.2 :=
    hsame
  have hok1 : (p.body T device st (p.pre d0)
      (afterAttempts T (p.body T device) k st (p.pre d0) w).2.2).1 = HAL_OK := by
    rw [← hsame1]; exact hok
  have hloop1 : retryLoop T (p.body T device) (PCAL6524_I2C_MAX_ATTEMPTS + 1) st (p.pre d0)
      (afterAttempts T (p.body T device) k st (p.pre d0) w).2.2 =
      (none, HAL_OK, (loopAttempt T (p.body T device) k st (p.pre d0) w).2.1,
        (loopAttempt T (p.body T device) k st (p.pre d0) w).2.2) := by
    rw [retryLoop_first_ok T (p.body T device) PCAL6524_I2C_MAX_ATTEMPTS _ _ _ hok1, ← hsame1]
  have hrun : runPhases T device (p :: ps) st d0 w =
      runPhases T device ps HAL_OK (loopAttempt T (p.body T device) k st (p.pre d0) w).2.1
        (loopAttempt T (p.body T device) k st (p.pre d0) w).2.2 := by
    rw [runPhases, hloop]
    simp
  have hrun1 : runPhases T device (p :: ps) st d0
      (afterAttempts T (p.body T device) k st (p.pre d0) w).2.2 =
      runPhases T device ps HAL_OK (loopAttempt T (p.body T device) k st (p.pre d0) w).2.1
        (loopAttempt T (p.body T device) k st (p.pre d0) w).2.2 := by
    rw [runPhases, hloop1]
    simp
  obtain ⟨calls, hc1, hc2, hc3⟩ := afterAttempts_events T device p k st (p.pre d0) w htrans
  obtain ⟨e, htr, hst, hev⟩ := Phase.body_full T device p
    (afterAttempts T (p.body T device) k st (p.pre d0) w).1
    (afterAttempts T (p.body T device) k st (p.pre d0) w).2.1
    (afterAttempts T (p.body T device) k st (p.pre d0) w).2.2
  refine ⟨calls, e, ?_, hc2, hc3, hev, ?_, hrun, hok1, by rw [hrun, hrun1]⟩
  · show (p.body T device _ _ _).2.2.trace = _
    rw [htr, hc1, List.append_assoc]
  · rw [hst]
    exact congrArg some hok

/-- C23: in a call with arguments in range, over any transport, let `p` be any
bus phase of the call (`op.phases = ps1 ++ p :: ps2`). Either the call ends
before `p`, or it reaches `p` with some status `st1` and data cell `d1` in the
world `w1` left by the earlier phases, and then for every
`k ≤ PCAL6524_I2C_MAX_ATTEMPTS`: if attempts 0 to `k - 1` of `p` report a
transient status and attempt `k` reports `HAL_OK`, the events of `p` are `k`
transient transactions of `p`, each followed by the delay, and then the
successful transaction `e` (`k + 1` transport calls, `k` delays); the call goes
on with the later phases from the result of attempt `k`, every later event
being a delay or a transaction of a later phase; and the call gives the same
result (return code, bus state, events) as the remaining phases `p :: ps2`
started, with the same `st1` and `d1`, in the world in which attempt `k` is
made, where the first attempt of `p` reports `HAL_OK`. -/
theorem transient_then_ok_continues {σ : Type} (T : Transport σ) (device : pcal6524_Device_t)
    (op : Op) (w : World σ) (ps1 : List Phase) (p : Phase) (ps2 : List Phase)
    (h : op.inRange) (hsplit : op.phases = ps1 ++ p :: ps2) :
    ((runPhases T device ps1 0 op.data0 w).1 ≠ PCAL6524_SUCCESS ∧
      op.run T device w = runPhases T device ps1 0 op.data0 w) ∨
    ∃ st1 d1 w1, w1 = (runPhases T device ps1 0 op.data0 w).2 ∧
      op.run T device w = runPhases T device (p :: ps2) st1 d1 w1 ∧
      ∀ k ≤ PCAL6524_I2C_MAX_ATTEMPTS,
        (∀ j < k, (loopAttempt T (p.body T device) j st1 (p.pre d1) w1).1 ≠ HAL_OK ∧
          (loopAttempt T (p.body T device) j st1 (p.pre d1) w1).1 ≠ HAL_ERROR) →
        (loopAttempt T (p.body T device) k st1 (p.pre d1) w1).1 = HAL_OK →
        ∃ calls e evs2,
          (loopAttempt T (p.body T device) k st1 (p.pre d1) w1).2.2.trace
            = w1.trace ++ (withDelays calls ++ [e]) ∧
          calls.length = k ∧
          (∀ c ∈ calls, p.isEvent (devAddress device) c ∧ c.isTransient = true) ∧
          p.isEvent (devAddress device) e ∧ e.status? = some HAL_OK ∧
          callCount (withDelays calls ++ [e]) = k + 1 ∧
          delayCount (withDelays calls ++ [e]) = k ∧
          op.run T device w =
            runPhases T device ps2 HAL_OK
              (loopAttempt T (p.body T device) k st1 (p.pre d1) w1).2.1
              (loopAttempt T (p.body T device) k st1 (p.pre d1) w1).2.2 ∧
          (op.run T device w).2.trace
            = (loopAttempt T (p.body T device) k st1 (p.pre d1) w1).2.2.trace ++ evs2 ∧
          (∀ x ∈ evs2, x = Event.delay PCAL6524_I2C_ATTEMPT_DELAY ∨
            ∃ q ∈ ps2, q.isEvent (devAddress device) x) ∧
          (p.body T device st1 (p.pre d1)
            (afterAttempts T (p.body T device) k st1 (p.pre d1) w1).2.2).1 = HAL_OK ∧
          op.run T device w =
            runPhases T device (p :: ps2) st1 d1
              (afterAttempts T (p.body T device) k st1 (p.pre d1) w1).2.2 := by
  have hpmem : p ∈ op.phases := by rw [hsplit]; simp
  have hp := Op.phases_storeOk op p hpmem
  rw [run_eq_runPhases T device op w h, hsplit]
  rcases runPhases_append T device (p :: ps2) ps1 0 op.data0 w with ⟨h1, h2⟩ | ⟨_, st1, d1, h2⟩
  · exact Or.inl ⟨h1, h2⟩
  · right
    refine ⟨st1, d1, _, rfl, h2, ?_⟩
    intro k hk htrans hok
    obtain ⟨calls, e, g1, g2, g3, g4, g5, g6, g7, g8⟩ := phase_retry_then_ok T device p hp ps2 k
      st1 d1 (runPhases T device ps1 0 op.data0 w).2 hk htrans hok
    obtain ⟨evs2, htr2, hall2⟩ := runPhases_events T device ps2 HAL_OK
      (loopAttempt T (p.body T device) k st1 (p.pre d1)
        (runPhases T device ps1 0 op.data0 w).2).2.1
      (loopAttempt T (p.body T device) k st1 (p.pre d1)
        (runPhases T device ps1 0 op.data0 w).2).2.2
    obtain ⟨c1, c2, _, _, _, _⟩ := withDelays_counts calls (fun c hc => (g3 c hc).2)
    obtain ⟨hcall, hdel, _, _⟩ := Event.call_of_status e _ g5
    refine ⟨calls, e, evs2, g1, g2, g3, g4, g5, ?_, ?_, ?_, ?_, hall2, g7, ?_⟩
    · simp only [callCount] at c1 ⊢
      simp [List.countP_append, c1, g2, hcall]
    · simp only [delayCount] at c2 ⊢
      simp [List.countP_append, c2, g2, hdel]
    · rw [h2, g6]
    · rw [h2, g6]; exact htr2
    · rw [h2]; exact g8

theorem transient_then_ok_continues_witness :
    ((Op.SetInOut 1 2 1).inRange ∧
      (Op.SetInOut 1 2 1).phases =
        [Phase.read storeU8 (PCAL6524_REG_CONF_PORT_0 + 1) (fun d => d)] ++
          Phase.write (PCAL6524_REG_CONF_PORT_0 + 1) (fun d => setBit8 d 2 1) true :: []) ∧
    ∃ st1 d1 calls e,
      (Op.SetInOut 1 2 1).run scripted ⟨0⟩ ⟨[(0, 0x41), (2, 0), (3, 0), (0, 0)], []⟩ =
        runPhases scripted ⟨0⟩
          [Phase.write (PCAL6524_REG_CONF_PORT_0 + 1) (fun d => setBit8 d 2 1) true] st1 d1
          (runPhases scripted ⟨0⟩ [Phase.read storeU8 (PCAL6524_REG_CONF_PORT_0 + 1) (fun d => d)]
            0 (Op.SetInOut 1 2 1).data0 ⟨[(0, 0x41), (2, 0), (3, 0), (0, 0)], []⟩).2 ∧
      calls.length = 2 ∧ e.status? = some HAL_OK ∧
      callCount (withDelays calls ++ [e]) = 2 + 1 ∧ delayCount (withDelays calls ++ [e]) = 2 := by
  refine ⟨⟨by decide, rfl⟩, ?_⟩
  rcases transient_then_ok_continues scripted ⟨0⟩ (Op.SetInOut 1 2 1)
    ⟨[(0, 0x41), (2, 0), (3, 0), (0, 0)], []⟩
    [Phase.read storeU8 (PCAL6524_REG_CONF_PORT_0 + 1) (fun d => d)]
    (Phase.write (PCAL6524_REG_CONF_PORT_0 + 1) (fun d => setBit8 d 2 1) true) []
    (by decide) rfl with ⟨hne, _⟩ | ⟨st1, d1, w1, hw1, hrun, hk⟩
  · exact absurd rfl hne
  · subst hw1
    have htrans : ∀ j < 2,
        (loopAttempt scripted
          ((Phase.write (PCAL6524_REG_CONF_PORT_0 + 1) (fun d => setBit8 d 2 1) true).body
            scripted ⟨0⟩) j st1
          ((Phase.write (PCAL6524_REG_CONF_PORT_0 + 1) (fun d => setBit8 d 2 1) true).pre d1)
          (runPhases scripted ⟨0⟩
            [Phase.read storeU8 (PCAL6524_REG_CONF_PORT_0 + 1) (fun d => d)] 0
            (Op.SetInOut 1 2 1).data0 ⟨[(0, 0x41), (2, 0), (3, 0), (0, 0)], []⟩).2).1 ≠ HAL_OK ∧
        (loopAttempt scripted
          ((Phase.write (PCAL6524_REG_CONF_PORT_0 + 1) (fun d => setBit8 d 2 1) true).body
            scripted ⟨0⟩) j st1
          ((Phase.write (PCAL6524_REG_CONF_PORT_0 + 1) (fun d => setBit8 d 2 1) true).pre d1)
          (runPhases scripted ⟨0⟩
            [Phase.read storeU8 (PCAL6524_REG_CONF_PORT_0 + 1) (fun d => d)] 0
            (Op.SetInOut 1 2 1).data0 ⟨[(0, 0x41), (2, 0), (3, 0), (0, 0)], []⟩).2).1
          ≠ HAL_ERROR := by
      intro j hj
      interval_cases j
      · exact ⟨by show (2 : Nat) ≠ 0; decide, by show (2 : Nat) ≠ 1; decide⟩
      · exact ⟨by show (3 : Nat) ≠ 0; decide, by show (3 : Nat) ≠ 1; decide⟩
    obtain ⟨calls, e, _, _, g2, _, _, g5, g6, g7, _⟩ := hk 2 (by decide) htrans rfl
    exact ⟨st1, d1, calls, e, hrun, g2, g5, g6, g7⟩

/-! ## A transport that always succeeds -/

theorem Phase.body_ok {σ : Type} (T : Transport σ) (device : pcal6524_Device_t) (p : Phase)
    (hread : ∀ bus dev reg, (T.HAL_I2C_Mem_Read bus dev reg).1 % 256 = HAL_OK)
    (hwrite : ∀ bus dev reg x, (T.HAL_I2C_Mem_Write bus dev reg x).1 % 256 = HAL_OK)
    (st d : Nat) (w : World σ) : (p.body T device st d w).1 = HAL_OK := by
  cases p with
  | read store reg f => exact hread _ _ _
  | write reg f check => exact hwrite _ _ _ _

theorem runPhases_all_ok {σ : Type} (T : Transport σ) (device : pcal6524_Device_t)
    (hread : ∀ bus dev reg, (T.HAL_I2C_Mem_Read bus dev reg).1 % 256 = HAL_OK)
    (hwrite : ∀ bus dev reg x, (T.HAL_I2C_Mem_Write bus dev reg x).1 % 256 = HAL_OK) :
    ∀ (ps : List Phase) (st d : Nat) (w : World σ),
      (runPhases T device ps st d w).1 = PCAL6524_SUCCESS ∧
      ∃ evs, (runPhases T device ps st d w).2.trace = w.trace ++ evs ∧
        List.Forall₂ (fun p e => p.isEvent (devAddress device) e ∧ e.status? = some HAL_OK)
          ps evs := by
  intro ps
  induction ps with
  | nil => intro st d w; exact ⟨rfl, [], by simp [runPhases], List.Forall₂.nil⟩
  | cons p ps ih =>
    intro st d w
    have hok := Phase.body_ok T device p hread hwrite st (p.pre d) w
    obtain ⟨e, htr, hst, hev⟩ := Phase.body_full T device p st (p.pre d) w
    have hloop := retryLoop_first_ok T (p.body T device) PCAL6524_I2C_MAX_ATTEMPTS st (p.pre d) w
      hok
    have hrun : runPhases T device (p :: ps) st d w =
        runPhases T device ps HAL_OK (p.body T device st (p.pre d) w).2.1
          (p.body T device st (p.pre d) w).2.2 := by
      rw [runPhases, hloop]
      simp
    obtain ⟨hcode, evs, htr2, hall⟩ := ih HAL_OK (p.body T device st (p.pre d) w).2.1
      (p.body T device st (p.pre d) w).2.2
    rw [hrun]
    refine ⟨hcode, e :: evs, ?_, List.Forall₂.cons ⟨hev, ?_⟩ hall⟩
    · rw [htr2, htr]; simp
    · rw [hst, hok]

theorem kinds_of_forall2 (dev : Nat) :
    ∀ (ps : List Phase) (evs : List Event),
      List.Forall₂ (fun p e => p.isEvent dev e ∧ e.status? = some HAL_OK) ps evs →
      evs.map Event.kind? = (ps.map Phase.kind).map some ∧ delayCount evs = 0 := by
  intro ps evs h
  induction h with
  | nil => exact ⟨rfl, rfl⟩
  | @cons p e ps evs hpe _ ih =>
    obtain ⟨ih1, ih2⟩ := ih
    have hk : e.kind? = some p.kind ∧ e.isDelay = false := by
      cases p with
      | read store reg f =>
        obtain ⟨t, x, he⟩ := hpe.1
        subst he
        exact ⟨rfl, rfl⟩
      | write reg f check =>
        obtain ⟨x, t, he⟩ := hpe.1
        subst he
        exact ⟨rfl, rfl⟩
    simp only [delayCount] at ih2 ⊢
    refine ⟨by simp [ih1, hk.1], ?_⟩
    simp [List.countP_cons, hk.2, ih2]

theorem Op.phases_kinds (op : Op) : op.phases.map Phase.kind = specKinds op := by
  cases op <;> rfl

/-- C24: a call with arguments in range over a transport whose every read and
every write reports `HAL_OK` returns `PCAL6524_SUCCESS`; its events hold no
delay, they are one transaction per bus phase of the function, in order, each
the read or the write of the register of its phase and each reporting `HAL_OK`,
and their kinds are the sequence the specification gives for the function
(`specKinds`). -/
theorem all_success_call_sequence {σ : Type} (T : Transport σ) (device : pcal6524_Device_t)
    (op : Op) (w : World σ) (h : op.inRange)
    (hread : ∀ bus dev reg, (T.HAL_I2C_Mem_Read bus dev reg).1 % 256 = HAL_OK)
    (hwrite : ∀ bus dev reg x, (T.HAL_I2C_Mem_Write bus dev reg x).1 % 256 = HAL_OK) :
    (op.run T device w).1 = PCAL6524_SUCCESS ∧
    ∃ evs, (op.run T device w).2.trace = w.trace ++ evs ∧
      delayCount evs = 0 ∧
      evs.map Event.kind? = (specKinds op).map some ∧
      List.Forall₂ (fun p e => p.isEvent (devAddress device) e ∧ e.status? = some HAL_OK)
        op.phases evs := by
  rw [run_eq_runPhases T device op w h]
  obtain ⟨hcode, evs, htr, hall⟩ := runPhases_all_ok T device hread hwrite op.phases 0 op.data0 w
  obtain ⟨hk, hd⟩ := kinds_of_forall2 (devAddress device) op.phases evs hall
  exact ⟨hcode, evs, htr, hd, by rw [hk, Op.phases_kinds], hall⟩

theorem all_success_call_sequence_witness :
    ((Op.SetPullupDown 1 2 1 0).inRange ∧
      (∀ (bus : Nat → Nat) dev reg,
        (regFile.HAL_I2C_Mem_Read bus dev reg).1 % 256 = HAL_OK) ∧
      (∀ (bus : Nat → Nat) dev reg x,
        (regFile.HAL_I2C_Mem_Write bus dev reg x).1 % 256 = HAL_OK)) ∧
    ((Op.SetPullupDown 1 2 1 0).run regFile ⟨0⟩ ⟨fun _ => 0, []⟩).1 = PCAL6524_SUCCESS ∧
    ∃ evs, ((Op.SetPullupDown 1 2 1 0).run regFile ⟨0⟩ ⟨fun _ => 0, []⟩).2.trace = [] ++ evs ∧
      delayCount evs = 0 ∧
      evs.map Event.kind? = (specKinds (Op.SetPullupDown 1 2 1 0)).map some ∧
      List.Forall₂ (fun p e => p.isEvent (devAddress ⟨0⟩) e ∧ e.status? = some HAL_OK)
        (Op.SetPullupDown 1 2 1 0).phases evs :=
  ⟨⟨by decide, fun _ _ _ => rfl, fun _ _ _ _ => rfl⟩,
    all_success_call_sequence regFile ⟨0⟩ (Op.SetPullupDown 1 2 1 0) ⟨fun _ => 0, []⟩
      (by decide) (fun _ _ _ => rfl) (fun _ _ _ _ => rfl)⟩

/-! ## The register read by the port-wide input getter -/

/-- C25: `PCAL6524_GetPortPinValues` reads the input register
`PCAL6524_REG_IN_PORT_x` (`0x00 + port`), the one whose read clears the
interrupt, and not `PCAL6524_REG_IN_STATUS_PORT_x` (`0x6C + port`): over a
register file in which every register holds its own offset, the call for port
0, 1, 2 succeeds with the single event a read of register 0, 1, 2 and delivers
0, 1, 2, the content of that register. -/
theorem getPortPinValues_reads_clearing_register :
    (PCAL6524_GetPortPinValues regFile ⟨0⟩ 0 0xFF ⟨fun r => r, []⟩).1 = PCAL6524_SUCCESS ∧
    (PCAL6524_GetPortPinValues regFile ⟨0⟩ 0 0xFF ⟨fun r => r, []⟩).2.1 = 0x00 ∧
    (PCAL6524_GetPortPinValues regFile ⟨0⟩ 0 0xFF ⟨fun r => r, []⟩).2.2.trace =
      [Event.read 0x40 PCAL6524_REG_IN_PORT_0 HAL_OK 0x00] ∧
    (PCAL6524_GetPortPinValues regFile ⟨0⟩ 1 0xFF ⟨fun r => r, []⟩).2.1 = 0x01 ∧
    (PCAL6524_GetPortPinValues regFile ⟨0⟩ 1 0xFF ⟨fun r => r, []⟩).2.2.trace =
      [Event.read 0x40 PCAL6524_REG_IN_PORT_1 HAL_OK 0x01] ∧
    (PCAL6524_GetPortPinValues regFile ⟨0⟩ 2 0xFF ⟨fun r => r, []⟩).2.1 = 0x02 ∧
    (PCAL6524_GetPortPinValues regFile ⟨0⟩ 2 0xFF ⟨fun r => r, []⟩).2.2.trace =
      [Event.read 0x40 PCAL6524_REG_IN_PORT_2 HAL_OK 0x02] ∧
    PCAL6524_REG_IN_PORT_0 ≠ PCAL6524_REG_IN_STATUS_PORT_0 ∧
    PCAL6524_REG_IN_PORT_1 ≠ PCAL6524_REG_IN_STATUS_PORT_1 ∧
    PCAL6524_REG_IN_PORT_2 ≠ PCAL6524_REG_IN_STATUS_PORT_2 := by
  refine ⟨rfl, rfl, rfl, rfl, rfl, rfl, rfl, ?_, ?_, ?_⟩ <;> decide

/-! ## Writes follow reads -/

theorem lastRead?_append_some (a b : List Event) (r : Event) (h : lastRead? b = some r) :
    lastRead? (a ++ b) = some r := by
  induction a with
  | nil => simpa using h
  | cons e a ih => simp [lastRead?, ih]

theorem lastRead?_append_none (a b : List Event) (h : lastRead? b = none) :
    lastRead? (a ++ b) = lastRead? a := by
  induction a with
  | nil => simpa [lastRead?] using h
  | cons e a ih => simp [lastRead?, ih]

theorem lastRead?_no_reads (b : List Event) (h : ∀ e ∈ b, e.isRead = false) :
    lastRead? b = none := by
  induction b with
  | nil => rfl
  | cons e b ih =>
    have h1 := ih (fun e1 he1 => h e1 (List.mem_cons_of_mem _ he1))
    have h2 := h e (List.mem_cons_self _ _)
    simp [lastRead?, h1, h2]

theorem rmwSpec_writesFollowRead (dev reg : Nat) (f : Nat → Nat) (code : Nat)
    (evs : List Event) (h : RmwSpec dev reg f code evs) (F : Nat → Nat → Nat)
    (hF : ∀ b, F reg b = f b) : WritesFollowRead F evs := by
  obtain ⟨evsR, evsW, b, _, hevs, hR, hW, hlink, _⟩ := h
  intro pre dv rg x st post hsplit
  rw [hevs] at hsplit
  have hnotR : Event.write dv rg x st ∉ evsR := by
    intro hmem
    rcases hR _ hmem with h1 | ⟨t, y, h1⟩ <;> simp at h1
  have key : ∀ a, evsW = a ++ Event.write dv rg x st :: post → pre = evsR ++ a →
      ∃ b, lastRead? pre = some (Event.read dv rg HAL_OK b) ∧ x = F rg b := by
    intro a ha hpre
    have hne : evsW ≠ [] := by rw [ha]; simp
    obtain ⟨preR, hevsR⟩ := hlink hne
    rcases hW (Event.write dv rg x st) (by rw [ha]; simp) with h1 | ⟨t, h1⟩
    · simp at h1
    · simp only [Event.write.injEq] at h1
      obtain ⟨hdv, hrg, hx, _⟩ := h1
      subst hdv hrg
      refine ⟨b, ?_, by rw [hx, hF]⟩
      have hnone : lastRead? a = none := by
        apply lastRead?_no_reads
        intro e he
        exact writeOrDelay_not_isRead _ _ _ e (hW e (by rw [ha]; simp [he]))
      rw [hpre, lastRead?_append_none _ _ hnone, hevsR]
      exact lastRead?_append_some _ _ _ rfl
  rcases List.append_eq_append_iff.mp hsplit with ⟨a, hpre, ha⟩ | ⟨c, hc, hc2⟩
  · exact key a ha hpre
  · cases c with
    | nil =>
      simp only [List.nil_append] at hc2
      exact key [] (by simpa using hc2.symm) (by simpa using hc.symm)
    | cons e1 c2 =>
      simp only [List.cons_append, List.cons.injEq] at hc2
      exact absurd (by rw [hc, ← hc2.1]; simp) hnotR

theorem writesFollowRead_append (F : Nat → Nat → Nat) (evs1 evs2 : List Event)
    (h1 : WritesFollowRead F evs1) (h2 : WritesFollowRead F evs2) :
    WritesFollowRead F (evs1 ++ evs2) := by
  intro pre dv rg x st post hsplit
  rcases List.append_eq_append_iff.mp hsplit with ⟨a, hpre, ha⟩ | ⟨c, hc, hc2⟩
  · obtain ⟨b, hb, hx⟩ := h2 a dv rg x st post ha
    exact ⟨b, by rw [hpre]; exact lastRead?_append_some _ _ _ hb, hx⟩
  · cases c with
    | nil =>
      simp only [List.nil_append] at hc2
      obtain ⟨b, hb, _⟩ := h2 [] dv rg x st post (by simpa using hc2.symm)
      simp [lastRead?] at hb
    | cons e1 c2 =>
      simp only [List.cons_append, List.cons.injEq] at hc2
      exact h1 pre dv rg x st c2 (by rw [hc, hc2.1])

theorem setter_writesFollowRead {σ : Type} (T : Transport σ) (device : pcal6524_Device_t)
    (op : Op) (w : World σ) (hset : op.isSetter = true) (h : op.inRange) :
    ∃ evs, (op.run T device w).2.trace = w.trace ++ evs ∧ WritesFollowRead op.newByte evs := by
  rw [run_eq_runPhases T device op w h]
  cases op with
  | SetPullupDown port pin pull active =>
    rw [setPullupDown_phases_split]
    obtain ⟨evs1, htr1, hS1⟩ := rmw_spec T device (PCAL6524_REG_PULL_SEL_PORT_0 + port)
      (fun d => setBit8 d pin pull) (fun d => d) 0 (Op.SetPullupDown port pin pull active).data0 w
    have hF1 := rmwSpec_writesFollowRead _ _ _ _ _ hS1
      (Op.SetPullupDown port pin pull active).newByte (fun b => by simp [Op.newByte])
    rcases runPhases_append T device
      [Phase.read storeU8 (PCAL6524_REG_PULL_EN_PORT_0 + port) (fun d => d),
       Phase.write (PCAL6524_REG_PULL_EN_PORT_0 + port) (fun d => setBit8 d pin active) true]
      [Phase.read storeU8 (PCAL6524_REG_PULL_SEL_PORT_0 + port) (fun d => d),
       Phase.write (PCAL6524_REG_PULL_SEL_PORT_0 + port) (fun d => setBit8 d pin pull) true]
      0 (Op.SetPullupDown port pin pull active).data0 w with ⟨_, heq⟩ | ⟨_, st1, d1, heq⟩
    · rw [heq]
      exact ⟨evs1, htr1, hF1⟩
    · rw [heq]
      obtain ⟨evs2, htr2, hS2⟩ := rmw_spec T device (PCAL6524_REG_PULL_EN_PORT_0 + port)
        (fun d => setBit8 d pin active) (fun d => d) st1 d1
        (runPhases T device
          [Phase.read storeU8 (PCAL6524_REG_PULL_SEL_PORT_0 + port) (fun d => d),
           Phase.write (PCAL6524_REG_PULL_SEL_PORT_0 + port) (fun d => setBit8 d pin pull) true]
          0 (Op.SetPullupDown port pin pull active).data0 w).2
      have hne : PCAL6524_REG_PULL_EN_PORT_0 + port ≠ PCAL6524_REG_PULL_SEL_PORT_0 + port := by
        show 0x4C + port ≠ 0x50 + port
        omega
      have hF2 := rmwSpec_writesFollowRead _ _ _ _ _ hS2
        (Op.SetPullupDown port pin pull active).newByte (fun b => by simp [Op.newByte, hne])
      exact ⟨evs1 ++ evs2, by rw [htr2, htr1, List.append_assoc],
        writesFollowRead_append _ evs1 evs2 hF1 hF2⟩
  | SetInOut port pin inout =>
    obtain ⟨evs, htr, hS⟩ := rmw_spec T device (PCAL6524_REG_CONF_PORT_0 + port)
      (fun d => setBit8 d pin inout) (fun d => d) 0 (Op.SetInOut port pin inout).data0 w
    exact ⟨evs, htr, rmwSpec_writesFollowRead _ _ _ _ _ hS _ (fun _ => rfl)⟩
  | SetInterrupt port pin intr =>
    obtain ⟨evs, htr, hS⟩ := rmw_spec T device (PCAL6524_REG_INT_MASK_PORT_0 + port)
      (fun d => maskByte d pin intr) (fun d => d) 0 (Op.SetInterrupt port pin intr).data0 w
    exact ⟨evs, htr, rmwSpec_writesFollowRead _ _ _ _ _ hS _ (fun _ => rfl)⟩
  | SetPolarity port pin pol =>
    obtain ⟨evs, htr, hS⟩ := rmw_spec T device (PCAL6524_REG_POL_PORT_0 + port)
      (fun d => setBit8 d pin pol) (fun d => d) 0 (Op.SetPolarity port pin pol).data0 w
    exact ⟨evs, htr, rmwSpec_writesFollowRead _ _ _ _ _ hS _ (fun _ => rfl)⟩
  | SetInterruptTrigger port pin trig =>
    obtain ⟨evs, htr, hS⟩ := rmw_spec T device (edgeReg port pin)
      (fun d => edgeByte d pin trig) (fun d => d) 0 (Op.SetInterruptTrigger port pin trig).data0 w
    exact ⟨evs, htr, rmwSpec_writesFollowRead _ _ _ _ _ hS _ (fun _ => rfl)⟩
  | OutputValue port pin value =>
    obtain ⟨evs, htr, hS⟩ := rmw_spec T device (PCAL6524_REG_OUT_PORT_0 + port)
      (fun d => setBit8 d pin value) (fun d => d) 0 (Op.OutputValue port pin value).data0 w
    exact ⟨evs, htr, rmwSpec_writesFollowRead _ _ _ _ _ hS _ (fun _ => rfl)⟩
  | _ => simp [Op.isSetter] at hset

/-- C26: in a call of a setter (`Op.isSetter`) with arguments in range, over any
transport and from any world (whatever calls came before), every write is
preceded within the call by a read, the last read before it is a read of the
same register that reported `HAL_OK`, and the byte written is `op.newByte` of
the register and of the byte that read delivered, a function of the arguments
of the call alone. So in two calls with the same arguments, from any two
worlds, two writes to the same register that follow reads of the same byte carry
the same byte. -/
theorem setter_writes_follow_reads {σ : Type} (T : Transport σ) (device : pcal6524_Device_t)
    (op : Op) (w w' : World σ) (hset : op.isSetter = true) (h : op.inRange) :
    ∃ evs evs', (op.run T device w).2.trace = w.trace ++ evs ∧
      (op.run T device w').2.trace = w'.trace ++ evs' ∧
      WritesFollowRead op.newByte evs ∧ WritesFollowRead op.newByte evs' ∧
      ∀ pre dv reg x st post pre' dv' x' st' post' b,
        evs = pre ++ Event.write dv reg x st :: post →
        evs' = pre' ++ Event.write dv' reg x' st' :: post' →
        lastRead? pre = some (Event.read dv reg HAL_OK b) →
        lastRead? pre' = some (Event.read dv' reg HAL_OK b) → x = x' := by
  obtain ⟨evs, htr, hF⟩ := setter_writesFollowRead T device op w hset h
  obtain ⟨evs', htr', hF'⟩ := setter_writesFollowRead T device op w' hset h
  refine ⟨evs, evs', htr, htr', hF, hF', ?_⟩
  intro pre dv reg x st post pre' dv' x' st' post' b h1 h2 h3 h4
  obtain ⟨b1, hb1, hx⟩ := hF pre dv reg x st post h1
  obtain ⟨b2, hb2, hx'⟩ := hF' pre' dv' reg x' st' post' h2
  rw [h3] at hb1
  rw [h4] at hb2
  simp only [Option.some.injEq, Event.read.injEq, true_and] at hb1 hb2
  rw [hx, hx', ← hb1, ← hb2]

theorem setter_writes_follow_reads_witness :
    ((Op.SetPullupDown 1 2 1 0).isSetter = true ∧ (Op.SetPullupDown 1 2 1 0).inRange) ∧
    ∃ evs evs',
      ((Op.SetPullupDown 1 2 1 0).run scripted ⟨0⟩
        ⟨[(2, 9), (0, 0x41), (0, 0), (0, 0xFF), (2, 0), (0, 0)], []⟩).2.trace = [] ++ evs ∧
      ((Op.SetPullupDown 1 2 1 0).run scripted ⟨0⟩
        ⟨[(0, 0x41), (2, 0), (0, 0), (0, 0x0F)], [Event.delay 5]⟩).2.trace
          = [Event.delay 5] ++ evs' ∧
      WritesFollowRead (Op.SetPullupDown 1 2 1 0).newByte evs ∧
      WritesFollowRead (Op.SetPullupDown 1 2 1 0).newByte evs' :=
  ⟨by decide,
    (setter_writes_follow_reads scripted ⟨0⟩ (Op.SetPullupDown 1 2 1 0)
      ⟨[(2, 9), (0, 0x41), (0, 0), (0, 0xFF), (2, 0), (0, 0)], []⟩
      ⟨[(0, 0x41), (2, 0), (0, 0), (0, 0x0F)], [Event.delay 5]⟩ (by decide) (by decide)).imp
      fun _ hx => hx.imp fun _ hy => ⟨hy.1, hy.2.1, hy.2.2.1, hy.2.2.2.1⟩⟩

/-! ## Setters are idempotent over the simulated register file -/

theorem setBit8_idem_table : ∀ b < 256, ∀ pin < 8, ∀ v < 2,
    setBit8 (setBit8 b pin v % 256) pin v = setBit8 b pin v := by
  decide!

theorem maskByte_idem_table : ∀ b < 256, ∀ pin < 8, ∀ intr < 2,
    maskByte (maskByte b pin intr % 256) pin intr = maskByte b pin intr := by
  decide!

theorem edgeByte_idem_table : ∀ b < 256, ∀ pin < 8, ∀ trig < 4,
    edgeByte (edgeByte b pin trig % 256) pin trig = edgeByte b pin trig := by
  decide!

theorem rmw_regFile (device : pcal6524_Device_t) (reg : Nat) (f g : Nat → Nat) (st d : Nat)
    (s : Nat → Nat) (tr : List Event) :
    runPhases regFile device [Phase.read storeU8 reg g, Phase.write reg f true] st d ⟨s, tr⟩ =
      (PCAL6524_SUCCESS,
        ⟨Function.update s reg (f (s reg % 256)),
          tr ++ [Event.read (devAddress device) reg HAL_OK (s reg % 256),
                 Event.write (devAddress device) reg (f (s reg % 256)) HAL_OK]⟩) := by
  simp [runPhases, retryLoop, Phase.body, Phase.pre, Phase.check, readStmt, writeStmt, storeU8,
    PCAL6524_ReadI2C, PCAL6524_WriteI2C, regFile]

theorem rmw_regFile_idem (device : pcal6524_Device_t) (reg : Nat) (f g : Nat → Nat)
    (st d st1 d1 : Nat) (s : Nat → Nat) (tr : List Event)
    (hf : ∀ b < 256, f (f b % 256) = f b) :
    (runPhases regFile device [Phase.read storeU8 reg g, Phase.write reg f true] st d
      ⟨s, tr⟩).1 = PCAL6524_SUCCESS ∧
    (runPhases regFile device [Phase.read storeU8 reg g, Phase.write reg f true] st1 d1
      (runPhases regFile device [Phase.read storeU8 reg g, Phase.write reg f true] st d
        ⟨s, tr⟩).2).1 = PCAL6524_SUCCESS ∧
    (runPhases regFile device [Phase.read storeU8 reg g, Phase.write reg f true] st1 d1
      (runPhases regFile device [Phase.read storeU8 reg g, Phase.write reg f true] st d
        ⟨s, tr⟩).2).2.bus =
      (runPhases regFile device [Phase.read storeU8 reg g, Phase.write reg f true] st d
        ⟨s, tr⟩).2.bus := by
  rw [rmw_regFile device reg f g st d s tr]
  simp only [rmw_regFile, Function.update_same, true_and]
  rw [hf _ (Nat.mod_lt _ (by decide)), Function.update_idem]

/-- C30: over the simulated register file (every transport call succeeds), for
each of the six setters and every argument tuple in range, whatever the
registers hold: the call succeeds, a second call with the same arguments made
right after it succeeds too, and the second call leaves the register file as the
first call left it. -/
theorem setters_idempotent_on_regFile (device : pcal6524_Device_t) (op : Op) (s : Nat → Nat)
    (tr : List Event) (hset : op.isSetter = true) (h : op.inRange) :
    (op.run regFile device ⟨s, tr⟩).1 = PCAL6524_SUCCESS ∧
    (op.run regFile device (op.run regFile device ⟨s, tr⟩).2).1 = PCAL6524_SUCCESS ∧
    (op.run regFile device (op.run regFile device ⟨s, tr⟩).2).2.bus
      = (op.run regFile device ⟨s, tr⟩).2.bus := by
  cases op with
  | SetPullupDown port pin pull active =>
    obtain ⟨hport, hpin, hpull, hactive⟩ := h
    have hne : PCAL6524_REG_PULL_SEL_PORT_0 + port ≠ PCAL6524_REG_PULL_EN_PORT_0 + port := by
      show 0x50 + port ≠ 0x4C + port
      omega
    have h1 := setBit8_idem_table (s (PCAL6524_REG_PULL_SEL_PORT_0 + port) % 256)
      (Nat.mod_lt _ (by decide)) pin (by omega) pull (by omega)
    have h2 := setBit8_idem_table (s (PCAL6524_REG_PULL_EN_PORT_0 + port) % 256)
      (Nat.mod_lt _ (by decide)) pin (by omega) active (by omega)
    simp only [Op.run]
    rw [setPullupDown_regFile device s tr port pin pull active hport hpin hpull hactive]
    simp only [setPullupDown_regFile device _ _ port pin pull active hport hpin hpull hactive,
      true_and]
    simp only [Function.update_same, Function.update_noteq hne, h1, h2, Function.update_idem]
    funext r
    simp only [Function.update_apply]
    split_ifs <;> rfl
  | SetInOut port pin inout =>
    simp only [run_eq_runPhases regFile device _ _ h, Op.phases]
    exact rmw_regFile_idem device _ _ _ _ _ _ _ s tr
      (fun b hb => setBit8_idem_table b hb pin (by have := h.2.1; omega) inout
        (by have := h.2.2; omega))
  | SetInterrupt port pin intr =>
    simp only [run_eq_runPhases regFile device _ _ h, Op.phases]
    exact rmw_regFile_idem device _ _ _ _ _ _ _ s tr
      (fun b hb => maskByte_idem_table b hb pin (by have := h.2.1; omega) intr
        (by have := h.2.2; omega))
  | SetPolarity port pin pol =>
    simp only [run_eq_runPhases regFile device _ _ h, Op.phases]
    exact rmw_regFile_idem device _ _ _ _ _ _ _ s tr
      (fun b hb => setBit8_idem_table b hb pin (by have := h.2.1; omega) pol
        (by have := h.2.2; omega))
  | SetInterruptTrigger port pin trig =>
    simp only [run_eq_runPhases regFile device _ _ h, Op.phases]
    exact rmw_regFile_idem device _ _ _ _ _ _ _ s tr
      (fun b hb => edgeByte_idem_table b hb pin (by have := h.2.1; omega) trig
        (by have := h.2.2; omega))
  | OutputValue port pin value =>
    simp only [run_eq_runPhases regFile device _ _ h, Op.phases]
    exact rmw_regFile_idem device _ _ _ _ _ _ _ s tr
      (fun b hb => setBit8_idem_table b hb pin (by have := h.2.1; omega) value
        (by have := h.2.2; omega))
  | _ => simp [Op.isSetter] at hset

theorem setters_idempotent_on_regFile_witness :
    ((Op.SetInterrupt 1 2 1).isSetter = true ∧ (Op.SetInterrupt 1 2 1).inRange) ∧
    ((Op.SetInterrupt 1 2 1).run regFile ⟨0⟩
      ((Op.SetInterrupt 1 2 1).run regFile ⟨0⟩ ⟨fun _ => 0x05, []⟩).2).2.bus
      = ((Op.SetInterrupt 1 2 1).run regFile ⟨0⟩ ⟨fun _ => 0x05, []⟩).2.bus :=
  ⟨by decide,
    (setters_idempotent_on_regFile ⟨0⟩ (Op.SetInterrupt 1 2 1) (fun _ => 0x05) []
      (by decide) (by decide)).2.2⟩

/-! ## Setting two pins of a port in either order -/

theorem setBit8_bits (b p v i : Nat) (hb : b < 256) (hp : p ≤ 7) (hv : v ≤ 1) (hi : i < 8) :
    (setBit8 b p v).testBit i = if i = p then v == 1 else b.testBit i := by
  split_ifs with h
  · rw [h]
    exact setBit8_target_table b hb p (by omega) v (by omega)
  · exact setBit8_frame_table b hb p (by omega) v (by omega) i hi h

theorem setBit8_two_pins_bits (b p q v w i : Nat) (hb : b < 256) (hp : p ≤ 7) (hq : q ≤ 7)
    (hv : v ≤ 1) (hw : w ≤ 1) (hi : i < 8) :
    (setBit8 (setBit8 b p v % 256) q w).testBit i =
      if i = q then w == 1 else if i = p then v == 1 else b.testBit i := by
  rw [setBit8_bits _ q w i (Nat.mod_lt _ (by decide)) hq hw hi, testBit_mod_256 _ i hi,
    setBit8_bits b p v i hb hp hv hi]

theorem setBit8_two_pins (b p q v w : Nat) (hb : b < 256) (hp : p ≤ 7) (hq : q ≤ 7)
    (hpq : p ≠ q) (hv : v ≤ 1) (hw : w ≤ 1) :
    setBit8 (setBit8 b p v % 256) q w = setBit8 (setBit8 b q w % 256) p v ∧
    (setBit8 (setBit8 b p v % 256) q w).testBit p = (v == 1) ∧
    (setBit8 (setBit8 b p v % 256) q w).testBit q = (w == 1) := by
  refine ⟨?_, ?_, ?_⟩
  · apply Nat.eq_of_testBit_eq
    intro i
    by_cases hi : i < 8
    · rw [setBit8_two_pins_bits b p q v w i hb hp hq hv hw hi,
        setBit8_two_pins_bits b q p w v i hb hq hp hw hv hi]
      split_ifs with h1 h2 <;> first | rfl | (exact absurd (h2.symm.trans h1) hpq)
    · have hlt : ∀ x, x < 256 → x.testBit i = false := by
        intro x hx
        apply Nat.testBit_lt_two_pow
        calc x < 2 ^ 8 := hx
          _ ≤ 2 ^ i := Nat.pow_le_pow_right (by decide) (by omega)
      rw [hlt _ (setBit8_lt _ _ _), hlt _ (setBit8_lt _ _ _)]
  · rw [setBit8_two_pins_bits b p q v w p hb hp hq hv hw (by omega), if_neg hpq, if_pos rfl]
  · rw [setBit8_two_pins_bits b p q v w q hb hp hq hv hw (by omega), if_pos rfl]

theorem rmw_regFile_twice (device : pcal6524_Device_t) (reg : Nat) (f1 f2 g : Nat → Nat)
    (st d st1 d1 : Nat) (s : Nat → Nat) (tr : List Event) :
    (runPhases regFile device [Phase.read storeU8 reg g, Phase.write reg f1 true] st d
      ⟨s, tr⟩).1 = PCAL6524_SUCCESS ∧
    (runPhases regFile device [Phase.read storeU8 reg g, Phase.write reg f2 true] st1 d1
      (runPhases regFile device [Phase.read storeU8 reg g, Phase.write reg f1 true] st d
        ⟨s, tr⟩).2).1 = PCAL6524_SUCCESS ∧
    (runPhases regFile device [Phase.read storeU8 reg g, Phase.write reg f2 true] st1 d1
      (runPhases regFile device [Phase.read storeU8 reg g, Phase.write reg f1 true] st d
        ⟨s, tr⟩).2).2.bus = Function.update s reg (f2 (f1 (s reg % 256) % 256)) := by
  rw [rmw_regFile device reg f1 g st d s tr]
  simp only [rmw_regFile, Function.update_same, Function.update_idem, and_self]

theorem setBit8_two_pins_regFile (device : pcal6524_Device_t) (reg : Nat) (s : Nat → Nat)
    (tr : List Event) (p q v w : Nat) (hp : p ≤ 7) (hq : q ≤ 7) (hpq : p ≠ q) (hv : v ≤ 1)
    (hw : w ≤ 1) :
    (runPhases regFile device
        [Phase.read storeU8 reg (fun d => d), Phase.write reg (fun d => setBit8 d p v) true]
        0 0 ⟨s, tr⟩).1 = PCAL6524_SUCCESS ∧
    (runPhases regFile device
        [Phase.read storeU8 reg (fun d => d), Phase.write reg (fun d => setBit8 d q w) true] 0 0
      (runPhases regFile device
        [Phase.read storeU8 reg (fun d => d), Phase.write reg (fun d => setBit8 d p v) true]
        0 0 ⟨s, tr⟩).2).1 = PCAL6524_SUCCESS ∧
    (runPhases regFile device
        [Phase.read storeU8 reg (fun d => d), Phase.write reg (fun d => setBit8 d q w) true] 0 0
      (runPhases regFile device
        [Phase.read storeU8 reg (fun d => d), Phase.write reg (fun d => setBit8 d p v) true]
        0 0 ⟨s, tr⟩).2).2.bus =
      Function.update s reg (setBit8 (setBit8 (s reg % 256) p v % 256) q w) ∧
    setBit8 (setBit8 (s reg % 256) p v % 256) q w
      = setBit8 (setBit8 (s reg % 256) q w % 256) p v ∧
    (setBit8 (setBit8 (s reg % 256) p v % 256) q w).testBit p = decide (v = 1) ∧
    (setBit8 (setBit8 (s reg % 256) p v % 256) q w).testBit q = decide (w = 1) ∧
    ∀ i < 8, i ≠ p → i ≠ q →
      (setBit8 (setBit8 (s reg % 256) p v % 256) q w).testBit i = (s reg).testBit i := by
  obtain ⟨h1, h2, h3⟩ := rmw_regFile_twice device reg (fun d => setBit8 d p v)
    (fun d => setBit8 d q w) (fun d => d) 0 0 0 0 s tr
  have hb : s reg % 256 < 256 := Nat.mod_lt _ (by decide)
  obtain ⟨t1, t2, t3⟩ := setBit8_two_pins (s reg % 256) p q v w hb hp hq hpq hv hw
  refine ⟨h1, h2, h3, t1, ?_, ?_, ?_⟩
  · rw [t2]; interval_cases v <;> rfl
  · rw [t3]; interval_cases w <;> rfl
  · intro i hi hip hiq
    rw [setBit8_two_pins_bits _ p q v w i hb hp hq hv hw hi, if_neg hiq, if_neg hip,
      testBit_mod_256 _ i hi]

/-- C31: over the simulated register file (every transport call succeeds), for
`mk` one of `PCAL6524_SetInOut`, `PCAL6524_SetPolarity`, `PCAL6524_OutputValue`
and `reg` its register for the port, two distinct pins `p`, `q` and values `v`,
`w` in range, whatever the registers hold: the two calls succeed in either
order, the register file after "pin `p` to `v`, then pin `q` to `w`" equals the
one after "pin `q` to `w`, then pin `p` to `v`", and in it bit `p` of `reg` is
`v`, bit `q` is `w`, the other six bits of `reg` are as before, and so is every
other register. -/
theorem bit_setters_commute_on_regFile (device : pcal6524_Device_t)
    (mk : Nat → Nat → Nat → Op) (reg : Nat) (s : Nat → Nat) (tr : List Event)
    (port p q v w : Nat)
    (hmk : (mk = Op.SetInOut ∧ reg = PCAL6524_REG_CONF_PORT_0 + port) ∨
      (mk = Op.SetPolarity ∧ reg = PCAL6524_REG_POL_PORT_0 + port) ∨
      (mk = Op.OutputValue ∧ reg = PCAL6524_REG_OUT_PORT_0 + port))
    (hport : port ≤ 2) (hp : p ≤ 7) (hq : q ≤ 7) (hpq : p ≠ q) (hv : v ≤ 1) (hw : w ≤ 1) :
    ((mk port p v).run regFile device ⟨s, tr⟩).1 = PCAL6524_SUCCESS ∧
    ((mk port q w).run regFile device
      ((mk port p v).run regFile device ⟨s, tr⟩).2).1 = PCAL6524_SUCCESS ∧
    ((mk port q w).run regFile device ⟨s, tr⟩).1 = PCAL6524_SUCCESS ∧
    ((mk port p v).run regFile device
      ((mk port q w).run regFile device ⟨s, tr⟩).2).1 = PCAL6524_SUCCESS ∧
    ((mk port q w).run regFile device ((mk port p v).run regFile device ⟨s, tr⟩).2).2.bus =
      ((mk port p v).run regFile device ((mk port q w).run regFile device ⟨s, tr⟩).2).2.bus ∧
    (((mk port q w).run regFile device
      ((mk port p v).run regFile device ⟨s, tr⟩).2).2.bus reg).testBit p = decide (v = 1) ∧
    (((mk port q w).run regFile device
      ((mk port p v).run regFile device ⟨s, tr⟩).2).2.bus reg).testBit q = decide (w = 1) ∧
    (∀ i < 8, i ≠ p → i ≠ q →
      (((mk port q w).run regFile device
        ((mk port p v).run regFile device ⟨s, tr⟩).2).2.bus reg).testBit i
        = (s reg).testBit i) ∧
    ∀ r, r ≠ reg →
      ((mk port q w).run regFile device
        ((mk port p v).run regFile device ⟨s, tr⟩).2).2.bus r = s r := by
  obtain ⟨a1, a2, a3, a4, a5, a6, a7⟩ :=
    setBit8_two_pins_regFile device reg s tr p q v w hp hq hpq hv hw
  obtain ⟨b1, b2, b3, _⟩ :=
    setBit8_two_pins_regFile device reg s tr q p w v hq hp (Ne.symm hpq) hw hv
  have key :
      (runPhases regFile device
          [Phase.read storeU8 reg (fun d => d), Phase.write reg (fun d => setBit8 d p v) true]
          0 0 ⟨s, tr⟩).1 = PCAL6524_SUCCESS ∧
      (runPhases regFile device
          [Phase.read storeU8 reg (fun d => d), Phase.write reg (fun d => setBit8 d q w) true]
          0 0
        (runPhases regFile device
          [Phase.read storeU8 reg (fun d => d), Phase.write reg (fun d => setBit8 d p v) true]
          0 0 ⟨s, tr⟩).2).1 = PCAL6524_SUCCESS ∧
      (runPhases regFile device
          [Phase.read storeU8 reg (fun d => d), Phase.write reg (fun d => setBit8 d q w) true]
          0 0 ⟨s, tr⟩).1 = PCAL6524_SUCCESS ∧
      (runPhases regFile device
          [Phase.read storeU8 reg (fun d => d), Phase.write reg (fun d => setBit8 d p v) true]
          0 0
        (runPhases regFile device
          [Phase.read storeU8 reg (fun d => d), Phase.write reg (fun d => setBit8 d q w) true]
          0 0 ⟨s, tr⟩).2).1 = PCAL6524_SUCCESS ∧
      (runPhases regFile device
          [Phase.read storeU8 reg (fun d => d), Phase.write reg (fun d => setBit8 d q w) true]
          0 0
        (runPhases regFile device
          [Phase.read storeU8 reg (fun d => d), Phase.write reg (fun d => setBit8 d p v) true]
          0 0 ⟨s, tr⟩).2).2.bus =
        (runPhases regFile device
          [Phase.read storeU8 reg (fun d => d), Phase.write reg (fun d => setBit8 d p v) true]
          0 0
        (runPhases regFile device
          [Phase.read storeU8 reg (fun d => d), Phase.write reg (fun d => setBit8 d q w) true]
          0 0 ⟨s, tr⟩).2).2.bus ∧
      ((runPhases regFile device
          [Phase.read storeU8 reg (fun d => d), Phase.write reg (fun d => setBit8 d q w) true]
          0 0
        (runPhases regFile device
          [Phase.read storeU8 reg (fun d => d), Phase.write reg (fun d => setBit8 d p v) true]
          0 0 ⟨s, tr⟩).2).2.bus reg).testBit p = decide (v = 1) ∧
      ((runPhases regFile device
          [Phase.read storeU8 reg (fun d => d), Phase.write reg (fun d => setBit8 d q w) true]
          0 0
        (runPhases regFile device
          [Phase.read storeU8 reg (fun d => d), Phase.write reg (fun d => setBit8 d p v) true]
          0 0 ⟨s, tr⟩).2).2.bus reg).testBit q = decide (w = 1) ∧
      (∀ i < 8, i ≠ p → i ≠ q →
        ((runPhases regFile device
            [Phase.read storeU8 reg (fun d => d), Phase.write reg (fun d => setBit8 d q w) true]
            0 0
          (runPhases regFile device
            [Phase.read storeU8 reg (fun d => d), Phase.write reg (fun d => setBit8 d p v) true]
            0 0 ⟨s, tr⟩).2).2.bus reg).testBit i = (s reg).testBit i) ∧
      ∀ r, r ≠ reg →
        (runPhases regFile device
            [Phase.read storeU8 reg (fun d => d), Phase.write reg (fun d => setBit8 d q w) true]
            0 0
          (runPhases regFile device
            [Phase.read storeU8 reg (fun d => d), Phase.write reg (fun d => setBit8 d p v) true]
            0 0 ⟨s, tr⟩).2).2.bus r = s r := by
    refine ⟨a1, a2, b1, b2, ?_, ?_, ?_, ?_, ?_⟩
    · rw [a3, b3, a4]
    · rw [a3, Function.update_same]; exact a5
    · rw [a3, Function.update_same]; exact a6
    · intro i hi hip hiq
      rw [a3, Function.update_same]; exact a7 i hi hip hiq
    · intro r hr
      rw [a3, Function.update_noteq hr]
  rcases hmk with ⟨rfl, rfl⟩ | ⟨rfl, rfl⟩ | ⟨rfl, rfl⟩
  · simp only [run_eq_runPhases regFile device (Op.SetInOut port p v) _ ⟨hport, hp, hv⟩,
      run_eq_runPhases regFile device (Op.SetInOut port q w) _ ⟨hport, hq, hw⟩, Op.phases,
      Op.data0]
    exact key
  · simp only [run_eq_runPhases regFile device (Op.SetPolarity port p v) _ ⟨hport, hp, hv⟩,
      run_eq_runPhases regFile device (Op.SetPolarity port q w) _ ⟨hport, hq, hw⟩, Op.phases,
      Op.data0]
    exact key
  · simp only [run_eq_runPhases regFile device (Op.OutputValue port p v) _ ⟨hport, hp, hv⟩,
      run_eq_runPhases regFile device (Op.OutputValue port q w) _ ⟨hport, hq, hw⟩, Op.phases,
      Op.data0]
    exact key

theorem bit_setters_commute_on_regFile_witness :
    (((Op.SetPolarity = Op.SetInOut ∧ PCAL6524_REG_POL_PORT_0 + 2 = PCAL6524_REG_CONF_PORT_0 + 2) ∨
        (Op.SetPolarity = Op.SetPolarity ∧
          PCAL6524_REG_POL_PORT_0 + 2 = PCAL6524_REG_POL_PORT_0 + 2) ∨
        (Op.SetPolarity = Op.OutputValue ∧
          PCAL6524_REG_POL_PORT_0 + 2 = PCAL6524_REG_OUT_PORT_0 + 2)) ∧
      2 ≤ 2 ∧ 1 ≤ 7 ∧ 6 ≤ 7 ∧ 1 ≠ 6 ∧ 1 ≤ 1 ∧ 0 ≤ 1) ∧
    ((Op.SetPolarity 2 6 0).run regFile ⟨0⟩
        ((Op.SetPolarity 2 1 1).run regFile ⟨0⟩ ⟨fun _ => 0xF0, []⟩).2).2.bus =
      ((Op.SetPolarity 2 1 1).run regFile ⟨0⟩
        ((Op.SetPolarity 2 6 0).run regFile ⟨0⟩ ⟨fun _ => 0xF0, []⟩).2).2.bus ∧
    (((Op.SetPolarity 2 6 0).run regFile ⟨0⟩
      ((Op.SetPolarity 2 1 1).run regFile ⟨0⟩ ⟨fun _ => 0xF0, []⟩).2).2.bus
        (PCAL6524_REG_POL_PORT_0 + 2)).testBit 1 = decide (1 = 1) ∧
    (((Op.SetPolarity 2 6 0).run regFile ⟨0⟩
      ((Op.SetPolarity 2 1 1).run regFile ⟨0⟩ ⟨fun _ => 0xF0, []⟩).2).2.bus
        (PCAL6524_REG_POL_PORT_0 + 2)).testBit 6 = decide (0 = 1) :=
  ⟨⟨Or.inr (Or.inl ⟨rfl, rfl⟩), by decide⟩,
    (bit_setters_commute_on_regFile ⟨0⟩ Op.SetPolarity (PCAL6524_REG_POL_PORT_0 + 2)
      (fun _ => 0xF0) [] 2 1 6 1 0 (Or.inr (Or.inl ⟨rfl, rfl⟩)) (by decide) (by decide)
      (by decide) (by decide) (by decide) (by decide)).2.2.2.2.1,
    (bit_setters_commute_on_regFile ⟨0⟩ Op.SetPolarity (PCAL6524_REG_POL_PORT_0 + 2)
      (fun _ => 0xF0) [] 2 1 6 1 0 (Or.inr (Or.inl ⟨rfl, rfl⟩)) (by decide) (by decide)
      (by decide) (by decide) (by decide) (by decide)).2.2.2.2.2.1,
    (bit_setters_commute_on_regFile ⟨0⟩ Op.SetPolarity (PCAL6524_REG_POL_PORT_0 + 2)
      (fun _ => 0xF0) [] 2 1 6 1 0 (Or.inr (Or.inl ⟨rfl, rfl⟩)) (by decide) (by decide)
      (by decide) (by decide) (by decide) (by decide)).2.2.2.2.2.2.1⟩

/-! ## Read phases, attempt by attempt, in terms of the transport -/

theorem afterAttempts_read {σ : Type} (T : Transport σ) (device : pcal6524_Device_t)
    (store : Nat → Nat → Nat) (reg : Nat) :
    ∀ (k st d : Nat) (w : World σ),
      (afterAttempts T (fun _ data w => readStmt T device store reg data w) k st d w).2.2 =
        ⟨attemptBus T (devAddress device) reg w.bus k,
          w.trace ++ failedReads T (devAddress device) reg w.bus k⟩ := by
  intro k
  induction k with
  | zero => intro st d w; cases w; simp [afterAttempts, attemptBus, failedReads]
  | succ k ih =>
    intro st d w
    rw [afterAttempts_succ]
    simp only [loopAttempt, ih]
    simp [readStmt, PCAL6524_ReadI2C, HAL_Delay, attemptBus, failedReads, attemptStatus,
      attemptByte]

theorem loopAttempt_read {σ : Type} (T : Transport σ) (device : pcal6524_Device_t)
    (store : Nat → Nat → Nat) (reg : Nat) (k st d : Nat) (w : World σ) :
    (loopAttempt T (fun _ data w => readStmt T device store reg data w) k st d w).1 =
      attemptStatus T (devAddress device) reg w.bus k ∧
    (loopAttempt T (fun _ data w => readStmt T device store reg data w) k st d w).2.1 =
      store (afterAttempts T (fun _ data w => readStmt T device store reg data w) k st d w).2.1
        (attemptByte T (devAddress device) reg w.bus k) ∧
    (loopAttempt T (fun _ data w => readStmt T device store reg data w) k st d w).2.2 =
      ⟨busAfterRead T (devAddress device) reg w.bus k,
        w.trace ++ (failedReads T (devAddress device) reg w.bus k ++
          [Event.read (devAddress device) reg (attemptStatus T (devAddress device) reg w.bus k)
            (attemptByte T (devAddress device) reg w.bus k)])⟩ := by
  have h := afterAttempts_read T device store reg k st d w
  unfold loopAttempt
  generalize afterAttempts T (fun _ data w => readStmt T device store reg data w) k st d w = r
    at h ⊢
  obtain ⟨s1, d1, w1⟩ := r
  simp only at h
  subst h
  simp [readStmt, PCAL6524_ReadI2C, attemptStatus, attemptByte, busAfterRead]

theorem retryLoop_first_hard {σ : Type} (T : Transport σ)
    (body : Nat → Nat → World σ → Nat × Nat × World σ) (m st d : Nat) (w : World σ)
    (h : (body st d w).1 = HAL_ERROR) :
    retryLoop T body (m + 1) st d w =
      (some HAL_ERROR, HAL_ERROR, (body st d w).2.1, (body st d w).2.2) := by
  have hne : ¬ (HAL_ERROR = HAL_OK) := by decide
  simp only [retryLoop, h, if_neg hne, if_true]

theorem retryLoop_ok_at {σ : Type} (T : Transport σ)
    (body : Nat → Nat → World σ → Nat × Nat × World σ) (k m st d : Nat) (w : World σ)
    (htrans : ∀ j < k, (loopAttempt T body j st d w).1 ≠ HAL_OK ∧
      (loopAttempt T body j st d w).1 ≠ HAL_ERROR)
    (hok : (loopAttempt T body k st d w).1 = HAL_OK) :
    retryLoop T body (k + (m + 1)) st d w =
      (none, HAL_OK, (loopAttempt T body k st d w).2.1, (loopAttempt T body k st d w).2.2) := by
  rw [retryLoop_skip T body (m + 1) k st d w htrans]
  exact retryLoop_first_ok T body m _ _ _ hok

theorem retryLoop_hard_at {σ : Type} (T : Transport σ)
    (body : Nat → Nat → World σ → Nat × Nat × World σ) (k m st d : Nat) (w : World σ)
    (htrans : ∀ j < k, (loopAttempt T body j st d w).1 ≠ HAL_OK ∧
      (loopAttempt T body j st d w).1 ≠ HAL_ERROR)
    (herr : (loopAttempt T body k st d w).1 = HAL_ERROR) :
    retryLoop T body (k + (m + 1)) st d w =
      (some HAL_ERROR, HAL_ERROR, (loopAttempt T body k st d w).2.1,
        (loopAttempt T body k st d w).2.2) := by
  rw [retryLoop_skip T body (m + 1) k st d w htrans]
  exact retryLoop_first_hard T body m _ _ _ herr

theorem readLoop_ok_exact {σ : Type} (T : Transport σ) (device : pcal6524_Device_t)
    (store : Nat → Nat → Nat) (reg k st d : Nat) (w : World σ)
    (hk : k ≤ PCAL6524_I2C_MAX_ATTEMPTS)
    (htrans : ∀ j < k, attemptStatus T (devAddress device) reg w.bus j ≠ HAL_OK ∧
      attemptStatus T (devAddress device) reg w.bus j ≠ HAL_ERROR)
    (hok : attemptStatus T (devAddress device) reg w.bus k = HAL_OK) :
    retryLoop T (fun _ data w => readStmt T device store reg data w)
        (PCAL6524_I2C_MAX_ATTEMPTS + 1) st d w =
      (none, HAL_OK,
        store (afterAttempts T (fun _ data w => readStmt T device store reg data w) k st d w).2.1
          (attemptByte T (devAddress device) reg w.bus k),
        ⟨busAfterRead T (devAddress device) reg w.bus k,
          w.trace ++ (failedReads T (devAddress device) reg w.bus k ++
            [Event.read (devAddress device) reg HAL_OK
              (attemptByte T (devAddress device) reg w.bus k)])⟩) := by
  obtain ⟨m, hm⟩ : ∃ m, PCAL6524_I2C_MAX_ATTEMPTS + 1 = k + (m + 1) :=
    ⟨PCAL6524_I2C_MAX_ATTEMPTS - k, by omega⟩
  obtain ⟨h1, h2, h3⟩ := loopAttempt_read T device store reg k st d w
  have htrans1 : ∀ j < k,
      (loopAttempt T (fun _ data w => readStmt T device store reg data w) j st d w).1 ≠ HAL_OK ∧
      (loopAttempt T (fun _ data w => readStmt T device store reg data w) j st d w).1
        ≠ HAL_ERROR := by
    intro j hj
    rw [(loopAttempt_read T device store reg j st d w).1]
    exact htrans j hj
  have hok1 : (loopAttempt T (fun _ data w => readStmt T device store reg data w) k st d w).1
      = HAL_OK := by rw [h1]; exact hok
  rw [hm, retryLoop_ok_at T _ k m st d w htrans1 hok1, h2, h3, hok]

theorem readLoop_hard_exact {σ : Type} (T : Transport σ) (device : pcal6524_Device_t)
    (store : Nat → Nat → Nat) (reg k st d : Nat) (w : World σ)
    (hk : k ≤ PCAL6524_I2C_MAX_ATTEMPTS)
    (htrans : ∀ j < k, attemptStatus T (devAddress device) reg w.bus j ≠ HAL_OK ∧
      attemptStatus T (devAddress device) reg w.bus j ≠ HAL_ERROR)
    (herr : attemptStatus T (devAddress device) reg w.bus k = HAL_ERROR) :
    ∃ d1, retryLoop T (fun _ data w => readStmt T device store reg data w)
        (PCAL6524_I2C_MAX_ATTEMPTS + 1) st d w =
      (some HAL_ERROR, HAL_ERROR, d1,
        ⟨busAfterRead T (devAddress device) reg w.bus k,
          w.trace ++ (failedReads T (devAddress device) reg w.bus k ++
            [Event.read (devAddress device) reg HAL_ERROR
              (attemptByte T (devAddress device) reg w.bus k)])⟩) := by
  obtain ⟨m, hm⟩ : ∃ m, PCAL6524_I2C_MAX_ATTEMPTS + 1 = k + (m + 1) :=
    ⟨PCAL6524_I2C_MAX_ATTEMPTS - k, by omega⟩
  obtain ⟨h1, _, h3⟩ := loopAttempt_read T device store reg k st d w
  have htrans1 : ∀ j < k,
      (loopAttempt T (fun _ data w => readStmt T device store reg data w) j st d w).1 ≠ HAL_OK ∧
      (loopAttempt T (fun _ data w => readStmt T device store reg data w) j st d w).1
        ≠ HAL_ERROR := by
    intro j hj
    rw [(loopAttempt_read T device store reg j st d w).1]
    exact htrans j hj
  have herr1 : (loopAttempt T (fun _ data w => readStmt T device store reg data w) k st d w).1
      = HAL_ERROR := by rw [h1]; exact herr
  rw [hm, retryLoop_hard_at T _ k m st d w htrans1 herr1, h3, herr]
  exact ⟨_, rfl⟩

theorem readLoop_exhausted_exact {σ : Type} (T : Transport σ) (device : pcal6524_Device_t)
    (store : Nat → Nat → Nat) (reg st d : Nat) (w : World σ)
    (htrans : ∀ j < PCAL6524_I2C_MAX_ATTEMPTS + 1,
      attemptStatus T (devAddress device) reg w.bus j ≠ HAL_OK ∧
      attemptStatus T (devAddress device) reg w.bus j ≠ HAL_ERROR) :
    ∃ d1, retryLoop T (fun _ data w => readStmt T device store reg data w)
        (PCAL6524_I2C_MAX_ATTEMPTS + 1) st d w =
      (none, attemptStatus T (devAddress device) reg w.bus PCAL6524_I2C_MAX_ATTEMPTS, d1,
        ⟨attemptBus T (devAddress device) reg w.bus (PCAL6524_I2C_MAX_ATTEMPTS + 1),
          w.trace ++ failedReads T (devAddress device) reg w.bus
            (PCAL6524_I2C_MAX_ATTEMPTS + 1)⟩) := by
  have htrans1 : ∀ j < PCAL6524_I2C_MAX_ATTEMPTS + 1,
      (loopAttempt T (fun _ data w => readStmt T device store reg data w) j st d w).1 ≠ HAL_OK ∧
      (loopAttempt T (fun _ data w => readStmt T device store reg data w) j st d w).1
        ≠ HAL_ERROR := by
    intro j hj
    rw [(loopAttempt_read T device store reg j st d w).1]
    exact htrans j hj
  rw [retryLoop_exhausted T _ st d w htrans1,
    (loopAttempt_read T device store reg PCAL6524_I2C_MAX_ATTEMPTS st d w).1,
    afterAttempts_read]
  exact ⟨_, rfl⟩

/-! ## Port-wide getters: the successful read -/

theorem attempt_cases (s : Nat → Nat) (n : Nat) :
    (∃ k ≤ n, (∀ j < k, s j ≠ HAL_OK ∧ s j ≠ HAL_ERROR) ∧ s k = HAL_OK) ∨
    (∃ k ≤ n, (∀ j < k, s j ≠ HAL_OK ∧ s j ≠ HAL_ERROR) ∧ s k = HAL_ERROR) ∨
    (∀ j < n + 1, s j ≠ HAL_OK ∧ s j ≠ HAL_ERROR) := by
  induction n with
  | zero =>
    by_cases h0 : s 0 = HAL_OK
    · exact Or.inl ⟨0, le_refl _, fun j hj => absurd hj (Nat.not_lt_zero _), h0⟩
    · by_cases h1 : s 0 = HAL_ERROR
      · exact Or.inr (Or.inl ⟨0, le_refl _, fun j hj => absurd hj (Nat.not_lt_zero _), h1⟩)
      · refine Or.inr (Or.inr ?_)
        intro j hj
        have hj0 : j = 0 := by omega
        subst hj0
        exact ⟨h0, h1⟩
  | succ n ih =>
    rcases ih with ⟨k, hk, h⟩ | ⟨k, hk, h⟩ | hall
    · exact Or.inl ⟨k, by omega, h⟩
    · exact Or.inr (Or.inl ⟨k, by omega, h⟩)
    · by_cases h0 : s (n + 1) = HAL_OK
      · exact Or.inl ⟨n + 1, le_refl _, hall, h0⟩
      · by_cases h1 : s (n + 1) = HAL_ERROR
        · exact Or.inr (Or.inl ⟨n + 1, le_refl _, hall, h1⟩)
        · refine Or.inr (Or.inr ?_)
          intro j hj
          rcases Nat.lt_succ_iff_lt_or_eq.mp hj with h | h
          · exact hall j h
          · subst h
            exact ⟨h0, h1⟩

theorem rawGetter_success {σ : Type} (T : Transport σ) (device : pcal6524_Device_t)
    (reg out0 : Nat) (w : World σ)
    (h : (rawGetter T device reg out0 w).1 = PCAL6524_SUCCESS) :
    ∃ k ≤ PCAL6524_I2C_MAX_ATTEMPTS,
      (∀ j < k, attemptStatus T (devAddress device) reg w.bus j ≠ HAL_OK ∧
        attemptStatus T (devAddress device) reg w.bus j ≠ HAL_ERROR) ∧
      attemptStatus T (devAddress device) reg w.bus k = HAL_OK := by
  rcases attempt_cases (attemptStatus T (devAddress device) reg w.bus)
    PCAL6524_I2C_MAX_ATTEMPTS with hok | ⟨k, hk, ht, herr⟩ | hall
  · exact hok
  · obtain ⟨d1, hloop⟩ := readLoop_hard_exact T device storeU8 reg k 0 out0 w hk ht herr
    unfold rawGetter at h
    rw [hloop] at h
    simp only at h
    exact absurd h (by decide)
  · obtain ⟨d1, hloop⟩ := readLoop_exhausted_exact T device storeU8 reg 0 out0 w hall
    have hne := (hall PCAL6524_I2C_MAX_ATTEMPTS (Nat.lt_succ_self _)).1
    unfold rawGetter at h
    rw [hloop] at h
    simp only at h
    split_ifs at h with hgt
    · exact absurd h hne
    · exact absurd (Nat.pos_of_ne_zero hne) hgt

theorem rawGetter_exact {σ : Type} (T : Transport σ) (device : pcal6524_Device_t) (reg : Nat) :
    ReadsRawByte T (devAddress device) reg (rawGetter T device reg) := by
  refine ⟨?_, fun out0 w h => rawGetter_success T device reg out0 w h⟩
  intro k hk out0 w htrans hok
  unfold rawGetter
  rw [readLoop_ok_exact T device storeU8 reg k 0 out0 w hk htrans hok]
  rfl

theorem rawGetter2_success {σ : Type} (T : Transport σ) (device : pcal6524_Device_t)
    (regA regB outA0 outB0 : Nat) (w : World σ)
    (h : (rawGetter2 T device regA regB outA0 outB0 w).1 = PCAL6524_SUCCESS) :
    ∃ kA ≤ PCAL6524_I2C_MAX_ATTEMPTS,
      (∀ j < kA, attemptStatus T (devAddress device) regA w.bus j ≠ HAL_OK ∧
        attemptStatus T (devAddress device) regA w.bus j ≠ HAL_ERROR) ∧
      attemptStatus T (devAddress device) regA w.bus kA = HAL_OK ∧
      ∃ kB ≤ PCAL6524_I2C_MAX_ATTEMPTS,
        (∀ j < kB,
          attemptStatus T (devAddress device) regB
            (busAfterRead T (devAddress device) regA w.bus kA) j ≠ HAL_OK ∧
          attemptStatus T (devAddress device) regB
            (busAfterRead T (devAddress device) regA w.bus kA) j ≠ HAL_ERROR) ∧
        attemptStatus T (devAddress device) regB
          (busAfterRead T (devAddress device) regA w.bus kA) kB = HAL_OK := by
  rcases attempt_cases (attemptStatus T (devAddress device) regA w.bus)
    PCAL6524_I2C_MAX_ATTEMPTS with ⟨kA, hkA, htA, hokA⟩ | ⟨k, hk, ht, herr⟩ | hall
  · refine ⟨kA, hkA, htA, hokA, ?_⟩
    unfold rawGetter2 at h
    rw [readLoop_ok_exact T device storeU8 regA kA 0 outA0 w hkA htA hokA] at h
    simp only [gt_iff_lt, lt_self_iff_false, if_false, storeU8] at h
    rcases attempt_cases (attemptStatus T (devAddress device) regB
        (busAfterRead T (devAddress device) regA w.bus kA))
      PCAL6524_I2C_MAX_ATTEMPTS with hok | ⟨k, hk, ht, herr⟩ | hall
    · exact hok
    · obtain ⟨d1, hloop⟩ := readLoop_hard_exact T device storeU8 regB k HAL_OK outB0
        ⟨busAfterRead T (devAddress device) regA w.bus kA,
          w.trace ++ (failedReads T (devAddress device) regA w.bus kA ++
            [Event.read (devAddress device) regA HAL_OK
              (attemptByte T (devAddress device) regA w.bus kA)])⟩ hk ht herr
      rw [hloop] at h
      simp only at h
      exact absurd h (by decide)
    · obtain ⟨d1, hloop⟩ := readLoop_exhausted_exact T device storeU8 regB HAL_OK outB0
        ⟨busAfterRead T (devAddress device) regA w.bus kA,
          w.trace ++ (failedReads T (devAddress device) regA w.bus kA ++
            [Event.read (devAddress device) regA HAL_OK
              (attemptByte T (devAddress device) regA w.bus kA)])⟩ hall
      have hne := (hall PCAL6524_I2C_MAX_ATTEMPTS (Nat.lt_succ_self _)).1
      rw [hloop] at h
      simp only at h
      split_ifs at h with hgt
      · exact absurd h hne
      · exact absurd (Nat.pos_of_ne_zero hne) hgt
  · obtain ⟨d1, hloop⟩ := readLoop_hard_exact T device storeU8 regA k 0 outA0 w hk ht herr
    unfold rawGetter2 at h
    rw [hloop] at h
    simp only at h
    exact absurd h (by decide)
  · obtain ⟨d1, hloop⟩ := readLoop_exhausted_exact T device storeU8 regA 0 outA0 w hall
    have hne := (hall PCAL6524_I2C_MAX_ATTEMPTS (Nat.lt_succ_self _)).1
    unfold rawGetter2 at h
    rw [hloop] at h
    simp only at h
    split_ifs at h with hgt
    · exact absurd h hne
    · exact absurd (Nat.pos_of_ne_zero hne) hgt

theorem rawGetter2_exact {σ : Type} (T : Transport σ) (device : pcal6524_Device_t)
    (regA regB kA kB outA0 outB0 : Nat) (w : World σ)
    (hkA : kA ≤ PCAL6524_I2C_MAX_ATTEMPTS) (hkB : kB ≤ PCAL6524_I2C_MAX_ATTEMPTS)
    (htA : ∀ j < kA, attemptStatus T (devAddress device) regA w.bus j ≠ HAL_OK ∧
      attemptStatus T (devAddress device) regA w.bus j ≠ HAL_ERROR)
    (hokA : attemptStatus T (devAddress device) regA w.bus kA = HAL_OK)
    (htB : ∀ j < kB,
      attemptStatus T (devAddress device) regB
        (busAfterRead T (devAddress device) regA w.bus kA) j ≠ HAL_OK ∧
      attemptStatus T (devAddress device) regB
        (busAfterRead T (devAddress device) regA w.bus kA) j ≠ HAL_ERROR)
    (hokB : attemptStatus T (devAddress device) regB
      (busAfterRead T (devAddress device) regA w.bus kA) kB = HAL_OK) :
    rawGetter2 T device regA regB outA0 outB0 w =
      (PCAL6524_SUCCESS, attemptByte T (devAddress device) regA w.bus kA,
        attemptByte T (devAddress device) regB
          (busAfterRead T (devAddress device) regA w.bus kA) kB,
        ⟨busAfterRead T (devAddress device) regB
            (busAfterRead T (devAddress device) regA w.bus kA) kB,
          w.trace ++
            ((failedReads T (devAddress device) regA w.bus kA ++
                [Event.read (devAddress device) regA HAL_OK
                  (attemptByte T (devAddress device) regA w.bus kA)]) ++
              (failedReads T (devAddress device) regB
                  (busAfterRead T (devAddress device) regA w.bus kA) kB ++
                [Event.read (devAddress device) regB HAL_OK
                  (attemptByte T (devAddress device) regB
                    (busAfterRead T (devAddress device) regA w.bus kA) kB)]))⟩) := by
  have h2 := readLoop_ok_exact T device storeU8 regB kB HAL_OK outB0
    ⟨busAfterRead T (devAddress device) regA w.bus kA,
      w.trace ++ (failedReads T (devAddress device) regA w.bus kA ++
        [Event.read (devAddress device) regA HAL_OK
          (attemptByte T (devAddress device) regA w.bus kA)])⟩ hkB htB hokB
  simp only [storeU8] at h2
  unfold rawGetter2
  rw [readLoop_ok_exact T device storeU8 regA kA 0 outA0 w hkA htA hokA]
  simp only [gt_iff_lt, lt_self_iff_false, if_false, storeU8]
  rw [h2]
  simp only [gt_iff_lt, lt_self_iff_false, if_false, List.append_assoc]

/-- C20: for a port up to 2, over any transport. Whenever attempts 0 to `k - 1`
of the read of its register report a transient status and attempt `k` reports
`HAL_OK` (`k ≤ PCAL6524_I2C_MAX_ATTEMPTS`), each of `PCAL6524_GetInOutConfig`,
`PCAL6524_GetInterruptConfig`, `PCAL6524_GetPolarityConfig`,
`PCAL6524_GetPortPinValues` and `PCAL6524_GetInterrupts` returns
`PCAL6524_SUCCESS`, its output is the byte that attempt delivered, unmodified,
and its events are the `k` failed reads, each followed by the delay, and then
the one successful read: no write, no other read; and it returns
`PCAL6524_SUCCESS` only when some attempt `k` of the read is such
(`ReadsRawByte`). `PCAL6524_GetPullupDownConfig` does the same for `*pull`
(select register, attempt `kA`) and then for `*active` (enable register, attempt
`kB`, the bus being the one the successful select read left), and returns
`PCAL6524_SUCCESS` only when both reads succeed in that way. Besides, whatever the transport
answers, the events of each getter are reads of its register and delays only,
and a read that reports `HAL_OK` is the last event of its loop and makes the
getter return `PCAL6524_SUCCESS` with the byte read (`RawGetterSpec`). -/
theorem port_getters_deliver_raw_byte {σ : Type} (T : Transport σ)
    (device : pcal6524_Device_t) (port out0 out1 : Nat) (w : World σ) (hport : port ≤ 2) :
    ReadsRawByte T (devAddress device) (PCAL6524_REG_CONF_PORT_0 + port)
      (PCAL6524_GetInOutConfig T device port) ∧
    ReadsRawByte T (devAddress device) (PCAL6524_REG_INT_MASK_PORT_0 + port)
      (PCAL6524_GetInterruptConfig T device port) ∧
    ReadsRawByte T (devAddress device) (PCAL6524_REG_POL_PORT_0 + port)
      (PCAL6524_GetPolarityConfig T device port) ∧
    ReadsRawByte T (devAddress device) (PCAL6524_REG_IN_PORT_0 + port)
      (PCAL6524_GetPortPinValues T device port) ∧
    ReadsRawByte T (devAddress device) (PCAL6524_REG_INT_STAT_PORT_0 + port)
      (PCAL6524_GetInterrupts T device port) ∧
    (∀ kA ≤ PCAL6524_I2C_MAX_ATTEMPTS, ∀ kB ≤ PCAL6524_I2C_MAX_ATTEMPTS, ∀ pull0 active0 w1,
      (∀ j < kA,
        attemptStatus T (devAddress device) (PCAL6524_REG_PULL_SEL_PORT_0 + port) w1.bus j
          ≠ HAL_OK ∧
        attemptStatus T (devAddress device) (PCAL6524_REG_PULL_SEL_PORT_0 + port) w1.bus j
          ≠ HAL_ERROR) →
      attemptStatus T (devAddress device) (PCAL6524_REG_PULL_SEL_PORT_0 + port) w1.bus kA
        = HAL_OK →
      (∀ j < kB,
        attemptStatus T (devAddress device) (PCAL6524_REG_PULL_EN_PORT_0 + port)
          (busAfterRead T (devAddress device) (PCAL6524_REG_PULL_SEL_PORT_0 + port) w1.bus kA) j
          ≠ HAL_OK ∧
        attemptStatus T (devAddress device) (PCAL6524_REG_PULL_EN_PORT_0 + port)
          (busAfterRead T (devAddress device) (PCAL6524_REG_PULL_SEL_PORT_0 + port) w1.bus kA) j
          ≠ HAL_ERROR) →
      attemptStatus T (devAddress device) (PCAL6524_REG_PULL_EN_PORT_0 + port)
        (busAfterRead T (devAddress device) (PCAL6524_REG_PULL_SEL_PORT_0 + port) w1.bus kA) kB
        = HAL_OK →
      PCAL6524_GetPullupDownConfig T device port pull0 active0 w1 =
        (PCAL6524_SUCCESS,
          attemptByte T (devAddress device) (PCAL6524_REG_PULL_SEL_PORT_0 + port) w1.bus kA,
          attemptByte T (devAddress device) (PCAL6524_REG_PULL_EN_PORT_0 + port)
            (busAfterRead T (devAddress device) (PCAL6524_REG_PULL_SEL_PORT_0 + port) w1.bus kA)
            kB,
          ⟨busAfterRead T (devAddress device) (PCAL6524_REG_PULL_EN_PORT_0 + port)
              (busAfterRead T (devAddress device) (PCAL6524_REG_PULL_SEL_PORT_0 + port) w1.bus
                kA) kB,
            w1.trace ++
              ((failedReads T (devAddress device) (PCAL6524_REG_PULL_SEL_PORT_0 + port) w1.bus
                    kA ++
                  [Event.read (devAddress device) (PCAL6524_REG_PULL_SEL_PORT_0 + port) HAL_OK
                    (attemptByte T (devAddress device) (PCAL6524_REG_PULL_SEL_PORT_0 + port)
                      w1.bus kA)]) ++
                (failedReads T (devAddress device) (PCAL6524_REG_PULL_EN_PORT_0 + port)
                    (busAfterRead T (devAddress device) (PCAL6524_REG_PULL_SEL_PORT_0 + port)
                      w1.bus kA) kB ++
                  [Event.read (devAddress device) (PCAL6524_REG_PULL_EN_PORT_0 + port) HAL_OK
                    (attemptByte T (devAddress device) (PCAL6524_REG_PULL_EN_PORT_0 + port)
                      (busAfterRead T (devAddress device)
                        (PCAL6524_REG_PULL_SEL_PORT_0 + port) w1.bus kA) kB)]))⟩)) ∧
    (∀ pull0 active0 w1,
      (PCAL6524_GetPullupDownConfig T device port pull0 active0 w1).1 = PCAL6524_SUCCESS →
      ∃ kA ≤ PCAL6524_I2C_MAX_ATTEMPTS,
        (∀ j < kA,
          attemptStatus T (devAddress device) (PCAL6524_REG_PULL_SEL_PORT_0 + port) w1.bus j
            ≠ HAL_OK ∧
          attemptStatus T (devAddress device) (PCAL6524_REG_PULL_SEL_PORT_0 + port) w1.bus j
            ≠ HAL_ERROR) ∧
        attemptStatus T (devAddress device) (PCAL6524_REG_PULL_SEL_PORT_0 + port) w1.bus kA
          = HAL_OK ∧
        ∃ kB ≤ PCAL6524_I2C_MAX_ATTEMPTS,
          (∀ j < kB,
            attemptStatus T (devAddress device) (PCAL6524_REG_PULL_EN_PORT_0 + port)
              (busAfterRead T (devAddress device) (PCAL6524_REG_PULL_SEL_PORT_0 + port)
                w1.bus kA) j ≠ HAL_OK ∧
            attemptStatus T (devAddress device) (PCAL6524_REG_PULL_EN_PORT_0 + port)
              (busAfterRead T (devAddress device) (PCAL6524_REG_PULL_SEL_PORT_0 + port)
                w1.bus kA) j ≠ HAL_ERROR) ∧
          attemptStatus T (devAddress device) (PCAL6524_REG_PULL_EN_PORT_0 + port)
            (busAfterRead T (devAddress device) (PCAL6524_REG_PULL_SEL_PORT_0 + port)
              w1.bus kA) kB = HAL_OK) ∧
    (RawGetterSpec (devAddress device) (PCAL6524_REG_CONF_PORT_0 + port) w.trace
        (PCAL6524_GetInOutConfig T device port out0 w) ∧
      RawGetterSpec (devAddress device) (PCAL6524_REG_INT_MASK_PORT_0 + port) w.trace
        (PCAL6524_GetInterruptConfig T device port out0 w) ∧
      RawGetterSpec (devAddress device) (PCAL6524_REG_POL_PORT_0 + port) w.trace
        (PCAL6524_GetPolarityConfig T device port out0 w) ∧
      RawGetterSpec (devAddress device) (PCAL6524_REG_IN_PORT_0 + port) w.trace
        (PCAL6524_GetPortPinValues T device port out0 w) ∧
      RawGetterSpec (devAddress device) (PCAL6524_REG_INT_STAT_PORT_0 + port) w.trace
        (PCAL6524_GetInterrupts T device port out0 w) ∧
      ∃ evs1 evs2,
        (PCAL6524_GetPullupDownConfig T device port out0 out1 w).2.2.2.trace
          = w.trace ++ (evs1 ++ evs2) ∧
        DeliversRaw (devAddress device) (PCAL6524_REG_PULL_SEL_PORT_0 + port)
          (PCAL6524_GetPullupDownConfig T device port out0 out1 w).2.1 evs1 ∧
        DeliversRaw (devAddress device) (PCAL6524_REG_PULL_EN_PORT_0 + port)
          (PCAL6524_GetPullupDownConfig T device port out0 out1 w).2.2.1 evs2 ∧
        ((∃ r, Event.read (devAddress device) (PCAL6524_REG_PULL_EN_PORT_0 + port) HAL_OK r
            ∈ evs2) →
          (PCAL6524_GetPullupDownConfig T device port out0 out1 w).1 = PCAL6524_SUCCESS) ∧
        (evs2 ≠ [] →
          ∃ r, Event.read (devAddress device) (PCAL6524_REG_PULL_SEL_PORT_0 + port) HAL_OK r
            ∈ evs1)) := by
  refine ⟨⟨?_, ?_⟩, ⟨?_, ?_⟩, ⟨?_, ?_⟩, ⟨?_, ?_⟩, ⟨?_, ?_⟩, ?_, ?_,
    port_getters_only_read T device port out0 out1 w hport⟩
  · intro k hk o w1 ht hok
    rw [getInOutConfig_eq_rawGetter T device port o w1 hport]
    exact (rawGetter_exact T device _).1 k hk o w1 ht hok
  · intro o w1 hs
    rw [getInOutConfig_eq_rawGetter T device port o w1 hport] at hs
    exact rawGetter_success T device _ o w1 hs
  · intro k hk o w1 ht hok
    rw [getInterruptConfig_eq_rawGetter T device port o w1 hport]
    exact (rawGetter_exact T device _).1 k hk o w1 ht hok
  · intro o w1 hs
    rw [getInterruptConfig_eq_rawGetter T device port o w1 hport] at hs
    exact rawGetter_success T device _ o w1 hs
  · intro k hk o w1 ht hok
    rw [getPolarityConfig_eq_rawGetter T device port o w1 hport]
    exact (rawGetter_exact T device _).1 k hk o w1 ht hok
  · intro o w1 hs
    rw [getPolarityConfig_eq_rawGetter T device port o w1 hport] at hs
    exact rawGetter_success T device _ o w1 hs
  · intro k hk o w1 ht hok
    rw [getPortPinValues_eq_rawGetter T device port o w1 hport]
    exact (rawGetter_exact T device _).1 k hk o w1 ht hok
  · intro o w1 hs
    rw [getPortPinValues_eq_rawGetter T device port o w1 hport] at hs
    exact rawGetter_success T device _ o w1 hs
  · intro k hk o w1 ht hok
    rw [getInterrupts_eq_rawGetter T device port o w1 hport]
    exact (rawGetter_exact T device _).1 k hk o w1 ht hok
  · intro o w1 hs
    rw [getInterrupts_eq_rawGetter T device port o w1 hport] at hs
    exact rawGetter_success T device _ o w1 hs
  · intro kA hkA kB hkB pull0 active0 w1 htA hokA htB hokB
    rw [getPullupDownConfig_eq_rawGetter2 T device port pull0 active0 w1 hport]
    exact rawGetter2_exact T device _ _ kA kB pull0 active0 w1 hkA hkB htA hokA htB hokB
  · intro pull0 active0 w1 hs
    rw [getPullupDownConfig_eq_rawGetter2 T device port pull0 active0 w1 hport] at hs
    exact rawGetter2_success T device _ _ pull0 active0 w1 hs

theorem port_getters_deliver_raw_byte_witness :
    (2 ≤ 2 ∧ 1 ≤ PCAL6524_I2C_MAX_ATTEMPTS ∧
      (∀ j < 1,
        attemptStatus scripted (devAddress ⟨0⟩) (PCAL6524_REG_INT_STAT_PORT_0 + 2)
          [(2, 1), (0, 0xA5)] j ≠ HAL_OK ∧
        attemptStatus scripted (devAddress ⟨0⟩) (PCAL6524_REG_INT_STAT_PORT_0 + 2)
          [(2, 1), (0, 0xA5)] j ≠ HAL_ERROR) ∧
      attemptStatus scripted (devAddress ⟨0⟩) (PCAL6524_REG_INT_STAT_PORT_0 + 2)
        [(2, 1), (0, 0xA5)] 1 = HAL_OK) ∧
    PCAL6524_GetInterrupts scripted ⟨0⟩ 2 0 ⟨[(2, 1), (0, 0xA5)], []⟩ =
      (PCAL6524_SUCCESS, 0xA5,
        ⟨[], [Event.read 0x40 0x5A 2 1, Event.delay 10, Event.read 0x40 0x5A HAL_OK 0xA5]⟩) :=
  ⟨⟨by decide, by decide, by decide, by decide⟩,
    (port_getters_deliver_raw_byte scripted ⟨0⟩ 2 0 0 ⟨[(2, 1), (0, 0xA5)], []⟩
      (by decide)).2.2.2.2.1.1 1 (by decide) 0 ⟨[(2, 1), (0, 0xA5)], []⟩ (by decide) (by decide)⟩

/-! ## A read phase that ends without success -/

theorem runPhases_read_hard {σ : Type} (T : Transport σ) (device : pcal6524_Device_t)
    (store : Nat → Nat → Nat) (reg : Nat) (f : Nat → Nat) (ps : List Phase) (k st d : Nat)
    (w : World σ) (hk : k ≤ PCAL6524_I2C_MAX_ATTEMPTS)
    (htrans : ∀ j < k, attemptStatus T (devAddress device) reg w.bus j ≠ HAL_OK ∧
      attemptStatus T (devAddress device) reg w.bus j ≠ HAL_ERROR)
    (herr : attemptStatus T (devAddress device) reg w.bus k = HAL_ERROR) :
    runPhases T device (Phase.read store reg f :: ps) st d w =
      (HAL_ERROR,
        ⟨busAfterRead T (devAddress device) reg w.bus k,
          w.trace ++ (failedReads T (devAddress device) reg w.bus k ++
            [Event.read (devAddress device) reg HAL_ERROR
              (attemptByte T (devAddress device) reg w.bus k)])⟩) := by
  obtain ⟨d1, hloop⟩ := readLoop_hard_exact T device store reg k st (f d) w hk htrans herr
  rw [runPhases]
  simp only [Phase.body, Phase.pre]
  rw [hloop]

theorem runPhases_read_exhausted {σ : Type} (T : Transport σ) (device : pcal6524_Device_t)
    (store : Nat → Nat → Nat) (reg : Nat) (f : Nat → Nat) (ps : List Phase) (st d : Nat)
    (w : World σ)
    (htrans : ∀ j < PCAL6524_I2C_MAX_ATTEMPTS + 1,
      attemptStatus T (devAddress device) reg w.bus j ≠ HAL_OK ∧
      attemptStatus T (devAddress device) reg w.bus j ≠ HAL_ERROR) :
    runPhases T device (Phase.read store reg f :: ps) st d w =
      (attemptStatus T (devAddress device) reg w.bus PCAL6524_I2C_MAX_ATTEMPTS,
        ⟨attemptBus T (devAddress device) reg w.bus (PCAL6524_I2C_MAX_ATTEMPTS + 1),
          w.trace ++ failedReads T (devAddress device) reg w.bus
            (PCAL6524_I2C_MAX_ATTEMPTS + 1)⟩) := by
  obtain ⟨d1, hloop⟩ := readLoop_exhausted_exact T device store reg st (f d) w htrans
  have hpos : attemptStatus T (devAddress device) reg w.bus PCAL6524_I2C_MAX_ATTEMPTS > HAL_OK :=
    Nat.pos_of_ne_zero (htrans PCAL6524_I2C_MAX_ATTEMPTS (by decide)).1
  rw [runPhases]
  simp only [Phase.body, Phase.pre]
  rw [hloop]
  simp only [Phase.check, hpos, and_self, if_true]

theorem failedReads_reads (dev reg : Nat) {σ : Type} (T : Transport σ) (bus : σ) :
    ∀ (k : Nat), ∀ e ∈ failedReads T dev reg bus k, ReadOrDelay dev reg e ∧ e.isWrite = false := by
  intro k
  induction k with
  | zero => intro e he; simp [failedReads] at he
  | succ k ih =>
    intro e he
    simp only [failedReads, List.mem_append, List.mem_cons, List.mem_singleton,
      List.not_mem_nil, or_false] at he
    rcases he with he | rfl | rfl
    · exact ih e he
    · exact ⟨Or.inr ⟨_, _, rfl⟩, rfl⟩
    · exact ⟨Or.inl rfl, rfl⟩

/-- C15: in a call of a read-then-write function (`Op.isReadThenWrite`) with
arguments in range, over any transport, let `Phase.read store reg f` be any read
phase of the call (`op.phases = ps1 ++ Phase.read store reg f :: ps2`: the one
read phase of a single-register setter and of `PCAL6524_GetPinValue`, the select
or the enable read phase of `PCAL6524_SetPullupDown`). If the phases `ps1`
before it did not end in `PCAL6524_SUCCESS` the call ended there. Otherwise
(always so for the first read phase, where `ps1 = []`) the call reaches the read
phase in the world `w1` the earlier phases left, and then: if all
`PCAL6524_I2C_MAX_ATTEMPTS + 1` attempts of the read report a transient status,
the call returns the status of the last attempt and everything after `w1` is the
four failed reads, each followed by the delay; if attempt `k` reports
`HAL_ERROR` after `k` transient attempts, the call returns `HAL_ERROR` and
everything after `w1` is the `k` failed reads with their delays and the read
that reported `HAL_ERROR`. In both cases no write follows, of that phase or a
later one: the events listed are reads of `reg` and delays. Besides, whenever
the last read of a call reported a status other than `HAL_OK`, the call returns
that status and only delays follow that read. -/
theorem failed_read_issues_no_write {σ : Type} (T : Transport σ)
    (device : pcal6524_Device_t) (op : Op) (w : World σ) (ps1 : List Phase)
    (store : Nat → Nat → Nat) (reg : Nat) (f : Nat → Nat) (ps2 : List Phase)
    (hrw : op.isReadThenWrite = true) (h : op.inRange)
    (hsplit : op.phases = ps1 ++ Phase.read store reg f :: ps2) :
    (ps1 = [] → runPhases T device ps1 0 op.data0 w = (PCAL6524_SUCCESS, w)) ∧
    ((runPhases T device ps1 0 op.data0 w).1 ≠ PCAL6524_SUCCESS →
      op.run T device w = runPhases T device ps1 0 op.data0 w) ∧
    ((runPhases T device ps1 0 op.data0 w).1 = PCAL6524_SUCCESS →
      ∀ w1, w1 = (runPhases T device ps1 0 op.data0 w).2 →
        ((∀ j < PCAL6524_I2C_MAX_ATTEMPTS + 1,
            attemptStatus T (devAddress device) reg w1.bus j ≠ HAL_OK ∧
            attemptStatus T (devAddress device) reg w1.bus j ≠ HAL_ERROR) →
          op.run T device w =
            (attemptStatus T (devAddress device) reg w1.bus PCAL6524_I2C_MAX_ATTEMPTS,
              ⟨attemptBus T (devAddress device) reg w1.bus (PCAL6524_I2C_MAX_ATTEMPTS + 1),
                w1.trace ++ failedReads T (devAddress device) reg w1.bus
                  (PCAL6524_I2C_MAX_ATTEMPTS + 1)⟩)) ∧
        (∀ k ≤ PCAL6524_I2C_MAX_ATTEMPTS,
          (∀ j < k, attemptStatus T (devAddress device) reg w1.bus j ≠ HAL_OK ∧
            attemptStatus T (devAddress device) reg w1.bus j ≠ HAL_ERROR) →
          attemptStatus T (devAddress device) reg w1.bus k = HAL_ERROR →
          op.run T device w =
            (HAL_ERROR,
              ⟨busAfterRead T (devAddress device) reg w1.bus k,
                w1.trace ++ (failedReads T (devAddress device) reg w1.bus k ++
                  [Event.read (devAddress device) reg HAL_ERROR
                    (attemptByte T (devAddress device) reg w1.bus k)])⟩))) ∧
    (∀ (bus : σ) (k : Nat), ∀ e ∈ failedReads T (devAddress device) reg bus k,
      ReadOrDelay (devAddress device) reg e ∧ e.isWrite = false) ∧
    ∃ evs, (op.run T device w).2.trace = w.trace ++ evs ∧
      ∀ pre dv rg st x post, evs = pre ++ Event.read dv rg st x :: post →
        (∀ e ∈ post, e.isRead = false) → st ≠ HAL_OK →
        (op.run T device w).1 = st ∧
        ∀ e ∈ post, e = Event.delay PCAL6524_I2C_ATTEMPT_DELAY := by
  refine ⟨?_, ?_, ?_, fun bus k => failedReads_reads (devAddress device) reg T bus k,
    last_failed_read_stops T device op w hrw h⟩
  · intro hnil
    subst hnil
    rfl
  · intro hne
    rw [run_eq_runPhases T device op w h, hsplit]
    rcases runPhases_append T device (Phase.read store reg f :: ps2) ps1 0 op.data0 w with
      ⟨_, h2⟩ | ⟨h1, _⟩
    · exact h2
    · exact absurd h1 hne
  · intro hs w1 hw1
    subst hw1
    rw [run_eq_runPhases T device op w h, hsplit]
    rcases runPhases_append T device (Phase.read store reg f :: ps2) ps1 0 op.data0 w with
      ⟨h1, _⟩ | ⟨_, st1, d1, h2⟩
    · exact absurd hs h1
    · refine ⟨?_, ?_⟩
      · intro htrans
        rw [h2]
        exact runPhases_read_exhausted T device store reg f ps2 st1 d1 _ htrans
      · intro k hk htrans herr
        rw [h2]
        exact runPhases_read_hard T device store reg f ps2 k st1 d1 _ hk htrans herr

theorem failed_read_issues_no_write_witness :
    ((Op.SetPullupDown 0 1 1 1).isReadThenWrite = true ∧ (Op.SetPullupDown 0 1 1 1).inRange ∧
      (Op.SetPullupDown 0 1 1 1).phases =
        [] ++ Phase.read storeU8 (PCAL6524_REG_PULL_SEL_PORT_0 + 0) (fun d => d) ::
          [Phase.write (PCAL6524_REG_PULL_SEL_PORT_0 + 0) (fun d => setBit8 d 1 1) true,
           Phase.read storeU8 (PCAL6524_REG_PULL_EN_PORT_0 + 0) (fun d => d),
           Phase.write (PCAL6524_REG_PULL_EN_PORT_0 + 0) (fun d => setBit8 d 1 1) true] ∧
      (Op.SetPullupDown 0 1 1 1).phases =
        [Phase.read storeU8 (PCAL6524_REG_PULL_SEL_PORT_0 + 0) (fun d => d),
         Phase.write (PCAL6524_REG_PULL_SEL_PORT_0 + 0) (fun d => setBit8 d 1 1) true] ++
          Phase.read storeU8 (PCAL6524_REG_PULL_EN_PORT_0 + 0) (fun d => d) ::
            [Phase.write (PCAL6524_REG_PULL_EN_PORT_0 + 0) (fun d => setBit8 d 1 1) true]) ∧
    (Op.SetPullupDown 0 1 1 1).run scripted ⟨0⟩ ⟨[(2, 0), (1, 0), (0, 0)], []⟩ =
      (HAL_ERROR, ⟨[(0, 0)],
        [Event.read 0x40 0x50 2 0, Event.delay 10, Event.read 0x40 0x50 HAL_ERROR 0]⟩) ∧
    (Op.SetPullupDown 0 1 1 1).run scripted ⟨0⟩
        ⟨[(0, 7), (0, 0), (2, 0), (2, 0), (2, 0), (3, 0), (0, 0)], []⟩ =
      (3, ⟨[(0, 0)],
        [Event.read 0x40 0x50 HAL_OK 7, Event.write 0x40 0x50 7 HAL_OK,
         Event.read 0x40 0x4C 2 0, Event.delay 10, Event.read 0x40 0x4C 2 0, Event.delay 10,
         Event.read 0x40 0x4C 2 0, Event.delay 10, Event.read 0x40 0x4C 3 0, Event.delay 10]⟩) :=
  ⟨⟨by decide, by decide, rfl, rfl⟩,
    ((failed_read_issues_no_write scripted ⟨0⟩ (Op.SetPullupDown 0 1 1 1)
      ⟨[(2, 0), (1, 0), (0, 0)], []⟩ []
      storeU8 (PCAL6524_REG_PULL_SEL_PORT_0 + 0) (fun d => d)
      [Phase.write (PCAL6524_REG_PULL_SEL_PORT_0 + 0) (fun d => setBit8 d 1 1) true,
       Phase.read storeU8 (PCAL6524_REG_PULL_EN_PORT_0 + 0) (fun d => d),
       Phase.write (PCAL6524_REG_PULL_EN_PORT_0 + 0) (fun d => setBit8 d 1 1) true]
      (by decide) (by decide) rfl).2.2.1 rfl _ rfl).2 1 (by decide) (by decide) (by decide),
    ((failed_read_issues_no_write scripted ⟨0⟩ (Op.SetPullupDown 0 1 1 1)
      ⟨[(0, 7), (0, 0), (2, 0), (2, 0), (2, 0), (3, 0), (0, 0)], []⟩
      [Phase.read storeU8 (PCAL6524_REG_PULL_SEL_PORT_0 + 0) (fun d => d),
       Phase.write (PCAL6524_REG_PULL_SEL_PORT_0 + 0) (fun d => setBit8 d 1 1) true]
      storeU8 (PCAL6524_REG_PULL_EN_PORT_0 + 0) (fun d => d)
      [Phase.write (PCAL6524_REG_PULL_EN_PORT_0 + 0) (fun d => setBit8 d 1 1) true]
      (by decide) (by decide) rfl).2.2.1 rfl _ rfl).1 (by decide)⟩

/-! ## The write that follows a successful read -/

theorem writeLoop_head {σ : Type} (T : Transport σ) (device : pcal6524_Device_t)
    (reg n st data : Nat) (w : World σ) :
    ∃ rest, (retryLoop T (fun _ data w => writeStmt T device reg data w) (n + 1) st data
        w).2.2.2.trace =
      w.trace ++ Event.write (devAddress device) reg data
        ((T.HAL_I2C_Mem_Write w.bus (devAddress device) reg data).1 % 256) :: rest := by
  simp only [retryLoop]
  split_ifs with hok herr
  · exact ⟨[], rfl⟩
  · exact ⟨[], rfl⟩
  · obtain ⟨evs, htr, _⟩ := retryLoop_hard T (fun _ data w => writeStmt T device reg data w)
      (writeStmt_status T device reg) n (writeStmt T device reg data w).1
      (writeStmt T device reg data w).2.1
      (HAL_Delay T PCAL6524_I2C_ATTEMPT_DELAY (writeStmt T device reg data w).2.2)
    refine ⟨Event.delay PCAL6524_I2C_ATTEMPT_DELAY :: evs, ?_⟩
    rw [htr]
    simp [HAL_Delay, writeStmt, PCAL6524_WriteI2C]

theorem rmw_after_ok_read {σ : Type} (T : Transport σ) (device : pcal6524_Device_t)
    (reg : Nat) (f g : Nat → Nat) (k st d : Nat) (w : World σ)
    (hk : k ≤ PCAL6524_I2C_MAX_ATTEMPTS)
    (htrans : ∀ j < k, attemptStatus T (devAddress device) reg w.bus j ≠ HAL_OK ∧
      attemptStatus T (devAddress device) reg w.bus j ≠ HAL_ERROR)
    (hok : attemptStatus T (devAddress device) reg w.bus k = HAL_OK) :
    ∃ evsW rest,
      (runPhases T device [Phase.read storeU8 reg g, Phase.write reg f true] st d w).2.trace =
        w.trace ++ ((failedReads T (devAddress device) reg w.bus k ++
          [Event.read (devAddress device) reg HAL_OK
            (attemptByte T (devAddress device) reg w.bus k)]) ++ evsW) ∧
      evsW = Event.write (devAddress device) reg
          (f (attemptByte T (devAddress device) reg w.bus k))
          ((T.HAL_I2C_Mem_Write (busAfterRead T (devAddress device) reg w.bus k)
            (devAddress device) reg (f (attemptByte T (devAddress device) reg w.bus k))).1 % 256)
          :: rest ∧
      (∀ e ∈ evsW, WriteOrDelay (devAddress device) reg
        (f (attemptByte T (devAddress device) reg w.bus k)) e) ∧
      lastStatus? evsW = some
        (runPhases T device [Phase.read storeU8 reg g, Phase.write reg f true] st d w).1 ∧
      ((runPhases T device [Phase.read storeU8 reg g, Phase.write reg f true] st d w).1
          = PCAL6524_SUCCESS ↔
        ∃ pre, evsW = pre ++ [Event.write (devAddress device) reg
          (f (attemptByte T (devAddress device) reg w.bus k)) HAL_OK]) := by
  have hloop := readLoop_ok_exact T device storeU8 reg k st (g d) w hk htrans hok
  have hrun : runPhases T device [Phase.read storeU8 reg g, Phase.write reg f true] st d w =
      runPhases T device [Phase.write reg f true] HAL_OK
        (attemptByte T (devAddress device) reg w.bus k)
        ⟨busAfterRead T (devAddress device) reg w.bus k,
          w.trace ++ (failedReads T (devAddress device) reg w.bus k ++
            [Event.read (devAddress device) reg HAL_OK
              (attemptByte T (devAddress device) reg w.bus k)])⟩ := by
    rw [runPhases]
    simp only [Phase.body, Phase.pre]
    rw [hloop]
    simp [storeU8]
  obtain ⟨evsW, htrW, hallW, hlastW, hretW, hokW⟩ := writeLoop_spec T device reg HAL_OK
    (f (attemptByte T (devAddress device) reg w.bus k))
    ⟨busAfterRead T (devAddress device) reg w.bus k,
      w.trace ++ (failedReads T (devAddress device) reg w.bus k ++
        [Event.read (devAddress device) reg HAL_OK
          (attemptByte T (devAddress device) reg w.bus k)])⟩
  obtain ⟨rest, hhead⟩ := writeLoop_head T device reg PCAL6524_I2C_MAX_ATTEMPTS HAL_OK
    (f (attemptByte T (devAddress device) reg w.bus k))
    ⟨busAfterRead T (devAddress device) reg w.bus k,
      w.trace ++ (failedReads T (devAddress device) reg w.bus k ++
        [Event.read (devAddress device) reg HAL_OK
          (attemptByte T (devAddress device) reg w.bus k)])⟩
  have hevs : evsW = Event.write (devAddress device) reg
      (f (attemptByte T (devAddress device) reg w.bus k))
      ((T.HAL_I2C_Mem_Write (busAfterRead T (devAddress device) reg w.bus k)
        (devAddress device) reg (f (attemptByte T (devAddress device) reg w.bus k))).1 % 256)
      :: rest := by
    rw [htrW] at hhead
    exact List.append_cancel_left hhead
  have hcode := runPhases_single_code T device (Phase.write reg f true) rfl HAL_OK
    (attemptByte T (devAddress device) reg w.bus k)
    ⟨busAfterRead T (devAddress device) reg w.bus k,
      w.trace ++ (failedReads T (devAddress device) reg w.bus k ++
        [Event.read (devAddress device) reg HAL_OK
          (attemptByte T (devAddress device) reg w.bus k)])⟩
  have hworld := runPhases_single_world T device (Phase.write reg f true) HAL_OK
    (attemptByte T (devAddress device) reg w.bus k)
    ⟨busAfterRead T (devAddress device) reg w.bus k,
      w.trace ++ (failedReads T (devAddress device) reg w.bus k ++
        [Event.read (devAddress device) reg HAL_OK
          (attemptByte T (devAddress device) reg w.bus k)])⟩
  simp only [Phase.body, Phase.pre] at hcode hworld
  refine ⟨evsW, rest, ?_, hevs, hallW, ?_, ?_, ?_⟩
  · rw [hrun, hworld, htrW, List.append_assoc]
  · rw [hrun, hcode]; exact hlastW
  · intro hsucc
    rw [hrun, hcode] at hsucc
    apply hokW _ hsucc
    cases hret : (retryLoop T (fun _ data w => writeStmt T device reg data w)
      (PCAL6524_I2C_MAX_ATTEMPTS + 1) HAL_OK (f (attemptByte T (devAddress device) reg w.bus k))
      ⟨busAfterRead T (devAddress device) reg w.bus k,
        w.trace ++ (failedReads T (devAddress device) reg w.bus k ++
          [Event.read (devAddress device) reg HAL_OK
            (attemptByte T (devAddress device) reg w.bus k)])⟩).1 with
    | none => rfl
    | some c =>
      have := (hretW c hret).2
      rw [hsucc] at this
      exact absurd this (by decide)
  · rintro ⟨pre, hpre⟩
    rw [hrun, hcode]
    have h1 := lastStatus?_concat pre
      (Event.write (devAddress device) reg (f (attemptByte T (devAddress device) reg w.bus k))
        HAL_OK) HAL_OK rfl
    rw [← hpre, hlastW] at h1
    exact Option.some.inj h1

theorem rmw_exact_ok {σ : Type} (T : Transport σ) (device : pcal6524_Device_t)
    (reg : Nat) (f g : Nat → Nat) (k st d : Nat) (w : World σ)
    (hk : k ≤ PCAL6524_I2C_MAX_ATTEMPTS)
    (htrans : ∀ j < k, attemptStatus T (devAddress device) reg w.bus j ≠ HAL_OK ∧
      attemptStatus T (devAddress device) reg w.bus j ≠ HAL_ERROR)
    (hok : attemptStatus T (devAddress device) reg w.bus k = HAL_OK)
    (hw : (T.HAL_I2C_Mem_Write (busAfterRead T (devAddress device) reg w.bus k)
      (devAddress device) reg (f (attemptByte T (devAddress device) reg w.bus k))).1 % 256
        = HAL_OK) :
    runPhases T device [Phase.read storeU8 reg g, Phase.write reg f true] st d w =
      (PCAL6524_SUCCESS,
        ⟨(T.HAL_I2C_Mem_Write (busAfterRead T (devAddress device) reg w.bus k)
            (devAddress device) reg (f (attemptByte T (devAddress device) reg w.bus k))).2,
          w.trace ++ (failedReads T (devAddress device) reg w.bus k ++
            [Event.read (devAddress device) reg HAL_OK
              (attemptByte T (devAddress device) reg w.bus k),
             Event.write (devAddress device) reg
              (f (attemptByte T (devAddress device) reg w.bus k)) HAL_OK])⟩) := by
  have hloop := readLoop_ok_exact T device storeU8 reg k st (g d) w hk htrans hok
  have hwl := retryLoop_first_ok T (fun _ data w => writeStmt T device reg data w)
    PCAL6524_I2C_MAX_ATTEMPTS HAL_OK (f (attemptByte T (devAddress device) reg w.bus k))
    ⟨busAfterRead T (devAddress device) reg w.bus k,
      w.trace ++ (failedReads T (devAddress device) reg w.bus k ++
        [Event.read (devAddress device) reg HAL_OK
          (attemptByte T (devAddress device) reg w.bus k)])⟩
    (by simpa [writeStmt, PCAL6524_WriteI2C] using hw)
  rw [runPhases]
  simp only [Phase.body, Phase.pre]
  rw [hloop]
  simp only [storeU8, gt_iff_lt, lt_self_iff_false, and_false, if_false, Bool.false_eq_true,
    false_and]
  rw [runPhases]
  simp only [Phase.body, Phase.pre]
  rw [hwl]
  simp [runPhases, writeStmt, PCAL6524_WriteI2C, hw]

theorem rmw_success_read {σ : Type} (T : Transport σ) (device : pcal6524_Device_t)
    (reg : Nat) (f g : Nat → Nat) (st d : Nat) (w : World σ)
    (h : (runPhases T device [Phase.read storeU8 reg g, Phase.write reg f true] st d w).1
      = PCAL6524_SUCCESS) :
    ∃ k ≤ PCAL6524_I2C_MAX_ATTEMPTS,
      (∀ j < k, attemptStatus T (devAddress device) reg w.bus j ≠ HAL_OK ∧
        attemptStatus T (devAddress device) reg w.bus j ≠ HAL_ERROR) ∧
      attemptStatus T (devAddress device) reg w.bus k = HAL_OK := by
  rcases attempt_cases (attemptStatus T (devAddress device) reg w.bus)
    PCAL6524_I2C_MAX_ATTEMPTS with hok | ⟨k, hk, ht, herr⟩ | hall
  · exact hok
  · rw [runPhases_read_hard T device storeU8 reg g _ k st d w hk ht herr] at h
    simp only at h
    exact absurd h (by decide)
  · rw [runPhases_read_exhausted T device storeU8 reg g _ st d w hall] at h
    exact absurd h (hall PCAL6524_I2C_MAX_ATTEMPTS (Nat.lt_succ_self _)).1

/-- C5: a call of `PCAL6524_SetInterrupt` with arguments in range, over any
transport. Whenever the retried read of the interrupt-mask register of the port
succeeds (attempts `0 .. k-1` transient, attempt `k` reporting `HAL_OK` and
delivering the byte `b`), the trace of the call is exactly the failed reads,
the successful read of `b`, and then the events `evsW` of the write loop: the
first of them is a write to the same register of the byte `maskByte b pin intr`,
every event of `evsW` is a write of that byte or the inter-attempt delay, the
returned code is the status of the last write, and it is `PCAL6524_SUCCESS`
exactly when `evsW` ends with a write of that byte reporting `HAL_OK`. Bit `pin`
of the byte written is 0 for `intr = 1` (`PCAL6524_EnableInterrupt`) and 1 for
`intr = 0` (`PCAL6524_DisableInterrupt`), whatever `b` is. When the first write
attempt reports `HAL_OK` the call returns `PCAL6524_SUCCESS` with exactly the
trace: failed reads, read of `b`, write of `maskByte b pin intr`. The call
returns `PCAL6524_SUCCESS` only when the read succeeded in that way. Without any
assumption on the transport, the events of the call form a read-modify-write of
the register by `maskByte` (`RmwSpec`), and every write of the call goes to the
mask register of the port and carries a byte with bit `pin` inverted. -/
theorem setInterrupt_writes_inverted_bit {σ : Type} (T : Transport σ)
    (device : pcal6524_Device_t) (port pin intr : Nat) (w : World σ)
    (hport : port ≤ 2) (hpin : pin ≤ 7) (hintr : intr ≤ 1) :
    (∀ k ≤ PCAL6524_I2C_MAX_ATTEMPTS,
      (∀ j < k,
        attemptStatus T (devAddress device) (PCAL6524_REG_INT_MASK_PORT_0 + port) w.bus j
          ≠ HAL_OK ∧
        attemptStatus T (devAddress device) (PCAL6524_REG_INT_MASK_PORT_0 + port) w.bus j
          ≠ HAL_ERROR) →
      attemptStatus T (devAddress device) (PCAL6524_REG_INT_MASK_PORT_0 + port) w.bus k
        = HAL_OK →
      ((intr = 1 → (maskByte (attemptByte T (devAddress device)
          (PCAL6524_REG_INT_MASK_PORT_0 + port) w.bus k) pin intr).testBit pin = false) ∧
        (intr = 0 → (maskByte (attemptByte T (devAddress device)
          (PCAL6524_REG_INT_MASK_PORT_0 + port) w.bus k) pin intr).testBit pin = true)) ∧
      (∃ evsW rest,
        (PCAL6524_SetInterrupt T device port pin intr w).2.trace =
          w.trace ++ ((failedReads T (devAddress device)
              (PCAL6524_REG_INT_MASK_PORT_0 + port) w.bus k ++
            [Event.read (devAddress device) (PCAL6524_REG_INT_MASK_PORT_0 + port) HAL_OK
              (attemptByte T (devAddress device) (PCAL6524_REG_INT_MASK_PORT_0 + port)
                w.bus k)]) ++ evsW) ∧
        evsW = Event.write (devAddress device) (PCAL6524_REG_INT_MASK_PORT_0 + port)
            (maskByte (attemptByte T (devAddress device)
              (PCAL6524_REG_INT_MASK_PORT_0 + port) w.bus k) pin intr)
            ((T.HAL_I2C_Mem_Write (busAfterRead T (devAddress device)
                (PCAL6524_REG_INT_MASK_PORT_0 + port) w.bus k)
              (devAddress device) (PCAL6524_REG_INT_MASK_PORT_0 + port)
              (maskByte (attemptByte T (devAddress device)
                (PCAL6524_REG_INT_MASK_PORT_0 + port) w.bus k) pin intr)).1 % 256)
            :: rest ∧
        (∀ e ∈ evsW, WriteOrDelay (devAddress device) (PCAL6524_REG_INT_MASK_PORT_0 + port)
          (maskByte (attemptByte T (devAddress device)
            (PCAL6524_REG_INT_MASK_PORT_0 + port) w.bus k) pin intr) e) ∧
        lastStatus? evsW = some (PCAL6524_SetInterrupt T device port pin intr w).1 ∧
        ((PCAL6524_SetInterrupt T device port pin intr w).1 = PCAL6524_SUCCESS ↔
          ∃ pre, evsW = pre ++
            [Event.write (devAddress device) (PCAL6524_REG_INT_MASK_PORT_0 + port)
              (maskByte (attemptByte T (devAddress device)
                (PCAL6524_REG_INT_MASK_PORT_0 + port) w.bus k) pin intr) HAL_OK])) ∧
      ((T.HAL_I2C_Mem_Write (busAfterRead T (devAddress device)
            (PCAL6524_REG_INT_MASK_PORT_0 + port) w.bus k)
          (devAddress device) (PCAL6524_REG_INT_MASK_PORT_0 + port)
          (maskByte (attemptByte T (devAddress device)
            (PCAL6524_REG_INT_MASK_PORT_0 + port) w.bus k) pin intr)).1 % 256 = HAL_OK →
        PCAL6524_SetInterrupt T device port pin intr w =
          (PCAL6524_SUCCESS,
            ⟨(T.HAL_I2C_Mem_Write (busAfterRead T (devAddress device)
                (PCAL6524_REG_INT_MASK_PORT_0 + port) w.bus k)
              (devAddress device) (PCAL6524_REG_INT_MASK_PORT_0 + port)
              (maskByte (attemptByte T (devAddress device)
                (PCAL6524_REG_INT_MASK_PORT_0 + port) w.bus k) pin intr)).2,
              w.trace ++ (failedReads T (devAddress device)
                  (PCAL6524_REG_INT_MASK_PORT_0 + port) w.bus k ++
                [Event.read (devAddress device) (PCAL6524_REG_INT_MASK_PORT_0 + port) HAL_OK
                  (attemptByte T (devAddress device) (PCAL6524_REG_INT_MASK_PORT_0 + port)
                    w.bus k),
                 Event.write (devAddress device) (PCAL6524_REG_INT_MASK_PORT_0 + port)
                  (maskByte (attemptByte T (devAddress device)
                    (PCAL6524_REG_INT_MASK_PORT_0 + port) w.bus k) pin intr) HAL_OK])⟩))) ∧
    ((PCAL6524_SetInterrupt T device port pin intr w).1 = PCAL6524_SUCCESS →
      ∃ k ≤ PCAL6524_I2C_MAX_ATTEMPTS,
        (∀ j < k,
          attemptStatus T (devAddress device) (PCAL6524_REG_INT_MASK_PORT_0 + port) w.bus j
            ≠ HAL_OK ∧
          attemptStatus T (devAddress device) (PCAL6524_REG_INT_MASK_PORT_0 + port) w.bus j
            ≠ HAL_ERROR) ∧
        attemptStatus T (devAddress device) (PCAL6524_REG_INT_MASK_PORT_0 + port) w.bus k
          = HAL_OK) ∧
    (∃ evs, (PCAL6524_SetInterrupt T device port pin intr w).2.trace = w.trace ++ evs ∧
      RmwSpec (devAddress device) (PCAL6524_REG_INT_MASK_PORT_0 + port)
        (fun d => maskByte d pin intr) (PCAL6524_SetInterrupt T device port pin intr w).1 evs) ∧
    (∃ evs, (PCAL6524_SetInterrupt T device port pin intr w).2.trace = w.trace ++ evs ∧
      ∀ dev reg x st, Event.write dev reg x st ∈ evs →
        reg = PCAL6524_REG_INT_MASK_PORT_0 + port ∧
        (intr = 1 → x.testBit pin = false) ∧ (intr = 0 → x.testBit pin = true)) := by
  have hrun := run_eq_runPhases T device (Op.SetInterrupt port pin intr) w ⟨hport, hpin, hintr⟩
  simp only [Op.run, Op.phases, Op.data0] at hrun
  refine ⟨?_, ?_, ?_, setInterrupt_write_bits T device port pin intr w hport hpin hintr⟩
  · intro k hk htrans hok
    have hbit := maskByte_target_table (attemptByte T (devAddress device)
      (PCAL6524_REG_INT_MASK_PORT_0 + port) w.bus k) (Nat.mod_lt _ (by decide)) pin (by omega)
      intr (by omega)
    refine ⟨⟨?_, ?_⟩, ?_, ?_⟩
    · intro h1; rw [hbit, h1]; rfl
    · intro h0; rw [hbit, h0]; rfl
    · rw [hrun]
      exact rmw_after_ok_read T device (PCAL6524_REG_INT_MASK_PORT_0 + port)
        (fun d => maskByte d pin intr) (fun d => d) k 0 0 w hk htrans hok
    · intro hw
      rw [hrun]
      exact rmw_exact_ok T device (PCAL6524_REG_INT_MASK_PORT_0 + port)
        (fun d => maskByte d pin intr) (fun d => d) k 0 0 w hk htrans hok hw
  · intro hs
    rw [hrun] at hs
    exact rmw_success_read T device (PCAL6524_REG_INT_MASK_PORT_0 + port)
      (fun d => maskByte d pin intr) (fun d => d) 0 0 w hs
  · rw [hrun]
    exact rmw_spec T device (PCAL6524_REG_INT_MASK_PORT_0 + port)
      (fun d => maskByte d pin intr) (fun d => d) 0 0 w

theorem setInterrupt_writes_inverted_bit_witness :
    (2 ≤ 2 ∧ 5 ≤ 7 ∧ 1 ≤ 1 ∧ 1 ≤ PCAL6524_I2C_MAX_ATTEMPTS ∧
      (∀ j < 1,
        attemptStatus scripted (devAddress ⟨0⟩) (PCAL6524_REG_INT_MASK_PORT_0 + 2)
          [(2, 0), (0, 0xFF), (0, 0)] j ≠ HAL_OK ∧
        attemptStatus scripted (devAddress ⟨0⟩) (PCAL6524_REG_INT_MASK_PORT_0 + 2)
          [(2, 0), (0, 0xFF), (0, 0)] j ≠ HAL_ERROR) ∧
      attemptStatus scripted (devAddress ⟨0⟩) (PCAL6524_REG_INT_MASK_PORT_0 + 2)
        [(2, 0), (0, 0xFF), (0, 0)] 1 = HAL_OK) ∧
    PCAL6524_SetInterrupt scripted ⟨0⟩ 2 5 1 ⟨[(2, 0), (0, 0xFF), (0, 0)], []⟩ =
      (PCAL6524_SUCCESS,
        ⟨[], [Event.read 0x40 0x56 2 0, Event.delay 10, Event.read 0x40 0x56 HAL_OK 0xFF,
          Event.write 0x40 0x56 0xDF HAL_OK]⟩) ∧
    Nat.testBit 0xDF 5 = false :=
  ⟨⟨by decide, by decide, by decide, by decide, by decide, by decide⟩,
    ((setInterrupt_writes_inverted_bit scripted ⟨0⟩ 2 5 1 ⟨[(2, 0), (0, 0xFF), (0, 0)], []⟩
      (by decide) (by decide) (by decide)).1 1 (by decide) (by decide) (by decide)).2.2
      (by decide),
    ((setInterrupt_writes_inverted_bit scripted ⟨0⟩ 2 5 1 ⟨[(2, 0), (0, 0xFF), (0, 0)], []⟩
      (by decide) (by decide) (by decide)).1 1 (by decide) (by decide) (by decide)).1.1 rfl⟩

end PCAL6524
